import Mathlib

/-!
ppamlib: the FastPAM engine (`src/library/fastpam.cpp`, `src/headers/fastpam.h`), the
mean silhouette it calls (`src/library/silhouette.cpp`) and the option `-mit` of the
program parpam (`src/examples/parpam.cpp`).

A shallow embedding of the class `FastPAM<disttype>`, in two readings of its
arithmetic.

* In the first, dissimilarities (`disttype`, `double`) are rationals and every sum,
  difference and quotient is exact. It says what the algorithm computes; the theorems
  on it are statements in exact arithmetic.
* In the second (the definitions whose names end in `32` or `64`), the same lines are
  read with the operations of `float` and `double`: each result is rounded to the
  nearest number of the type, a result beyond the largest one is an infinity, and
  `0/0` and `inf - inf` are not numbers. It says what the instantiation
  `FastPAM<float>` computes, and is evaluated on the inputs where the two differ.
* Point and slot indices (`indextype`) are natural numbers.
* A `std::vector` of fixed length `num_obs` (`ismedoid`, `nearest`, `dnearest`,
  `dsecond`) and the scratch arrays of length `nmed` are functions on indices;
  `medoids`, `TDkeep` and `NpointsChangekeep`, which grow by `push_back`, are lists.
* `ParallelpamStop` ends the program (`exit(1)`): a function that can reach it
  returns in `Except PamError`.
* `MAXD` (`std::numeric_limits<disttype>::max()`) is a field of the state, since it
  depends on the instantiation of the template.
* A thread is modelled by the record it writes: the threads of one call write
  disjoint records and read a state that none of them changes.
-/

set_option autoImplicit false

/-- The reasons for which a run ends without a result. All but the last two are
calls of `ParallelpamStop`. -/
inductive PamError where
  /-- InitFromPreviousSet: the list passed has not `nmed` entries. -/
  | BadMedoidsInput
  /-- InitializeInternals: "Point q does not seem to have a closest medoid". -/
  | NoClosestMedoid
  /-- BUILD: "No best medoid found". -/
  | NoBestMedoid
  /-- BUILD: "medoid number ... has not been found". -/
  | BuildStalled
  /-- BUILD: "TD canot become negative". -/
  | NegativeTD
  /-- SwapRolesAndUpdate: "medoid mst is not at place imst of medoids array". -/
  | SwapMismatch
  /-- Init: "Unknown initialization method". -/
  | UnknownMethod
  /-- Run: called before Init. -/
  | NotInitialized
  /-- Constructor: "the matrix is not a distance/dissimilarity matrix". -/
  | NotDissimilarity
  /-- Constructor: "maximum number of iteration limited to MAX_ITER". -/
  | TooManyIterations
  /-- FastPAM1InternalThread: "no closest medoid found". -/
  | ThreadNoClosestMedoid
  /-- ChooseExchange: "incorrect new medoid". -/
  | IncorrectNewMedoid
  /-- Run: "unknonw optimization method". -/
  | UnknownOptMethod
  /-- The program parpam, VerifyMaxIter: "-mit must be followed by a possitive integer
  number". -/
  | BadMaxIterArgument
  /-- CalculateSilhouette: "The clasification array contains at least one invalid
  value". -/
  | BadLabel
  /-- CalculateSilhouette: "The classification array has not 0 as minimum value". -/
  | MinLabelNotZero
  /-- CalculateSilhouette: "Different number of points in the array of classes and in
  the dissimilarity matrix". -/
  | LabelLength
  /-- The program pardis, VerifyDistanceType: "Distance/dissimilarity type (value
  following -dis argument) must be L1, L2 or Pe". -/
  | BadDistanceType
  /-- The program pardis, VerifyInputMatrix: "Invalid matrix type". -/
  | InvalidMatrixType
  /-- The program pardis, VerifyInputMatrix: "Unknown matrix type". -/
  | UnknownMatrixType
  /-- The program pardis, VerifyInputMatrix: "Data type of input matrix not allowed". -/
  | BadInputDataType
  /-- Not a stop of the library: the scratch array `DeltaTD` is indexed with the
  "not found" mark `nmed+1`, which the source does not check. -/
  | SentinelIndex
  /-- Not a stop of the library: the recursion bound of the model was reached. -/
  | OutOfFuel
deriving DecidableEq

/-- The data members of `class FastPAM` (fastpam.h, lines 216-240). -/
structure FastPAM where
  /-- The dissimilarity matrix, read through `D->Get(r,c)`. -/
  D : Nat → Nat → ℚ
  /-- Number of medoids requested. -/
  nmed : Nat
  /-- Number of points: the number of rows of `D`. -/
  num_obs : Nat
  /-- Value of the macro `MAXD` for the `disttype` in use. -/
  MAXD : ℚ
  /-- Initialization method: 0 PREV, 1 BUILD, 2 LAB. -/
  method : Nat
  maxiter : Nat
  nt : Nat
  is_initialized : Bool
  num_iterations_in_opt : Nat
  medoids : List Nat
  ismedoid : Nat → Bool
  nearest : Nat → Nat
  dnearest : Nat → ℚ
  dsecond : Nat → ℚ
  currentTD : ℚ
  TDkeep : List ℚ
  current_npch : Nat
  NpointsChangekeep : List Nat

/-- The record `exchange_struct` of fastpam.h; the locals `DeltaTDst`, `mst`, `xst`,
`imst` of `RunImprovedFastPAM1` are kept in one. -/
structure exchange where
  DeltaTDst : ℚ
  mst : Nat
  xst : Nat
  imst : Nat
deriving DecidableEq

/-- Constant `INIT_METHOD_PREVIOUS`. -/
def INIT_METHOD_PREVIOUS : Nat := 0

/-- Constant `INIT_METHOD_BUILD`. -/
def INIT_METHOD_BUILD : Nat := 1

/-- Constant `INIT_METHOD_LAB`. -/
def INIT_METHOD_LAB : Nat := 2

/-- Constant `NUM_INIT_METHODS`. -/
def NUM_INIT_METHODS : Nat := 3

/-- Constant `OPT_METHOD_FASTPAM1`. -/
def OPT_METHOD_FASTPAM1 : Nat := 0

/-- Constant `OPT_METHOD_FASTPAMBSIL`. -/
def OPT_METHOD_FASTPAMBSIL : Nat := 1

/-- Constant `MAX_ITER` (fastpam.h, line 66). -/
def MAX_ITER : Nat := 1001

/-- The member `NBRANCHES` (fastpam.h, line 285). -/
def NBRANCHES : Nat := 4

/-- Constant `NO_CLUSTER = MAX_MEDOIDS = numeric_limits<indextype>::max()-1`, with
`indextype` an unsigned 32-bit integer. -/
def NO_CLUSTER : Nat := 2 ^ 32 - 2

/-- Value of `std::numeric_limits<double>::max()`. -/
def DBL_MAX : ℚ := 2 ^ 1024 - 2 ^ 971

/-- The member `tlimit=1e-6`. -/
def tlimit : ℚ := 1 / 1000000

/-- Sequential search of a minimum, the idiom
`for (m=0; m<n; m++) if (f(m) < best) { best = f(m); idx = m; }`
started from `init = (best, idx)`. -/
def scanMin (f : Nat → ℚ) (n : Nat) (init : ℚ × Nat) : ℚ × Nat :=
  (List.range n).foldl (fun acc m => if f m < acc.1 then (f m, m) else acc) init

namespace FastPAM

/-- Read of `medoids[m]`. -/
def med (s : FastPAM) (m : Nat) : Nat := s.medoids.getD m 0

/-- InitializeInternals, lines 201-204: all marks cleared, then one set per slot. -/
def markMedoids (s : FastPAM) : Nat → Bool :=
  (List.range s.nmed).foldl (fun marks m => Function.update marks (s.med m) true)
    ((List.range s.num_obs).foldl (fun marks q => Function.update marks q false) s.ismedoid)

/-- InitializeInternals, lines 212-219: the pair `(mindist, index_of_mindist)` after the
search along the array of medoids for point `q`. -/
def closestSearch (s : FastPAM) (q : Nat) : ℚ × Nat :=
  scanMin (fun m => s.D q (s.med m)) s.nmed (s.MAXD, s.nmed + 1)

/-- InitializeInternals, lines 209-235: the loop on the points, stopped at the first
point without a closest medoid. -/
def initLoop : List Nat → FastPAM → Except PamError FastPAM
  | [], s => .ok s
  | q :: rest, s =>
    let r := s.closestSearch q
    if r.2 > s.nmed then .error .NoClosestMedoid
    else initLoop rest
      { s with nearest := Function.update s.nearest q r.2,
               dnearest := Function.update s.dnearest q r.1,
               currentTD := s.currentTD + r.1 }

/-- The method `InitializeInternals` (lines 193-236). -/
def InitializeInternals (s : FastPAM) : Except PamError FastPAM :=
  initLoop (List.range s.num_obs) { s with ismedoid := s.markMedoids, currentTD := 0 }

/-- The method `InitFromPreviousSet` (lines 358-371). -/
def InitFromPreviousSet (s : FastPAM) (inlist : List Nat) : Except PamError FastPAM :=
  if inlist.length ≠ s.nmed then .error .BadMedoidsInput
  else .ok { s with medoids := inlist.foldl (fun meds t => meds ++ [t]) s.medoids }

/-- FillSecond, lines 1854-1862: `minseconddist` for point `q`. -/
def secondSearch (s : FastPAM) (q : Nat) : ℚ :=
  (List.range s.nmed).foldl
    (fun minseconddist m =>
      if m ≠ s.nearest q then
        (if s.D q (s.med m) < minseconddist then s.D q (s.med m) else minseconddist)
      else minseconddist)
    s.MAXD

/-- The method `FillSecond` (lines 1840-1865). -/
def FillSecond (s : FastPAM) : FastPAM :=
  { s with dsecond :=
             (List.range s.num_obs).foldl (fun ds q => Function.update ds q (s.secondSearch q))
               (fun _ => s.MAXD) }

/-- SwapRolesAndUpdate, lines 1898-1911: the body of the loop on `q`; the second
component is the local `closestmed`, which is not reset between points. -/
def swapUpdateStep (acc : FastPAM × Nat) (q : Nat) : FastPAM × Nat :=
  let s := acc.1
  let r := scanMin (fun m => s.D q (s.med m)) s.nmed (s.MAXD, acc.2)
  ({ s with current_npch := if s.nearest q ≠ r.2 then s.current_npch + 1 else s.current_npch,
            nearest := Function.update s.nearest q r.2,
            dnearest := Function.update s.dnearest q r.1 }, r.2)

/-- The method `SwapRolesAndUpdate` (lines 1871-1916). -/
def SwapRolesAndUpdate (s : FastPAM) (mst xst imst : Nat) : Except PamError FastPAM :=
  if mst ≠ s.med imst then .error .SwapMismatch
  else
    let s1 : FastPAM :=
      { s with ismedoid := Function.update (Function.update s.ismedoid mst false) xst true,
               medoids := s.medoids.set imst xst,
               current_npch := 0 }
    .ok ((List.range s.num_obs).foldl swapUpdateStep (s1, s.nmed + 1)).1.FillSecond

/-- RunImprovedFastPAM1, lines 1029-1035 (L3): the array `DeltaTDminusm`, in exact
arithmetic. With a single medoid the terms are the marks `MAXD` of `dsecond`, whose
sum in `float` is an infinity: see `DeltaTDminus32`. -/
def DeltaTDminus (s : FastPAM) : Nat → ℚ :=
  (List.range s.nmed).foldl
    (fun arr m => Function.update arr m
      ((List.range s.num_obs).foldl
        (fun acc q => if s.nearest q = m then acc + (s.dsecond q - s.dnearest q) else acc) 0))
    (fun _ => 0)

/-- RunImprovedFastPAM1, lines 1054-1062 (L9-L14): the body of the loop on `x0` for the
candidate `xc`; the accumulator is `(DeltaTD, DeltaTDplusxc)`. -/
def scanPoint (s : FastPAM) (xc : Nat) (acc : (Nat → ℚ) × ℚ) (x0 : Nat) : (Nat → ℚ) × ℚ :=
  let d0j := s.D x0 xc
  if d0j < s.dnearest x0 then
    (Function.update acc.1 (s.nearest x0)
        (acc.1 (s.nearest x0) + (s.dnearest x0 - s.dsecond x0)),
      acc.2 + (d0j - s.dnearest x0))
  else if d0j < s.dsecond x0 then
    (Function.update acc.1 (s.nearest x0) (acc.1 (s.nearest x0) + (d0j - s.dsecond x0)), acc.2)
  else acc

/-- RunImprovedFastPAM1, lines 1048-1063 (L6-L14): `(DeltaTD, DeltaTDplusxc)` after the
loop on `x0`, in exact arithmetic; `scanCandidate32` rounds each operation as `float`
does. -/
def scanCandidate (s : FastPAM) (DeltaTDminusm : Nat → ℚ) (xc : Nat) : (Nat → ℚ) × ℚ :=
  (List.range s.num_obs).foldl (s.scanPoint xc)
    ((List.range s.nmed).foldl (fun arr m => Function.update arr m (DeltaTDminusm m))
      (fun _ => 0), 0)

/-- RunImprovedFastPAM1, lines 1048-1074 (L6-L16) for the candidate `xc`: the pair
`(DeltaTD[i], i)` after `DeltaTD[i] += DeltaTDplusxc`. The source reads `DeltaTD[i]`
without testing that the search changed `i` from `nmed+1`. -/
def candidateBest (s : FastPAM) (DeltaTDminusm : Nat → ℚ) (xc : Nat) :
    Except PamError (ℚ × Nat) :=
  let r := s.scanCandidate DeltaTDminusm xc
  let a := scanMin r.1 s.nmed (s.MAXD, s.nmed + 1)
  if a.2 < s.nmed then .ok (r.1 a.2 + r.2, a.2) else .error .SentinelIndex

/-- RunImprovedFastPAM1, lines 1043-1084 (L5-L17): the loop on the candidates `xc`,
carrying the best exchange found. -/
def exploreCandidates (s : FastPAM) (DeltaTDminusm : Nat → ℚ) :
    List Nat → exchange → Except PamError exchange
  | [], best => .ok best
  | xc :: rest, best =>
    if s.ismedoid xc = false then
      match s.candidateBest DeltaTDminusm xc with
      | .error e => .error e
      | .ok r =>
        exploreCandidates s DeltaTDminusm rest
          (if r.1 < best.DeltaTDst then ⟨r.1, s.med r.2, xc, r.2⟩ else best)
    else exploreCandidates s DeltaTDminusm rest best

/-- RunImprovedFastPAM1, lines 1029-1084 (L3-L17): the exchange recorded by one
iteration. -/
def findBestExchange (s : FastPAM) : Except PamError exchange :=
  s.exploreCandidates s.DeltaTDminus (List.range s.num_obs)
    ⟨0, s.num_obs + 1, s.num_obs + 1, s.nmed + 1⟩

/-- RunImprovedFastPAM1, lines 1098-1119: the exchange is committed
(`SwapRolesAndUpdate`, then `currentTD += DeltaTDst`) when `imst<nmed`; otherwise `out`
is set. The result is the state and the flag `out`. -/
def commitExchange (s : FastPAM) (x : exchange) : Except PamError (FastPAM × Bool) :=
  if x.imst < s.nmed then
    match s.SwapRolesAndUpdate x.mst x.xst x.imst with
    | .error e => .error e
    | .ok s1 => .ok ({ s1 with currentTD := s1.currentTD + x.DeltaTDst }, false)
  else .ok (s, true)

/-- RunImprovedFastPAM1, lines 1124-1125: the two `push_back` that close an iteration. -/
def pushHistory (s : FastPAM) : FastPAM :=
  { s with TDkeep := s.TDkeep ++ [s.currentTD / (s.num_obs : ℚ)],
           NpointsChangekeep := s.NpointsChangekeep ++ [s.current_npch] }

/-- RunImprovedFastPAM1, lines 1021-1127: the `do ... while` loop. `fuel` bounds the
recursion; the second argument is the local `iteration`. The result is the state and
the final value of `iteration`. -/
def swapLoop (tol_limit : ℚ) : Nat → Nat → FastPAM → Except PamError (FastPAM × Nat)
  | 0, _, _ => .error .OutOfFuel
  | fuel + 1, iteration, s =>
    match s.findBestExchange with
    | .error e => .error e
    | .ok x =>
      if x.DeltaTDst ≥ 0 then .ok (s, iteration)
      else
        match s.commitExchange x with
        | .error e => .error e
        | .ok (s1, out) =>
          if |x.DeltaTDst| > tol_limit ∧ iteration + 1 < s.maxiter ∧ out = false then
            swapLoop tol_limit fuel (iteration + 1) s1.pushHistory
          else .ok (s1.pushHistory, iteration + 1)

/-- The method `RunImprovedFastPAM1` (lines 993-1132). -/
def RunImprovedFastPAM1 (s : FastPAM) : Except PamError FastPAM :=
  let s0 := s.FillSecond
  match swapLoop (s0.currentTD * tlimit) (s0.maxiter + 1) 0 s0 with
  | .error e => .error e
  | .ok (s1, iteration) =>
    .ok { s1 with num_iterations_in_opt := if iteration > 0 then iteration - 1 else 0 }

end FastPAM

/-! ## Initialization: BUILD, ParBUILD, LAB and Init -/

namespace FastPAM

/-- BUILD, lines 395-397: `sumofrow` for row `r`. -/
def rowSum (s : FastPAM) (r : Nat) : ℚ :=
  (List.range s.num_obs).foldl (fun sumofrow c => sumofrow + s.D r c) 0

/-- BUILD, lines 390-403: the pair `(dbest, initial_best)`, with the exact sums of the
rows; `firstMedoid32` has the sums that `float` gives. -/
def firstMedoid (s : FastPAM) : ℚ × Nat :=
  scanMin s.rowSum s.num_obs (s.MAXD, s.num_obs + 1)

/-- BUILD, lines 461-475: `tdchange` for the candidate `cand`. -/
def tdchange (s : FastPAM) (cand : Nat) : ℚ :=
  (List.range s.num_obs).foldl
    (fun acc other =>
      if other ≠ cand ∧ s.D cand other < s.dnearest other then
        acc + (s.D cand other - s.dnearest other)
      else acc) 0
  - s.dnearest cand

/-- BUILD, lines 455-486: one turn of the loop on the candidates; the accumulator is
`(most_negative_tdchange, best_up_to_now)`. -/
def candidateStep (s : FastPAM) (acc : ℚ × Nat) (cand : Nat) : ℚ × Nat :=
  if s.ismedoid cand = false then
    (if s.tdchange cand < 0 ∧ s.tdchange cand < acc.1 then (s.tdchange cand, cand) else acc)
  else acc

/-- BUILD, lines 451-486: `(most_negative_tdchange, best_up_to_now)` after the loop on
the candidates. -/
def bestCandidate (s : FastPAM) : ℚ × Nat :=
  (List.range s.num_obs).foldl s.candidateStep (DBL_MAX, s.num_obs + 1)

/-- BUILD, lines 510-520: the points closer to the new medoid `best` than to their
medoid move to slot `nextmed`. -/
def reassign (s : FastPAM) (best nextmed : Nat) : FastPAM :=
  (List.range s.num_obs).foldl
    (fun t q =>
      if t.D q best < t.dnearest q then
        { t with dnearest := Function.update t.dnearest q (t.D q best),
                 nearest := Function.update t.nearest q nextmed }
      else t) s

/-- BUILD, lines 488-525: what follows the loop on the candidates, for the pair
`(most_negative_tdchange, best_up_to_now)` found, in exact arithmetic; in the source
`most_negative_tdchange` is a `double` and `currentTD` a `disttype`, as in
`admitMedoid32`. -/
def admitMedoid (s : FastPAM) (nextmed : Nat) (r : ℚ × Nat) : Except PamError FastPAM :=
  if r.2 > s.num_obs then .error .BuildStalled
  else
    let s1 : FastPAM :=
      { s with medoids := s.medoids.set nextmed r.2,
               ismedoid := Function.update s.ismedoid r.2 true,
               dnearest := Function.update s.dnearest r.2 0 }
    if r.1 < -s1.currentTD then .error .NegativeTD
    else
      let s2 : FastPAM := reassign { s1 with currentTD := s1.currentTD + r.1 } r.2 nextmed
      .ok { s2 with nearest := Function.update s2.nearest r.2 r.2,
                    dnearest := Function.update s2.dnearest r.2 0 }

/-- BUILD, lines 442-533: the loop on `nextmed`. -/
def buildLoop : List Nat → FastPAM → Except PamError FastPAM
  | [], s => .ok s
  | nextmed :: rest, s =>
    match s.admitMedoid nextmed s.bestCandidate with
    | .error e => .error e
    | .ok s1 => buildLoop rest s1

/-- BUILD, lines 424-433, and ParBUILD, lines 736-743: every point is put in slot 0,
at its distance to the first medoid, which is marked. -/
def assignFirst (s : FastPAM) (initial_best : Nat) (dist : Nat → ℚ) : FastPAM :=
  { s with nearest := (List.range s.num_obs).foldl
                        (fun arr q => Function.update arr q 0) s.nearest,
           dnearest := Function.update
                        ((List.range s.num_obs).foldl
                          (fun arr q => Function.update arr q (dist q)) s.dnearest)
                        initial_best 0,
           ismedoid := Function.update s.ismedoid initial_best true }

/-- The method `BUILD` (lines 378-537). -/
def BUILD (s : FastPAM) : Except PamError FastPAM :=
  let r := s.firstMedoid
  if r.2 > s.num_obs then .error .NoBestMedoid
  else
    let s1 : FastPAM :=
      { s with currentTD := r.1,
               medoids := s.medoids ++ [r.2] ++ List.replicate (s.nmed - 1) NO_CLUSTER }
    buildLoop (List.range' 1 (s.nmed - 1)) (s1.assignFirst r.2 (fun q => s.D q r.2))

/-- The points `[start, end)` given to thread `t` of `nt` (lines 555-572, 612-629 and
1155-1171), as `(start, end)`. -/
def threadRange (num_obs nt t : Nat) : Nat × Nat :=
  let remaining_points := num_obs % nt
  let num_points_per_th :=
    if remaining_points ≠ 0 ∧ t < remaining_points then num_obs / nt + 1 else num_obs / nt
  let start :=
    if t ≥ remaining_points then t * num_points_per_th + num_obs % nt
    else t * num_points_per_th
  (start, if start + num_points_per_th > num_obs then num_obs else start + num_points_per_th)

/-- The points of thread `t` of `nt`, in increasing order. -/
def threadPoints (num_obs nt t : Nat) : List Nat :=
  List.range' (threadRange num_obs nt t).1
    ((threadRange num_obs nt t).2 - (threadRange num_obs nt t).1)

/-- The thread `FindFirstMedoidBUILDThread` (lines 542-594): `(dbest, initial_best)`
written by thread `t`. -/
def FindFirstMedoidBUILDThread (s : FastPAM) (nt t : Nat) : ℚ × Nat :=
  (threadPoints s.num_obs nt t).foldl
    (fun acc r => if s.rowSum r < acc.1 then (s.rowSum r, r) else acc)
    (s.MAXD, s.num_obs + 1)

/-- The thread `FindSuccessiveMedoidBUILDThread` (lines 599-674):
`(most_negative_tdchange, best_up_to_now)` written by thread `t`. -/
def FindSuccessiveMedoidBUILDThread (s : FastPAM) (nt t : Nat) : ℚ × Nat :=
  (threadPoints s.num_obs nt t).foldl s.candidateStep (DBL_MAX, s.num_obs + 1)

/-- ParBUILD, lines 708-713 and 776-781: the driver keeps the first thread result with
the least value, when below `init`. -/
def reduceThreads (results : Nat → ℚ × Nat) (nt : Nat) (init : ℚ × Nat) : ℚ × Nat :=
  (List.range nt).foldl
    (fun acc t => if (results t).1 < acc.1 then results t else acc) init

/-- ParBUILD, lines 752-831: the loop on `nextmed`. -/
def parBuildLoop (nt : Nat) : List Nat → FastPAM → Except PamError FastPAM
  | [], s => .ok s
  | nextmed :: rest, s =>
    match s.admitMedoid nextmed
        (reduceThreads (s.FindSuccessiveMedoidBUILDThread nt) nt (DBL_MAX, s.num_obs + 1)) with
    | .error e => .error e
    | .ok s1 => parBuildLoop nt rest s1

/-- The method `ParBUILD` (lines 679-837). -/
def ParBUILD (s : FastPAM) (nt : Nat) : Except PamError FastPAM :=
  let r := reduceThreads (s.FindFirstMedoidBUILDThread nt) nt (s.MAXD, s.num_obs + 1)
  if r.2 > s.num_obs then .error .NoBestMedoid
  else
    let s1 : FastPAM :=
      { s with currentTD := r.1,
               medoids := (s.medoids.take s.nmed ++
                 List.replicate (s.nmed - s.medoids.length) (s.num_obs + 1)).set 0 r.2 }
    parBuildLoop nt (List.range' 1 (s.nmed - 1)) (s1.assignFirst r.2 (fun q => s.D r.2 q))

/-- The loop of `randomSample` and `randomSampleExc` (lines 49-60 and 90-101):
`draws` are the numbers the generator gives, `seen` the keys of `sample_dict`. The
loop has no result when the draws run out before `samplesize` numbers are kept. -/
def sampleLoop : List Nat → Nat → List Nat → List Nat → Option (List Nat × List Nat)
  | draws, 0, _, samples => some (samples, draws)
  | [], _ + 1, _, _ => none
  | rnd :: draws, k + 1, seen, samples =>
    if rnd ∈ seen then sampleLoop draws (k + 1) seen samples
    else sampleLoop draws k (rnd :: seen) (samples ++ [rnd])

/-- The method `randomSample` (lines 32-65): the sample and the draws left. -/
def randomSample (draws : List Nat) (samplesize : Nat) : Option (List Nat × List Nat) :=
  sampleLoop draws samplesize [] []

/-- The method `randomSampleExc` (lines 68-106): the sample and the draws left. -/
def randomSampleExc (draws : List Nat) (samplesize n : Nat) (toexclude : Nat → Bool) :
    Option (List Nat × List Nat) :=
  sampleLoop draws samplesize ((List.range n).filter (fun e => toexclude e)) []

/-- LAB, lines 855-858: the size of the samples. -/
def labSampleSize (num_obs : Nat) : Nat :=
  let root := if Nat.sqrt num_obs * Nat.sqrt num_obs = num_obs then Nat.sqrt num_obs
    else Nat.sqrt num_obs + 1
  if 20 + 2 * root > num_obs then num_obs else 20 + 2 * root

/-- LAB, lines 866-880: `(dbest, initial_best)` over the sample `S`; `initial_best` has
no initial value in the source and is modelled as 0. -/
def labFirst (s : FastPAM) (S : List Nat) : ℚ × Nat :=
  (List.range S.length).foldl
    (fun acc r =>
      let sumofdist := (List.range S.length).foldl
        (fun sum c => if r ≠ c then sum + s.D (S.getD r 0) (S.getD c 0) else sum) 0
      if sumofdist < acc.1 then (sumofdist, S.getD r 0) else acc)
    (s.MAXD, 0)

/-- LAB, lines 919-944: `(DeltaTDstar, xstar)` over the sample `S`. -/
def labBest (s : FastPAM) (samplesize : Nat) (S : List Nat) : ℚ × Nat :=
  (List.range samplesize).foldl
    (fun acc j =>
      let DeltaTD := (List.range samplesize).foldl
        (fun sum xz =>
          if S.getD xz 0 ≠ S.getD j 0 ∧
              s.D (S.getD xz 0) (S.getD j 0) - s.dnearest (S.getD xz 0) < 0 then
            sum + (s.D (S.getD xz 0) (S.getD j 0) - s.dnearest (S.getD xz 0))
          else sum) 0
      if DeltaTD < acc.1 then (DeltaTD, S.getD j 0) else acc)
    (s.MAXD, s.num_obs + 1)

/-- LAB, lines 946-973: the new medoid `xstar` is appended and the points closer to it
move to its slot. -/
def labAdmit (s : FastPAM) (xstar : Nat) : Except PamError FastPAM :=
  let s1 : FastPAM :=
    { s with medoids := s.medoids ++ [xstar],
             ismedoid := Function.update s.ismedoid xstar true }
  let s2 : FastPAM :=
    (List.range s1.num_obs).foldl
      (fun t q =>
        if t.D q xstar < t.dnearest q then
          { t with currentTD := t.currentTD - t.dnearest q + t.D q xstar,
                   dnearest := Function.update t.dnearest q (t.D q xstar),
                   nearest := Function.update t.nearest q (t.medoids.length - 1) }
        else t) s1
  if s2.currentTD < 0 then .error .NegativeTD
  else .ok { s2 with nearest := Function.update s2.nearest xstar (s2.medoids.length - 1),
                     dnearest := Function.update s2.dnearest xstar 0 }

/-- LAB, lines 911-980: the loop on `nextmed`, which draws a new sample at each turn. -/
def labLoop (samplesize : Nat) : List Nat → List Nat → FastPAM → Except PamError FastPAM
  | [], _, s => .ok s
  | _ :: rest, draws, s =>
    match randomSampleExc draws samplesize s.num_obs s.ismedoid with
    | none => .error .OutOfFuel
    | some (S, draws1) =>
      match s.labAdmit (s.labBest samplesize S).2 with
      | .error e => .error e
      | .ok s1 => labLoop samplesize rest draws1 s1

/-- The method `LAB` (lines 842-983); `draws` are the numbers the random generator
gives, in the order they are asked for. -/
def LAB (s : FastPAM) (draws : List Nat) : Except PamError FastPAM :=
  match randomSample draws (labSampleSize s.num_obs) with
  | none => .error .OutOfFuel
  | some (S, draws1) =>
    let initial_best := (s.labFirst S).2
    let s1 : FastPAM :=
      { s with medoids := [initial_best],
               nearest := (List.range s.num_obs).foldl
                            (fun arr q => Function.update arr q 0) s.nearest,
               dnearest := Function.update
                            ((List.range s.num_obs).foldl
                              (fun arr q => Function.update arr q (s.D initial_best q))
                              s.dnearest)
                            initial_best 0,
               currentTD := (List.range s.num_obs).foldl
                              (fun td r => td + s.D initial_best r) 0,
               ismedoid := Function.update s.ismedoid initial_best true }
    labLoop (labSampleSize s.num_obs) (List.range' 1 (s.nmed - 1)) draws1 s1

/-- The method `Init` (lines 241-282); `draws` stands for the random generator, which
only LAB uses. -/
def Init (s : FastPAM) (initmedoids : List Nat) (nt : Nat) (draws : List Nat) :
    Except PamError FastPAM :=
  let r : Except PamError FastPAM :=
    if s.method = INIT_METHOD_PREVIOUS then s.InitFromPreviousSet initmedoids
    else if s.method = INIT_METHOD_BUILD then
      (if nt = 1 ∨ s.num_obs < 1000 then s.BUILD else s.ParBUILD nt)
    else if s.method = INIT_METHOD_LAB then s.LAB draws
    else .error .UnknownMethod
  match r with
  | .error e => .error e
  | .ok s1 => InitializeInternals { s1 with is_initialized := true }

end FastPAM

/-! ## Optimization: the parallel FASTPAM1 -/

namespace FastPAM

/-- FastPAM1InternalThread, lines 1177-1212 (L6-L16) for the candidate `xc`: the pair
`(DeltaTD[i], i)` after `DeltaTD[i] += DeltaTDplusxc`. Unlike the serial loop, the
thread tests that the search changed `i` (line 1204) and stops otherwise. -/
def threadCandidateBest (s : FastPAM) (DeltaTDminusm : Nat → ℚ) (xc : Nat) :
    Except PamError (ℚ × Nat) :=
  let r := s.scanCandidate DeltaTDminusm xc
  let a := scanMin r.1 s.nmed (s.MAXD, s.nmed + 1)
  if a.2 > s.nmed then .error .ThreadNoClosestMedoid
  else if a.2 < s.nmed then .ok (r.1 a.2 + r.2, a.2)
  else .error .SentinelIndex

/-- FastPAM1InternalThread, lines 1173-1224 (L5-L17): the loop on the candidates of
the thread, carrying the record `(*DeltaTDst, *mst, *xst, *imst)`. -/
def threadExplore (s : FastPAM) (DeltaTDminusm : Nat → ℚ) :
    List Nat → exchange → Except PamError exchange
  | [], best => .ok best
  | xc :: rest, best =>
    if s.ismedoid xc = false then
      match s.threadCandidateBest DeltaTDminusm xc with
      | .error e => .error e
      | .ok r =>
        threadExplore s DeltaTDminusm rest
          (if r.1 < best.DeltaTDst then ⟨r.1, s.med r.2, xc, r.2⟩ else best)
    else threadExplore s DeltaTDminusm rest best

/-- The thread `FastPAM1InternalThread` (lines 1139-1227): the record left by thread
`t` of `nt`, which the driver initialized at lines 1288-1291. -/
def FastPAM1InternalThread (s : FastPAM) (DeltaTDminusm : Nat → ℚ) (nt t : Nat) :
    Except PamError exchange :=
  s.threadExplore DeltaTDminusm (threadPoints s.num_obs nt t)
    ⟨0, s.num_obs + 1, s.num_obs + 1, s.nmed + 1⟩

/-- RunParallelImprovedFastPAM1, lines 1310-1319: the results of the threads are fused,
in the order of the threads; a stop in a thread ends the program. -/
def fuseThreads (results : Nat → Except PamError exchange) :
    List Nat → exchange → Except PamError exchange
  | [], acc => .ok acc
  | t :: rest, acc =>
    match results t with
    | .error e => .error e
    | .ok r => fuseThreads results rest (if r.DeltaTDst < acc.DeltaTDst then r else acc)

/-- RunParallelImprovedFastPAM1, lines 1275-1319 (L3-L17): the exchange recorded by one
iteration with `nt` threads. -/
def parFindBestExchange (s : FastPAM) (nt : Nat) : Except PamError exchange :=
  fuseThreads (s.FastPAM1InternalThread s.DeltaTDminus nt) (List.range nt)
    ⟨s.MAXD, s.num_obs + 1, s.num_obs + 1, s.nmed + 1⟩

/-- RunParallelImprovedFastPAM1, lines 1267-1364: the `do ... while` loop. `fuel` bounds
the recursion; the third argument is the local `iteration`. -/
def parSwapLoop (nt : Nat) (tol_limit : ℚ) :
    Nat → Nat → FastPAM → Except PamError (FastPAM × Nat)
  | 0, _, _ => .error .OutOfFuel
  | fuel + 1, iteration, s =>
    match s.parFindBestExchange nt with
    | .error e => .error e
    | .ok x =>
      if x.DeltaTDst ≥ 0 then .ok (s, iteration)
      else
        match s.commitExchange x with
        | .error e => .error e
        | .ok (s1, out) =>
          if |x.DeltaTDst| > tol_limit ∧ iteration + 1 < s.maxiter ∧ out = false then
            parSwapLoop nt tol_limit fuel (iteration + 1) s1.pushHistory
          else .ok (s1.pushHistory, iteration + 1)

/-- The method `RunParallelImprovedFastPAM1` (lines 1235-1372). -/
def RunParallelImprovedFastPAM1 (s : FastPAM) (nt : Nat) : Except PamError FastPAM :=
  let s0 := s.FillSecond
  match parSwapLoop nt (s0.currentTD * tlimit) (s0.maxiter + 1) 0 s0 with
  | .error e => .error e
  | .ok (s1, iteration) =>
    .ok { s1 with num_iterations_in_opt := if iteration > 0 then iteration - 1 else 0 }

end FastPAM

/-! ## The silhouette (`src/library/silhouette.cpp`) -/

/-- CalculateSilhouette, lines 226-238, and CalculateMeanSilhouette, lines 284-296: the
histogram `hist` of the cluster numbers `cl` of the `num_obs` points. -/
def silHist (cl : Nat → Nat) (num_obs : Nat) : Nat → Nat :=
  (List.range num_obs).foldl (fun hist q => Function.update hist (cl q) (hist (cl q) + 1))
    (fun _ => 0)

/-- SilhouetteSerial, lines 119-133: the array `bav` for the point `q`, the mean
distance from `q` to the points of each cluster. -/
def silBav (D : Nat → Nat → ℚ) (num_obs nmed : Nat) (nearest hist : Nat → Nat) (q : Nat) :
    Nat → ℚ :=
  (List.range nmed).foldl
    (fun bav m => Function.update bav m
      (if m = nearest q then bav m / ((hist m - 1 : Nat) : ℚ) else bav m / (hist m : ℚ)))
    ((List.range num_obs).foldl
      (fun bav q1 => Function.update bav (nearest q1) (bav (nearest q1) + D q q1))
      ((List.range nmed).foldl (fun bav m => Function.update bav m 0) (fun _ => 0)))

/-- SilhouetteSerial, lines 114-152: the value `current_sil[q]`. For an empty cluster
`m` the source divides 0 by 0 and `bav[m]` is not a number, so that the test
`bav[m]<dmin` fails: this is the condition `hist m ≠ 0` of the search. The quotient
by `max(a,b) = 0`, not a number in the source, is 0 here, and no sum is beyond the
largest `double`: `silPoint64` has the value that `double` gives. -/
def silPoint (D : Nat → Nat → ℚ) (num_obs nmed : Nat) (nearest hist : Nat → Nat) (q : Nat) :
    ℚ :=
  if hist (nearest q) = 1 then 0
  else
    let bav := silBav D num_obs nmed nearest hist q
    let a := bav (nearest q)
    let b := (List.range nmed).foldl
      (fun dmin m => if m ≠ nearest q ∧ hist m ≠ 0 ∧ bav m < dmin then bav m else dmin)
      DBL_MAX
    (b - a) / max a b

/-- The function `SilhouetteSerial` (lines 100-162): the vector `current_sil` it
leaves. -/
def SilhouetteSerial (D : Nat → Nat → ℚ) (num_obs nmed : Nat) (nearest hist : Nat → Nat)
    (current_sil : Nat → ℚ) : Nat → ℚ :=
  (List.range num_obs).foldl
    (fun sil q => Function.update sil q (silPoint D num_obs nmed nearest hist q)) current_sil

/-- SilhoutteThread, lines 43-44: the points `[start, end)` of thread `t` of `nt`. -/
def silThreadPoints (num_obs nt t : Nat) : List Nat :=
  List.range' (t * (num_obs / nt))
    ((if t = nt - 1 then num_obs else (t + 1) * (num_obs / nt)) - t * (num_obs / nt))

/-- SilhoutteThread, lines 58-68: the array `bav` of the thread for the point `q`. -/
def silThreadBav (D : Nat → Nat → ℚ) (num_obs nmed : Nat) (nearest hist : Nat → Nat)
    (q : Nat) : Nat → ℚ :=
  (List.range nmed).foldl
    (fun bav m => Function.update bav m
      (if m = nearest q then bav m / ((hist m - 1 : Nat) : ℚ) else bav m / (hist m : ℚ)))
    ((List.range num_obs).foldl
      (fun bav q1 => Function.update bav (nearest q1) (bav (nearest q1) + D q q1))
      ((List.range nmed).foldl (fun bav m => Function.update bav m 0) (fun _ => 0)))

/-- SilhoutteThread, lines 54-83: the value `(*current_sil)[q]` written by the thread;
the divisions by zero are modelled as in `silPoint`. -/
def silThreadPoint (D : Nat → Nat → ℚ) (num_obs nmed : Nat) (nearest hist : Nat → Nat)
    (q : Nat) : ℚ :=
  if hist (nearest q) = 1 then 0
  else
    let bav := silThreadBav D num_obs nmed nearest hist q
    let a := bav (nearest q)
    let b := (List.range nmed).foldl
      (fun dmin m => if m ≠ nearest q ∧ hist m ≠ 0 ∧ bav m < dmin then bav m else dmin)
      DBL_MAX
    (b - a) / max a b

/-- The thread `SilhoutteThread` (lines 29-94): the vector `current_sil` after thread
`t` of `nt` has written the values of its points. -/
def SilhoutteThread (D : Nat → Nat → ℚ) (num_obs nmed : Nat) (nearest hist : Nat → Nat)
    (nt t : Nat) (current_sil : Nat → ℚ) : Nat → ℚ :=
  (silThreadPoints num_obs nt t).foldl
    (fun sil q => Function.update sil q (silThreadPoint D num_obs nmed nearest hist q))
    current_sil

/-- CalculateSilhouette, lines 247-258, and CalculateMeanSilhouette, lines 305-316:
the vector `current_sil` after the `nt` threads; each thread writes the entries of its
own points only. -/
def silThreads (D : Nat → Nat → ℚ) (num_obs nmed : Nat) (nearest hist : Nat → Nat)
    (nt : Nat) (current_sil : Nat → ℚ) : Nat → ℚ :=
  (List.range nt).foldl (fun sil t => SilhoutteThread D num_obs nmed nearest hist nt t sil)
    current_sil

/-- The function `CalculateSilhouette` (lines 164-270) for a matrix of `num_obs`
points; the test `cl[t]<0` of line 198 is void for an unsigned type. -/
def CalculateSilhouette (D : Nat → Nat → ℚ) (num_obs : Nat) (cl : List Nat) (nt : Nat) :
    Except PamError (List ℚ) :=
  if cl.any (fun c => decide (c ≥ num_obs)) then .error .BadLabel
  else if cl.foldl (fun mincl c => if c < mincl then c else mincl) num_obs ≠ 0 then
    .error .MinLabelNotZero
  else if num_obs ≠ cl.length then .error .LabelLength
  else
    let nearest : Nat → Nat := fun q => cl.getD q 0
    let nmed := cl.foldl (fun maxcl c => if c > maxcl then c else maxcl) 0 + 1
    let hist := silHist nearest num_obs
    let current_sil :=
      if nt = 1 then SilhouetteSerial D num_obs nmed nearest hist (fun _ => 0)
      else silThreads D num_obs nmed nearest hist nt (fun _ => 0)
    .ok ((List.range num_obs).map current_sil)

/-- The function `CalculateMeanSilhouette` (lines 275-328) for a matrix of `num_obs`
points. -/
def CalculateMeanSilhouette (D : Nat → Nat → ℚ) (num_obs : Nat) (cl : Nat → Nat)
    (nmed nt : Nat) : ℚ :=
  let hist := silHist cl num_obs
  let current_sil :=
    if nt = 1 then SilhouetteSerial D num_obs nmed cl hist (fun _ => 0)
    else silThreads D num_obs nmed cl hist nt (fun _ => 0)
  (List.range num_obs).foldl (fun ret t => ret + current_sil t) 0 / (num_obs : ℚ)

/-! ## The value of TD from a classification (`src/library/gettd.cpp`) -/

namespace FastPAM

/-- ExploreBranches, lines 1455-1470: the new best exchange `e` enters the window
`(vmin, xcg)` at the first place whose value is not below its own, and the entries
from there on move one place down. -/
def insertBranch (vmin : List ℚ) (xcg : List exchange) (e : exchange) :
    List ℚ × List exchange :=
  let k := (vmin.takeWhile (fun w => decide (w < e.DeltaTDst))).length
  if k < xcg.length then
    let shifted := (List.range' (k + 1) (xcg.length - 1 - k)).reverse.foldl
      (fun (acc : List ℚ × List exchange) l =>
        (acc.1.set l (acc.1.getD (l - 1) 0), acc.2.set l (acc.2.getD (l - 1) ⟨0, 0, 0, 0⟩)))
      (vmin, xcg)
    (shifted.1.set k e.DeltaTDst, shifted.2.set k e)
  else (vmin, xcg)

/-- ExploreBranches, lines 1409-1472 (L5-L17): the loop on the candidates `xc`; the
accumulator is the best exchange found and the window `(vmin, xcg)`. As in
RunImprovedFastPAM1, `DeltaTD[i]` is read without a test on `i`. -/
def exploreBranchesLoop (s : FastPAM) (DeltaTDminusm : Nat → ℚ) :
    List Nat → exchange × List ℚ × List exchange →
      Except PamError (exchange × List ℚ × List exchange)
  | [], acc => .ok acc
  | xc :: rest, acc =>
    if s.ismedoid xc = false then
      match s.candidateBest DeltaTDminusm xc with
      | .error e => .error e
      | .ok r =>
        if r.1 < acc.1.DeltaTDst then
          exploreBranchesLoop s DeltaTDminusm rest
            (⟨r.1, s.med r.2, xc, r.2⟩,
              insertBranch acc.2.1 acc.2.2 ⟨r.1, s.med r.2, xc, r.2⟩)
        else exploreBranchesLoop s DeltaTDminusm rest acc
    else exploreBranchesLoop s DeltaTDminusm rest acc

/-- The method `ExploreBranches` (lines 1383-1473): the window `xcg` it leaves. -/
def ExploreBranches (s : FastPAM) (xcg : List exchange) : Except PamError (List exchange) :=
  match s.exploreBranchesLoop s.DeltaTDminus (List.range s.num_obs)
      (⟨0, s.num_obs + 1, s.num_obs + 1, s.nmed + 1⟩, List.replicate xcg.length s.MAXD, xcg) with
  | .error e => .error e
  | .ok r => .ok r.2.2

/-- The method `ExploreBranchesParallel` (lines 1525-1617), which repeats the code of
`ExploreBranches` and does not use `nt`. -/
def ExploreBranchesParallel (s : FastPAM) (xcg : List exchange) (_nt : Nat) :
    Except PamError (List exchange) :=
  s.ExploreBranches xcg

/-- ChooseExchange, lines 1677-1690: the array `newnearest` for the medoids
`newmedoids`. -/
def newNearestLoop (s : FastPAM) (newmedoids : List Nat) :
    List Nat → (Nat → Nat) → Except PamError (Nat → Nat)
  | [], newnearest => .ok newnearest
  | q :: rest, newnearest =>
    let r := scanMin (fun m => s.D q (newmedoids.getD m 0)) s.nmed (s.MAXD, s.nmed + 1)
    if r.2 > s.nmed then .error .IncorrectNewMedoid
    else newNearestLoop s newmedoids rest (Function.update newnearest q r.2)

/-- ChooseExchange, lines 1671-1695: the array `val`, the mean silhouette that each
exchange of the window would give; `newnearest` is kept from one exchange to the
next. -/
def chooseValues (s : FastPAM) (nt : Nat) :
    List exchange → (Nat → Nat) → Except PamError (List ℚ)
  | [], _ => .ok []
  | x :: rest, newnearest =>
    if x.DeltaTDst < 0 then
      match s.newNearestLoop (s.medoids.set x.imst x.xst) (List.range s.num_obs) newnearest with
      | .error e => .error e
      | .ok nn =>
        match chooseValues s nt rest nn with
        | .error e => .error e
        | .ok val => .ok (CalculateMeanSilhouette s.D s.num_obs nn s.nmed nt :: val)
    else
      match chooseValues s nt rest newnearest with
      | .error e => .error e
      | .ok val => .ok (-1 :: val)

/-- ChooseExchange, lines 1697-1704: `(maxsil, best_exc)` after the search of the
largest value. -/
def bestValue (val : List ℚ) : ℚ × Nat :=
  (List.range val.length).foldl
    (fun acc i => if val.getD i 0 > acc.1 then (val.getD i 0, i) else acc) (-1, 0)

/-- The method `ChooseExchange` (lines 1661-1721): the exchange `best_xcg`. -/
def ChooseExchange (s : FastPAM) (xcg : List exchange) (nt : Nat) :
    Except PamError exchange :=
  match s.chooseValues nt xcg (fun _ => 0) with
  | .error e => .error e
  | .ok val => .ok (xcg.getD (bestValue val).2 ⟨0, 0, 0, 0⟩)

/-- RunImprovedFastPAMMultiBranch, lines 1764-1827: the `do ... while` loop. `fuel`
bounds the recursion; the fourth argument is the local `iteration`. -/
def branchLoop (B nt : Nat) (tol_limit : ℚ) :
    Nat → Nat → FastPAM → Except PamError (FastPAM × Nat)
  | 0, _, _ => .error .OutOfFuel
  | fuel + 1, iteration, s =>
    match (if nt > 1 then s.ExploreBranchesParallel (List.replicate B ⟨0, 0, 0, 0⟩) nt
           else s.ExploreBranches (List.replicate B ⟨0, 0, 0, 0⟩)) with
    | .error e => .error e
    | .ok xcg =>
      match s.ChooseExchange xcg nt with
      | .error e => .error e
      | .ok chosen_exchange =>
        if (xcg.getD 0 ⟨0, 0, 0, 0⟩).DeltaTDst ≥ 0 then .ok (s, iteration)
        else
          match s.commitExchange chosen_exchange with
          | .error e => .error e
          | .ok (s1, out) =>
            if |chosen_exchange.DeltaTDst| > tol_limit ∧ iteration + 1 < s.maxiter ∧
                out = false then
              branchLoop B nt tol_limit fuel (iteration + 1) s1.pushHistory
            else .ok (s1.pushHistory, iteration + 1)

/-- The method `RunImprovedFastPAMMultiBranch` (lines 1727-1832). -/
def RunImprovedFastPAMMultiBranch (s : FastPAM) (B nt : Nat) : Except PamError FastPAM :=
  let s0 := s.FillSecond
  match branchLoop B nt (s0.currentTD * tlimit) (s0.maxiter + 1) 0 s0 with
  | .error e => .error e
  | .ok (s1, iteration) =>
    .ok { s1 with num_iterations_in_opt := if iteration > 0 then iteration - 1 else 0 }

end FastPAM

/-! ## The constructor, Run and the accessors -/

/-- The routine that a call of `Run` executes (fastpam.cpp, lines 296-331). -/
inductive Routine where
  /-- Nothing is run: `maxiter == 0`. -/
  | Nothing
  /-- The call `RunImprovedFastPAM1()` of line 306. -/
  | SerialFastPAM1
  /-- The call `RunParallelImprovedFastPAM1(nt)` of line 322. -/
  | ParallelFastPAM1 (nt : Nat)
  /-- The calls `RunImprovedFastPAMMultiBranch(NBRANCHES,nt)` of lines 310 and 326. -/
  | MultiBranch (B nt : Nat)
deriving DecidableEq

namespace FastPAM

/-- The constructor `FastPAM::FastPAM` (lines 108-187). `TestDistDisMat` is the answer
of `D->TestDistDisMat()` and `ChooseNumThreads` the helper of `threadhelper.h`, both
of the library jmatrix; `MAXD` is the largest value of `disttype`; `limiter` and
`nthreads` are of type `int`, and `(unsigned int)limiter` is `limiter % 2^32`. The
vector `dsecond`, which the constructor leaves empty, holds `MAXD`. -/
def new (D : Nat → Nat → ℚ) (num_obs : Nat) (MAXD : ℚ) (TestDistDisMat : Bool)
    (ChooseNumThreads : Int → Nat) (num_medoids inimet : Nat) (limiter nthreads : Int) :
    Except PamError FastPAM :=
  if TestDistDisMat = false then .error .NotDissimilarity
  else if inimet ≥ NUM_INIT_METHODS then .error .UnknownMethod
  else if (limiter % 2 ^ 32).toNat > MAX_ITER then .error .TooManyIterations
  else .ok
    { D := D, nmed := num_medoids, num_obs := num_obs, MAXD := MAXD, method := inimet,
      maxiter := if limiter = 0 then 0 else (limiter % 2 ^ 32).toNat - 1,
      nt := if num_obs < 1000 then 1 else ChooseNumThreads nthreads,
      is_initialized := false, num_iterations_in_opt := 0,
      medoids := [], ismedoid := fun _ => false, nearest := fun _ => NO_CLUSTER,
      dnearest := fun _ => MAXD, dsecond := fun _ => MAXD, currentTD := MAXD,
      TDkeep := [], current_npch := 0, NpointsChangekeep := [] }

/-- Run, lines 291-331: the tests that choose what is run, for the arguments
`opt_method` and `nt` of the call. -/
def routineOfRun (s : FastPAM) (opt_method nt : Nat) : Except PamError Routine :=
  if s.is_initialized = false then .error .NotInitialized
  else if s.maxiter = 0 then .ok .Nothing
  else if nt = 1 then
    (if opt_method = OPT_METHOD_FASTPAM1 then .ok .SerialFastPAM1
     else if opt_method = OPT_METHOD_FASTPAMBSIL then .ok (.MultiBranch NBRANCHES nt)
     else .error .UnknownOptMethod)
  else
    (if opt_method = OPT_METHOD_FASTPAM1 then .ok (.ParallelFastPAM1 nt)
     else if opt_method = OPT_METHOD_FASTPAMBSIL then .ok (.MultiBranch NBRANCHES nt)
     else .error .UnknownOptMethod)

/-- The method `Run` (lines 288-350); the times it measures are not modelled. -/
def Run (s : FastPAM) (opt_method nt : Nat) : Except PamError FastPAM :=
  match s.routineOfRun opt_method nt with
  | .error e => .error e
  | .ok .Nothing => .ok s
  | .ok .SerialFastPAM1 => s.RunImprovedFastPAM1
  | .ok (.ParallelFastPAM1 n) => s.RunParallelImprovedFastPAM1 n
  | .ok (.MultiBranch B n) => s.RunImprovedFastPAMMultiBranch B n

/-- The method `GetMedoids` (lines 1922-1929): the column of the medoids. -/
def GetMedoids (s : FastPAM) : List Nat :=
  (List.range s.medoids.length).map s.med

/-- The method `GetNumIter` (fastpam.h, line 198). -/
def GetNumIter (s : FastPAM) : Nat := s.num_iterations_in_opt

end FastPAM

/-! ## The program parpam: the option `-mit` -/

/-- The name of the option read by `VerifyMaxIter`. -/
def mitOption : String := "-mit"

/-- The call `atoi(its.c_str())` on a string of decimal digits. -/
def atoi (its : List Char) : Nat :=
  its.foldl (fun v c => 10 * v + (c.toNat - '0'.toNat)) 0

/-- The function `VerifyMaxIter` of parpam.cpp (lines 164-186): the value left in
`max_iter`. When `-mit` is the last argument the source reads past the end of `args`;
the model reads an empty string there. `max_iter` is an `int`: of the number written
it keeps the 32 low binary digits, and `(unsigned int)max_iter` is that value, which
is also the value of `max_iter` when the test lets it through. -/
def VerifyMaxIter (args : List String) : Except PamError Nat :=
  match args.dropWhile (fun a => decide (a ≠ mitOption)) with
  | [] => .ok (MAX_ITER - 1)
  | _ :: rest =>
    let its := (rest.headD (String.mk [])).toList
    if its.any (fun c => decide (c < '0' ∨ c > '9')) then .error .BadMaxIterArgument
    else if atoi its % 2 ^ 32 > MAX_ITER then .error .TooManyIterations
    else .ok (atoi its % 2 ^ 32)

/-! ## The program pardis: the input matrix and the option `-dis` -/

/-- Constant `DL1` of dissimmat.h: the L1 distance. -/
def DL1 : Nat := 0

/-- Constant `DL2` of dissimmat.h: the L2 distance. -/
def DL2 : Nat := 1

/-- Constant `DPe` of dissimmat.h: the Pearson dissimilarity coefficient. -/
def DPe : Nat := 2

/-- The name of the option read by `VerifyDistanceType`. -/
def disOption : String := "-dis"

/-- The string `L1` of `VerifyDistanceType`. -/
def nameL1 : String := "L1"

/-- The string `L2` of `VerifyDistanceType`. -/
def nameL2 : String := "L2"

/-- The string `Pe` of the test of `VerifyDistanceType`. -/
def namePe : String := "Pe"

/-- The string `Pearson` of the assignment of `VerifyDistanceType`. -/
def namePearson : String := "Pearson"

/-- The function `VerifyDistanceType` of pardis.cpp (lines 124-155): the value left in
`dtype`, which held `dtype` before the call (`main` does not initialize it). When
`-dis` is the last argument the source reads past the end of `args`; the model reads an
empty string there. -/
def VerifyDistanceType (args : List String) (dtype : Nat) : Except PamError Nat :=
  let decode : String → Nat := fun distype =>
    let dtype1 := if distype = nameL1 then DL1 else dtype
    let dtype2 := if distype = nameL2 then DL2 else dtype1
    if distype = namePearson then DPe else dtype2
  match args.dropWhile (fun a => decide (a ≠ disOption)) with
  | [] => .ok (decode nameL2)
  | _ :: rest =>
    if rest.headD (String.mk []) ≠ nameL1 ∧ rest.headD (String.mk []) ≠ nameL2 ∧
        rest.headD (String.mk []) ≠ namePe then .error .BadDistanceType
    else .ok (decode (rest.headD (String.mk [])))

/-- The constants of the library jmatrix that `VerifyInputMatrix` uses: the bit
`DEBJM` of the debug flag, the codes of the kinds of matrix and the codes of the types
of the elements. -/
structure JMatrix where
  DEBJM : Nat
  MTYPEFULL : Nat
  MTYPESPARSE : Nat
  MTYPESYMMETRIC : Nat
  FTYPE : Nat
  DTYPE : Nat

/-- The function `VerifyInputMatrix` of pardis.cpp (lines 79-122). `imattype` and
`imatvaltype` are the codes that `MatrixType`, of the library jmatrix, reads from the
file; `DEB` is the global debug flag. The result is the pair left in the two output
arguments. -/
def VerifyInputMatrix (c : JMatrix) (DEB imattype imatvaltype : Nat) :
    Except PamError (Nat × Nat) :=
  if DEB &&& c.DEBJM ≠ 0 then
    if imattype = c.MTYPEFULL ∨ imattype = c.MTYPESPARSE then
      (if imatvaltype = c.FTYPE ∨ imatvaltype = c.DTYPE then .ok (imattype, imatvaltype)
       else .error .BadInputDataType)
    else if imattype = c.MTYPESYMMETRIC then .error .InvalidMatrixType
    else .error .UnknownMatrixType
  else .ok (imattype, imatvaltype)

/-! ## Observations and the engines of the examples -/

/-- Value of `std::numeric_limits<float>::max()`. -/
def FLT_MAX : ℚ := 2 ^ 128 - 2 ^ 104

/-- The list of medoids of a result, when there is one. -/
def medoidsOf (r : Except PamError FastPAM) : Option (List Nat) :=
  match r with
  | .ok s => some s.medoids
  | .error _ => none

/-- The value `currentTD / num_obs` of a result, when there is one. -/
def meanTDOf (r : Except PamError FastPAM) : Option ℚ :=
  match r with
  | .ok s => some (s.currentTD / (s.num_obs : ℚ))
  | .error _ => none

/-- The result of a run that returned. -/
def okOf {α : Type} (r : Except PamError α) : Option α :=
  match r with
  | .ok a => some a
  | .error _ => none

/-- The error of a run that stopped. -/
def errorOf {α : Type} (r : Except PamError α) : Option PamError :=
  match r with
  | .ok _ => none
  | .error e => some e

/-- The state in which lines 163-186 of the constructor leave the data members, for a
matrix `D` of `num_obs` points and `float` distances. -/
def engine (D : Nat → Nat → ℚ) (num_obs nmed method maxiter : Nat) : FastPAM :=
  { D := D, nmed := nmed, num_obs := num_obs, MAXD := FLT_MAX, method := method,
    maxiter := maxiter, nt := 1, is_initialized := false, num_iterations_in_opt := 0,
    medoids := [], ismedoid := fun _ => false, nearest := fun _ => NO_CLUSTER,
    dnearest := fun _ => FLT_MAX, dsecond := fun _ => FLT_MAX, currentTD := FLT_MAX,
    TDkeep := [], current_npch := 0, NpointsChangekeep := [] }

/-- A matrix given by its rows. -/
def matrixOf (rows : List (List ℚ)) : Nat → Nat → ℚ :=
  fun i j => (rows.getD i []).getD j 0

/-- The matrix of scenario S1: four points on a line, one unit apart. -/
def S1_D : Nat → Nat → ℚ :=
  matrixOf [[0, 1, 2, 3], [1, 0, 1, 2], [2, 1, 0, 1], [3, 2, 1, 0]]

/-- The engine of scenario S1: `k = 2`, BUILD. -/
def S1_engine : FastPAM := engine S1_D 4 2 INIT_METHOD_BUILD 1000

/-- The S1 matrix in an engine built for the PREVIOUS method, `k = 2`. -/
def S1_previous : FastPAM := engine S1_D 4 2 INIT_METHOD_PREVIOUS 1000

/-- A state of the S1 engine with the medoids `[0, 1]`: every point is assigned to its
nearest medoid, and `dsecond` holds the distance to the other one. -/
def S1_state_01 : FastPAM :=
  { engine S1_D 4 2 INIT_METHOD_PREVIOUS 1000 with
    is_initialized := true
    medoids := [0, 1]
    ismedoid := fun q => decide (q = 0 ∨ q = 1)
    nearest := fun q => if q = 0 then 0 else 1
    dnearest := fun q => if q = 0 then 0 else S1_D q 1
    dsecond := fun q => if q = 0 then 1 else S1_D q 0
    currentTD := 3 }

/-- A state of the S1 engine with the medoids `[1, 2]`: every point is assigned to its
nearest medoid, and `dsecond` holds the distance to the other one. -/
def S1_state_12 : FastPAM :=
  { engine S1_D 4 2 INIT_METHOD_PREVIOUS 1000 with
    is_initialized := true
    medoids := [1, 2]
    ismedoid := fun q => decide (q = 1 ∨ q = 2)
    nearest := fun q => if q ≤ 1 then 0 else 1
    dnearest := fun q => if q ≤ 1 then S1_D q 1 else S1_D q 2
    dsecond := fun q => if q ≤ 1 then S1_D q 2 else S1_D q 1
    currentTD := 2 }

/-- What a caller reads after a run that returned: the medoids, the two histories and
the answer of GetNumIter. -/
def runSummary (r : Except PamError FastPAM) : Option (List Nat × List ℚ × List Nat × Nat) :=
  (okOf r).map (fun s => (s.medoids, s.TDkeep, s.NpointsChangekeep, s.GetNumIter))

/-- The matrix of scenario S3: points on a line, one unit apart. -/
def S3_D : Nat → Nat → ℚ := fun i j => |(i : ℚ) - (j : ℚ)|

/-- The engine of scenario S3, as the constructor leaves it: 13 points, `k = 3`, the
method PREVIOUS and no iteration allowed. -/
def S3_engine : FastPAM := engine S3_D 13 3 INIT_METHOD_PREVIOUS 0

/-- Six points on a line, one unit apart, `k = 2`: the state that Init with the
method PREVIOUS and the medoids `[4, 5]`, then FillSecond, leave. -/
def S6_state : Except PamError FastPAM :=
  match (engine S3_D 6 2 INIT_METHOD_PREVIOUS 1000).Init [4, 5] 1 [] with
  | .error e => .error e
  | .ok s => .ok s.FillSecond

/-- The window of `NBRANCHES` exchanges that ExploreBranches leaves on the six points
with the medoids `[4, 5]`. -/
def S6_window : Option (List exchange) :=
  match S6_state with
  | .error _ => none
  | .ok s => okOf (s.ExploreBranches (List.replicate NBRANCHES ⟨0, 0, 0, 0⟩))

/-- The pair `(DeltaTD[i], i)` of the best exchange of the candidate `xc`, on the six
points with the medoids `[4, 5]`. -/
def S6_candidateBest (xc : Nat) : Option (ℚ × Nat) :=
  match S6_state with
  | .error _ => none
  | .ok s => okOf (s.candidateBest s.DeltaTDminus xc)

/-- Four points in two clusters: two points of one cluster are 1 apart, two points of
different clusters 10 apart. -/
def S4_D : Nat → Nat → ℚ :=
  matrixOf [[0, 1, 10, 10], [1, 0, 10, 10], [10, 10, 0, 1], [10, 10, 1, 0]]

/-- The labels of the four points of `S4_D`. -/
def S4_labels : List Nat := [0, 0, 1, 1]

/-- The matrix of scenario S6: every two different points are at distance 1. -/
def equidistant : Nat → Nat → ℚ := fun i j => if i = j then 0 else 1

/-- A value of a binary floating-point type of the machine: a finite number, one of the
two infinities, or the result of an operation without a value ("not a number"). The
two zeros are not told apart and no number is too small to be kept: neither matters in
what follows. -/
inductive Flt where
  | fin (x : ℚ)
  | pinf
  | ninf
  | nan
deriving DecidableEq

/-- A binary format: `prec` binary digits in the significand, `emax` the largest
exponent. -/
structure FloatFormat where
  prec : Nat
  emax : Nat

/-- The type `float`. -/
def binary32 : FloatFormat := ⟨24, 127⟩

/-- The type `double`. -/
def binary64 : FloatFormat := ⟨53, 1023⟩

/-- Number of binary digits of `n`; the first argument bounds the recursion. -/
def bitLength : Nat → Nat → Nat
  | 0, _ => 0
  | fuel + 1, n => if n = 0 then 0 else bitLength fuel (n / 2) + 1

/-- The quotient `n/d` of two positive integers, rounded to `prec` binary digits: to
the nearest number with that many digits, and to the one with the even significand
when it is halfway between two. The quotient is first scaled by a power of 2 so that
its integer part has `prec+1` or `prec+2` digits; `cut` digits are then dropped. -/
def roundNat (prec n d : Nat) : ℚ :=
  let ln := bitLength n n
  let ld := bitLength d d
  let up := prec + 1 + ld - ln
  let down := ln - (prec + 1 + ld)
  let n1 := n * 2 ^ up
  let d1 := d * 2 ^ down
  let cut := if n1 / d1 < 2 ^ (prec + 1) then 1 else 2
  let d2 := d1 * 2 ^ cut
  let q := n1 / d2
  let r := n1 % d2
  let q1 := if 2 * r > d2 ∨ (2 * r = d2 ∧ q % 2 = 1) then q + 1 else q
  ((q1 * 2 ^ (down + cut) : Nat) : ℚ) / ((2 ^ up : Nat) : ℚ)

namespace Flt

/-- The value `-a`. -/
def neg : Flt → Flt
  | .fin x => .fin (-x)
  | .pinf => .ninf
  | .ninf => .pinf
  | .nan => .nan

/-- The comparison `a < b` of the machine, which is false when one of the two is not a
number. -/
def lt : Flt → Flt → Bool
  | .fin x, .fin y => decide (x < y)
  | .fin _, .pinf => true
  | .ninf, .fin _ => true
  | .ninf, .pinf => true
  | _, _ => false

/-- The function `std::max(a,b)`, which is `(a<b) ? b : a`. -/
def max (a b : Flt) : Flt := if lt a b = true then b else a

/-- The number kept in a variable known to be finite; 0 otherwise. -/
def toRat : Flt → ℚ
  | .fin x => x
  | _ => 0

end Flt

namespace FloatFormat

/-- The largest finite number of the format: `FLT_MAX` for `float`, `DBL_MAX` for
`double`. -/
def maxFinite (f : FloatFormat) : ℚ := 2 ^ (f.emax + 1) - 2 ^ (f.emax + 1 - f.prec)

/-- The number of the format that stands for the exact result `x` of an operation:
`x` rounded to the nearest, an infinity when the rounded number is beyond the largest
finite one. -/
def round (f : FloatFormat) (x : ℚ) : Flt :=
  if x = 0 then .fin 0
  else
    let r := roundNat f.prec x.num.natAbs x.den
    if f.maxFinite < r then (if 0 < x then .pinf else .ninf)
    else .fin (if 0 < x then r else -r)

/-- Conversion of a value to the format. -/
def cast (f : FloatFormat) : Flt → Flt
  | .fin x => f.round x
  | a => a

/-- The sum `a + b` in the format. -/
def add (f : FloatFormat) : Flt → Flt → Flt
  | .fin x, .fin y => f.round (x + y)
  | .nan, _ => .nan
  | _, .nan => .nan
  | .pinf, .ninf => .nan
  | .ninf, .pinf => .nan
  | .pinf, _ => .pinf
  | _, .pinf => .pinf
  | .ninf, _ => .ninf
  | _, .ninf => .ninf

/-- The difference `a - b` in the format. -/
def sub (f : FloatFormat) (a b : Flt) : Flt := f.add a b.neg

/-- The quotient `a / b` in the format. -/
def div (f : FloatFormat) : Flt → Flt → Flt
  | .fin x, .fin y =>
    if y = 0 then (if x = 0 then .nan else if 0 < x then .pinf else .ninf)
    else f.round (x / y)
  | .nan, _ => .nan
  | _, .nan => .nan
  | .fin _, _ => .fin 0
  | .pinf, .fin y => if 0 ≤ y then .pinf else .ninf
  | .ninf, .fin y => if 0 ≤ y then .ninf else .pinf
  | _, _ => .nan

end FloatFormat

/-- The idiom `for (m=0; m<n; m++) if (f(m) < best) { best = f(m); idx = m; }` on
values of the machine, started from `init = (best, idx)`. -/
def scanMinFlt (f : Nat → Flt) (n : Nat) (init : Flt × Nat) : Flt × Nat :=
  (List.range n).foldl (fun acc m => if (f m).lt acc.1 = true then (f m, m) else acc) init

/-- The record `exchange_struct` of fastpam.h with the value of `DeltaTDst` as the
machine holds it. -/
structure exchange32 where
  DeltaTDst : Flt
  mst : Nat
  xst : Nat
  imst : Nat
deriving DecidableEq

/-! ## The optimizers with `disttype = float`

The same lines of `fastpam.cpp` as above, now with every sum and every difference
rounded to `float` as the instantiation `FastPAM<float>` does. The matrix and the
vectors `dnearest`, `dsecond` of the state hold numbers of the type `float`; the
comparisons between them are exact and are those of the definitions above. -/

namespace FastPAM

/-- RunImprovedFastPAM1, lines 1029-1035 (L3), in `float`: the array `DeltaTDminusm`. -/
def DeltaTDminus32 (s : FastPAM) : Nat → Flt :=
  (List.range s.nmed).foldl
    (fun arr m => Function.update arr m
      ((List.range s.num_obs).foldl
        (fun acc q =>
          if s.nearest q = m then
            binary32.add acc (binary32.sub (.fin (s.dsecond q)) (.fin (s.dnearest q)))
          else acc) (.fin 0)))
    (fun _ => .fin 0)

/-- RunImprovedFastPAM1, lines 1054-1062 (L9-L14), in `float`: the body of the loop on
`x0` for the candidate `xc`; the accumulator is `(DeltaTD, DeltaTDplusxc)`. -/
def scanPoint32 (s : FastPAM) (xc : Nat) (acc : (Nat → Flt) × Flt) (x0 : Nat) :
    (Nat → Flt) × Flt :=
  let d0j := s.D x0 xc
  if d0j < s.dnearest x0 then
    (Function.update acc.1 (s.nearest x0)
        (binary32.add (acc.1 (s.nearest x0))
          (binary32.sub (.fin (s.dnearest x0)) (.fin (s.dsecond x0)))),
      binary32.add acc.2 (binary32.sub (.fin d0j) (.fin (s.dnearest x0))))
  else if d0j < s.dsecond x0 then
    (Function.update acc.1 (s.nearest x0)
        (binary32.add (acc.1 (s.nearest x0))
          (binary32.sub (.fin d0j) (.fin (s.dsecond x0)))),
      acc.2)
  else acc

/-- RunImprovedFastPAM1, lines 1048-1063 (L6-L14), in `float`: `(DeltaTD, DeltaTDplusxc)`
after the loop on `x0`. -/
def scanCandidate32 (s : FastPAM) (DeltaTDminusm : Nat → Flt) (xc : Nat) :
    (Nat → Flt) × Flt :=
  (List.range s.num_obs).foldl (s.scanPoint32 xc)
    ((List.range s.nmed).foldl (fun arr m => Function.update arr m (DeltaTDminusm m))
      (fun _ => .fin 0), .fin 0)

/-- RunImprovedFastPAM1, lines 1048-1074 (L6-L16) for the candidate `xc`, in `float`:
the pair `(DeltaTD[i], i)` after `DeltaTD[i] += DeltaTDplusxc`. The source reads
`DeltaTD[i]` without testing that the search changed `i` from `nmed+1`. -/
def candidateBest32 (s : FastPAM) (DeltaTDminusm : Nat → Flt) (xc : Nat) :
    Except PamError (Flt × Nat) :=
  let r := s.scanCandidate32 DeltaTDminusm xc
  let a := scanMinFlt r.1 s.nmed (.fin s.MAXD, s.nmed + 1)
  if a.2 < s.nmed then .ok (binary32.add (r.1 a.2) r.2, a.2) else .error .SentinelIndex

/-- RunImprovedFastPAM1, lines 1043-1084 (L5-L17), in `float`: the loop on the
candidates `xc`, carrying the best exchange found. -/
def exploreCandidates32 (s : FastPAM) (DeltaTDminusm : Nat → Flt) :
    List Nat → exchange32 → Except PamError exchange32
  | [], best => .ok best
  | xc :: rest, best =>
    if s.ismedoid xc = false then
      match s.candidateBest32 DeltaTDminusm xc with
      | .error e => .error e
      | .ok r =>
        exploreCandidates32 s DeltaTDminusm rest
          (if r.1.lt best.DeltaTDst = true then ⟨r.1, s.med r.2, xc, r.2⟩ else best)
    else exploreCandidates32 s DeltaTDminusm rest best

/-- RunImprovedFastPAM1, lines 1029-1084 (L3-L17), in `float`: the exchange recorded by
one iteration. -/
def findBestExchange32 (s : FastPAM) : Except PamError exchange32 :=
  s.exploreCandidates32 s.DeltaTDminus32 (List.range s.num_obs)
    ⟨.fin 0, s.num_obs + 1, s.num_obs + 1, s.nmed + 1⟩

/-- RunImprovedFastPAM1, line 1101 (L21), in `float`: the value of `currentTD` after
`currentTD += DeltaTDst`. -/
def committedTD32 (s : FastPAM) (x : exchange32) : Flt :=
  binary32.add (.fin s.currentTD) x.DeltaTDst

/-- RunImprovedFastPAM1, lines 1101 and 1124, in `float`: the entry
`currentTD/float(num_obs)` that an iteration which commits the exchange `x` appends to
`TDkeep`. -/
def historyEntry32 (s : FastPAM) (x : exchange32) : Flt :=
  binary32.div (s.committedTD32 x) (binary32.round (s.num_obs : ℚ))

/-- FastPAM1InternalThread, lines 1177-1212 (L6-L16) for the candidate `xc`, in
`float`. Unlike the serial loop, the thread tests that the search changed `i` (line
1204) and stops otherwise. -/
def threadCandidateBest32 (s : FastPAM) (DeltaTDminusm : Nat → Flt) (xc : Nat) :
    Except PamError (Flt × Nat) :=
  let r := s.scanCandidate32 DeltaTDminusm xc
  let a := scanMinFlt r.1 s.nmed (.fin s.MAXD, s.nmed + 1)
  if a.2 > s.nmed then .error .ThreadNoClosestMedoid
  else if a.2 < s.nmed then .ok (binary32.add (r.1 a.2) r.2, a.2)
  else .error .SentinelIndex

/-- FastPAM1InternalThread, lines 1173-1224 (L5-L17), in `float`: the loop on the
candidates of the thread. -/
def threadExplore32 (s : FastPAM) (DeltaTDminusm : Nat → Flt) :
    List Nat → exchange32 → Except PamError exchange32
  | [], best => .ok best
  | xc :: rest, best =>
    if s.ismedoid xc = false then
      match s.threadCandidateBest32 DeltaTDminusm xc with
      | .error e => .error e
      | .ok r =>
        threadExplore32 s DeltaTDminusm rest
          (if r.1.lt best.DeltaTDst = true then ⟨r.1, s.med r.2, xc, r.2⟩ else best)
    else threadExplore32 s DeltaTDminusm rest best

/-- The thread `FastPAM1InternalThread` (lines 1139-1227), in `float`: the record left
by thread `t` of `nt`. -/
def FastPAM1InternalThread32 (s : FastPAM) (DeltaTDminusm : Nat → Flt) (nt t : Nat) :
    Except PamError exchange32 :=
  s.threadExplore32 DeltaTDminusm (threadPoints s.num_obs nt t)
    ⟨.fin 0, s.num_obs + 1, s.num_obs + 1, s.nmed + 1⟩

/-- ExploreBranches, lines 1455-1470, in `float`: the new best exchange `e` enters the
window `(vmin, xcg)`. -/
def insertBranch32 (vmin : List Flt) (xcg : List exchange32) (e : exchange32) :
    List Flt × List exchange32 :=
  let k := (vmin.takeWhile (fun w => w.lt e.DeltaTDst)).length
  if k < xcg.length then
    let shifted := (List.range' (k + 1) (xcg.length - 1 - k)).reverse.foldl
      (fun (acc : List Flt × List exchange32) l =>
        (acc.1.set l (acc.1.getD (l - 1) (.fin 0)),
          acc.2.set l (acc.2.getD (l - 1) ⟨.fin 0, 0, 0, 0⟩)))
      (vmin, xcg)
    (shifted.1.set k e.DeltaTDst, shifted.2.set k e)
  else (vmin, xcg)

/-- ExploreBranches, lines 1409-1472 (L5-L17), in `float`: the loop on the candidates
`xc`; the accumulator is the best exchange found and the window `(vmin, xcg)`. -/
def exploreBranchesLoop32 (s : FastPAM) (DeltaTDminusm : Nat → Flt) :
    List Nat → exchange32 × List Flt × List exchange32 →
      Except PamError (exchange32 × List Flt × List exchange32)
  | [], acc => .ok acc
  | xc :: rest, acc =>
    if s.ismedoid xc = false then
      match s.candidateBest32 DeltaTDminusm xc with
      | .error e => .error e
      | .ok r =>
        if r.1.lt acc.1.DeltaTDst = true then
          exploreBranchesLoop32 s DeltaTDminusm rest
            (⟨r.1, s.med r.2, xc, r.2⟩,
              insertBranch32 acc.2.1 acc.2.2 ⟨r.1, s.med r.2, xc, r.2⟩)
        else exploreBranchesLoop32 s DeltaTDminusm rest acc
    else exploreBranchesLoop32 s DeltaTDminusm rest acc

/-- The method `ExploreBranches` (lines 1383-1473), in `float`: the window `xcg` it
leaves. -/
def ExploreBranches32 (s : FastPAM) (xcg : List exchange32) :
    Except PamError (List exchange32) :=
  match s.exploreBranchesLoop32 s.DeltaTDminus32 (List.range s.num_obs)
      (⟨.fin 0, s.num_obs + 1, s.num_obs + 1, s.nmed + 1⟩,
        List.replicate xcg.length (.fin s.MAXD), xcg) with
  | .error e => .error e
  | .ok r => .ok r.2.2

end FastPAM

/-! ## The silhouette in `double` -/

/-- SilhouetteSerial, lines 119-133, in `double` (`siltype`): the array `bav` for the
point `q`. The counts of the histogram are converted without error. -/
def silBav64 (D : Nat → Nat → ℚ) (num_obs nmed : Nat) (nearest hist : Nat → Nat) (q : Nat) :
    Nat → Flt :=
  (List.range nmed).foldl
    (fun bav m => Function.update bav m
      (if m = nearest q then binary64.div (bav m) (.fin ((hist m - 1 : Nat) : ℚ))
       else binary64.div (bav m) (.fin (hist m : ℚ))))
    ((List.range num_obs).foldl
      (fun bav q1 => Function.update bav (nearest q1)
        (binary64.add (bav (nearest q1)) (.fin (D q q1))))
      ((List.range nmed).foldl (fun bav m => Function.update bav m (.fin 0))
        (fun _ => .fin 0)))

/-- SilhouetteSerial, lines 114-152, in `double`: the value `current_sil[q]`. -/
def silPoint64 (D : Nat → Nat → ℚ) (num_obs nmed : Nat) (nearest hist : Nat → Nat)
    (q : Nat) : Flt :=
  if hist (nearest q) = 1 then .fin 0
  else
    let bav := silBav64 D num_obs nmed nearest hist q
    let a := bav (nearest q)
    let b := (List.range nmed).foldl
      (fun dmin m => if m ≠ nearest q ∧ (bav m).lt dmin = true then bav m else dmin)
      (.fin DBL_MAX)
    binary64.div (binary64.sub b a) (a.max b)

/-- The function `SilhouetteSerial` (lines 100-162), in `double`: the vector
`current_sil` it leaves. -/
def SilhouetteSerial64 (D : Nat → Nat → ℚ) (num_obs nmed : Nat) (nearest hist : Nat → Nat)
    (current_sil : Nat → Flt) : Nat → Flt :=
  (List.range num_obs).foldl
    (fun sil q => Function.update sil q (silPoint64 D num_obs nmed nearest hist q)) current_sil

/-- The function `CalculateMeanSilhouette` (lines 275-328) called with `nt = 1`, in
`double`. -/
def CalculateMeanSilhouette64 (D : Nat → Nat → ℚ) (num_obs : Nat) (cl : Nat → Nat)
    (nmed : Nat) : Flt :=
  let hist := silHist cl num_obs
  let current_sil := SilhouetteSerial64 D num_obs nmed cl hist (fun _ => .fin 0)
  binary64.div
    ((List.range num_obs).foldl (fun ret t => binary64.add ret (current_sil t)) (.fin 0))
    (.fin (num_obs : ℚ))

namespace FastPAM

/-- ChooseExchange, lines 1671-1695, called with `nt = 1`, in `float`: the array `val`.
The mean silhouette, a `double`, is converted to `disttype`. -/
def chooseValues32 (s : FastPAM) :
    List exchange32 → (Nat → Nat) → Except PamError (List Flt)
  | [], _ => .ok []
  | x :: rest, newnearest =>
    if x.DeltaTDst.lt (.fin 0) = true then
      match s.newNearestLoop (s.medoids.set x.imst x.xst) (List.range s.num_obs) newnearest with
      | .error e => .error e
      | .ok nn =>
        match chooseValues32 s rest nn with
        | .error e => .error e
        | .ok val =>
          .ok (binary32.cast (CalculateMeanSilhouette64 s.D s.num_obs nn s.nmed) :: val)
    else
      match chooseValues32 s rest newnearest with
      | .error e => .error e
      | .ok val => .ok (.fin (-1) :: val)

/-- ChooseExchange, lines 1697-1704: `(maxsil, best_exc)` after the search of the
largest value. -/
def bestValue32 (val : List Flt) : Flt × Nat :=
  (List.range val.length).foldl
    (fun acc i => if acc.1.lt (val.getD i (.fin 0)) = true then (val.getD i (.fin 0), i) else acc)
    (.fin (-1), 0)

/-- The method `ChooseExchange` (lines 1661-1721) called with `nt = 1`, in `float`: the
exchange `best_xcg`. -/
def ChooseExchange32 (s : FastPAM) (xcg : List exchange32) : Except PamError exchange32 :=
  match s.chooseValues32 xcg (fun _ => 0) with
  | .error e => .error e
  | .ok val => .ok (xcg.getD (bestValue32 val).2 ⟨.fin 0, 0, 0, 0⟩)

/-! ## BUILD with `disttype = float` -/

/-- BUILD, lines 395-397, in `float`: `sumofrow` for row `r`. -/
def rowSum32 (s : FastPAM) (r : Nat) : Flt :=
  (List.range s.num_obs).foldl (fun sumofrow c => binary32.add sumofrow (.fin (s.D r c)))
    (.fin 0)

/-- BUILD, lines 390-403, in `float`: the pair `(dbest, initial_best)`. -/
def firstMedoid32 (s : FastPAM) : Flt × Nat :=
  scanMinFlt s.rowSum32 s.num_obs (.fin s.MAXD, s.num_obs + 1)

/-- BUILD, lines 461-475: `tdchange` for the candidate `cand`, a `double` to which the
differences `d-dnearest[other]`, formed in `float`, are added. -/
def tdchange64 (s : FastPAM) (cand : Nat) : Flt :=
  binary64.sub
    ((List.range s.num_obs).foldl
      (fun acc other =>
        if other ≠ cand ∧ s.D cand other < s.dnearest other then
          binary64.add acc (binary32.sub (.fin (s.D cand other)) (.fin (s.dnearest other)))
        else acc) (.fin 0))
    (.fin (s.dnearest cand))

/-- BUILD, lines 455-486: one turn of the loop on the candidates; the accumulator is
`(most_negative_tdchange, best_up_to_now)`, the first a `double`. -/
def candidateStep64 (s : FastPAM) (acc : Flt × Nat) (cand : Nat) : Flt × Nat :=
  if s.ismedoid cand = false then
    (if (s.tdchange64 cand).lt (.fin 0) = true ∧ (s.tdchange64 cand).lt acc.1 = true then
      (s.tdchange64 cand, cand) else acc)
  else acc

/-- BUILD, lines 451-486: `(most_negative_tdchange, best_up_to_now)` after the loop on
the candidates. -/
def bestCandidate64 (s : FastPAM) : Flt × Nat :=
  (List.range s.num_obs).foldl s.candidateStep64 (.fin DBL_MAX, s.num_obs + 1)

/-- BUILD, lines 488-525, in `float`: what follows the loop on the candidates. The test
of line 501 compares the `double` `most_negative_tdchange` with the `float`
`-currentTD`; line 506 adds the two in `double` and keeps the sum in the `float`
`currentTD`, a finite number since `most_negative_tdchange` lies between `-currentTD`
and 0 there. -/
def admitMedoid32 (s : FastPAM) (nextmed : Nat) (r : Flt × Nat) : Except PamError FastPAM :=
  if r.2 > s.num_obs then .error .BuildStalled
  else
    let s1 : FastPAM :=
      { s with medoids := s.medoids.set nextmed r.2,
               ismedoid := Function.update s.ismedoid r.2 true,
               dnearest := Function.update s.dnearest r.2 0 }
    if r.1.lt (.fin (-s1.currentTD)) = true then .error .NegativeTD
    else
      let s2 : FastPAM :=
        reassign
          { s1 with currentTD :=
                      (binary32.cast (binary64.add (.fin s1.currentTD) r.1)).toRat }
          r.2 nextmed
      .ok { s2 with nearest := Function.update s2.nearest r.2 r.2,
                    dnearest := Function.update s2.dnearest r.2 0 }

/-- BUILD, lines 442-533, in `float`: the loop on `nextmed`. -/
def buildLoop32 : List Nat → FastPAM → Except PamError FastPAM
  | [], s => .ok s
  | nextmed :: rest, s =>
    match s.admitMedoid32 nextmed s.bestCandidate64 with
    | .error e => .error e
    | .ok s1 => buildLoop32 rest s1

/-- The method `BUILD` (lines 378-537), in `float`. The value `dbest` kept at line 400
is below `MAXD`, hence finite. -/
def BUILD32 (s : FastPAM) : Except PamError FastPAM :=
  let r := s.firstMedoid32
  if r.2 > s.num_obs then .error .NoBestMedoid
  else
    let s1 : FastPAM :=
      { s with currentTD := r.1.toRat,
               medoids := s.medoids ++ [r.2] ++ List.replicate (s.nmed - 1) NO_CLUSTER }
    buildLoop32 (List.range' 1 (s.nmed - 1)) (s1.assignFirst r.2 (fun q => s.D q r.2))

end FastPAM

/-! ## The exchanges that a run commits -/

namespace FastPAM

/-- RunImprovedFastPAM1, lines 1021-1127: the loop `swapLoop` once more, now returning
the exchanges `(DeltaTDst, mst, xst, imst)` recorded by the iterations that commit one,
in the order of the iterations. Each is the result of `findBestExchange` on the state
its iteration starts from. -/
def swapRecords (tol_limit : ℚ) : Nat → Nat → FastPAM → List exchange
  | 0, _, _ => []
  | fuel + 1, iteration, s =>
    match s.findBestExchange with
    | .error _ => []
    | .ok x =>
      if x.DeltaTDst ≥ 0 then []
      else
        match s.commitExchange x with
        | .error _ => []
        | .ok (s1, out) =>
          if |x.DeltaTDst| > tol_limit ∧ iteration + 1 < s.maxiter ∧ out = false then
            x :: swapRecords tol_limit fuel (iteration + 1) s1.pushHistory
          else [x]

/-- The exchanges recorded and committed by the iterations of a call of
`RunImprovedFastPAM1`. -/
def runRecords (s : FastPAM) : List exchange :=
  swapRecords (s.FillSecond.currentTD * tlimit) (s.FillSecond.maxiter + 1) 0 s.FillSecond

end FastPAM

/-! ## The states of the examples in `float` -/

/-- Three points 40, 50 and 40 apart and a fourth one `2^30` away from each. -/
def Wide_D : Nat → Nat → ℚ :=
  matrixOf [[0, 40, 50, 2 ^ 30], [40, 0, 40, 2 ^ 30], [50, 40, 0, 2 ^ 30],
    [2 ^ 30, 2 ^ 30, 2 ^ 30, 0]]

/-- The state of the engine of `Wide_D` with the medoids `[0, 3]`: every point is
assigned to its nearest medoid, and `dsecond` holds the distance to the other one. -/
def Wide_state : FastPAM :=
  { engine Wide_D 4 2 INIT_METHOD_PREVIOUS 1000 with
    is_initialized := true
    medoids := [0, 3]
    ismedoid := fun q => decide (q = 0 ∨ q = 3)
    nearest := fun q => if q = 3 then 1 else 0
    dnearest := fun q => if q = 3 then 0 else Wide_D q 0
    dsecond := fun q => if q = 3 then Wide_D q 0 else Wide_D q 3
    currentTD := 90 }

/-- Three points 3, 1 and 4 apart and a fourth one `2^30` away from each. -/
def Near_D : Nat → Nat → ℚ :=
  matrixOf [[0, 3, 1, 2 ^ 30], [3, 0, 4, 2 ^ 30], [1, 4, 0, 2 ^ 30],
    [2 ^ 30, 2 ^ 30, 2 ^ 30, 0]]

/-- The state of the engine of `Near_D` with the medoids `[0, 3]`. -/
def Near_state : FastPAM :=
  { engine Near_D 4 2 INIT_METHOD_PREVIOUS 1000 with
    is_initialized := true
    medoids := [0, 3]
    ismedoid := fun q => decide (q = 0 ∨ q = 3)
    nearest := fun q => if q = 3 then 1 else 0
    dnearest := fun q => if q = 3 then 0 else Near_D q 0
    dsecond := fun q => if q = 3 then Near_D q 0 else Near_D q 3
    currentTD := 4 }

/-- Four points about `2^25` apart. -/
def Flat_D : Nat → Nat → ℚ :=
  matrixOf [[0, 2 ^ 25, 2 ^ 25 - 2, 2 ^ 25], [2 ^ 25, 0, 2 ^ 25, 2 ^ 26],
    [2 ^ 25 - 2, 2 ^ 25, 0, 2 ^ 25], [2 ^ 25, 2 ^ 26, 2 ^ 25, 0]]

/-- The state of the engine of `Flat_D` with the medoids `[2, 0]`. -/
def Flat_state : FastPAM :=
  { engine Flat_D 4 2 INIT_METHOD_PREVIOUS 1000 with
    is_initialized := true
    medoids := [2, 0]
    ismedoid := fun q => decide (q = 2 ∨ q = 0)
    nearest := fun q => if q = 0 then 1 else 0
    dnearest := fun q => if q = 0 then 0 else Flat_D q 2
    dsecond := fun q => if q = 0 then Flat_D q 2 else Flat_D q 0
    currentTD := 2 ^ 26 }

/-- The state of the engine of the S1 matrix with `k = 1` and the medoid `[1]`:
`dsecond` holds `MAXD`, as FillSecond leaves it when there is no second medoid. -/
def Single_state : FastPAM :=
  { engine S1_D 4 1 INIT_METHOD_PREVIOUS 1000 with
    is_initialized := true
    medoids := [1]
    ismedoid := fun q => decide (q = 1)
    nearest := fun _ => 0
    dnearest := fun q => S1_D q 1
    dsecond := fun _ => FLT_MAX
    currentTD := 4 }

/-- Four points with all the distances between different points equal to `2^1023`, a
`double`. -/
def Huge_D : Nat → Nat → ℚ := fun i j => if i = j then 0 else 2 ^ 1023

/-- Labels of the four points of `Huge_D`: three points in cluster 0, one in cluster
1. -/
def Huge_labels : List Nat := [0, 0, 0, 1]

/-- The matrix of four points with all its entries 0. -/
def Zero_D : Nat → Nat → ℚ := fun _ _ => 0

/-! ## Vocabulary of the specification -/

namespace FastPAM

/-- The matrix is a dissimilarity matrix on the `num_obs` points: symmetric, zero on the
main diagonal and positive elsewhere. -/
def ValidD (s : FastPAM) : Prop :=
  (∀ i j, i < s.num_obs → j < s.num_obs → s.D i j = s.D j i) ∧
  (∀ i, i < s.num_obs → s.D i i = 0) ∧
  (∀ i j, i < s.num_obs → j < s.num_obs → i ≠ j → 0 < s.D i j)

/-- The sums of distances the engine forms stay below `MAXD`, the largest value of
`disttype`, which the source uses as "no distance found yet": each row of the matrix
adds up to less than `MAXD`. -/
def InRange (s : FastPAM) : Prop :=
  ∀ r, r < s.num_obs → ∑ c in Finset.range s.num_obs, s.D r c < s.MAXD

/-- Distance from point `q` to the nearest of the medoids of a list. -/
def nearestDist (D : Nat → Nat → ℚ) (q : Nat) : List Nat → ℚ
  | [] => 0
  | [m] => D q m
  | m :: m2 :: rest => min (D q m) (nearestDist D q (m2 :: rest))

/-- Total deviation of a list of medoids: the sum over all points of the distance to
the nearest medoid. -/
def totalDeviation (s : FastPAM) (meds : List Nat) : ℚ :=
  ∑ q in Finset.range s.num_obs, nearestDist s.D q meds

/-- Exact change of the total deviation when the medoid of slot `i` is replaced by the
point `x`. -/
def swapDelta (s : FastPAM) (i x : Nat) : ℚ :=
  s.totalDeviation (s.medoids.set i x) - s.totalDeviation s.medoids

/-- The invariants of the clustering state that do not involve `dsecond` (a vector
that is empty until the optimizer calls FillSecond): `medoids` holds `nmed` distinct
points, `ismedoid` marks them, and `nearest`, `dnearest` agree with them. -/
structure Assigned (s : FastPAM) : Prop where
  length_medoids : s.medoids.length = s.nmed
  medoids_lt : ∀ m, m < s.nmed → s.med m < s.num_obs
  medoids_nodup : s.medoids.Nodup
  ismedoid_iff : ∀ q, q < s.num_obs → (s.ismedoid q = true ↔ q ∈ s.medoids)
  nearest_lt : ∀ q, q < s.num_obs → s.nearest q < s.nmed
  dnearest_eq : ∀ q, q < s.num_obs → s.dnearest q = s.D q (s.med (s.nearest q))
  dnearest_le : ∀ q m, q < s.num_obs → m < s.nmed → s.dnearest q ≤ s.D q (s.med m)

/-- The state in which the constructor leaves `medoids` and `ismedoid` (lines 164 and
171-175): no medoid and no mark. -/
def Fresh (s : FastPAM) : Prop :=
  s.medoids = [] ∧ ∀ q, q < s.num_obs → s.ismedoid q = false

/-- The state of BUILD once the slots below `j` hold their medoids: these are distinct
points, the marks are theirs, `dnearest` is 0 on them and positive elsewhere, and
`currentTD` is the sum of `dnearest`. -/
structure BuildInv (t : FastPAM) (j : Nat) : Prop where
  hlen : t.medoids.length = t.nmed
  hj : j ≤ t.nmed
  hinj : ∀ m1 m2, m1 < j → m2 < j → t.med m1 = t.med m2 → m1 = m2
  hlt : ∀ m, m < j → t.med m < t.num_obs
  hmark : ∀ q, q < t.num_obs → (t.ismedoid q = true ↔ ∃ m, m < j ∧ t.med m = q)
  hzero : ∀ q, q < t.num_obs → t.ismedoid q = true → t.dnearest q = 0
  hpos : ∀ q, q < t.num_obs → t.ismedoid q = false → 0 < t.dnearest q
  hTD : t.currentTD = ∑ q in Finset.range t.num_obs, t.dnearest q

/-- The entries appended to `TDkeep` by iterations that change `currentTD`, starting
at `td`, by the amounts of the list: each is the new `currentTD` divided by `n`. -/
def tdTrail (td n : ℚ) : List ℚ → List ℚ
  | [] => []
  | d :: rest => (td + d) / n :: tdTrail (td + d) n rest

/-- The invariants of the clustering state (spec, section 3): `medoids` holds `nmed`
distinct points, `ismedoid` marks them, and `nearest`, `dnearest`, `dsecond` agree
with them. With a single medoid there is no second-closest one and `dsecond` holds
`MAXD`, as FillSecond leaves it. -/
structure Consistent (s : FastPAM) : Prop where
  length_medoids : s.medoids.length = s.nmed
  medoids_lt : ∀ m, m < s.nmed → s.med m < s.num_obs
  medoids_nodup : s.medoids.Nodup
  ismedoid_iff : ∀ q, q < s.num_obs → (s.ismedoid q = true ↔ q ∈ s.medoids)
  nearest_lt : ∀ q, q < s.num_obs → s.nearest q < s.nmed
  dnearest_eq : ∀ q, q < s.num_obs → s.dnearest q = s.D q (s.med (s.nearest q))
  dnearest_le : ∀ q m, q < s.num_obs → m < s.nmed → s.dnearest q ≤ s.D q (s.med m)
  dsecond_le : ∀ q m, q < s.num_obs → m < s.nmed → m ≠ s.nearest q →
    s.dsecond q ≤ s.D q (s.med m)
  dsecond_eq : ∀ q, q < s.num_obs →
    (∃ m, m < s.nmed ∧ m ≠ s.nearest q ∧ s.dsecond q = s.D q (s.med m)) ∨
    (s.nmed = 1 ∧ s.dsecond q = s.MAXD)

end FastPAM

/-! ## Vocabulary of the specification: the silhouette -/

/-- The points of cluster `m` among the `N` points labelled by `cl`. -/
def cluster (cl : Nat → Nat) (N m : Nat) : Finset Nat :=
  (Finset.range N).filter (fun p => cl p = m)

/-- The value `a(q)` of the specification: mean distance from `q` to the other points
of its own cluster. -/
def meanToOthers (D : Nat → Nat → ℚ) (cl : Nat → Nat) (N q : Nat) : ℚ :=
  (∑ p in (cluster cl N (cl q)).erase q, D q p) / (((cluster cl N (cl q)).erase q).card : ℚ)

/-- The value `b_m` of the specification: mean distance from `q` to the points of
cluster `m`. -/
def meanToCluster (D : Nat → Nat → ℚ) (cl : Nat → Nat) (N q m : Nat) : ℚ :=
  (∑ p in cluster cl N m, D q p) / ((cluster cl N m).card : ℚ)

namespace FastPAM

/-- The slot of the medoid of the list `newmedoids` nearest to the point `q`: the first
slot where the least of the distances from `q` to the medoids is taken. -/
def nearestUnder (s : FastPAM) (newmedoids : List Nat) (q : Nat) : Nat :=
  (scanMin (fun m => s.D q (newmedoids.getD m 0)) s.nmed (s.MAXD, s.nmed + 1)).2

/-- An exchange that names a slot, the medoid it holds and a point that is not a
medoid, and whose `DeltaTDst` is the exact change of the total deviation. -/
def ExactExchange (s : FastPAM) (e : exchange) : Prop :=
  e.imst < s.nmed ∧ e.xst < s.num_obs ∧ s.ismedoid e.xst = false ∧ e.mst = s.med e.imst ∧
    s.swapDelta e.imst e.xst = e.DeltaTDst

/-- The mean silhouette that results from the exchange `x`: the points are reassigned
to their nearest medoid once slot `imst` holds `xst`. -/
def silhouetteAfter (s : FastPAM) (nt : Nat) (x : exchange) : ℚ :=
  CalculateMeanSilhouette s.D s.num_obs (s.nearestUnder (s.medoids.set x.imst x.xst)) s.nmed nt

end FastPAM

/-! ## Loops as sums and pointwise updates -/

theorem scanMin_succ (f : Nat → ℚ) (n : Nat) (init : ℚ × Nat) :
    scanMin f (n + 1) init =
      if f n < (scanMin f n init).1 then (f n, n) else scanMin f n init := by
  simp [scanMin, List.range_succ, List.foldl_append]

/-- What the sequential search returns: a lower bound of the start value and of all
`f m`, which is either the untouched start or the first index where the least value
is taken. -/
theorem scanMin_spec (f : Nat → ℚ) (n : Nat) (v0 : ℚ) (i0 : Nat) :
    (scanMin f n (v0, i0)).1 ≤ v0 ∧
    (∀ m, m < n → (scanMin f n (v0, i0)).1 ≤ f m) ∧
    ((scanMin f n (v0, i0) = (v0, i0) ∧ ∀ m, m < n → v0 ≤ f m) ∨
     ((scanMin f n (v0, i0)).2 < n ∧
      (scanMin f n (v0, i0)).1 = f (scanMin f n (v0, i0)).2 ∧
      (scanMin f n (v0, i0)).1 < v0 ∧
      ∀ m, m < (scanMin f n (v0, i0)).2 → (scanMin f n (v0, i0)).1 < f m)) := by
  induction n with
  | zero => simp [scanMin]
  | succ n ih =>
    obtain ⟨h1, h2, h3⟩ := ih
    rw [scanMin_succ]
    by_cases hlt : f n < (scanMin f n (v0, i0)).1
    · rw [if_pos hlt]
      refine ⟨le_of_lt (lt_of_lt_of_le hlt h1), ?_, Or.inr ⟨Nat.lt_succ_self n, rfl,
        lt_of_lt_of_le hlt h1, ?_⟩⟩
      · intro m hm
        rcases Nat.lt_succ_iff_lt_or_eq.mp hm with h | h
        · exact le_of_lt (lt_of_lt_of_le hlt (h2 m h))
        · subst h; exact le_refl _
      · intro m hm
        exact lt_of_lt_of_le hlt (h2 m hm)
    · rw [if_neg hlt]
      have hle : (scanMin f n (v0, i0)).1 ≤ f n := not_lt.mp hlt
      refine ⟨h1, ?_, ?_⟩
      · intro m hm
        rcases Nat.lt_succ_iff_lt_or_eq.mp hm with h | h
        · exact h2 m h
        · subst h; exact hle
      · rcases h3 with ⟨he, hall⟩ | ⟨ha, hb, hc, hd⟩
        · left
          refine ⟨he, ?_⟩
          intro m hm
          rcases Nat.lt_succ_iff_lt_or_eq.mp hm with h | h
          · exact hall m h
          · subst h; rw [he] at hle; exact hle
        · right
          exact ⟨Nat.lt_succ_of_lt ha, hb, hc, hd⟩

/-- The sequential search when some value lies below the start value: the first index
where the least value is taken. -/
theorem scanMin_found (f : Nat → ℚ) (n : Nat) (v0 : ℚ) (i0 : Nat)
    (h : ∃ m, m < n ∧ f m < v0) :
    (scanMin f n (v0, i0)).2 < n ∧
    (scanMin f n (v0, i0)).1 = f (scanMin f n (v0, i0)).2 ∧
    (∀ m, m < n → (scanMin f n (v0, i0)).1 ≤ f m) ∧
    (∀ m, m < (scanMin f n (v0, i0)).2 → (scanMin f n (v0, i0)).1 < f m) := by
  obtain ⟨_, h2, h3⟩ := scanMin_spec f n v0 i0
  obtain ⟨m, hm, hlt⟩ := h
  rcases h3 with ⟨_, hall⟩ | ⟨ha, hb, _, hd⟩
  · exact absurd (hall m hm) (not_le.mpr hlt)
  · exact ⟨ha, hb, h2, hd⟩

/-- A loop that writes `g q` at every index `q` of a list. -/
theorem foldl_update_apply {β : Type} (g : Nat → β) (l : List Nat) (f0 : Nat → β) (x : Nat) :
    (l.foldl (fun arr q => Function.update arr q (g q)) f0) x =
      if x ∈ l then g x else f0 x := by
  induction l generalizing f0 with
  | nil => simp
  | cons a l ih =>
    simp only [List.foldl_cons, ih, List.mem_cons]
    by_cases hx : x ∈ l
    · simp [hx]
    · by_cases hxa : x = a
      · subst hxa; simp [hx]
      · simp [hx, hxa, Function.update_noteq hxa]

/-- An accumulation loop with a guard is a sum of guarded terms. -/
theorem foldl_guard_add (c : Nat → Prop) [DecidablePred c] (g : Nat → ℚ) (n : Nat) (a : ℚ) :
    (List.range n).foldl (fun acc q => if c q then acc + g q else acc) a =
      a + ∑ q in Finset.range n, (if c q then g q else 0) := by
  induction n with
  | zero => simp
  | succ n ih =>
    rw [List.range_succ, List.foldl_append, ih, Finset.sum_range_succ]
    by_cases h : c n
    · simp [h]; ring
    · simp [h]

/-- An accumulation loop is a sum. -/
theorem foldl_add (g : Nat → ℚ) (n : Nat) (a : ℚ) :
    (List.range n).foldl (fun acc q => acc + g q) a = a + ∑ q in Finset.range n, g q := by
  induction n with
  | zero => simp
  | succ n ih =>
    rw [List.range_succ, List.foldl_append, ih, Finset.sum_range_succ]
    simp; ring

theorem list_sum_map_range (g : Nat → ℚ) (n : Nat) :
    ((List.range n).map g).sum = ∑ q in Finset.range n, g q := by
  induction n with
  | zero => simp
  | succ n ih => rw [List.range_succ, List.map_append, List.sum_append, ih,
      Finset.sum_range_succ]; simp

namespace FastPAM

/-! ## InitializeInternals -/

/-- The loop of InitializeInternals, when no point is left without a closest medoid:
every point of the list gets the result of its search and the distances add up. -/
theorem initLoop_ok (l : List Nat) (s : FastPAM)
    (h : ∀ q, q ∈ l → (s.closestSearch q).2 ≤ s.nmed) :
    initLoop l s = .ok
      { s with nearest := fun x => if x ∈ l then (s.closestSearch x).2 else s.nearest x,
               dnearest := fun x => if x ∈ l then (s.closestSearch x).1 else s.dnearest x,
               currentTD := s.currentTD + (l.map (fun q => (s.closestSearch q).1)).sum } := by
  induction l generalizing s with
  | nil => simp [initLoop]
  | cons a l ih =>
    have ha : ¬ (s.closestSearch a).2 > s.nmed := not_lt.mpr (h a (List.mem_cons_self a l))
    simp only [initLoop, if_neg ha]
    rw [ih]
    · congr 2
      · funext x
        show (if x ∈ l then (s.closestSearch x).2
          else Function.update s.nearest a (s.closestSearch a).2 x) = _
        by_cases hx : x ∈ l
        · simp [hx]
        · by_cases hxa : x = a
          · subst hxa; simp [hx]
          · simp [hx, hxa, Function.update_noteq hxa]
      · funext x
        show (if x ∈ l then (s.closestSearch x).1
          else Function.update s.dnearest a (s.closestSearch a).1 x) = _
        by_cases hx : x ∈ l
        · simp [hx]
        · by_cases hxa : x = a
          · subst hxa; simp [hx]
          · simp [hx, hxa, Function.update_noteq hxa]
      · show s.currentTD + (s.closestSearch a).1 +
            (l.map (fun q => (s.closestSearch q).1)).sum = _
        simp [List.sum_cons]; ring
    · intro q hq
      exact h q (List.mem_cons_of_mem a hq)

/-- The search of InitializeInternals for a point that has a medoid closer than `MAXD`. -/
theorem closestSearch_found (s : FastPAM) (q : Nat)
    (h : ∃ m, m < s.nmed ∧ s.D q (s.med m) < s.MAXD) :
    (s.closestSearch q).2 < s.nmed ∧
    (s.closestSearch q).1 = s.D q (s.med (s.closestSearch q).2) ∧
    (∀ m, m < s.nmed → (s.closestSearch q).1 ≤ s.D q (s.med m)) ∧
    (∀ m, m < (s.closestSearch q).2 → (s.closestSearch q).1 < s.D q (s.med m)) :=
  scanMin_found (fun m => s.D q (s.med m)) s.nmed s.MAXD (s.nmed + 1) h

/-- InitializeInternals when every point has a medoid closer than `MAXD`: it returns;
the marks are recomputed, `nearest` and `dnearest` hold the result of the search for
every point, `currentTD` is the sum of `dnearest`, and the rest is as before. -/
theorem InitializeInternals_fields (s : FastPAM)
    (hfound : ∀ q, q < s.num_obs → ∃ m, m < s.nmed ∧ s.D q (s.med m) < s.MAXD) :
    ∃ s1, s.InitializeInternals = .ok s1 ∧ s1.D = s.D ∧ s1.num_obs = s.num_obs ∧
      s1.nmed = s.nmed ∧ s1.MAXD = s.MAXD ∧ s1.maxiter = s.maxiter ∧
      s1.method = s.method ∧ s1.medoids = s.medoids ∧ s1.TDkeep = s.TDkeep ∧
      s1.NpointsChangekeep = s.NpointsChangekeep ∧
      s1.is_initialized = s.is_initialized ∧ s1.ismedoid = s.markMedoids ∧
      (∀ q, q < s.num_obs → s1.nearest q = (s.closestSearch q).2) ∧
      (∀ q, q < s.num_obs → s1.dnearest q = (s.closestSearch q).1) ∧
      s1.currentTD = ∑ q in Finset.range s.num_obs, s1.dnearest q := by
  have hok := initLoop_ok (List.range s.num_obs)
    { s with ismedoid := s.markMedoids, currentTD := 0 }
    (fun q hq => le_of_lt (closestSearch_found s q (hfound q (List.mem_range.mp hq))).1)
  refine ⟨_, hok, rfl, rfl, rfl, rfl, rfl, rfl, rfl, rfl, rfl, rfl, rfl, ?_, ?_, ?_⟩
  · intro q hq
    have hmem : q ∈ List.range s.num_obs := List.mem_range.mpr hq
    simp only [if_pos hmem]
    rfl
  · intro q hq
    have hmem : q ∈ List.range s.num_obs := List.mem_range.mpr hq
    simp only [if_pos hmem]
    rfl
  · show (0 : ℚ) + _ = _
    rw [zero_add, list_sum_map_range]
    apply Finset.sum_congr rfl
    intro q hq
    have hmem : q ∈ List.range s.num_obs := List.mem_range.mpr (Finset.mem_range.mp hq)
    simp only [if_pos hmem]

end FastPAM

/-! ## Distance to the nearest medoid of a list -/

theorem getD_set_slot (l : List Nat) (i j a : Nat) (hj : j < l.length) :
    (l.set i a).getD j 0 = if j = i then a else l.getD j 0 := by
  simp only [List.getD_eq_getElem?_getD, List.getElem?_set]
  by_cases hji : j = i
  · subst hji; simp [hj]
  · have hij : ¬ i = j := fun h => hji h.symm
    simp [hji, hij]

namespace FastPAM

theorem nearestDist_le (D : Nat → Nat → ℚ) (q : Nat) (l : List Nat) :
    ∀ j, j < l.length → nearestDist D q l ≤ D q (l.getD j 0) := by
  induction l with
  | nil => intro j hj; simp at hj
  | cons m rest ih =>
    intro j hj
    cases rest with
    | nil =>
      have : j = 0 := by simpa using hj
      subst this; simp [nearestDist]
    | cons m2 r =>
      cases j with
      | zero => simp [nearestDist]
      | succ j =>
        have hj2 : j < (m2 :: r).length := by simpa using hj
        have := ih j hj2
        simp only [nearestDist, List.getD_cons_succ]
        exact le_trans (min_le_right _ _) this

theorem nearestDist_attained (D : Nat → Nat → ℚ) (q : Nat) (l : List Nat) (hl : l ≠ []) :
    ∃ j, j < l.length ∧ nearestDist D q l = D q (l.getD j 0) := by
  induction l with
  | nil => exact absurd rfl hl
  | cons m rest ih =>
    cases rest with
    | nil => exact ⟨0, by simp, by simp [nearestDist]⟩
    | cons m2 r =>
      obtain ⟨j, hj, hje⟩ := ih (by simp)
      by_cases hle : D q m ≤ nearestDist D q (m2 :: r)
      · exact ⟨0, by simp, by simp [nearestDist, min_eq_left hle]⟩
      · refine ⟨j + 1, by simpa using hj, ?_⟩
        simp only [nearestDist, List.getD_cons_succ]
        rw [min_eq_right (le_of_lt (not_le.mp hle))]
        exact hje

/-- A lower bound of the distances to the medoids of a list that is one of them is
the distance to the nearest medoid. -/
theorem nearestDist_unique (D : Nat → Nat → ℚ) (q : Nat) (l : List Nat) (v : ℚ)
    (hle : ∀ j, j < l.length → v ≤ D q (l.getD j 0))
    (hat : ∃ j, j < l.length ∧ v = D q (l.getD j 0)) :
    nearestDist D q l = v := by
  obtain ⟨j, hj, hje⟩ := hat
  have hl : l ≠ [] := by
    intro h; subst h; simp at hj
  obtain ⟨j2, hj2, hj2e⟩ := nearestDist_attained D q l hl
  apply le_antisymm
  · rw [hje]; exact nearestDist_le D q l j hj
  · rw [hj2e]; exact hle j2 hj2

end FastPAM

namespace FastPAM

/-! ## The arrays of one FASTPAM1 iteration as sums -/

theorem DeltaTDminus_apply (s : FastPAM) (m : Nat) (hm : m < s.nmed) :
    s.DeltaTDminus m =
      ∑ q in Finset.range s.num_obs,
        (if s.nearest q = m then s.dsecond q - s.dnearest q else 0) := by
  unfold DeltaTDminus
  rw [foldl_update_apply (fun m => (List.range s.num_obs).foldl
    (fun acc q => if s.nearest q = m then acc + (s.dsecond q - s.dnearest q) else acc) 0)]
  rw [if_pos (List.mem_range.mpr hm), foldl_guard_add, zero_add]

theorem foldl_scanPoint (s : FastPAM) (xc n : Nat) (A0 : Nat → ℚ) (p0 : ℚ) :
    (∀ m, ((List.range n).foldl (s.scanPoint xc) (A0, p0)).1 m =
      A0 m + ∑ x0 in Finset.range n,
        (if s.nearest x0 = m then
          (if s.D x0 xc < s.dnearest x0 then s.dnearest x0 - s.dsecond x0
           else if s.D x0 xc < s.dsecond x0 then s.D x0 xc - s.dsecond x0 else 0)
         else 0)) ∧
    ((List.range n).foldl (s.scanPoint xc) (A0, p0)).2 =
      p0 + ∑ x0 in Finset.range n,
        (if s.D x0 xc < s.dnearest x0 then s.D x0 xc - s.dnearest x0 else 0) := by
  induction n with
  | zero => simp
  | succ n ih =>
    obtain ⟨ih1, ih2⟩ := ih
    rw [List.range_succ, List.foldl_append, List.foldl_cons, List.foldl_nil]
    simp only [Finset.sum_range_succ]
    generalize (List.range n).foldl (s.scanPoint xc) (A0, p0) = acc at ih1 ih2 ⊢
    unfold scanPoint
    by_cases h1 : s.D n xc < s.dnearest n
    · simp only [if_pos h1]
      refine ⟨?_, by rw [ih2]; ring⟩
      intro m
      by_cases hm : s.nearest n = m
      · subst hm
        simp only [Function.update_same, if_true, ih1]; ring
      · have hm2 : m ≠ s.nearest n := fun h => hm h.symm
        simp only [Function.update_noteq hm2, if_neg hm, ih1]; ring
    · simp only [if_neg h1]
      by_cases h2 : s.D n xc < s.dsecond n
      · simp only [if_pos h2]
        refine ⟨?_, by rw [ih2]; ring⟩
        intro m
        by_cases hm : s.nearest n = m
        · subst hm
          simp only [Function.update_same, if_true, ih1]; ring
        · have hm2 : m ≠ s.nearest n := fun h => hm h.symm
          simp only [Function.update_noteq hm2, if_neg hm, ih1]; ring
      · simp only [if_neg h2]
        refine ⟨?_, by rw [ih2]; ring⟩
        intro m
        by_cases hm : s.nearest n = m
        · simp only [if_pos hm, ih1]; ring
        · simp only [if_neg hm, ih1]; ring

end FastPAM

namespace FastPAM

/-! ## The exact change of the total deviation -/

theorem ValidD.nonneg {s : FastPAM} (hv : s.ValidD) (i j : Nat)
    (hi : i < s.num_obs) (hj : j < s.num_obs) : 0 ≤ s.D i j := by
  by_cases h : i = j
  · subst h; rw [hv.2.1 i hi]
  · exact le_of_lt (hv.2.2 i j hi hj h)

theorem entry_lt_MAXD {s : FastPAM} (hv : s.ValidD) (hr : s.InRange) (i j : Nat)
    (hi : i < s.num_obs) (hj : j < s.num_obs) : s.D i j < s.MAXD := by
  refine lt_of_le_of_lt ?_ (hr i hi)
  exact Finset.single_le_sum (f := fun c => s.D i c)
    (fun c hc => hv.nonneg i c hi (Finset.mem_range.mp hc)) (Finset.mem_range.mpr hj)

theorem Consistent.dnearest_nonneg {s : FastPAM} (hv : s.ValidD) (hc : s.Consistent)
    (q : Nat) (hq : q < s.num_obs) : 0 ≤ s.dnearest q := by
  rw [hc.dnearest_eq q hq]
  exact hv.nonneg q _ hq (hc.medoids_lt _ (hc.nearest_lt q hq))

/-- In a consistent state `dnearest[q]` is the distance to the nearest medoid. -/
theorem Consistent.nearestDist_medoids {s : FastPAM} (hc : s.Consistent)
    (q : Nat) (hq : q < s.num_obs) : nearestDist s.D q s.medoids = s.dnearest q := by
  apply nearestDist_unique
  · intro j hj
    rw [hc.length_medoids] at hj
    exact hc.dnearest_le q j hq hj
  · refine ⟨s.nearest q, ?_, hc.dnearest_eq q hq⟩
    rw [hc.length_medoids]; exact hc.nearest_lt q hq

/-- In a consistent state `currentTD`, when it is the sum of `dnearest`, is the total
deviation of the medoids. -/
theorem Consistent.totalDeviation_medoids {s : FastPAM} (hc : s.Consistent) :
    s.totalDeviation s.medoids = ∑ q in Finset.range s.num_obs, s.dnearest q :=
  Finset.sum_congr rfl (fun q hq => hc.nearestDist_medoids q (Finset.mem_range.mp hq))

/-- Distance from `q` to the nearest medoid once slot `i` holds the point `xc`. -/
theorem Consistent.nearestDist_set {s : FastPAM} (hv : s.ValidD) (hr : s.InRange)
    (hc : s.Consistent) (q i xc : Nat) (hq : q < s.num_obs) (hi : i < s.nmed)
    (hxc : xc < s.num_obs) :
    nearestDist s.D q (s.medoids.set i xc) =
      if s.nearest q = i then min (s.D q xc) (s.dsecond q)
      else min (s.D q xc) (s.dnearest q) := by
  have hlen : (s.medoids.set i xc).length = s.nmed := by
    rw [List.length_set]; exact hc.length_medoids
  have hget : ∀ j, j < s.nmed →
      (s.medoids.set i xc).getD j 0 = if j = i then xc else s.med j := by
    intro j hj
    exact getD_set_slot s.medoids i j xc (by rw [hc.length_medoids]; exact hj)
  apply nearestDist_unique
  · intro j hj
    rw [hlen] at hj
    rw [hget j hj]
    by_cases hji : j = i
    · rw [if_pos hji]
      split_ifs <;> exact min_le_left _ _
    · rw [if_neg hji]
      by_cases hn : s.nearest q = i
      · rw [if_pos hn]
        exact le_trans (min_le_right _ _)
          (hc.dsecond_le q j hq hj (fun h => hji (h.trans hn)))
      · rw [if_neg hn]
        exact le_trans (min_le_right _ _) (hc.dnearest_le q j hq hj)
  · by_cases hn : s.nearest q = i
    · rw [if_pos hn]
      by_cases hle : s.D q xc ≤ s.dsecond q
      · refine ⟨i, by rw [hlen]; exact hi, ?_⟩
        rw [hget i hi, if_pos rfl, min_eq_left hle]
      · have hlt : s.dsecond q < s.D q xc := not_le.mp hle
        rcases hc.dsecond_eq q hq with ⟨m, hm, hmn, hme⟩ | ⟨_, hM⟩
        · refine ⟨m, by rw [hlen]; exact hm, ?_⟩
          rw [hget m hm, if_neg (fun h => hmn (h.trans hn.symm)),
            min_eq_right (le_of_lt hlt)]
          exact hme
        · have := entry_lt_MAXD hv hr q xc hq hxc
          rw [hM] at hlt
          exact absurd this (not_lt.mpr (le_of_lt hlt))
    · rw [if_neg hn]
      by_cases hle : s.D q xc ≤ s.dnearest q
      · refine ⟨i, by rw [hlen]; exact hi, ?_⟩
        rw [hget i hi, if_pos rfl, min_eq_left hle]
      · refine ⟨s.nearest q, by rw [hlen]; exact hc.nearest_lt q hq, ?_⟩
        rw [hget _ (hc.nearest_lt q hq), if_neg hn,
          min_eq_right (le_of_lt (not_le.mp hle))]
        exact hc.dnearest_eq q hq

end FastPAM

namespace FastPAM

theorem Consistent.dnearest_le_dsecond {s : FastPAM} (hv : s.ValidD) (hr : s.InRange)
    (hc : s.Consistent) (q : Nat) (hq : q < s.num_obs) : s.dnearest q ≤ s.dsecond q := by
  rcases hc.dsecond_eq q hq with ⟨m, hm, _, hme⟩ | ⟨_, hM⟩
  · rw [hme]; exact hc.dnearest_le q m hq hm
  · rw [hM, hc.dnearest_eq q hq]
    exact le_of_lt (entry_lt_MAXD hv hr q _ hq (hc.medoids_lt _ (hc.nearest_lt q hq)))

theorem scanCandidate_fst (s : FastPAM) (xc m : Nat) (hm : m < s.nmed) :
    (s.scanCandidate s.DeltaTDminus xc).1 m =
      ∑ q in Finset.range s.num_obs,
        ((if s.nearest q = m then s.dsecond q - s.dnearest q else 0) +
         (if s.nearest q = m then
            (if s.D q xc < s.dnearest q then s.dnearest q - s.dsecond q
             else if s.D q xc < s.dsecond q then s.D q xc - s.dsecond q else 0)
          else 0)) := by
  unfold scanCandidate
  rw [(foldl_scanPoint s xc s.num_obs _ 0).1 m, foldl_update_apply s.DeltaTDminus,
    if_pos (List.mem_range.mpr hm), DeltaTDminus_apply s m hm, Finset.sum_add_distrib]

theorem scanCandidate_snd (s : FastPAM) (A : Nat → ℚ) (xc : Nat) :
    (s.scanCandidate A xc).2 =
      ∑ q in Finset.range s.num_obs,
        (if s.D q xc < s.dnearest q then s.D q xc - s.dnearest q else 0) := by
  unfold scanCandidate
  rw [(foldl_scanPoint s xc s.num_obs _ 0).2, zero_add]

/-- The value the source compares for slot `m` and candidate `xc`, `DeltaTD[m]` plus
`DeltaTDplusxc`, is the exact change of the total deviation caused by putting `xc` in
slot `m`. -/
theorem scanCandidate_total {s : FastPAM} (hv : s.ValidD) (hr : s.InRange)
    (hc : s.Consistent) (xc m : Nat) (hxc : xc < s.num_obs) (hm : m < s.nmed) :
    (s.scanCandidate s.DeltaTDminus xc).1 m + (s.scanCandidate s.DeltaTDminus xc).2 =
      s.swapDelta m xc := by
  rw [scanCandidate_fst s xc m hm, scanCandidate_snd, ← Finset.sum_add_distrib]
  unfold swapDelta totalDeviation
  rw [← Finset.sum_sub_distrib]
  apply Finset.sum_congr rfl
  intro q hq
  have hq2 : q < s.num_obs := Finset.mem_range.mp hq
  rw [hc.nearestDist_set hv hr q m xc hq2 hm hxc, hc.nearestDist_medoids q hq2]
  have h12 := hc.dnearest_le_dsecond hv hr q hq2
  by_cases hn : s.nearest q = m
  · simp only [if_pos hn]
    by_cases h1 : s.D q xc < s.dnearest q
    · simp only [if_pos h1]
      rw [min_eq_left (le_of_lt (lt_of_lt_of_le h1 h12))]; ring
    · simp only [if_neg h1]
      by_cases h2 : s.D q xc < s.dsecond q
      · simp only [if_pos h2]
        rw [min_eq_left (le_of_lt h2)]; ring
      · simp only [if_neg h2]
        rw [min_eq_right (not_lt.mp h2)]; ring
  · simp only [if_neg hn]
    by_cases h1 : s.D q xc < s.dnearest q
    · simp only [if_pos h1]
      rw [min_eq_left (le_of_lt h1)]; ring
    · simp only [if_neg h1]
      rw [min_eq_right (not_lt.mp h1)]; ring

/-- The entries of `DeltaTD` stay below `MAXD`, so that the search of line 1067 finds
a slot. -/
theorem scanCandidate_fst_lt {s : FastPAM} (hv : s.ValidD) (hr : s.InRange)
    (hc : s.Consistent) (xc m : Nat) (hxc : xc < s.num_obs) (hm : m < s.nmed) :
    (s.scanCandidate s.DeltaTDminus xc).1 m < s.MAXD := by
  rw [scanCandidate_fst s xc m hm]
  refine lt_of_le_of_lt ?_ (hr xc hxc)
  apply Finset.sum_le_sum
  intro q hq
  have hq2 : q < s.num_obs := Finset.mem_range.mp hq
  have h12 := hc.dnearest_le_dsecond hv hr q hq2
  have h0 := hc.dnearest_nonneg hv q hq2
  have hd := hv.nonneg q xc hq2 hxc
  rw [hv.1 xc q hxc hq2]
  by_cases hn : s.nearest q = m
  · simp only [if_pos hn]
    by_cases h1 : s.D q xc < s.dnearest q
    · simp only [if_pos h1]; linarith
    · simp only [if_neg h1]
      by_cases h2 : s.D q xc < s.dsecond q
      · simp only [if_pos h2]; linarith
      · simp only [if_neg h2]; linarith [not_lt.mp h2]
  · simp only [if_neg hn]; linarith

end FastPAM

namespace FastPAM

/-! ## The best exchange of one iteration -/

/-- Lines 1048-1074 for one candidate: the slot chosen is the lowest one where the
exact change of the total deviation is least, and the value kept is that change. -/
theorem candidateBest_spec {s : FastPAM} (hv : s.ValidD) (hr : s.InRange)
    (hc : s.Consistent) (xc : Nat) (hxc : xc < s.num_obs) :
    ∃ r, s.candidateBest s.DeltaTDminus xc = .ok r ∧ r.2 < s.nmed ∧
      r.1 = s.swapDelta r.2 xc ∧
      (∀ m, m < s.nmed → r.1 ≤ s.swapDelta m xc) ∧
      (∀ m, m < r.2 → r.1 < s.swapDelta m xc) := by
  have hk : 0 < s.nmed := lt_of_le_of_lt (Nat.zero_le _) (hc.nearest_lt xc hxc)
  obtain ⟨h1, h2, h3, h4⟩ := scanMin_found (s.scanCandidate s.DeltaTDminus xc).1 s.nmed
    s.MAXD (s.nmed + 1) ⟨0, hk, scanCandidate_fst_lt hv hr hc xc 0 hxc hk⟩
  refine ⟨((s.scanCandidate s.DeltaTDminus xc).1
      (scanMin (s.scanCandidate s.DeltaTDminus xc).1 s.nmed (s.MAXD, s.nmed + 1)).2 +
      (s.scanCandidate s.DeltaTDminus xc).2,
      (scanMin (s.scanCandidate s.DeltaTDminus xc).1 s.nmed (s.MAXD, s.nmed + 1)).2),
    by unfold candidateBest; simp only [if_pos h1], h1, ?_, ?_, ?_⟩
  · exact scanCandidate_total hv hr hc xc _ hxc h1
  · intro m hm
    rw [← scanCandidate_total hv hr hc xc m hxc hm]
    have := h3 m hm
    rw [h2] at this
    simp only
    linarith
  · intro m hm
    simp only at hm ⊢
    rw [← scanCandidate_total hv hr hc xc m hxc (lt_trans hm h1)]
    have := h4 m hm
    rw [h2] at this
    linarith

theorem exploreCandidates_append (s : FastPAM) (A : Nat → ℚ) (l1 l2 : List Nat)
    (b : exchange) :
    s.exploreCandidates A (l1 ++ l2) b =
      match s.exploreCandidates A l1 b with
      | .error e => .error e
      | .ok e1 => s.exploreCandidates A l2 e1 := by
  induction l1 generalizing b with
  | nil => simp [exploreCandidates]
  | cons a l ih =>
    simp only [List.cons_append, exploreCandidates]
    by_cases ha : s.ismedoid a = false
    · simp only [if_pos ha]
      cases hcb : s.candidateBest A a with
      | error e => simp
      | ok r => exact ih _
    · simp only [if_neg ha]
      exact ih _

/-- The loop on the candidates, after the points below `n`: the exchange kept has the
least change among the pairs seen, and when it is not the starting record it is the
first pair, by candidate and then by slot, where that least change is taken. -/
theorem exploreCandidates_range {s : FastPAM} (hv : s.ValidD) (hr : s.InRange)
    (hc : s.Consistent) (b : exchange) (n : Nat) (hn : n ≤ s.num_obs) :
    ∃ e, s.exploreCandidates s.DeltaTDminus (List.range n) b = .ok e ∧
      e.DeltaTDst ≤ b.DeltaTDst ∧
      (∀ x i, x < n → s.ismedoid x = false → i < s.nmed → e.DeltaTDst ≤ s.swapDelta i x) ∧
      (e = b ∨
        (e.DeltaTDst < b.DeltaTDst ∧ e.xst < n ∧ s.ismedoid e.xst = false ∧
          e.imst < s.nmed ∧ e.mst = s.med e.imst ∧
          e.DeltaTDst = s.swapDelta e.imst e.xst ∧
          (∀ x i, x < e.xst → s.ismedoid x = false → i < s.nmed →
            e.DeltaTDst < s.swapDelta i x) ∧
          (∀ i, i < e.imst → e.DeltaTDst < s.swapDelta i e.xst))) := by
  induction n with
  | zero =>
    refine ⟨b, by simp [exploreCandidates], le_refl _, ?_, Or.inl rfl⟩
    intro x i hx; exact absurd hx (Nat.not_lt_zero x)
  | succ n ih =>
    obtain ⟨e, he, h1, h2, h3⟩ := ih (Nat.le_of_succ_le hn)
    have hn2 : n < s.num_obs := hn
    rw [List.range_succ, exploreCandidates_append, he]
    simp only [exploreCandidates]
    by_cases hmed : s.ismedoid n = false
    · obtain ⟨r, hr1, hr2, hr3, hr4, hr5⟩ := candidateBest_spec hv hr hc n hn2
      simp only [if_pos hmed, hr1]
      by_cases hlt : r.1 < e.DeltaTDst
      · simp only [if_pos hlt]
        refine ⟨_, rfl, le_of_lt (lt_of_lt_of_le hlt h1), ?_, Or.inr ⟨lt_of_lt_of_le hlt h1,
          Nat.lt_succ_self n, hmed, hr2, rfl, hr3, ?_, hr5⟩⟩
        · intro x i hx hxm hi
          rcases Nat.lt_succ_iff_lt_or_eq.mp hx with h | h
          · exact le_of_lt (lt_of_lt_of_le hlt (h2 x i h hxm hi))
          · subst h; exact hr4 i hi
        · intro x i hx hxm hi
          exact lt_of_lt_of_le hlt (h2 x i hx hxm hi)
      · simp only [if_neg hlt]
        refine ⟨e, rfl, h1, ?_, ?_⟩
        · intro x i hx hxm hi
          rcases Nat.lt_succ_iff_lt_or_eq.mp hx with h | h
          · exact h2 x i h hxm hi
          · subst h; exact le_trans (not_lt.mp hlt) (hr4 i hi)
        · rcases h3 with h | ⟨a1, a2, a3, a4, a5, a6, a7, a8⟩
          · exact Or.inl h
          · exact Or.inr ⟨a1, Nat.lt_succ_of_lt a2, a3, a4, a5, a6, a7, a8⟩
    · simp only [if_neg hmed]
      refine ⟨e, rfl, h1, ?_, ?_⟩
      · intro x i hx hxm hi
        rcases Nat.lt_succ_iff_lt_or_eq.mp hx with h | h
        · exact h2 x i h hxm hi
        · subst h; exact absurd hxm hmed
      · rcases h3 with h | ⟨a1, a2, a3, a4, a5, a6, a7, a8⟩
        · exact Or.inl h
        · exact Or.inr ⟨a1, Nat.lt_succ_of_lt a2, a3, a4, a5, a6, a7, a8⟩

end FastPAM

namespace FastPAM

/-- The exchange recorded by one iteration over a consistent state: what lines
1029-1084 leave in `DeltaTDst`, `mst`, `xst` and `imst`. -/
theorem findBestExchange_spec (s : FastPAM) (hv : s.ValidD) (hr : s.InRange)
    (hc : s.Consistent) :
    ∃ e, s.findBestExchange = .ok e ∧ e.DeltaTDst ≤ 0 ∧
      (∀ i x, i < s.nmed → x < s.num_obs → s.ismedoid x = false →
        e.DeltaTDst ≤ s.swapDelta i x) ∧
      ((e.DeltaTDst = 0 ∧ e.mst = s.num_obs + 1 ∧ e.xst = s.num_obs + 1 ∧
          e.imst = s.nmed + 1) ∨
       (e.DeltaTDst < 0 ∧ e.imst < s.nmed ∧ e.xst < s.num_obs ∧
          s.ismedoid e.xst = false ∧ e.mst = s.med e.imst ∧
          s.swapDelta e.imst e.xst = e.DeltaTDst ∧
          ∀ i x, i < s.nmed → x < s.num_obs → s.ismedoid x = false →
            s.swapDelta i x = e.DeltaTDst → e.xst < x ∨ (e.xst = x ∧ e.imst ≤ i))) := by
  obtain ⟨e, he, h1, h2, h3⟩ := exploreCandidates_range hv hr hc
    ⟨0, s.num_obs + 1, s.num_obs + 1, s.nmed + 1⟩ s.num_obs (le_refl _)
  refine ⟨e, he, h1, fun i x hi hx hxm => h2 x i hx hxm hi, ?_⟩
  rcases h3 with h | ⟨a1, a2, a3, a4, a5, a6, a7, a8⟩
  · left; subst h; exact ⟨rfl, rfl, rfl, rfl⟩
  · right
    refine ⟨a1, a4, a2, a3, a5, a6.symm, ?_⟩
    intro i x hi hx hxm heq
    rcases Nat.lt_trichotomy e.xst x with h | h | h
    · exact Or.inl h
    · right
      refine ⟨h, ?_⟩
      by_contra hlt
      have := a8 i (not_le.mp hlt)
      rw [h, heq] at this
      exact lt_irrefl _ this
    · have := a7 x i h hxm hi
      rw [heq] at this
      exact absurd this (lt_irrefl _)

/-- C2. In exact arithmetic and with at least two medoids: when an iteration over a
consistent state ends the loop because the recorded `DeltaTDst` is not negative, the
loop returns the state as it is, and no replacement of the medoid of a slot by a
non-medoid point gives a smaller total deviation. States with a single medoid are left
out: there `dsecond` holds the mark `MAXD`, and the sums of the source are sums of
marks. -/
theorem halt_is_local_optimum (s : FastPAM) (hv : s.ValidD) (hr : s.InRange)
    (hc : s.Consistent) (hk : 2 ≤ s.nmed) (e : exchange) (he : s.findBestExchange = .ok e)
    (hhalt : 0 ≤ e.DeltaTDst) (tol_limit : ℚ) (fuel iteration : Nat) :
    swapLoop tol_limit (fuel + 1) iteration s = .ok (s, iteration) ∧
    ∀ i x, i < s.nmed → x < s.num_obs → s.ismedoid x = false →
      s.totalDeviation s.medoids ≤ s.totalDeviation (s.medoids.set i x) := by
  have _ := hk
  constructor
  · simp only [swapLoop, he]
    rw [if_pos hhalt]
  · intro i x hi hx hxm
    obtain ⟨e2, he2, _, h2, _⟩ := findBestExchange_spec s hv hr hc
    rw [he] at he2
    cases he2
    have := h2 i x hi hx hxm
    unfold swapDelta at this
    linarith

/-- C3. In exact arithmetic and with at least two medoids, one FASTPAM1 iteration over
a consistent state records the best exchange: the
recorded `DeltaTDst` is at most 0 and at most the exact change of the total deviation
of every pair (slot `i`, non-medoid `x`); either nothing was recorded and `DeltaTDst`
is 0, or `DeltaTDst` is negative and is the exact change of the recorded pair
(`imst`, `xst`), with `mst = medoids[imst]`, and every pair with the same change has a
higher candidate, or the same candidate and a slot that is not lower. -/
theorem findBestExchange_best (s : FastPAM) (hv : s.ValidD) (hr : s.InRange)
    (hc : s.Consistent) (hk : 2 ≤ s.nmed) :
    ∃ e, s.findBestExchange = .ok e ∧ e.DeltaTDst ≤ 0 ∧
      (∀ i x, i < s.nmed → x < s.num_obs → s.ismedoid x = false →
        e.DeltaTDst ≤ s.swapDelta i x) ∧
      ((e.DeltaTDst = 0 ∧ e.mst = s.num_obs + 1 ∧ e.xst = s.num_obs + 1 ∧
          e.imst = s.nmed + 1) ∨
       (e.DeltaTDst < 0 ∧ e.imst < s.nmed ∧ e.xst < s.num_obs ∧
          s.ismedoid e.xst = false ∧ e.mst = s.med e.imst ∧
          s.swapDelta e.imst e.xst = e.DeltaTDst ∧
          ∀ i x, i < s.nmed → x < s.num_obs → s.ismedoid x = false →
            s.swapDelta i x = e.DeltaTDst → e.xst < x ∨ (e.xst = x ∧ e.imst ≤ i))) := by
  have _ := hk
  exact findBestExchange_spec s hv hr hc

end FastPAM

/-! ## SwapRolesAndUpdate and FillSecond -/

/-- The sequential search does not depend on the index it starts with once some value
lies below the start value. -/
theorem scanMin_start (f : Nat → ℚ) (n : Nat) (v0 : ℚ) (i0 i1 : Nat)
    (h : ∃ m, m < n ∧ f m < v0) :
    scanMin f n (v0, i0) = scanMin f n (v0, i1) := by
  obtain ⟨a1, a2, a3, a4⟩ := scanMin_found f n v0 i0 h
  obtain ⟨b1, b2, b3, b4⟩ := scanMin_found f n v0 i1 h
  have hidx : (scanMin f n (v0, i0)).2 = (scanMin f n (v0, i1)).2 := by
    rcases Nat.lt_trichotomy (scanMin f n (v0, i0)).2 (scanMin f n (v0, i1)).2 with h1 | h1 | h1
    · have := b4 _ h1
      rw [← a2] at this
      exact absurd (a3 _ b1) (not_le.mpr (by rw [← b2]; exact this))
    · exact h1
    · have := a4 _ h1
      rw [← b2] at this
      exact absurd (b3 _ a1) (not_le.mpr (by rw [← a2]; exact this))
  apply Prod.ext
  · rw [a2, b2, hidx]
  · exact hidx

namespace FastPAM

theorem secondSearch_fold (s : FastPAM) (q n : Nat) :
    (∀ m, m < n → m ≠ s.nearest q →
      (List.range n).foldl
        (fun minseconddist m =>
          if m ≠ s.nearest q then
            (if s.D q (s.med m) < minseconddist then s.D q (s.med m) else minseconddist)
          else minseconddist) s.MAXD ≤ s.D q (s.med m)) ∧
    (((List.range n).foldl
        (fun minseconddist m =>
          if m ≠ s.nearest q then
            (if s.D q (s.med m) < minseconddist then s.D q (s.med m) else minseconddist)
          else minseconddist) s.MAXD = s.MAXD ∧
        ∀ m, m < n → m ≠ s.nearest q → s.MAXD ≤ s.D q (s.med m)) ∨
      ∃ m, m < n ∧ m ≠ s.nearest q ∧
        (List.range n).foldl
          (fun minseconddist m =>
            if m ≠ s.nearest q then
              (if s.D q (s.med m) < minseconddist then s.D q (s.med m) else minseconddist)
            else minseconddist) s.MAXD = s.D q (s.med m)) := by
  induction n with
  | zero => simp
  | succ n ih =>
    rw [List.range_succ, List.foldl_append, List.foldl_cons, List.foldl_nil]
    generalize (List.range n).foldl
        (fun minseconddist m =>
          if m ≠ s.nearest q then
            (if s.D q (s.med m) < minseconddist then s.D q (s.med m) else minseconddist)
          else minseconddist) s.MAXD = v at ih ⊢
    obtain ⟨h1, h2⟩ := ih
    by_cases hn : n ≠ s.nearest q
    · rw [if_pos hn]
      by_cases hlt : s.D q (s.med n) < v
      · rw [if_pos hlt]
        refine ⟨?_, Or.inr ⟨n, Nat.lt_succ_self n, hn, rfl⟩⟩
        intro m hm hmn
        rcases Nat.lt_succ_iff_lt_or_eq.mp hm with h | h
        · exact le_of_lt (lt_of_lt_of_le hlt (h1 m h hmn))
        · subst h; exact le_refl _
      · rw [if_neg hlt]
        refine ⟨?_, ?_⟩
        · intro m hm hmn
          rcases Nat.lt_succ_iff_lt_or_eq.mp hm with h | h
          · exact h1 m h hmn
          · subst h; exact not_lt.mp hlt
        · rcases h2 with ⟨hv, hall⟩ | ⟨m, hm, hmn, hme⟩
          · left
            refine ⟨hv, ?_⟩
            intro m hm hmn
            rcases Nat.lt_succ_iff_lt_or_eq.mp hm with h | h
            · exact hall m h hmn
            · subst h; rw [← hv]; exact not_lt.mp hlt
          · exact Or.inr ⟨m, Nat.lt_succ_of_lt hm, hmn, hme⟩
    · rw [if_neg hn]
      refine ⟨?_, ?_⟩
      · intro m hm hmn
        rcases Nat.lt_succ_iff_lt_or_eq.mp hm with h | h
        · exact h1 m h hmn
        · subst h; exact absurd hmn hn
      · rcases h2 with ⟨hv, hall⟩ | ⟨m, hm, hmn, hme⟩
        · left
          refine ⟨hv, ?_⟩
          intro m hm hmn
          rcases Nat.lt_succ_iff_lt_or_eq.mp hm with h | h
          · exact hall m h hmn
          · subst h; exact absurd hmn hn
        · exact Or.inr ⟨m, Nat.lt_succ_of_lt hm, hmn, hme⟩

/-- FillSecond for one point: a lower bound of the distances to the medoids of the
slots other than `nearest[q]`, equal to one of them, or `MAXD` when none is below. -/
theorem secondSearch_spec (s : FastPAM) (q : Nat) :
    (∀ m, m < s.nmed → m ≠ s.nearest q → s.secondSearch q ≤ s.D q (s.med m)) ∧
    ((s.secondSearch q = s.MAXD ∧
        ∀ m, m < s.nmed → m ≠ s.nearest q → s.MAXD ≤ s.D q (s.med m)) ∨
      ∃ m, m < s.nmed ∧ m ≠ s.nearest q ∧ s.secondSearch q = s.D q (s.med m)) :=
  secondSearch_fold s q s.nmed

theorem FillSecond_dsecond (s : FastPAM) (q : Nat) (hq : q < s.num_obs) :
    s.FillSecond.dsecond q = s.secondSearch q := by
  show ((List.range s.num_obs).foldl (fun ds q => Function.update ds q (s.secondSearch q))
    (fun _ => s.MAXD)) q = _
  rw [foldl_update_apply s.secondSearch, if_pos (List.mem_range.mpr hq)]

/-- The loop of SwapRolesAndUpdate over the points below `n`, when each of them has a
medoid closer than `MAXD`: `nearest` and `dnearest` of these points hold the result of
the search, and only `current_npch` changes besides. -/
theorem foldl_swapUpdateStep (s : FastPAM) (n cm0 : Nat)
    (hfound : ∀ q, q < n → ∃ m, m < s.nmed ∧ s.D q (s.med m) < s.MAXD) :
    ∃ c cm, (List.range n).foldl swapUpdateStep (s, cm0) =
      ({ s with current_npch := c,
                nearest := fun x => if x < n then (s.closestSearch x).2 else s.nearest x,
                dnearest := fun x => if x < n then (s.closestSearch x).1 else s.dnearest x },
        cm) := by
  induction n with
  | zero => exact ⟨s.current_npch, cm0, by simp⟩
  | succ n ih =>
    obtain ⟨c, cm, hfold⟩ := ih (fun q hq => hfound q (Nat.lt_succ_of_lt hq))
    rw [List.range_succ, List.foldl_append, hfold, List.foldl_cons, List.foldl_nil]
    have hs : scanMin (fun m => s.D n (s.med m)) s.nmed (s.MAXD, cm) = s.closestSearch n :=
      scanMin_start _ _ _ _ _ (hfound n (Nat.lt_succ_self n))
    refine ⟨if (if n < n then (s.closestSearch n).2 else s.nearest n) ≠ (s.closestSearch n).2
      then c + 1 else c, (s.closestSearch n).2, ?_⟩
    unfold swapUpdateStep
    simp only [med] at hs ⊢
    rw [hs]
    congr 2
    · funext x
      by_cases hx : x = n
      · subst hx; simp
      · rw [Function.update_noteq hx]
        have : (x < n + 1) = (x < n) := by
          apply propext
          constructor
          · intro h; exact lt_of_le_of_ne (Nat.lt_succ_iff.mp h) hx
          · intro h; exact Nat.lt_succ_of_lt h
        simp only [this]
    · funext x
      by_cases hx : x = n
      · subst hx; simp
      · rw [Function.update_noteq hx]
        have : (x < n + 1) = (x < n) := by
          apply propext
          constructor
          · intro h; exact lt_of_le_of_ne (Nat.lt_succ_iff.mp h) hx
          · intro h; exact Nat.lt_succ_of_lt h
        simp only [this]

end FastPAM

theorem mem_iff_slot (l : List Nat) (q : Nat) :
    q ∈ l ↔ ∃ j, j < l.length ∧ l.getD j 0 = q := by
  rw [List.mem_iff_getElem]
  constructor
  · rintro ⟨j, hj, he⟩
    exact ⟨j, hj, by rw [List.getD_eq_getElem l 0 hj]; exact he⟩
  · rintro ⟨j, hj, he⟩
    exact ⟨j, hj, by rw [List.getD_eq_getElem l 0 hj] at he; exact he⟩

theorem nodup_slot_inj (l : List Nat) (hl : l.Nodup) (j1 j2 : Nat) (h1 : j1 < l.length)
    (h2 : j2 < l.length) (he : l.getD j1 0 = l.getD j2 0) : j1 = j2 := by
  rw [List.getD_eq_getElem l 0 h1, List.getD_eq_getElem l 0 h2] at he
  exact (List.Nodup.getElem_inj_iff hl).mp he

namespace FastPAM

theorem Consistent.assigned {s : FastPAM} (hc : s.Consistent) : s.Assigned :=
  ⟨hc.length_medoids, hc.medoids_lt, hc.medoids_nodup, hc.ismedoid_iff, hc.nearest_lt,
    hc.dnearest_eq, hc.dnearest_le⟩

/-- FillSecond makes consistent a state that lacks only `dsecond`. -/
theorem Assigned.fillSecond {t : FastPAM} (hvT : t.ValidD) (hrT : t.InRange)
    (ha : t.Assigned) : t.FillSecond.Consistent := by
  refine ⟨ha.length_medoids, ha.medoids_lt, ha.medoids_nodup, ha.ismedoid_iff,
    ha.nearest_lt, ha.dnearest_eq, ha.dnearest_le, ?_, ?_⟩
  · intro q m hq hm hmn
    show t.FillSecond.dsecond q ≤ t.D q (t.med m)
    rw [FillSecond_dsecond t q hq]
    exact (secondSearch_spec t q).1 m hm hmn
  · intro q hq
    have hk : 0 < t.nmed := lt_of_le_of_lt (Nat.zero_le _) (ha.nearest_lt q hq)
    show (∃ m, m < t.nmed ∧ m ≠ t.nearest q ∧ t.FillSecond.dsecond q = t.D q (t.med m)) ∨
      (t.nmed = 1 ∧ t.FillSecond.dsecond q = t.MAXD)
    rw [FillSecond_dsecond t q hq]
    rcases (secondSearch_spec t q).2 with ⟨hMx, hall⟩ | hex
    · right
      refine ⟨?_, hMx⟩
      by_contra hne
      have hk2 : 1 < t.nmed := lt_of_le_of_ne hk (fun h => hne h.symm)
      by_cases hn0 : t.nearest q = 0
      · have := hall 1 hk2 (by rw [hn0]; exact Nat.one_ne_zero)
        exact absurd (entry_lt_MAXD hvT hrT q _ hq (ha.medoids_lt 1 hk2)) (not_lt.mpr this)
      · have := hall 0 hk (fun h => hn0 h.symm)
        exact absurd (entry_lt_MAXD hvT hrT q _ hq (ha.medoids_lt 0 hk)) (not_lt.mpr this)
    · exact Or.inl hex

/-- A state whose list of medoids and marks are those of a consistent state after the
medoid of slot `i` is replaced by the non-medoid `x`, and whose `nearest` and `dnearest`
hold the result of the search along the medoids, is consistent after FillSecond. -/
theorem consistent_after_update {s : FastPAM} (hv : s.ValidD) (hr : s.InRange)
    (hc : s.Consistent) (i x : Nat) (hi : i < s.nmed) (hx : x < s.num_obs)
    (hxm : s.ismedoid x = false) (t : FastPAM)
    (hD : t.D = s.D) (hN : t.num_obs = s.num_obs) (hK : t.nmed = s.nmed)
    (hM : t.MAXD = s.MAXD) (hmeds : t.medoids = s.medoids.set i x)
    (hmarks : t.ismedoid =
      Function.update (Function.update s.ismedoid (s.med i) false) x true)
    (hnear : ∀ q, q < t.num_obs → t.nearest q = (t.closestSearch q).2)
    (hdn : ∀ q, q < t.num_obs → t.dnearest q = (t.closestSearch q).1) :
    t.FillSecond.Consistent := by
  have hvT : t.ValidD := by unfold ValidD; rw [hD, hN]; exact hv
  have hrT : t.InRange := by unfold InRange; rw [hD, hN, hM]; exact hr
  have hxnot : x ∉ s.medoids := by
    intro hmem
    have := (hc.ismedoid_iff x hx).mpr hmem
    rw [hxm] at this
    exact Bool.false_ne_true this
  have hlen : t.medoids.length = t.nmed := by
    rw [hmeds, List.length_set, hK]; exact hc.length_medoids
  have hget : ∀ j, j < t.nmed → t.med j = if j = i then x else s.med j := by
    intro j hj
    unfold med
    rw [hmeds]
    exact getD_set_slot s.medoids i j x (by rw [hc.length_medoids, ← hK]; exact hj)
  have hgetlt : ∀ j, j < t.nmed → t.med j < t.num_obs := by
    intro j hj
    rw [hget j hj, hN]
    split_ifs
    · exact hx
    · exact hc.medoids_lt j (by rw [← hK]; exact hj)
  have hk : 0 < t.nmed := by rw [hK]; exact lt_of_le_of_lt (Nat.zero_le _) hi
  have hcs := fun q (hq : q < t.num_obs) => closestSearch_found t q
    ⟨0, hk, entry_lt_MAXD hvT hrT q _ hq (hgetlt 0 hk)⟩
  apply Assigned.fillSecond hvT hrT
  refine ⟨hlen, hgetlt, ?_, ?_, ?_, ?_, ?_⟩
  · show t.medoids.Nodup
    rw [hmeds]; exact List.Nodup.set hc.medoids_nodup hxnot
  · intro q hq
    have hq2 : q < s.num_obs := by rw [← hN]; exact hq
    show t.ismedoid q = true ↔ q ∈ t.medoids
    rw [hmarks, mem_iff_slot, hlen]
    by_cases hqx : q = x
    · subst hqx
      simp only [Function.update_same, true_iff]
      exact ⟨i, by rw [hK]; exact hi, by
        have := hget i (by rw [hK]; exact hi)
        rw [if_pos rfl] at this; exact this⟩
    · rw [Function.update_noteq hqx]
      by_cases hqm : q = s.med i
      · subst hqm
        simp only [Function.update_same, Bool.false_eq_true, false_iff]
        rintro ⟨j, hj, hje⟩
        have hje2 : t.med j = s.med i := hje
        rw [hget j hj] at hje2
        by_cases hji : j = i
        · rw [if_pos hji] at hje2; exact hqx hje2.symm
        · rw [if_neg hji] at hje2
          exact hji (nodup_slot_inj s.medoids hc.medoids_nodup j i
            (by rw [hc.length_medoids, ← hK]; exact hj)
            (by rw [hc.length_medoids]; exact hi) hje2)
      · rw [Function.update_noteq hqm, hc.ismedoid_iff q hq2, mem_iff_slot,
          hc.length_medoids]
        constructor
        · rintro ⟨j, hj, hje⟩
          refine ⟨j, by rw [hK]; exact hj, ?_⟩
          show t.med j = q
          rw [hget j (by rw [hK]; exact hj), if_neg]
          · exact hje
          · intro hji; subst hji; exact hqm hje.symm
        · rintro ⟨j, hj, hje⟩
          have hje2 : t.med j = q := hje
          rw [hget j hj] at hje2
          by_cases hji : j = i
          · rw [if_pos hji] at hje2; exact absurd hje2.symm hqx
          · rw [if_neg hji] at hje2; exact ⟨j, by rw [← hK]; exact hj, hje2⟩
  · intro q hq
    show t.nearest q < t.nmed
    rw [hnear q hq]; exact (hcs q hq).1
  · intro q hq
    show t.dnearest q = t.D q (t.med (t.nearest q))
    rw [hdn q hq, hnear q hq]; exact (hcs q hq).2.1
  · intro q m hq hm
    show t.dnearest q ≤ t.D q (t.med m)
    rw [hdn q hq]; exact (hcs q hq).2.2.1 m hm

/-- SwapRolesAndUpdate, called on a consistent state with a slot `i`, its medoid and a
non-medoid point `x`: it returns, slot `i` of `medoids` holds `x`, the new state is
consistent, and nothing else of the engine changes but `current_npch`. -/
theorem SwapRolesAndUpdate_spec {s : FastPAM} (hv : s.ValidD) (hr : s.InRange)
    (hc : s.Consistent) (i x : Nat) (hi : i < s.nmed) (hx : x < s.num_obs)
    (hxm : s.ismedoid x = false) :
    ∃ s1, s.SwapRolesAndUpdate (s.med i) x i = .ok s1 ∧
      s1.medoids = s.medoids.set i x ∧ s1.D = s.D ∧ s1.num_obs = s.num_obs ∧
      s1.nmed = s.nmed ∧ s1.MAXD = s.MAXD ∧ s1.maxiter = s.maxiter ∧
      s1.currentTD = s.currentTD ∧ s1.TDkeep = s.TDkeep ∧
      s1.NpointsChangekeep = s.NpointsChangekeep ∧ s1.Consistent := by
  have hk : 0 < s.nmed := lt_of_le_of_lt (Nat.zero_le _) hi
  have hgetlt : (s.medoids.set i x).getD 0 0 < s.num_obs := by
    rw [getD_set_slot s.medoids i 0 x (by rw [hc.length_medoids]; exact hk)]
    split_ifs
    · exact hx
    · exact hc.medoids_lt 0 hk
  have hfound : ∀ q, q < s.num_obs →
      ∃ m, m < s.nmed ∧ s.D q ((s.medoids.set i x).getD m 0) < s.MAXD :=
    fun q hq => ⟨0, hk, entry_lt_MAXD hv hr q _ hq hgetlt⟩
  obtain ⟨c, cm, hfold⟩ := foldl_swapUpdateStep
    { s with ismedoid := Function.update (Function.update s.ismedoid (s.med i) false) x true,
             medoids := s.medoids.set i x,
             current_npch := 0 } s.num_obs (s.nmed + 1) hfound
  unfold SwapRolesAndUpdate
  rw [if_neg (not_not.mpr rfl)]
  simp only [hfold]
  refine ⟨_, rfl, rfl, rfl, rfl, rfl, rfl, rfl, rfl, rfl, rfl, ?_⟩
  refine consistent_after_update hv hr hc i x hi hx hxm _ rfl rfl rfl rfl rfl rfl ?_ ?_
  · intro q hq
    have hq2 : q < s.num_obs := hq
    show (if q < s.num_obs then _ else _) = _
    rw [if_pos hq2]
    rfl
  · intro q hq
    have hq2 : q < s.num_obs := hq
    show (if q < s.num_obs then _ else _) = _
    rw [if_pos hq2]
    rfl

end FastPAM

namespace FastPAM

theorem Consistent.with_currentTD {s : FastPAM} (hc : s.Consistent) (v : ℚ) :
    Consistent { s with currentTD := v } :=
  ⟨hc.length_medoids, hc.medoids_lt, hc.medoids_nodup, hc.ismedoid_iff, hc.nearest_lt,
    hc.dnearest_eq, hc.dnearest_le, hc.dsecond_le, hc.dsecond_eq⟩

/-- The commit of the exchange recorded by an iteration over a consistent state whose
`currentTD` is the sum of `dnearest`. -/
theorem commitExchange_spec {s : FastPAM} (hv : s.ValidD) (hr : s.InRange)
    (hc : s.Consistent)
    (e : exchange) (he : s.findBestExchange = .ok e) (hneg : e.DeltaTDst < 0) :
    ∃ s1, s.commitExchange e = .ok (s1, false) ∧
      s1.medoids = s.medoids.set e.imst e.xst ∧ s1.D = s.D ∧ s1.num_obs = s.num_obs ∧
      s1.nmed = s.nmed ∧ s1.MAXD = s.MAXD ∧ s1.maxiter = s.maxiter ∧
      s1.TDkeep = s.TDkeep ∧ s1.NpointsChangekeep = s.NpointsChangekeep ∧
      s1.Consistent ∧
      s1.currentTD = s.currentTD + e.DeltaTDst ∧ 0 < s.num_obs ∧
      (s.currentTD = ∑ q in Finset.range s.num_obs, s.dnearest q →
        s1.currentTD = ∑ q in Finset.range s1.num_obs, s1.dnearest q) := by
  obtain ⟨e2, he2, _, _, h3⟩ := findBestExchange_spec s hv hr hc
  rw [he] at he2
  cases he2
  rcases h3 with ⟨h0, _⟩ | ⟨_, hi, hx, hxm, hmst, hdelta, _⟩
  · rw [h0] at hneg; exact absurd hneg (lt_irrefl _)
  · obtain ⟨s1, hs1, hmeds, hD, hN, hK, hM, hmi, hTD1, hk1, hk2, hc1⟩ :=
      SwapRolesAndUpdate_spec hv hr hc e.imst e.xst hi hx hxm
    refine ⟨{ s1 with currentTD := s1.currentTD + e.DeltaTDst }, ?_, hmeds, hD, hN, hK, hM,
      hmi, hk1, hk2, hc1.with_currentTD _, ?_, lt_of_le_of_lt (Nat.zero_le _) hx, ?_⟩
    · unfold commitExchange
      rw [if_pos hi, hmst, hs1]
    · show s1.currentTD + e.DeltaTDst = _
      rw [hTD1]
    · intro hTD
      show s1.currentTD + e.DeltaTDst = ∑ q in Finset.range s1.num_obs, s1.dnearest q
      rw [← hc1.totalDeviation_medoids, hTD1, hTD, ← hc.totalDeviation_medoids, ← hdelta]
      unfold swapDelta totalDeviation
      rw [hmeds, hD, hN]
      ring

/-- C1. One committed iteration of RunImprovedFastPAM1 over a consistent state whose
`currentTD` is the sum of `dnearest`: the exchange recorded has `DeltaTDst < 0`, then
SwapRolesAndUpdate and `currentTD += DeltaTDst` return a state in which slot `imst`
holds `xst`, which is again consistent, and in which `currentTD` is again the sum of
`dnearest`, that is the total deviation of the new medoids. -/
theorem committed_iteration_keeps_TD (s : FastPAM) (hv : s.ValidD) (hr : s.InRange)
    (hc : s.Consistent)
    (hTD : s.currentTD = ∑ q in Finset.range s.num_obs, s.dnearest q)
    (e : exchange) (he : s.findBestExchange = .ok e) (hneg : e.DeltaTDst < 0) :
    ∃ s1, s.commitExchange e = .ok (s1, false) ∧
      s1.medoids = s.medoids.set e.imst e.xst ∧ s1.Consistent ∧
      s1.currentTD = ∑ q in Finset.range s1.num_obs, s1.dnearest q ∧
      s1.currentTD = s1.totalDeviation s1.medoids := by
  obtain ⟨s1, h1, h2, _, _, _, _, _, _, _, h3, _, _, h4⟩ :=
    commitExchange_spec hv hr hc e he hneg
  exact ⟨s1, h1, h2, h3, h4 hTD, by rw [h3.totalDeviation_medoids]; exact h4 hTD⟩

end FastPAM

namespace FastPAM

/-! ## The loop of RunImprovedFastPAM1 -/

theorem validD_of_eq {s t : FastPAM} (hD : t.D = s.D) (hN : t.num_obs = s.num_obs)
    (hv : s.ValidD) : t.ValidD := by
  unfold ValidD; rw [hD, hN]; exact hv

theorem inRange_of_eq {s t : FastPAM} (hD : t.D = s.D) (hN : t.num_obs = s.num_obs)
    (hM : t.MAXD = s.MAXD) (hr : s.InRange) : t.InRange := by
  unfold InRange; rw [hD, hN, hM]; exact hr

theorem Consistent.pushHistory {s : FastPAM} (hc : s.Consistent) :
    s.pushHistory.Consistent :=
  ⟨hc.length_medoids, hc.medoids_lt, hc.medoids_nodup, hc.ismedoid_iff, hc.nearest_lt,
    hc.dnearest_eq, hc.dnearest_le, hc.dsecond_le, hc.dsecond_eq⟩

/-- The loop of RunImprovedFastPAM1 from a consistent state, with enough fuel: it
returns; `iteration` has advanced by the number of exchanges committed; each of them
had a negative `DeltaTDst`, added to `currentTD`, and appended the new `currentTD`
divided by `num_obs` to `TDkeep` and one entry to `NpointsChangekeep`. -/
theorem swapLoop_spec (tol_limit : ℚ) :
    ∀ (fuel iteration : Nat) (s : FastPAM), 0 < fuel → s.maxiter < fuel + iteration →
      s.ValidD → s.InRange → s.Consistent →
      ∃ s1 deltas, swapLoop tol_limit fuel iteration s = .ok (s1, iteration + deltas.length) ∧
        (∀ d, d ∈ deltas → d < 0) ∧
        s1.TDkeep = s.TDkeep ++ tdTrail s.currentTD s.num_obs deltas ∧
        s1.currentTD = s.currentTD + deltas.sum ∧
        s1.NpointsChangekeep.length = s.NpointsChangekeep.length + deltas.length ∧
        (deltas ≠ [] → 0 < s.num_obs) ∧
        (iteration + deltas.length ≤ max (iteration + 1) s.maxiter) ∧
        s1.Consistent ∧ s1.D = s.D ∧ s1.num_obs = s.num_obs ∧ s1.nmed = s.nmed ∧
        s1.MAXD = s.MAXD ∧ s1.maxiter = s.maxiter ∧
        (s.currentTD = ∑ q in Finset.range s.num_obs, s.dnearest q →
          s1.currentTD = ∑ q in Finset.range s1.num_obs, s1.dnearest q) := by
  intro fuel
  induction fuel with
  | zero => intro _ _ h; exact absurd h (lt_irrefl 0)
  | succ fuel ih =>
    intro iteration s _ hfuel hv hr hc
    obtain ⟨e, he, _, _, _⟩ := findBestExchange_spec s hv hr hc
    simp only [swapLoop, he]
    by_cases hge : e.DeltaTDst ≥ 0
    · rw [if_pos hge]
      exact ⟨s, [], rfl, by simp, by simp [tdTrail], by simp, by simp, by simp,
        by simp, hc, rfl, rfl, rfl, rfl, rfl, fun h => h⟩
    · rw [if_neg hge]
      have hneg : e.DeltaTDst < 0 := not_le.mp hge
      obtain ⟨s1, hs1, _, hD, hN, hK, hM, hmi, hk1, hk2, hc1, hTD1, hpos, hsum⟩ :=
        commitExchange_spec hv hr hc e he hneg
      simp only [hs1]
      have hc2 := hc1.pushHistory
      by_cases hcont : |e.DeltaTDst| > tol_limit ∧ iteration + 1 < s.maxiter
      · rw [if_pos ⟨hcont.1, hcont.2, trivial⟩]
        have hv2 : s1.pushHistory.ValidD := validD_of_eq (s := s) hD hN hv
        have hr2 : s1.pushHistory.InRange := inRange_of_eq (s := s) hD hN hM hr
        have hfuel2 : 0 < fuel := by
          have := hcont.2
          omega
        obtain ⟨s3, deltas, hloop, hd1, hd2, hd3, hd4, _, hd6, hc3, hD3, hN3, hK3, hM3, hmi3,
          hsum3⟩ := ih (iteration + 1) s1.pushHistory hfuel2
            (by show s1.maxiter < fuel + (iteration + 1); rw [hmi]; omega) hv2 hr2 hc2
        refine ⟨s3, e.DeltaTDst :: deltas, ?_, ?_, ?_, ?_, ?_, fun _ => hpos, ?_, hc3,
          hD3.trans hD, hN3.trans hN, hK3.trans hK, hM3.trans hM, hmi3.trans hmi, ?_⟩
        · rw [hloop]; simp only [List.length_cons]
          congr 2; omega
        · intro d hd
          rcases List.mem_cons.mp hd with h | h
          · rw [h]; exact hneg
          · exact hd1 d h
        · rw [hd2]
          show s1.TDkeep ++ [s1.currentTD / (s1.num_obs : ℚ)] ++
            tdTrail s1.currentTD (s1.num_obs : ℚ) deltas = _
          rw [hk1, hTD1, hN]
          simp [tdTrail]
        · rw [hd3]
          show s1.currentTD + deltas.sum = _
          rw [hTD1, List.sum_cons]; ring
        · rw [hd4]
          show (s1.NpointsChangekeep ++ [s1.current_npch]).length + deltas.length = _
          rw [List.length_append, hk2]; simp only [List.length_cons, List.length_nil]; omega
        · have h6 : iteration + 1 + deltas.length ≤ max (iteration + 1 + 1) s1.maxiter := hd6
          rw [hmi] at h6
          have := hcont.2
          simp only [List.length_cons]
          rw [max_def] at h6 ⊢
          split_ifs at h6 ⊢ <;> omega
        · intro hTD
          exact hsum3 (hsum hTD)
      · rw [if_neg (fun h => hcont ⟨h.1, h.2.1⟩)]
        refine ⟨_, [e.DeltaTDst], rfl, ?_, ?_, ?_, ?_, fun _ => hpos, ?_, hc2, hD, hN, hK, hM,
          hmi, ?_⟩
        · intro d hd
          rw [List.mem_singleton.mp hd]; exact hneg
        · show s1.TDkeep ++ [s1.currentTD / (s1.num_obs : ℚ)] = _
          rw [hk1, hTD1, hN]; simp [tdTrail]
        · show s1.currentTD = _
          rw [hTD1]; simp
        · show (s1.NpointsChangekeep ++ [s1.current_npch]).length = _
          rw [List.length_append, hk2]; simp
        · simp
        · intro hTD
          exact hsum hTD

end FastPAM

namespace FastPAM

theorem tdTrail_chain (n : ℚ) (hn : 0 < n) :
    ∀ (deltas : List ℚ) (td : ℚ), (∀ d, d ∈ deltas → d < 0) →
      List.Chain (fun a b => b < a) (td / n) (tdTrail td n deltas) := by
  intro deltas
  induction deltas with
  | nil => intro td _; exact List.Chain.nil
  | cons d rest ih =>
    intro td hd
    have hd0 : d < 0 := hd d (List.mem_cons_self d rest)
    refine List.Chain.cons ?_ (ih (td + d) (fun x hx => hd x (List.mem_cons_of_mem d hx)))
    exact div_lt_div_of_pos_right (by linarith) hn

/-- RunImprovedFastPAM1 from a state left by an initialization: it returns; the
exchanges committed had negative changes `deltas`; `TDkeep` and `NpointsChangekeep`
got one entry for each; the final state is consistent; `num_iterations_in_opt` is one
less than the number of exchanges committed (0 when there was none). -/
theorem RunImprovedFastPAM1_spec {s : FastPAM} (hv : s.ValidD) (hr : s.InRange)
    (ha : s.Assigned) :
    ∃ s1 deltas, s.RunImprovedFastPAM1 = .ok s1 ∧ (∀ d, d ∈ deltas → d < 0) ∧
      s1.TDkeep = s.TDkeep ++ tdTrail s.currentTD s.num_obs deltas ∧
      s1.currentTD = s.currentTD + deltas.sum ∧
      s1.NpointsChangekeep.length = s.NpointsChangekeep.length + deltas.length ∧
      (deltas ≠ [] → 0 < s.num_obs) ∧
      deltas.length ≤ max 1 s.maxiter ∧
      s1.num_iterations_in_opt = deltas.length - 1 ∧
      s1.Consistent ∧ s1.D = s.D ∧ s1.num_obs = s.num_obs ∧ s1.nmed = s.nmed ∧
      s1.MAXD = s.MAXD ∧ s1.maxiter = s.maxiter ∧
      (s.currentTD = ∑ q in Finset.range s.num_obs, s.dnearest q →
        s1.currentTD = ∑ q in Finset.range s1.num_obs, s1.dnearest q) := by
  have hv0 : s.FillSecond.ValidD := validD_of_eq (s := s) rfl rfl hv
  have hr0 : s.FillSecond.InRange := inRange_of_eq (s := s) rfl rfl rfl hr
  obtain ⟨s1, deltas, hloop, h1, h2, h3, h4, h5, h6, hc1, hD, hN, hK, hM, hmi, hsum⟩ :=
    swapLoop_spec (s.FillSecond.currentTD * tlimit) (s.FillSecond.maxiter + 1) 0 s.FillSecond
      (Nat.succ_pos _) (by omega) hv0 hr0 (ha.fillSecond hv0 hr0)
  refine ⟨{ s1 with num_iterations_in_opt :=
      if 0 + deltas.length > 0 then 0 + deltas.length - 1 else 0 }, deltas, ?_, h1, h2, h3, h4,
    h5, ?_, ?_, ?_, hD, hN, hK, hM, hmi, hsum⟩
  · unfold RunImprovedFastPAM1
    simp only [hloop]
  · have : 0 + deltas.length ≤ max (0 + 1) s.maxiter := h6
    simpa using this
  · show (if 0 + deltas.length > 0 then 0 + deltas.length - 1 else 0) = deltas.length - 1
    split_ifs <;> omega
  · exact ⟨hc1.length_medoids, hc1.medoids_lt, hc1.medoids_nodup, hc1.ismedoid_iff,
      hc1.nearest_lt, hc1.dnearest_eq, hc1.dnearest_le, hc1.dsecond_le, hc1.dsecond_eq⟩

/-- The entries that the loop of RunImprovedFastPAM1 appends to `TDkeep` are those of
the exchanges it records: with enough fuel the loop returns, `iteration` has advanced
by the number of exchanges of `swapRecords`, each of them has a negative `DeltaTDst`,
and the entries appended follow `currentTD` along these values. -/
theorem swapLoop_records (tol_limit : ℚ) :
    ∀ (fuel iteration : Nat) (s : FastPAM), 0 < fuel → s.maxiter < fuel + iteration →
      s.ValidD → s.InRange → s.Consistent →
      ∃ s1, swapLoop tol_limit fuel iteration s =
          .ok (s1, iteration + (swapRecords tol_limit fuel iteration s).length) ∧
        (∀ x, x ∈ swapRecords tol_limit fuel iteration s → x.DeltaTDst < 0) ∧
        s1.TDkeep = s.TDkeep ++ tdTrail s.currentTD s.num_obs
          ((swapRecords tol_limit fuel iteration s).map (fun x => x.DeltaTDst)) ∧
        (swapRecords tol_limit fuel iteration s ≠ [] → 0 < s.num_obs) := by
  intro fuel
  induction fuel with
  | zero => intro _ _ h; exact absurd h (lt_irrefl 0)
  | succ fuel ih =>
    intro iteration s _ hfuel hv hr hc
    obtain ⟨e, he, _, _, _⟩ := findBestExchange_spec s hv hr hc
    simp only [swapLoop, swapRecords, he]
    by_cases hge : e.DeltaTDst ≥ 0
    · simp only [if_pos hge]
      exact ⟨s, rfl, by simp, by simp [tdTrail], by simp⟩
    · simp only [if_neg hge]
      have hneg : e.DeltaTDst < 0 := not_le.mp hge
      obtain ⟨s1, hs1, _, hD, hN, _, hM, hmi, hk1, _, hc1, hTD1, hpos, _⟩ :=
        commitExchange_spec hv hr hc e he hneg
      simp only [hs1]
      have hc2 := hc1.pushHistory
      by_cases hcont : |e.DeltaTDst| > tol_limit ∧ iteration + 1 < s.maxiter
      · rw [if_pos ⟨hcont.1, hcont.2, trivial⟩, if_pos ⟨hcont.1, hcont.2, trivial⟩]
        have hv2 : s1.pushHistory.ValidD := validD_of_eq (s := s) hD hN hv
        have hr2 : s1.pushHistory.InRange := inRange_of_eq (s := s) hD hN hM hr
        have hfuel2 : 0 < fuel := by
          have := hcont.2
          omega
        obtain ⟨s3, hloop, hd1, hd2, _⟩ := ih (iteration + 1) s1.pushHistory hfuel2
          (by show s1.maxiter < fuel + (iteration + 1); rw [hmi]; omega) hv2 hr2 hc2
        refine ⟨s3, ?_, ?_, ?_, fun _ => hpos⟩
        · rw [hloop]; simp only [List.length_cons]
          congr 2; omega
        · intro x hx
          rcases List.mem_cons.mp hx with h | h
          · rw [h]; exact hneg
          · exact hd1 x h
        · rw [hd2]
          show s1.TDkeep ++ [s1.currentTD / (s1.num_obs : ℚ)] ++
            tdTrail s1.currentTD (s1.num_obs : ℚ) _ = _
          rw [hk1, hTD1, hN]
          simp [tdTrail]
      · rw [if_neg (fun h => hcont ⟨h.1, h.2.1⟩), if_neg (fun h => hcont ⟨h.1, h.2.1⟩)]
        refine ⟨_, rfl, ?_, ?_, fun _ => hpos⟩
        · intro x hx
          rw [List.mem_singleton.mp hx]; exact hneg
        · show s1.TDkeep ++ [s1.currentTD / (s1.num_obs : ℚ)] = _
          rw [hk1, hTD1, hN]; simp [tdTrail]

/-- C4. In exact arithmetic and with at least two medoids, every run of
RunImprovedFastPAM1 from a state left by an initialization returns, and the entries it
appends to `TDkeep` are strictly decreasing, starting below the initial `currentTD`
divided by `num_obs`. The iterations that commit an exchange are those of `runRecords`;
the `DeltaTDst` that each of them recorded is negative, and the entry it appended is
the previous value of `currentTD` plus that `DeltaTDst`, divided by `num_obs`. -/
theorem TD_history_strictly_decreasing (s : FastPAM) (hv : s.ValidD) (hr : s.InRange)
    (ha : s.Assigned) (hk : 2 ≤ s.nmed) :
    ∃ s1, s.RunImprovedFastPAM1 = .ok s1 ∧
      (∀ x, x ∈ s.runRecords → x.DeltaTDst < 0) ∧
      s1.TDkeep = s.TDkeep ++
        tdTrail s.currentTD s.num_obs (s.runRecords.map (fun x => x.DeltaTDst)) ∧
      List.Chain (fun a b => b < a) (s.currentTD / (s.num_obs : ℚ))
        (tdTrail s.currentTD s.num_obs (s.runRecords.map (fun x => x.DeltaTDst))) := by
  have _ := hk
  have hv0 : s.FillSecond.ValidD := validD_of_eq (s := s) rfl rfl hv
  have hr0 : s.FillSecond.InRange := inRange_of_eq (s := s) rfl rfl rfl hr
  obtain ⟨s1, hloop, h1, h2, h5⟩ :=
    swapLoop_records (s.FillSecond.currentTD * tlimit) (s.FillSecond.maxiter + 1) 0 s.FillSecond
      (Nat.succ_pos _) (by omega) hv0 hr0 (ha.fillSecond hv0 hr0)
  refine ⟨{ s1 with num_iterations_in_opt :=
      if 0 + s.runRecords.length > 0 then 0 + s.runRecords.length - 1 else 0 }, ?_, h1, h2, ?_⟩
  · unfold RunImprovedFastPAM1
    simp only [hloop]
    rfl
  · by_cases hd : s.runRecords = []
    · rw [hd]; exact List.Chain.nil
    · exact tdTrail_chain _ (by exact_mod_cast h5 hd) _ _
        (fun d hd2 => by
          obtain ⟨x, hx, hxd⟩ := List.mem_map.mp hd2
          rw [← hxd]; exact h1 x hx)

end FastPAM


namespace FastPAM

/-! ## BUILD -/

theorem rowSum_eq (s : FastPAM) (r : Nat) :
    s.rowSum r = ∑ c in Finset.range s.num_obs, s.D r c := by
  unfold rowSum
  rw [foldl_add, zero_add]

theorem tdchange_eq (s : FastPAM) (cand : Nat) :
    s.tdchange cand =
      ∑ o in Finset.range s.num_obs,
        (if o ≠ cand ∧ s.D cand o < s.dnearest o then s.D cand o - s.dnearest o else 0)
      - s.dnearest cand := by
  unfold tdchange
  rw [foldl_guard_add, zero_add]

theorem DBL_MAX_nonneg : (0 : ℚ) ≤ DBL_MAX := by
  unfold DBL_MAX
  norm_num

/-- The loop of BUILD on the candidates below `n`: either no non-medoid candidate with
a negative change was met, or the pair kept is the first non-medoid candidate where
the least negative change is taken. -/
theorem bestCandidate_fold (s : FastPAM) (n : Nat) :
    (((List.range n).foldl s.candidateStep (DBL_MAX, s.num_obs + 1) =
        (DBL_MAX, s.num_obs + 1)) ∧
      ∀ c, c < n → s.ismedoid c = false → ¬ s.tdchange c < 0) ∨
    (((List.range n).foldl s.candidateStep (DBL_MAX, s.num_obs + 1)).2 < n ∧
      s.ismedoid ((List.range n).foldl s.candidateStep (DBL_MAX, s.num_obs + 1)).2 = false ∧
      ((List.range n).foldl s.candidateStep (DBL_MAX, s.num_obs + 1)).1 =
        s.tdchange ((List.range n).foldl s.candidateStep (DBL_MAX, s.num_obs + 1)).2 ∧
      ((List.range n).foldl s.candidateStep (DBL_MAX, s.num_obs + 1)).1 < 0 ∧
      (∀ c, c < n → s.ismedoid c = false →
        ((List.range n).foldl s.candidateStep (DBL_MAX, s.num_obs + 1)).1 ≤ s.tdchange c) ∧
      (∀ c, c < ((List.range n).foldl s.candidateStep (DBL_MAX, s.num_obs + 1)).2 →
        s.ismedoid c = false →
        ((List.range n).foldl s.candidateStep (DBL_MAX, s.num_obs + 1)).1 < s.tdchange c)) := by
  induction n with
  | zero => left; simp
  | succ n ih =>
    rw [List.range_succ, List.foldl_append, List.foldl_cons, List.foldl_nil]
    generalize (List.range n).foldl s.candidateStep (DBL_MAX, s.num_obs + 1) = acc at ih ⊢
    unfold candidateStep
    by_cases hmed : s.ismedoid n = false
    · rw [if_pos hmed]
      by_cases hacc : s.tdchange n < 0 ∧ s.tdchange n < acc.1
      · rw [if_pos hacc]
        right
        refine ⟨Nat.lt_succ_self n, hmed, rfl, hacc.1, ?_, ?_⟩
        · intro c hc hcm
          rcases Nat.lt_succ_iff_lt_or_eq.mp hc with h | h
          · rcases ih with ⟨he, hno⟩ | ⟨_, _, _, _, h5, _⟩
            · exact le_of_lt (lt_of_lt_of_le hacc.1 (not_lt.mp (hno c h hcm)))
            · exact le_of_lt (lt_of_lt_of_le hacc.2 (h5 c h hcm))
          · subst h; exact le_refl _
        · intro c hc hcm
          rcases ih with ⟨he, hno⟩ | ⟨_, _, _, _, h5, _⟩
          · exact lt_of_lt_of_le hacc.1 (not_lt.mp (hno c hc hcm))
          · exact lt_of_lt_of_le hacc.2 (h5 c hc hcm)
      · rw [if_neg hacc]
        rcases ih with ⟨he, hno⟩ | ⟨h1, h2, h3, h4, h5, h6⟩
        · left
          refine ⟨he, ?_⟩
          intro c hc hcm
          rcases Nat.lt_succ_iff_lt_or_eq.mp hc with h | h
          · exact hno c h hcm
          · subst h
            intro hneg
            apply hacc
            refine ⟨hneg, ?_⟩
            rw [he]
            exact lt_of_lt_of_le hneg DBL_MAX_nonneg
        · right
          refine ⟨Nat.lt_succ_of_lt h1, h2, h3, h4, ?_, h6⟩
          intro c hc hcm
          rcases Nat.lt_succ_iff_lt_or_eq.mp hc with h | h
          · exact h5 c h hcm
          · subst h
            by_contra hlt
            have hlt2 : s.tdchange c < acc.1 := not_le.mp hlt
            exact hacc ⟨lt_trans hlt2 h4, hlt2⟩
    · rw [if_neg hmed]
      rcases ih with ⟨he, hno⟩ | ⟨h1, h2, h3, h4, h5, h6⟩
      · left
        refine ⟨he, ?_⟩
        intro c hc hcm
        rcases Nat.lt_succ_iff_lt_or_eq.mp hc with h | h
        · exact hno c h hcm
        · subst h; exact absurd hcm hmed
      · right
        refine ⟨Nat.lt_succ_of_lt h1, h2, h3, h4, ?_, h6⟩
        intro c hc hcm
        rcases Nat.lt_succ_iff_lt_or_eq.mp hc with h | h
        · exact h5 c h hcm
        · subst h; exact absurd hcm hmed

/-- The loop of lines 510-520 over the points below `n`. -/
theorem reassign_fold (u : FastPAM) (best nextmed n : Nat) :
    (List.range n).foldl
      (fun t q =>
        if t.D q best < t.dnearest q then
          { t with dnearest := Function.update t.dnearest q (t.D q best),
                   nearest := Function.update t.nearest q nextmed }
        else t) u =
    { u with dnearest := fun x =>
               if x < n ∧ u.D x best < u.dnearest x then u.D x best else u.dnearest x,
             nearest := fun x =>
               if x < n ∧ u.D x best < u.dnearest x then nextmed else u.nearest x } := by
  induction n with
  | zero => simp
  | succ n ih =>
    rw [List.range_succ, List.foldl_append, ih, List.foldl_cons, List.foldl_nil]
    have hsame : (if n < n ∧ u.D n best < u.dnearest n then u.D n best else u.dnearest n) =
        u.dnearest n := by
      rw [if_neg (fun h => lt_irrefl n h.1)]
    simp only [hsame]
    by_cases hlt : u.D n best < u.dnearest n
    · rw [if_pos hlt]
      congr 1
      · funext x
        by_cases hx : x = n
        · subst hx; simp [hlt]
        · rw [Function.update_noteq hx]
          have : (x < n + 1) = (x < n) := by
            apply propext
            constructor
            · intro h; exact lt_of_le_of_ne (Nat.lt_succ_iff.mp h) hx
            · intro h; exact Nat.lt_succ_of_lt h
          simp only [this]
      · funext x
        by_cases hx : x = n
        · subst hx; simp [hlt]
        · rw [Function.update_noteq hx]
          have : (x < n + 1) = (x < n) := by
            apply propext
            constructor
            · intro h; exact lt_of_le_of_ne (Nat.lt_succ_iff.mp h) hx
            · intro h; exact Nat.lt_succ_of_lt h
          simp only [this]
    · rw [if_neg hlt]
      congr 1
      · funext x
        by_cases hx : x = n
        · subst hx; simp [hlt]
        · have : (x < n + 1) = (x < n) := by
            apply propext
            constructor
            · intro h; exact lt_of_le_of_ne (Nat.lt_succ_iff.mp h) hx
            · intro h; exact Nat.lt_succ_of_lt h
          simp only [this]
      · funext x
        by_cases hx : x = n
        · subst hx; simp [hlt]
        · have : (x < n + 1) = (x < n) := by
            apply propext
            constructor
            · intro h; exact lt_of_le_of_ne (Nat.lt_succ_iff.mp h) hx
            · intro h; exact Nat.lt_succ_of_lt h
          simp only [this]

end FastPAM

namespace FastPAM

theorem reassign_eq (u : FastPAM) (best nextmed : Nat) :
    u.reassign best nextmed =
      { u with dnearest := fun x =>
                 if x < u.num_obs ∧ u.D x best < u.dnearest x then u.D x best
                 else u.dnearest x,
               nearest := fun x =>
                 if x < u.num_obs ∧ u.D x best < u.dnearest x then nextmed
                 else u.nearest x } :=
  reassign_fold u best nextmed u.num_obs

theorem BuildInv.dnearest_ge_zero {t : FastPAM} {j : Nat} (hinv : BuildInv t j) (q : Nat)
    (hq : q < t.num_obs) : 0 ≤ t.dnearest q := by
  cases hm : t.ismedoid q with
  | true => rw [hinv.hzero q hq hm]
  | false => exact le_of_lt (hinv.hpos q hq hm)

/-- While fewer medoids than points are placed, some point is not a medoid. -/
theorem BuildInv.exists_candidate {t : FastPAM} {j : Nat} (hinv : BuildInv t j)
    (hjN : j < t.num_obs) : ∃ c, c < t.num_obs ∧ t.ismedoid c = false := by
  by_contra hno
  have hall : ∀ c, c < t.num_obs → t.ismedoid c = true := by
    intro c hc
    cases hm : t.ismedoid c with
    | true => rfl
    | false => exact absurd ⟨c, hc, hm⟩ hno
  have hsub : Finset.range t.num_obs ⊆ (Finset.range j).image t.med := by
    intro q hq
    obtain ⟨m, hm, hme⟩ := (hinv.hmark q (Finset.mem_range.mp hq)).mp
      (hall q (Finset.mem_range.mp hq))
    exact Finset.mem_image.mpr ⟨m, Finset.mem_range.mpr hm, hme⟩
  have h1 := Finset.card_le_card hsub
  have h2 := Finset.card_image_le (s := Finset.range j) (f := t.med)
  rw [Finset.card_range] at h1 h2
  omega

/-- The change computed by BUILD for a non-medoid candidate is negative. -/
theorem BuildInv.tdchange_neg {t : FastPAM} {j : Nat} (hinv : BuildInv t j) (c : Nat)
    (hc : c < t.num_obs) (hm : t.ismedoid c = false) : t.tdchange c < 0 := by
  rw [tdchange_eq]
  have hle : ∑ o in Finset.range t.num_obs,
      (if o ≠ c ∧ t.D c o < t.dnearest o then t.D c o - t.dnearest o else 0) ≤ 0 := by
    apply Finset.sum_nonpos
    intro o _
    split_ifs with h
    · linarith [h.2]
    · exact le_refl _
  linarith [hinv.hpos c hc hm]

/-- The change computed by BUILD for a candidate is not below `-currentTD`. -/
theorem BuildInv.tdchange_ge {t : FastPAM} {j : Nat} (hv : t.ValidD) (hinv : BuildInv t j)
    (c : Nat) (hc : c < t.num_obs) : -t.currentTD ≤ t.tdchange c := by
  rw [tdchange_eq, hinv.hTD]
  have hterm : ∀ o, o ∈ Finset.range t.num_obs → 0 ≤
      (if o ≠ c ∧ t.D c o < t.dnearest o then t.D c o - t.dnearest o else 0) +
        t.dnearest o := by
    intro o ho
    have ho2 := Finset.mem_range.mp ho
    split_ifs with h
    · linarith [hv.nonneg c o hc ho2]
    · linarith [hinv.dnearest_ge_zero o ho2]
  have hsingle := Finset.single_le_sum hterm (Finset.mem_range.mpr hc)
  simp only [ne_eq, not_true_eq_false, false_and, if_false, zero_add] at hsingle
  rw [Finset.sum_add_distrib] at hsingle
  linarith

/-- The state after one more medoid `b`, a non-medoid point, is put in slot `j`, the
points closer to `b` than to their medoid take its distance, and `currentTD` gets the
change computed for `b`. -/
theorem buildInv_after_admit {t : FastPAM} {j : Nat} (hv : t.ValidD) (hinv : BuildInv t j)
    (hj : j < t.nmed) (b : Nat) (hb : b < t.num_obs) (hbm : t.ismedoid b = false)
    (u : FastPAM) (hN : u.num_obs = t.num_obs) (hK : u.nmed = t.nmed)
    (hmeds : u.medoids = t.medoids.set j b)
    (hmarks : u.ismedoid = Function.update t.ismedoid b true)
    (hdn : ∀ x, u.dnearest x = if x = b then 0
      else if x < t.num_obs ∧ t.D x b < t.dnearest x then t.D x b else t.dnearest x)
    (hTD : u.currentTD = t.currentTD + t.tdchange b) :
    BuildInv u (j + 1) := by
  have hmed : ∀ m, m < t.nmed → u.med m = if m = j then b else t.med m := by
    intro m hm
    unfold med
    rw [hmeds]
    exact getD_set_slot t.medoids j m b (by rw [hinv.hlen]; exact hm)
  have hbnot : ∀ m, m < j → t.med m ≠ b := by
    intro m hm he
    have := (hinv.hmark b hb).mpr ⟨m, hm, he⟩
    rw [hbm] at this
    exact Bool.false_ne_true this
  refine ⟨?_, ?_, ?_, ?_, ?_, ?_, ?_, ?_⟩
  · rw [hmeds, List.length_set, hK]; exact hinv.hlen
  · rw [hK]; exact hj
  · intro m1 m2 h1 h2 he
    rw [hmed m1 (by omega), hmed m2 (by omega)] at he
    by_cases e1 : m1 = j
    · by_cases e2 : m2 = j
      · rw [e1, e2]
      · rw [if_pos e1, if_neg e2] at he
        exact absurd he.symm (hbnot m2 (by omega))
    · by_cases e2 : m2 = j
      · rw [if_neg e1, if_pos e2] at he
        exact absurd he (hbnot m1 (by omega))
      · rw [if_neg e1, if_neg e2] at he
        exact hinv.hinj m1 m2 (by omega) (by omega) he
  · intro m hm
    rw [hmed m (by omega), hN]
    split_ifs with e
    · exact hb
    · exact hinv.hlt m (by omega)
  · intro q hq
    rw [hN] at hq
    rw [hmarks]
    by_cases hqb : q = b
    · subst hqb
      simp only [Function.update_same, true_iff]
      exact ⟨j, Nat.lt_succ_self j, by rw [hmed j hj, if_pos rfl]⟩
    · rw [Function.update_noteq hqb, hinv.hmark q hq]
      constructor
      · rintro ⟨m, hm, he⟩
        refine ⟨m, Nat.lt_succ_of_lt hm, ?_⟩
        rw [hmed m (by omega), if_neg (by omega)]
        exact he
      · rintro ⟨m, hm, he⟩
        rw [hmed m (by omega)] at he
        by_cases e : m = j
        · rw [if_pos e] at he; exact absurd he.symm hqb
        · rw [if_neg e] at he; exact ⟨m, by omega, he⟩
  · intro q hq hm
    rw [hN] at hq
    rw [hdn q]
    by_cases hqb : q = b
    · rw [if_pos hqb]
    · rw [if_neg hqb]
      rw [hmarks, Function.update_noteq hqb] at hm
      have h0 := hinv.hzero q hq hm
      rw [h0, if_neg]
      intro h
      exact absurd h.2 (not_lt.mpr (le_of_lt (hv.2.2 q b hq hb hqb)))
  · intro q hq hm
    rw [hN] at hq
    rw [hdn q]
    have hqb : q ≠ b := by
      intro h
      rw [hmarks, h, Function.update_same] at hm
      exact Bool.noConfusion hm
    rw [if_neg hqb]
    rw [hmarks, Function.update_noteq hqb] at hm
    split_ifs
    · exact hv.2.2 q b hq hb hqb
    · exact hinv.hpos q hq hm
  · rw [hTD, hN, tdchange_eq, hinv.hTD]
    have hterm : ∀ q, q ∈ Finset.range t.num_obs → u.dnearest q =
        t.dnearest q +
          (if q ≠ b ∧ t.D b q < t.dnearest q then t.D b q - t.dnearest q else 0) -
          (if q = b then t.dnearest b else 0) := by
      intro q hq
      have hq2 := Finset.mem_range.mp hq
      rw [hdn q]
      by_cases hqb : q = b
      · subst hqb
        simp
      · rw [if_neg hqb, if_neg hqb, hv.1 q b hq2 hb]
        by_cases hlt : t.D b q < t.dnearest q
        · rw [if_pos ⟨hq2, hlt⟩, if_pos ⟨hqb, hlt⟩]; ring
        · rw [if_neg (fun h => hlt h.2), if_neg (fun h => hlt h.2)]; ring
    rw [Finset.sum_congr rfl hterm, Finset.sum_sub_distrib, Finset.sum_add_distrib,
      Finset.sum_ite_eq' (Finset.range t.num_obs) b (fun _ => t.dnearest b),
      if_pos (Finset.mem_range.mpr hb)]
    ring

end FastPAM

theorem nodup_of_slot_inj (l : List Nat)
    (h : ∀ j1 j2, j1 < l.length → j2 < l.length → l.getD j1 0 = l.getD j2 0 → j1 = j2) :
    l.Nodup := by
  rw [List.nodup_iff_getElem?_ne_getElem?]
  intro i j hij hj he
  have hi : i < l.length := lt_trans hij hj
  have := h i j hi hj (by
    rw [List.getD_eq_getElem?_getD, List.getD_eq_getElem?_getD, he])
  omega

namespace FastPAM

/-- One turn of the loop of BUILD on `nextmed`, with fewer medoids placed than asked
for and than points: it does not stop, the first non-medoid candidate with the least
change takes slot `j`, and the invariant of BUILD holds with one more medoid. -/
theorem admitMedoid_step {t : FastPAM} {j : Nat} (hv : t.ValidD) (hinv : BuildInv t j)
    (hj : j < t.nmed) (hkN : t.nmed ≤ t.num_obs) :
    ∃ u, t.admitMedoid j t.bestCandidate = .ok u ∧ u.D = t.D ∧ u.num_obs = t.num_obs ∧
      u.nmed = t.nmed ∧ u.MAXD = t.MAXD ∧ u.maxiter = t.maxiter ∧ u.method = t.method ∧
      u.TDkeep = t.TDkeep ∧ u.NpointsChangekeep = t.NpointsChangekeep ∧
      u.medoids = t.medoids.set j t.bestCandidate.2 ∧
      t.bestCandidate.2 < t.num_obs ∧ t.ismedoid t.bestCandidate.2 = false ∧
      t.bestCandidate.1 = t.tdchange t.bestCandidate.2 ∧ t.bestCandidate.1 < 0 ∧
      -t.currentTD ≤ t.bestCandidate.1 ∧
      (∀ c, c < t.num_obs → t.ismedoid c = false → t.bestCandidate.1 ≤ t.tdchange c) ∧
      (∀ c, c < t.bestCandidate.2 → t.ismedoid c = false →
        t.bestCandidate.1 < t.tdchange c) ∧
      BuildInv u (j + 1) := by
  obtain ⟨c, hc, hcm⟩ := hinv.exists_candidate (lt_of_lt_of_le hj hkN)
  have key := bestCandidate_fold t t.num_obs
  rw [show (List.range t.num_obs).foldl t.candidateStep (DBL_MAX, t.num_obs + 1) =
    t.bestCandidate from rfl] at key
  rcases key with ⟨_, hno⟩ | ⟨h1, h2, h3, h4, h5, h6⟩
  · exact absurd (hinv.tdchange_neg c hc hcm) (hno c hc hcm)
  · have hge : -t.currentTD ≤ t.bestCandidate.1 := by
      rw [h3]; exact hinv.tdchange_ge hv _ h1
    unfold admitMedoid
    rw [if_neg (not_lt.mpr (le_of_lt h1))]
    simp only
    rw [if_neg (not_lt.mpr hge), reassign_eq]
    refine ⟨_, rfl, rfl, rfl, rfl, rfl, rfl, rfl, rfl, rfl, rfl, h1, h2, h3, h4, hge, h5, h6,
      ?_⟩
    refine buildInv_after_admit hv hinv hj t.bestCandidate.2 h1 h2 _ rfl rfl rfl rfl ?_ ?_
    · intro x
      by_cases hx : x = t.bestCandidate.2
      · rw [if_pos hx, hx]
        exact Function.update_same _ _ _
      · rw [if_neg hx]
        show Function.update (fun x => if x < t.num_obs ∧
          t.D x t.bestCandidate.2 < Function.update t.dnearest t.bestCandidate.2 0 x then
            t.D x t.bestCandidate.2
          else Function.update t.dnearest t.bestCandidate.2 0 x) t.bestCandidate.2 0 x = _
        rw [Function.update_noteq hx]
        simp only [Function.update_noteq hx]
    · show t.currentTD + t.bestCandidate.1 = _
      rw [h3]

/-- The loop of BUILD on `nextmed`, from slot `j` to the last one. -/
theorem buildLoop_spec :
    ∀ (len j : Nat) (t : FastPAM), t.ValidD → BuildInv t j → j + len = t.nmed →
      t.nmed ≤ t.num_obs →
      ∃ u, buildLoop (List.range' j len) t = .ok u ∧ u.D = t.D ∧ u.num_obs = t.num_obs ∧
        u.nmed = t.nmed ∧ u.MAXD = t.MAXD ∧ u.maxiter = t.maxiter ∧ u.method = t.method ∧
        u.TDkeep = t.TDkeep ∧ u.NpointsChangekeep = t.NpointsChangekeep ∧
        BuildInv u t.nmed := by
  intro len
  induction len with
  | zero =>
    intro j t _ hinv hjl _
    have hjk : j = t.nmed := by omega
    refine ⟨t, by simp [buildLoop], rfl, rfl, rfl, rfl, rfl, rfl, rfl, rfl, ?_⟩
    rw [← hjk]; exact hinv
  | succ len ih =>
    intro j t hv hinv hjl hkN
    obtain ⟨u, hu, hD, hN, hK, hM, hmi, hme, hk1, hk2, _, _, _, _, _, _, _, _, hinv2⟩ :=
      admitMedoid_step hv hinv (by omega) hkN
    obtain ⟨w, hw, hD2, hN2, hK2, hM2, hmi2, hme2, hk12, hk22, hinv3⟩ :=
      ih (j + 1) u (validD_of_eq hD hN hv) hinv2 (by rw [hK]; omega) (by rw [hK, hN]; exact hkN)
    refine ⟨w, ?_, hD2.trans hD, hN2.trans hN, hK2.trans hK, hM2.trans hM, hmi2.trans hmi,
      hme2.trans hme, hk12.trans hk1, hk22.trans hk2, ?_⟩
    · rw [List.range'_succ]
      simp only [buildLoop, hu]
      exact hw
    · rw [← hK]; exact hinv3

/-- The state of BUILD after the first medoid, a point `b0` whose row adds up to
`currentTD`, is placed in slot 0. -/
theorem buildInv_first {s : FastPAM} (hv : s.ValidD) (hfresh : s.Fresh) (hk : 0 < s.nmed)
    (b0 : Nat) (hb : b0 < s.num_obs) (u : FastPAM)
    (hN : u.num_obs = s.num_obs) (hK : u.nmed = s.nmed)
    (hlen : u.medoids.length = s.nmed) (hmed0 : u.med 0 = b0)
    (hmarks : u.ismedoid = Function.update s.ismedoid b0 true)
    (hdn : ∀ x, x < s.num_obs → u.dnearest x = if x = b0 then 0 else s.D x b0)
    (hTD : u.currentTD = s.rowSum b0) :
    BuildInv u 1 := by
  refine ⟨?_, ?_, ?_, ?_, ?_, ?_, ?_, ?_⟩
  · rw [hK]; exact hlen
  · rw [hK]; exact hk
  · intro m1 m2 h1 h2 _
    omega
  · intro m hm
    have : m = 0 := by omega
    rw [this, hmed0, hN]; exact hb
  · intro q hq
    rw [hN] at hq
    rw [hmarks]
    by_cases hqb : q = b0
    · subst hqb
      simp only [Function.update_same, true_iff]
      exact ⟨0, Nat.one_pos, hmed0⟩
    · rw [Function.update_noteq hqb, hfresh.2 q hq]
      simp only [Bool.false_eq_true, false_iff]
      rintro ⟨m, hm, he⟩
      have : m = 0 := by omega
      rw [this, hmed0] at he
      exact hqb he.symm
  · intro q hq hm
    rw [hN] at hq
    have hqb : q = b0 := by
      by_contra hne
      rw [hmarks, Function.update_noteq hne, hfresh.2 q hq] at hm
      exact Bool.noConfusion hm
    rw [hdn q hq, if_pos hqb]
  · intro q hq hm
    rw [hN] at hq
    have hqb : q ≠ b0 := by
      intro h
      rw [hmarks, h, Function.update_same] at hm
      exact Bool.noConfusion hm
    rw [hdn q hq, if_neg hqb]
    exact hv.2.2 q b0 hq hb hqb
  · rw [hTD, hN, rowSum_eq]
    apply Finset.sum_congr rfl
    intro q hq
    have hq2 := Finset.mem_range.mp hq
    rw [hdn q hq2]
    by_cases hqb : q = b0
    · rw [if_pos hqb, hqb]; exact hv.2.1 b0 hb
    · rw [if_neg hqb]; exact hv.1 b0 q hb hq2

/-- BUILD from the state the constructor leaves, for a dissimilarity matrix whose rows
add up to less than `MAXD` and `1 ≤ nmed ≤ num_obs`: it returns, with `nmed` distinct
points in `medoids` and `currentTD` the sum of `dnearest`. -/
theorem BUILD_spec {s : FastPAM} (hv : s.ValidD) (hr : s.InRange) (hfresh : s.Fresh)
    (hk : 0 < s.nmed) (hkN : s.nmed ≤ s.num_obs) :
    ∃ u, s.BUILD = .ok u ∧ u.D = s.D ∧ u.num_obs = s.num_obs ∧ u.nmed = s.nmed ∧
      u.MAXD = s.MAXD ∧ u.maxiter = s.maxiter ∧ u.method = s.method ∧
      u.TDkeep = s.TDkeep ∧ u.NpointsChangekeep = s.NpointsChangekeep ∧
      BuildInv u s.nmed := by
  have hN0 : 0 < s.num_obs := lt_of_lt_of_le hk hkN
  obtain ⟨h1, h2, _, _⟩ := scanMin_found s.rowSum s.num_obs s.MAXD (s.num_obs + 1)
    ⟨0, hN0, by rw [rowSum_eq]; exact hr 0 hN0⟩
  rw [show scanMin s.rowSum s.num_obs (s.MAXD, s.num_obs + 1) = s.firstMedoid from rfl]
    at h1 h2
  have hinv : BuildInv
      (assignFirst { s with currentTD := s.firstMedoid.1,
                            medoids := s.medoids ++ [s.firstMedoid.2] ++
                              List.replicate (s.nmed - 1) NO_CLUSTER }
        s.firstMedoid.2 (fun q => s.D q s.firstMedoid.2)) 1 := by
    refine buildInv_first hv hfresh hk s.firstMedoid.2 h1 _ rfl rfl ?_ ?_ rfl ?_ h2
    · show (s.medoids ++ [s.firstMedoid.2] ++
        List.replicate (s.nmed - 1) NO_CLUSTER).length = s.nmed
      rw [hfresh.1]
      simp only [List.nil_append, List.length_append, List.length_singleton,
        List.length_replicate]
      omega
    · show (s.medoids ++ [s.firstMedoid.2] ++
        List.replicate (s.nmed - 1) NO_CLUSTER).getD 0 0 = s.firstMedoid.2
      rw [hfresh.1]
      simp
    intro x hx
    show Function.update ((List.range s.num_obs).foldl
      (fun arr q => Function.update arr q (s.D q s.firstMedoid.2)) s.dnearest)
      s.firstMedoid.2 0 x = _
    by_cases hxb : x = s.firstMedoid.2
    · rw [if_pos hxb, hxb]; exact Function.update_same _ _ _
    · rw [if_neg hxb, Function.update_noteq hxb,
        foldl_update_apply (fun q => s.D q s.firstMedoid.2),
        if_pos (List.mem_range.mpr hx)]
  obtain ⟨u, hu, hD, hN, hK, hM, hmi, hme, hk1, hk2, hinv2⟩ :=
    buildLoop_spec (s.nmed - 1) 1 _ (by exact validD_of_eq (s := s) rfl rfl hv) hinv
      (by show 1 + (s.nmed - 1) = s.nmed; omega) hkN
  refine ⟨u, ?_, hD, hN, hK, hM, hmi, hme, hk1, hk2, hinv2⟩
  unfold BUILD
  simp only
  rw [if_neg (not_lt.mpr (le_of_lt h1))]
  exact hu

end FastPAM

theorem foldl_mark_true (g : Nat → Nat) (n : Nat) (base : Nat → Bool) (x : Nat) :
    (List.range n).foldl (fun marks m => Function.update marks (g m) true) base x = true ↔
      (∃ m, m < n ∧ g m = x) ∨ base x = true := by
  induction n with
  | zero => simp
  | succ n ih =>
    rw [List.range_succ, List.foldl_append, List.foldl_cons, List.foldl_nil]
    by_cases hx : x = g n
    · subst hx
      simp only [Function.update_same, true_iff]
      exact Or.inl ⟨n, Nat.lt_succ_self n, rfl⟩
    · rw [Function.update_noteq hx, ih]
      constructor
      · rintro (⟨m, hm, he⟩ | h)
        · exact Or.inl ⟨m, Nat.lt_succ_of_lt hm, he⟩
        · exact Or.inr h
      · rintro (⟨m, hm, he⟩ | h)
        · rcases Nat.lt_succ_iff_lt_or_eq.mp hm with h1 | h1
          · exact Or.inl ⟨m, h1, he⟩
          · subst h1; exact absurd he.symm hx
        · exact Or.inr h

namespace FastPAM

/-- The marks recomputed by InitializeInternals are those of the medoids. -/
theorem markMedoids_iff (s : FastPAM) (q : Nat) (hq : q < s.num_obs) :
    s.markMedoids q = true ↔ ∃ m, m < s.nmed ∧ s.med m = q := by
  unfold markMedoids
  rw [foldl_mark_true, foldl_update_apply (fun _ => false), if_pos (List.mem_range.mpr hq)]
  simp

/-- InitializeInternals on `nmed ≥ 1` distinct medoids, points of a dissimilarity matrix
whose rows add up to less than `MAXD`: the state returned satisfies the invariants of
the clustering state but for `dsecond`, and `currentTD` is the sum of `dnearest`. -/
theorem InitializeInternals_assigned {s : FastPAM} (hv : s.ValidD) (hr : s.InRange)
    (hk : 0 < s.nmed) (hlen : s.medoids.length = s.nmed)
    (hin : ∀ m, m < s.nmed → s.med m < s.num_obs) (hnd : s.medoids.Nodup) :
    ∃ s1, s.InitializeInternals = .ok s1 ∧ s1.D = s.D ∧ s1.num_obs = s.num_obs ∧
      s1.nmed = s.nmed ∧ s1.MAXD = s.MAXD ∧ s1.maxiter = s.maxiter ∧
      s1.method = s.method ∧ s1.medoids = s.medoids ∧ s1.TDkeep = s.TDkeep ∧
      s1.NpointsChangekeep = s.NpointsChangekeep ∧
      s1.is_initialized = s.is_initialized ∧ s1.Assigned ∧
      s1.currentTD = ∑ q in Finset.range s1.num_obs, s1.dnearest q := by
  have hfound : ∀ q, q < s.num_obs → ∃ m, m < s.nmed ∧ s.D q (s.med m) < s.MAXD :=
    fun q hq => ⟨0, hk, entry_lt_MAXD hv hr q _ hq (hin 0 hk)⟩
  obtain ⟨s1, h0, hD, hN, hK, hM, hmi, hme, hmeds, hk1, hk2, hii, hmarks, hn, hd, hTD⟩ :=
    InitializeInternals_fields s hfound
  have hmed : ∀ m, s1.med m = s.med m := by
    intro m; unfold med; rw [hmeds]
  refine ⟨s1, h0, hD, hN, hK, hM, hmi, hme, hmeds, hk1, hk2, hii, ?_, by rw [hN]; exact hTD⟩
  refine ⟨by rw [hmeds, hK]; exact hlen, ?_, by rw [hmeds]; exact hnd, ?_, ?_, ?_, ?_⟩
  · intro m hm
    rw [hmed, hN]; exact hin m (by rw [← hK]; exact hm)
  · intro q hq
    rw [hN] at hq
    rw [hmarks, markMedoids_iff s q hq, hmeds, mem_iff_slot, hlen]
    rfl
  · intro q hq
    rw [hN] at hq
    rw [hn q hq, hK]
    exact (closestSearch_found s q (hfound q hq)).1
  · intro q hq
    rw [hN] at hq
    rw [hd q hq, hn q hq, hD, hmed]
    exact (closestSearch_found s q (hfound q hq)).2.1
  · intro q m hq hm
    rw [hN] at hq
    rw [hK] at hm
    rw [hd q hq, hD, hmed]
    exact (closestSearch_found s q (hfound q hq)).2.2.1 m hm

end FastPAM

/-! ## The engines of the examples -/

theorem S1_validD (s : FastPAM) (hD : s.D = S1_D) (hN : s.num_obs = 4) : s.ValidD := by
  unfold FastPAM.ValidD
  rw [hD, hN]
  refine ⟨?_, ?_, ?_⟩
  · exact fun i j hi hj =>
      (by decide! : ∀ i, i < 4 → ∀ j, j < 4 → S1_D i j = S1_D j i) i hi j hj
  · exact (by decide! : ∀ i, i < 4 → S1_D i i = 0)
  · exact fun i j hi hj =>
      (by decide! : ∀ i, i < 4 → ∀ j, j < 4 → i ≠ j → 0 < S1_D i j) i hi j hj

theorem S1_inRange (s : FastPAM) (hD : s.D = S1_D) (hN : s.num_obs = 4)
    (hM : s.MAXD = FLT_MAX) : s.InRange := by
  unfold FastPAM.InRange
  rw [hD, hN, hM]
  exact (by decide! : ∀ r, r < 4 → ∑ c in Finset.range 4, S1_D r c < FLT_MAX)

theorem S1_state_01_consistent : S1_state_01.Consistent := by
  refine ⟨rfl, ?_, by decide, ?_, ?_, ?_, ?_, ?_, ?_⟩
  · exact (by decide : ∀ m, m < 2 → S1_state_01.med m < 4)
  · exact (by decide : ∀ q, q < 4 → (S1_state_01.ismedoid q = true ↔ q ∈ [0, 1]))
  · exact (by decide : ∀ q, q < 4 → S1_state_01.nearest q < 2)
  · exact (by decide! : ∀ q, q < 4 →
      S1_state_01.dnearest q = S1_D q (S1_state_01.med (S1_state_01.nearest q)))
  · exact fun q m hq hm => (by decide! : ∀ q, q < 4 → ∀ m, m < 2 →
      S1_state_01.dnearest q ≤ S1_D q (S1_state_01.med m)) q hq m hm
  · exact fun q m hq hm => (by decide! : ∀ q, q < 4 → ∀ m, m < 2 →
      m ≠ S1_state_01.nearest q →
      S1_state_01.dsecond q ≤ S1_D q (S1_state_01.med m)) q hq m hm
  · exact (by decide! : ∀ q, q < 4 →
      (∃ m, m < 2 ∧ m ≠ S1_state_01.nearest q ∧
        S1_state_01.dsecond q = S1_D q (S1_state_01.med m)) ∨
      (2 = 1 ∧ S1_state_01.dsecond q = FLT_MAX))

theorem S1_state_12_consistent : S1_state_12.Consistent := by
  refine ⟨rfl, ?_, by decide, ?_, ?_, ?_, ?_, ?_, ?_⟩
  · exact (by decide : ∀ m, m < 2 → S1_state_12.med m < 4)
  · exact (by decide : ∀ q, q < 4 → (S1_state_12.ismedoid q = true ↔ q ∈ [1, 2]))
  · exact (by decide : ∀ q, q < 4 → S1_state_12.nearest q < 2)
  · exact (by decide! : ∀ q, q < 4 →
      S1_state_12.dnearest q = S1_D q (S1_state_12.med (S1_state_12.nearest q)))
  · exact fun q m hq hm => (by decide! : ∀ q, q < 4 → ∀ m, m < 2 →
      S1_state_12.dnearest q ≤ S1_D q (S1_state_12.med m)) q hq m hm
  · exact fun q m hq hm => (by decide! : ∀ q, q < 4 → ∀ m, m < 2 →
      m ≠ S1_state_12.nearest q →
      S1_state_12.dsecond q ≤ S1_D q (S1_state_12.med m)) q hq m hm
  · exact (by decide! : ∀ q, q < 4 →
      (∃ m, m < 2 ∧ m ≠ S1_state_12.nearest q ∧
        S1_state_12.dsecond q = S1_D q (S1_state_12.med m)) ∨
      (2 = 1 ∧ S1_state_12.dsecond q = FLT_MAX))

theorem eq_ok_of_okOf {α : Type} (r : Except PamError α) (a : α) (h : okOf r = some a) :
    r = .ok a := by
  cases r with
  | error e => simp [okOf] at h
  | ok b => simp only [okOf, Option.some.injEq] at h; rw [h]

theorem eq_error_of_errorOf {α : Type} (r : Except PamError α) (e : PamError)
    (h : errorOf r = some e) : r = .error e := by
  cases r with
  | error e2 => simp only [errorOf, Option.some.injEq] at h; rw [h]
  | ok b => simp [errorOf] at h

theorem S1_state_01_exchange :
    S1_state_01.findBestExchange = .ok ⟨-1, 0, 2, 0⟩ :=
  eq_ok_of_okOf _ _ (by decide!)

theorem S1_state_12_exchange :
    S1_state_12.findBestExchange = .ok ⟨0, 5, 5, 3⟩ :=
  eq_ok_of_okOf _ _ (by decide!)

/-! ## The threads of ParBUILD -/

theorem pick_assoc (a m x : ℚ × Nat) :
    (if x.1 < (if m.1 < a.1 then m else a).1 then x else (if m.1 < a.1 then m else a)) =
      (if (if x.1 < m.1 then x else m).1 < a.1 then (if x.1 < m.1 then x else m) else a) := by
  split_ifs <;> first | rfl | (exfalso; linarith)

theorem foldl_pick_le (P : Nat → Prop) [DecidablePred P] (g : Nat → ℚ × Nat) (l : List Nat)
    (acc : ℚ × Nat) :
    (l.foldl (fun a c => if P c then (if (g c).1 < a.1 then g c else a) else a) acc).1 ≤
      acc.1 := by
  induction l generalizing acc with
  | nil => simp
  | cons c l ih =>
    rw [List.foldl_cons]
    refine le_trans (ih _) ?_
    split_ifs with h1 h2
    · exact le_of_lt h2
    · exact le_refl _
    · exact le_refl _

/-- A search of a first least element started from `acc` is the search started from a
value that is not below `acc`, compared with `acc` at the end. -/
theorem foldl_pick_start (P : Nat → Prop) [DecidablePred P] (g : Nat → ℚ × Nat)
    (l : List Nat) (acc init : ℚ × Nat) (h : acc.1 ≤ init.1) :
    l.foldl (fun a c => if P c then (if (g c).1 < a.1 then g c else a) else a) acc =
      (if (l.foldl (fun a c => if P c then (if (g c).1 < a.1 then g c else a) else a)
          init).1 < acc.1 then
        l.foldl (fun a c => if P c then (if (g c).1 < a.1 then g c else a) else a) init
       else acc) := by
  induction l using List.reverseRecOn with
  | nil => simp only [List.foldl_nil]; rw [if_neg (not_lt.mpr h)]
  | append_singleton l c ih =>
    rw [List.foldl_append, List.foldl_append, ih]
    simp only [List.foldl_cons, List.foldl_nil]
    by_cases hP : P c
    · simp only [if_pos hP]
      exact pick_assoc acc _ (g c)
    · simp only [if_neg hP]

namespace FastPAM

/-- The driver of ParBUILD, which keeps the first thread result with the least value,
gets what one search along the points of all the threads, in order, would get. -/
theorem foldl_reduce (P : Nat → Prop) [DecidablePred P] (g : Nat → ℚ × Nat)
    (segs : Nat → List Nat) (n : Nat) (init : ℚ × Nat) :
    reduceThreads
        (fun t => (segs t).foldl
          (fun a c => if P c then (if (g c).1 < a.1 then g c else a) else a) init) n init =
      ((List.range n).flatMap segs).foldl
        (fun a c => if P c then (if (g c).1 < a.1 then g c else a) else a) init := by
  unfold reduceThreads
  induction n with
  | zero => simp
  | succ n ih =>
    rw [List.range_succ, List.foldl_append, ih, List.flatMap_append, List.flatMap_singleton,
      List.foldl_append]
    simp only [List.foldl_cons, List.foldl_nil]
    exact (foldl_pick_start P g (segs n) _ init (foldl_pick_le P g _ init)).symm

/-- The first point of thread `t` of `nt` when the points are dealt as in lines
555-572: `num_obs / nt` to each thread, and one more to the first `num_obs % nt`. -/
theorem threadRange_eq (num_obs nt t : Nat) (ht : t < nt) :
    threadRange num_obs nt t =
      (t * (num_obs / nt) + min t (num_obs % nt),
       (t + 1) * (num_obs / nt) + min (t + 1) (num_obs % nt)) := by
  have hdiv := Nat.div_add_mod num_obs nt
  have hmod : num_obs % nt < nt := Nat.mod_lt _ (by omega)
  unfold threadRange
  simp only []
  generalize num_obs / nt = q at hdiv ⊢
  generalize num_obs % nt = r at hdiv hmod ⊢
  have e1 : (t + 1) * q = t * q + q := by ring
  have e2 : t * (q + 1) = t * q + t := by ring
  have e6 : nt * q = t * q + q + (nt - t - 1) * q := by
    have h1 : nt = t + 1 + (nt - t - 1) := by omega
    conv_lhs => rw [h1]
    ring
  by_cases htr : t < r
  · have c1 : r ≠ 0 ∧ t < r := ⟨by omega, htr⟩
    have c2 : ¬ t ≥ r := by omega
    simp only [if_pos c1, if_neg c2]
    rw [e2, Nat.min_eq_left (le_of_lt htr), Nat.min_eq_left (by omega : t + 1 ≤ r), e1]
    have hle : ¬ t * q + t + (q + 1) > num_obs := by omega
    rw [if_neg hle]
    congr 1
    omega
  · have c1 : ¬ (r ≠ 0 ∧ t < r) := fun h => htr h.2
    have c2 : t ≥ r := by omega
    simp only [if_neg c1, if_pos c2]
    rw [Nat.min_eq_right (by omega : r ≤ t), Nat.min_eq_right (by omega : r ≤ t + 1), e1]
    have hle : ¬ t * q + r + q > num_obs := by omega
    rw [if_neg hle]
    congr 1
    omega

/-- The points of the first `n` threads, in order, are the points below the first
point of thread `n`. -/
theorem flatMap_threadPoints (num_obs nt n : Nat) (hn : n ≤ nt) :
    (List.range n).flatMap (threadPoints num_obs nt) =
      List.range (n * (num_obs / nt) + min n (num_obs % nt)) := by
  induction n with
  | zero => simp
  | succ n ih =>
    rw [List.range_succ, List.flatMap_append, List.flatMap_singleton, ih (by omega)]
    unfold threadPoints
    rw [threadRange_eq num_obs nt n (by omega)]
    simp only []
    generalize num_obs / nt = q
    generalize num_obs % nt = r
    have hmono : n * q + min n r ≤ (n + 1) * q + min (n + 1) r := by
      have e1 : (n + 1) * q = n * q + q := by ring
      rw [e1]
      have : min n r ≤ min (n + 1) r := by
        simp only [Nat.min_def]; split_ifs <;> omega
      omega
    rw [List.range_eq_range', List.range_eq_range']
    have := List.range'_append 0 (n * q + min n r)
      ((n + 1) * q + min (n + 1) r - (n * q + min n r)) 1
    simp only [Nat.zero_add, Nat.one_mul] at this
    rw [this]
    congr 1
    omega

/-- The points of the `nt ≥ 1` threads, in the order of the threads, are the points
`0, ..., num_obs - 1`, each once. -/
theorem threadPoints_cover (num_obs nt : Nat) (hnt : 1 ≤ nt) :
    (List.range nt).flatMap (threadPoints num_obs nt) = List.range num_obs := by
  rw [flatMap_threadPoints num_obs nt nt (le_refl _)]
  congr 1
  have hdiv := Nat.div_add_mod num_obs nt
  have hmod : num_obs % nt < nt := Nat.mod_lt _ (by omega)
  rw [Nat.min_eq_right (le_of_lt hmod)]
  exact hdiv

end FastPAM

namespace FastPAM

theorem candidateStep_eq (s : FastPAM) :
    s.candidateStep = fun a c =>
      if s.ismedoid c = false ∧ s.tdchange c < 0 then
        (if (s.tdchange c, c).1 < a.1 then (s.tdchange c, c) else a)
      else a := by
  funext a c
  unfold candidateStep
  by_cases h1 : s.ismedoid c = false
  · by_cases h2 : s.tdchange c < 0
    · by_cases h3 : s.tdchange c < a.1
      · simp [h1, h2, h3]
      · simp [h1, h2, h3]
    · simp [h1, h2]
  · simp [h1]

/-- With at least one thread, the driver of ParBUILD finds the candidate that BUILD
finds. -/
theorem reduceThreads_successive (s : FastPAM) (nt : Nat) (hnt : 1 ≤ nt) :
    reduceThreads (s.FindSuccessiveMedoidBUILDThread nt) nt (DBL_MAX, s.num_obs + 1) =
      s.bestCandidate := by
  unfold bestCandidate
  rw [← threadPoints_cover s.num_obs nt hnt]
  have h1 : s.FindSuccessiveMedoidBUILDThread nt = fun t =>
      (threadPoints s.num_obs nt t).foldl
        (fun a c => if s.ismedoid c = false ∧ s.tdchange c < 0 then
          (if (s.tdchange c, c).1 < a.1 then (s.tdchange c, c) else a) else a)
        (DBL_MAX, s.num_obs + 1) := by
    funext t
    unfold FindSuccessiveMedoidBUILDThread
    rw [candidateStep_eq]
  rw [h1, candidateStep_eq]
  exact foldl_reduce (fun c => s.ismedoid c = false ∧ s.tdchange c < 0)
    (fun c => (s.tdchange c, c)) (threadPoints s.num_obs nt) nt (DBL_MAX, s.num_obs + 1)

/-- With at least one thread, the driver of ParBUILD finds the first medoid that BUILD
finds. -/
theorem reduceThreads_first (s : FastPAM) (nt : Nat) (hnt : 1 ≤ nt) :
    reduceThreads (s.FindFirstMedoidBUILDThread nt) nt (s.MAXD, s.num_obs + 1) =
      s.firstMedoid := by
  unfold firstMedoid scanMin
  rw [← threadPoints_cover s.num_obs nt hnt]
  have h1 : s.FindFirstMedoidBUILDThread nt = fun t =>
      (threadPoints s.num_obs nt t).foldl
        (fun a c => if True then
          (if (s.rowSum c, c).1 < a.1 then (s.rowSum c, c) else a) else a)
        (s.MAXD, s.num_obs + 1) := by
    funext t
    unfold FindFirstMedoidBUILDThread
    simp only [if_true]
  rw [h1]
  have h2 := foldl_reduce (fun _ => True) (fun c => (s.rowSum c, c))
    (threadPoints s.num_obs nt) nt (s.MAXD, s.num_obs + 1)
  rw [h2]
  simp only [if_true]

/-- With at least one thread, the loop of ParBUILD on `nextmed` does what the loop of
BUILD does. -/
theorem parBuildLoop_eq (nt : Nat) (hnt : 1 ≤ nt) (l : List Nat) (s : FastPAM) :
    parBuildLoop nt l s = buildLoop l s := by
  induction l generalizing s with
  | nil => rfl
  | cons a l ih =>
    simp only [parBuildLoop, buildLoop, reduceThreads_successive s nt hnt]
    cases s.admitMedoid a s.bestCandidate with
    | error e => rfl
    | ok s1 => exact ih s1

/-- ParBUILD with at least one thread, from the state the constructor leaves, for a
dissimilarity matrix whose rows add up to less than `MAXD` and `1 ≤ nmed ≤ num_obs`:
it returns, with `nmed` distinct points in `medoids` and `currentTD` the sum of
`dnearest`. -/
theorem ParBUILD_spec {s : FastPAM} (hv : s.ValidD) (hr : s.InRange) (hfresh : s.Fresh)
    (hk : 0 < s.nmed) (hkN : s.nmed ≤ s.num_obs) (nt : Nat) (hnt : 1 ≤ nt) :
    ∃ u, s.ParBUILD nt = .ok u ∧ u.D = s.D ∧ u.num_obs = s.num_obs ∧ u.nmed = s.nmed ∧
      u.MAXD = s.MAXD ∧ u.maxiter = s.maxiter ∧ u.method = s.method ∧
      u.TDkeep = s.TDkeep ∧ u.NpointsChangekeep = s.NpointsChangekeep ∧
      BuildInv u s.nmed := by
  have hN0 : 0 < s.num_obs := lt_of_lt_of_le hk hkN
  obtain ⟨h1, h2, _, _⟩ := scanMin_found s.rowSum s.num_obs s.MAXD (s.num_obs + 1)
    ⟨0, hN0, by rw [rowSum_eq]; exact hr 0 hN0⟩
  rw [show scanMin s.rowSum s.num_obs (s.MAXD, s.num_obs + 1) = s.firstMedoid from rfl]
    at h1 h2
  have hinv : BuildInv
      (assignFirst { s with currentTD := s.firstMedoid.1,
                            medoids := (s.medoids.take s.nmed ++
                              List.replicate (s.nmed - s.medoids.length)
                                (s.num_obs + 1)).set 0 s.firstMedoid.2 }
        s.firstMedoid.2 (fun q => s.D s.firstMedoid.2 q)) 1 := by
    refine buildInv_first hv hfresh hk s.firstMedoid.2 h1 _ rfl rfl ?_ ?_ rfl ?_ h2
    · show ((s.medoids.take s.nmed ++ List.replicate (s.nmed - s.medoids.length)
        (s.num_obs + 1)).set 0 s.firstMedoid.2).length = s.nmed
      rw [hfresh.1]
      simp
    · show ((s.medoids.take s.nmed ++ List.replicate (s.nmed - s.medoids.length)
        (s.num_obs + 1)).set 0 s.firstMedoid.2).getD 0 0 = s.firstMedoid.2
      rw [getD_set_slot _ _ _ _ (by rw [hfresh.1]; simpa using hk), if_pos rfl]
    intro x hx
    show Function.update ((List.range s.num_obs).foldl
      (fun arr q => Function.update arr q (s.D s.firstMedoid.2 q)) s.dnearest)
      s.firstMedoid.2 0 x = _
    by_cases hxb : x = s.firstMedoid.2
    · rw [if_pos hxb, hxb]; exact Function.update_same _ _ _
    · rw [if_neg hxb, Function.update_noteq hxb,
        foldl_update_apply (fun q => s.D s.firstMedoid.2 q),
        if_pos (List.mem_range.mpr hx)]
      exact hv.1 _ _ h1 hx
  obtain ⟨u, hu, hD, hN, hK, hM, hmi, hme, hk1, hk2, hinv2⟩ :=
    buildLoop_spec (s.nmed - 1) 1 _ (by exact validD_of_eq (s := s) rfl rfl hv) hinv
      (by show 1 + (s.nmed - 1) = s.nmed; omega) hkN
  refine ⟨u, ?_, hD, hN, hK, hM, hmi, hme, hk1, hk2, hinv2⟩
  unfold ParBUILD
  simp only [reduceThreads_first s nt hnt, parBuildLoop_eq nt hnt]
  rw [if_neg (not_lt.mpr (le_of_lt h1))]
  exact hu

/-- Init with the BUILD method and at least one thread (or fewer than 1000 points, for
which the number of threads is not looked at), from the state the constructor leaves:
it returns a state that satisfies the invariants of the clustering state but for
`dsecond`, with `currentTD` the sum of `dnearest`. -/
theorem Init_BUILD_assigned {s : FastPAM} (hv : s.ValidD) (hr : s.InRange)
    (hfresh : s.Fresh) (hmeth : s.method = INIT_METHOD_BUILD) (hk : 0 < s.nmed)
    (hkN : s.nmed ≤ s.num_obs) (initmedoids : List Nat) (nt : Nat)
    (hnt : 1 ≤ nt ∨ s.num_obs < 1000) (draws : List Nat) :
    ∃ s1, s.Init initmedoids nt draws = .ok s1 ∧ s1.D = s.D ∧ s1.num_obs = s.num_obs ∧
      s1.nmed = s.nmed ∧ s1.MAXD = s.MAXD ∧ s1.maxiter = s.maxiter ∧
      s1.TDkeep = s.TDkeep ∧ s1.NpointsChangekeep = s.NpointsChangekeep ∧
      s1.is_initialized = true ∧ s1.Assigned ∧
      s1.currentTD = ∑ q in Finset.range s1.num_obs, s1.dnearest q := by
  have hbuild : ∃ u, (if nt = 1 ∨ s.num_obs < 1000 then s.BUILD else s.ParBUILD nt) = .ok u ∧
      u.D = s.D ∧ u.num_obs = s.num_obs ∧ u.nmed = s.nmed ∧ u.MAXD = s.MAXD ∧
      u.maxiter = s.maxiter ∧ u.method = s.method ∧ u.TDkeep = s.TDkeep ∧
      u.NpointsChangekeep = s.NpointsChangekeep ∧ BuildInv u s.nmed := by
    by_cases hserial : nt = 1 ∨ s.num_obs < 1000
    · rw [if_pos hserial]
      exact BUILD_spec hv hr hfresh hk hkN
    · rw [if_neg hserial]
      refine ParBUILD_spec hv hr hfresh hk hkN nt ?_
      rcases hnt with h | h
      · exact h
      · exact absurd (Or.inr h) hserial
  obtain ⟨u, hu, hD, hN, hK, hM, hmi, _, hk1, hk2, hinv⟩ := hbuild
  have hnd : u.medoids.Nodup := by
    apply nodup_of_slot_inj
    intro j1 j2 h1 h2 he
    rw [hinv.hlen, hK] at h1 h2
    exact hinv.hinj j1 j2 h1 h2 he
  obtain ⟨s1, h0, hD1, hN1, hK1, hM1, hmi1, _, _, hk11, hk21, hii, ha, hTD⟩ :=
    InitializeInternals_assigned (s := { u with is_initialized := true })
      (validD_of_eq (s := s) hD hN hv) (inRange_of_eq (s := s) hD hN hM hr)
      (by show 0 < u.nmed; rw [hK]; exact hk) hinv.hlen
      (fun m hm => hinv.hlt m (by rw [← hK]; exact hm)) hnd
  refine ⟨s1, ?_, hD1.trans hD, hN1.trans hN, hK1.trans hK, hM1.trans hM, hmi1.trans hmi,
    hk11.trans hk1, hk21.trans hk2, hii, ha, hTD⟩
  unfold Init
  have hne : ¬ s.method = INIT_METHOD_PREVIOUS := by
    rw [hmeth]; decide
  simp only [if_neg hne, if_pos hmeth, hu]
  exact h0

end FastPAM

/-! ## PREVIOUS initialization -/

theorem foldl_push_back (inlist meds : List Nat) :
    inlist.foldl (fun meds t => meds ++ [t]) meds = meds ++ inlist := by
  induction inlist generalizing meds with
  | nil => simp
  | cons a l ih => rw [List.foldl_cons, ih]; simp

namespace FastPAM

theorem InitFromPreviousSet_eq (s : FastPAM) (inlist : List Nat)
    (hlen : inlist.length = s.nmed) :
    s.InitFromPreviousSet inlist = .ok { s with medoids := s.medoids ++ inlist } := by
  unfold InitFromPreviousSet
  rw [if_neg (not_not.mpr hlen), foldl_push_back]

/-- C8. Init with the PREVIOUS method stops with the error of a bad list of medoids
whenever the length of the list supplied differs from `nmed`. -/
theorem Init_PREVIOUS_wrong_length (s : FastPAM) (hmeth : s.method = INIT_METHOD_PREVIOUS)
    (inlist : List Nat) (hlen : inlist.length ≠ s.nmed) (nt : Nat) (draws : List Nat) :
    s.Init inlist nt draws = .error .BadMedoidsInput := by
  unfold Init InitFromPreviousSet
  simp only [if_pos hmeth, if_pos hlen]

/-- C9, as the code has it. InitFromPreviousSet does not look at the indices: every
list of length `nmed`, whatever its entries, is accepted and appended to `medoids` as
it is. -/
theorem InitFromPreviousSet_accepts (s : FastPAM) (inlist : List Nat)
    (hlen : inlist.length = s.nmed) :
    s.InitFromPreviousSet inlist = .ok { s with medoids := s.medoids ++ inlist } :=
  InitFromPreviousSet_eq s inlist hlen

end FastPAM

/-- C5. Scenario S1: for the matrix of four points on a line, `k = 2` and BUILD, Init
returns with `medoids = [1, 2]` and `currentTD / num_obs = 1/2`. -/
theorem S1_build_medoids :
    medoidsOf (S1_engine.Init [] 1 []) = some [1, 2] ∧
    meanTDOf (S1_engine.Init [] 1 []) = some (1 / 2) := by
  constructor <;> decide!

/-! ## The claims on the engines of the examples -/

/-- C9, counterexample. For the S1 engine (`N = 4`, `k = 2`) and the list `[1, 7]`,
which has length `k` and holds the index `7 ≥ N`, InitFromPreviousSet returns with
`medoids = [1, 7]`, and Init does not stop with the error of a bad list of medoids. -/
theorem InitFromPreviousSet_index_not_checked :
    [1, 7].length = S1_previous.nmed ∧ S1_previous.num_obs ≤ 7 ∧
    medoidsOf (S1_previous.InitFromPreviousSet [1, 7]) = some [1, 7] ∧
    errorOf (S1_previous.Init [1, 7] 1 []) ≠ some PamError.BadMedoidsInput := by
  refine ⟨rfl, by decide, by decide, ?_⟩
  decide!

theorem committed_iteration_keeps_TD_witness :
    S1_state_01.ValidD ∧ S1_state_01.InRange ∧ S1_state_01.Consistent ∧
    S1_state_01.currentTD = ∑ q in Finset.range S1_state_01.num_obs, S1_state_01.dnearest q ∧
    S1_state_01.findBestExchange = .ok ⟨-1, 0, 2, 0⟩ ∧
    ∃ s1, S1_state_01.commitExchange ⟨-1, 0, 2, 0⟩ = .ok (s1, false) ∧
      s1.medoids = S1_state_01.medoids.set 0 2 ∧ s1.Consistent ∧
      s1.currentTD = ∑ q in Finset.range s1.num_obs, s1.dnearest q ∧
      s1.currentTD = s1.totalDeviation s1.medoids :=
  ⟨S1_validD _ rfl rfl, S1_inRange _ rfl rfl rfl, S1_state_01_consistent, by decide!,
    S1_state_01_exchange,
    FastPAM.committed_iteration_keeps_TD S1_state_01 (S1_validD _ rfl rfl)
      (S1_inRange _ rfl rfl rfl) S1_state_01_consistent (by decide!) ⟨-1, 0, 2, 0⟩
      S1_state_01_exchange (by decide!)⟩

theorem halt_is_local_optimum_witness :
    S1_state_12.ValidD ∧ S1_state_12.InRange ∧ S1_state_12.Consistent ∧
    2 ≤ S1_state_12.nmed ∧
    S1_state_12.findBestExchange = .ok ⟨0, 5, 5, 3⟩ ∧
    FastPAM.swapLoop 0 1 0 S1_state_12 = .ok (S1_state_12, 0) ∧
    ∀ i x, i < S1_state_12.nmed → x < S1_state_12.num_obs → S1_state_12.ismedoid x = false →
      S1_state_12.totalDeviation S1_state_12.medoids ≤
        S1_state_12.totalDeviation (S1_state_12.medoids.set i x) :=
  ⟨S1_validD _ rfl rfl, S1_inRange _ rfl rfl rfl, S1_state_12_consistent, by decide,
    S1_state_12_exchange,
    FastPAM.halt_is_local_optimum S1_state_12 (S1_validD _ rfl rfl)
      (S1_inRange _ rfl rfl rfl) S1_state_12_consistent (by decide) ⟨0, 5, 5, 3⟩
      S1_state_12_exchange (by decide!) 0 0 0⟩

theorem findBestExchange_best_witness :
    S1_state_01.ValidD ∧ S1_state_01.InRange ∧ S1_state_01.Consistent ∧
    2 ≤ S1_state_01.nmed ∧
    ∃ e, S1_state_01.findBestExchange = .ok e ∧ e.DeltaTDst ≤ 0 ∧
      (∀ i x, i < S1_state_01.nmed → x < S1_state_01.num_obs →
        S1_state_01.ismedoid x = false → e.DeltaTDst ≤ S1_state_01.swapDelta i x) ∧
      ((e.DeltaTDst = 0 ∧ e.mst = S1_state_01.num_obs + 1 ∧
          e.xst = S1_state_01.num_obs + 1 ∧ e.imst = S1_state_01.nmed + 1) ∨
       (e.DeltaTDst < 0 ∧ e.imst < S1_state_01.nmed ∧ e.xst < S1_state_01.num_obs ∧
          S1_state_01.ismedoid e.xst = false ∧ e.mst = S1_state_01.med e.imst ∧
          S1_state_01.swapDelta e.imst e.xst = e.DeltaTDst ∧
          ∀ i x, i < S1_state_01.nmed → x < S1_state_01.num_obs →
            S1_state_01.ismedoid x = false →
            S1_state_01.swapDelta i x = e.DeltaTDst → e.xst < x ∨ (e.xst = x ∧ e.imst ≤ i))) :=
  ⟨S1_validD _ rfl rfl, S1_inRange _ rfl rfl rfl, S1_state_01_consistent, by decide,
    FastPAM.findBestExchange_best S1_state_01 (S1_validD _ rfl rfl)
      (S1_inRange _ rfl rfl rfl) S1_state_01_consistent (by decide)⟩

theorem TD_history_strictly_decreasing_witness :
    S1_state_01.ValidD ∧ S1_state_01.InRange ∧ S1_state_01.Assigned ∧
    2 ≤ S1_state_01.nmed ∧ S1_state_01.runRecords = [⟨-1, 0, 2, 0⟩] ∧
    ∃ s1, S1_state_01.RunImprovedFastPAM1 = .ok s1 ∧
      (∀ x, x ∈ S1_state_01.runRecords → x.DeltaTDst < 0) ∧
      s1.TDkeep = S1_state_01.TDkeep ++
        FastPAM.tdTrail S1_state_01.currentTD S1_state_01.num_obs
          (S1_state_01.runRecords.map (fun x => x.DeltaTDst)) ∧
      List.Chain (fun a b => b < a) (S1_state_01.currentTD / (S1_state_01.num_obs : ℚ))
        (FastPAM.tdTrail S1_state_01.currentTD S1_state_01.num_obs
          (S1_state_01.runRecords.map (fun x => x.DeltaTDst))) :=
  ⟨S1_validD _ rfl rfl, S1_inRange _ rfl rfl rfl, S1_state_01_consistent.assigned,
    by decide, by decide!,
    FastPAM.TD_history_strictly_decreasing S1_state_01 (S1_validD _ rfl rfl)
      (S1_inRange _ rfl rfl rfl) S1_state_01_consistent.assigned (by decide)⟩

theorem Init_PREVIOUS_wrong_length_witness :
    S1_previous.method = INIT_METHOD_PREVIOUS ∧ [3].length ≠ S1_previous.nmed ∧
    S1_previous.Init [3] 1 [] = .error .BadMedoidsInput :=
  ⟨rfl, by decide,
    FastPAM.Init_PREVIOUS_wrong_length S1_previous rfl [3] (by decide) 1 []⟩

theorem InitFromPreviousSet_accepts_witness :
    [1, 7].length = S1_previous.nmed ∧
    S1_previous.InitFromPreviousSet [1, 7] =
      .ok { S1_previous with medoids := S1_previous.medoids ++ [1, 7] } :=
  ⟨rfl, FastPAM.InitFromPreviousSet_accepts S1_previous [1, 7] rfl⟩

theorem scanMin_fst_start (f : Nat → ℚ) (n : Nat) (v0 : ℚ) (i0 i1 : Nat) :
    (scanMin f n (v0, i0)).1 = (scanMin f n (v0, i1)).1 := by
  induction n with
  | zero => rfl
  | succ n ih =>
    rw [scanMin_succ, scanMin_succ, ih]
    by_cases h : f n < (scanMin f n (v0, i1)).1
    · rw [if_pos h, if_pos h]
    · rw [if_neg h, if_neg h, ih]

namespace FastPAM

theorem initLoop_returns (l : List Nat) (s s1 : FastPAM) (h : initLoop l s = .ok s1) :
    ∀ q, q ∈ l → (s.closestSearch q).2 ≤ s.nmed := by
  induction l generalizing s with
  | nil => intro q hq; cases hq
  | cons a l ih =>
    intro q hq
    unfold initLoop at h
    by_cases ha : (s.closestSearch a).2 > s.nmed
    · simp only [if_pos ha] at h
      cases h
    · simp only [if_neg ha] at h
      rcases List.mem_cons.mp hq with rfl | hq
      · exact not_lt.mp ha
      · exact ih _ h q hq

theorem foldl_swapUpdateStep_fields (s : FastPAM) (n cm0 : Nat) :
    ((List.range n).foldl swapUpdateStep (s, cm0)).1.D = s.D ∧
    ((List.range n).foldl swapUpdateStep (s, cm0)).1.nmed = s.nmed ∧
    ((List.range n).foldl swapUpdateStep (s, cm0)).1.num_obs = s.num_obs ∧
    ((List.range n).foldl swapUpdateStep (s, cm0)).1.MAXD = s.MAXD ∧
    ((List.range n).foldl swapUpdateStep (s, cm0)).1.medoids = s.medoids ∧
    ∀ x, x < n → ((List.range n).foldl swapUpdateStep (s, cm0)).1.dnearest x =
      (s.closestSearch x).1 := by
  induction n with
  | zero => exact ⟨rfl, rfl, rfl, rfl, rfl, fun x hx => absurd hx (Nat.not_lt_zero x)⟩
  | succ n ih =>
    rw [List.range_succ, List.foldl_append, List.foldl_cons, List.foldl_nil]
    obtain ⟨hD, hK, hN, hM, hmeds, hdn⟩ := ih
    generalize (List.range n).foldl swapUpdateStep (s, cm0) = acc at hD hK hN hM hmeds hdn ⊢
    have hmed : acc.1.med = s.med := by
      funext m
      unfold med
      rw [hmeds]
    refine ⟨hD, hK, hN, hM, hmeds, ?_⟩
    intro x hx
    show Function.update acc.1.dnearest n _ x = _
    by_cases hxn : x = n
    · subst hxn
      rw [Function.update_same, hmed, hD, hK, hM]
      exact scanMin_fst_start _ _ _ _ _
    · rw [Function.update_noteq hxn]
      exact hdn x (by omega)

theorem closestSearch_le_secondSearch (s t : FastPAM) (hD : t.D = s.D) (hK : t.nmed = s.nmed)
    (hM : t.MAXD = s.MAXD) (hmeds : t.medoids = s.medoids) (q : Nat) :
    (s.closestSearch q).1 ≤ t.secondSearch q := by
  have hmed : t.med = s.med := by
    funext m
    unfold med
    rw [hmeds]
  obtain ⟨h0, hle, _⟩ := scanMin_spec (fun m => s.D q (s.med m)) s.nmed s.MAXD (s.nmed + 1)
  rcases (secondSearch_spec t q).2 with ⟨heq, _⟩ | ⟨m, hm, _, heq⟩
  · rw [heq, hM]
    exact h0
  · rw [heq, hD, hmed]
    exact hle m (hK ▸ hm)

end FastPAM

namespace FastPAM

theorem InitializeInternals_returns (t s1 : FastPAM) (h : t.InitializeInternals = .ok s1) :
    s1.D = t.D ∧ s1.nmed = t.nmed ∧ s1.num_obs = t.num_obs ∧ s1.MAXD = t.MAXD ∧
    s1.medoids = t.medoids ∧ s1.maxiter = t.maxiter ∧
    s1.is_initialized = t.is_initialized ∧
    ∀ q, q < t.num_obs → (t.closestSearch q).2 ≤ t.nmed ∧
      s1.nearest q = (t.closestSearch q).2 ∧ s1.dnearest q = (t.closestSearch q).1 := by
  unfold InitializeInternals at h
  have hret := initLoop_returns _ _ _ h
  rw [initLoop_ok _ _ hret] at h
  injection h with h
  subst h
  refine ⟨rfl, rfl, rfl, rfl, rfl, rfl, rfl, ?_⟩
  intro q hq
  have hmem : q ∈ List.range t.num_obs := List.mem_range.mpr hq
  refine ⟨hret q hmem, ?_, ?_⟩
  · show (if q ∈ List.range t.num_obs then _ else _) = _
    rw [if_pos hmem]
    rfl
  · show (if q ∈ List.range t.num_obs then _ else _) = _
    rw [if_pos hmem]
    rfl

theorem Init_returns (s : FastPAM) (initmedoids : List Nat) (nt : Nat) (draws : List Nat)
    (s1 : FastPAM) (h : s.Init initmedoids nt draws = .ok s1) :
    ∃ t : FastPAM, t.InitializeInternals = .ok s1 := by
  unfold Init at h
  simp only at h
  generalize (if s.method = INIT_METHOD_PREVIOUS then s.InitFromPreviousSet initmedoids
    else if s.method = INIT_METHOD_BUILD then
      (if nt = 1 ∨ s.num_obs < 1000 then s.BUILD else s.ParBUILD nt)
    else if s.method = INIT_METHOD_LAB then s.LAB draws
    else .error .UnknownMethod) = r at h
  cases r with
  | error e => cases h
  | ok a => exact ⟨_, h⟩

theorem swapUpdate_dnearest_le (s u : FastPAM) (cm : Nat)
    (hu : u = ((List.range s.num_obs).foldl swapUpdateStep (s, cm)).1) (q : Nat)
    (hq : q < u.num_obs) : u.FillSecond.dnearest q ≤ u.FillSecond.dsecond q := by
  obtain ⟨hD, hK, hN, hM, hmeds, hdn⟩ := foldl_swapUpdateStep_fields s s.num_obs cm
  rw [← hu] at hD hK hN hM hmeds hdn
  rw [FillSecond_dsecond u q hq]
  show u.dnearest q ≤ _
  rw [hdn q (hN ▸ hq)]
  exact closestSearch_le_secondSearch _ _ hD hK hM hmeds q

/-- C12. After FillSecond, for a state with `nmed ≥ 2` medoids and every point `q`, the
entry `dsecond[q]` is the least of the distances `D(q, medoids[m])` over the slots
`m ≠ nearest[q]`: it is below each of them and equal to one of them. The distances
are values of `disttype`, hence not above `MAXD`. -/
theorem FillSecond_dsecond_min (s : FastPAM) (hk : 2 ≤ s.nmed) (q : Nat)
    (hq : q < s.num_obs) (hle : ∀ m, m < s.nmed → s.D q (s.med m) ≤ s.MAXD) :
    (∀ m, m < s.nmed → m ≠ s.nearest q → s.FillSecond.dsecond q ≤ s.D q (s.med m)) ∧
    ∃ m, m < s.nmed ∧ m ≠ s.nearest q ∧ s.FillSecond.dsecond q = s.D q (s.med m) := by
  rw [FillSecond_dsecond s q hq]
  refine ⟨(secondSearch_spec s q).1, ?_⟩
  rcases (secondSearch_spec s q).2 with ⟨heq, hall⟩ | h
  · by_cases h0 : s.nearest q = 0
    · refine ⟨1, by omega, by omega, ?_⟩
      rw [heq]
      exact le_antisymm (hall 1 (by omega) (by omega)) (hle 1 (by omega))
    · refine ⟨0, by omega, fun h => h0 h.symm, ?_⟩
      rw [heq]
      exact le_antisymm (hall 0 (by omega) (fun h => h0 h.symm)) (hle 0 (by omega))
  · exact h

/-- C13. For every point `q`, `dsecond[q] ≥ dnearest[q]` at the start of the optimizer,
that is after an Init that returned and FillSecond, and after every
SwapRolesAndUpdate that returned. -/
theorem dsecond_ge_dnearest :
    (∀ (s : FastPAM) (initmedoids : List Nat) (nt : Nat) (draws : List Nat) (s1 : FastPAM),
      s.Init initmedoids nt draws = .ok s1 →
      ∀ q, q < s1.num_obs → s1.FillSecond.dnearest q ≤ s1.FillSecond.dsecond q) ∧
    (∀ (s : FastPAM) (mst xst imst : Nat) (s1 : FastPAM),
      s.SwapRolesAndUpdate mst xst imst = .ok s1 →
      ∀ q, q < s1.num_obs → s1.dnearest q ≤ s1.dsecond q) := by
  constructor
  · intro s initmedoids nt draws s1 h q hq
    obtain ⟨t, ht⟩ := Init_returns s initmedoids nt draws s1 h
    obtain ⟨hD, hK, hN, hM, hmeds, _, _, hpts⟩ := InitializeInternals_returns t s1 ht
    rw [FillSecond_dsecond s1 q hq]
    show s1.dnearest q ≤ _
    rw [(hpts q (hN ▸ hq)).2.2]
    exact closestSearch_le_secondSearch t s1 hD hK hM hmeds q
  · intro s mst xst imst s1 h q hq
    unfold SwapRolesAndUpdate at h
    by_cases hm : mst ≠ s.med imst
    · simp only [if_pos hm] at h
      cases h
    · simp only [if_neg hm] at h
      injection h with h
      subst h
      exact swapUpdate_dnearest_le _ _ _ rfl q hq

end FastPAM

/-! ## What Init leaves untouched -/

theorem foldl_keeps {σ α β : Type} (g : σ → β) (f : σ → α → σ)
    (h : ∀ t a, g (f t a) = g t) (l : List α) (s : σ) : g (l.foldl f s) = g s := by
  induction l generalizing s with
  | nil => rfl
  | cons a l ih => rw [List.foldl_cons, ih, h]

namespace FastPAM

theorem admitMedoid_maxiter (s u : FastPAM) (nextmed : Nat) (r : ℚ × Nat)
    (h : s.admitMedoid nextmed r = .ok u) : u.maxiter = s.maxiter := by
  unfold admitMedoid at h
  simp only at h
  split_ifs at h
  injection h with h
  subst h
  rw [reassign_eq]

theorem buildLoop_maxiter (l : List Nat) (s u : FastPAM) (h : buildLoop l s = .ok u) :
    u.maxiter = s.maxiter := by
  induction l generalizing s with
  | nil =>
    unfold buildLoop at h
    injection h with h
    rw [h]
  | cons a l ih =>
    unfold buildLoop at h
    cases hr : s.admitMedoid a s.bestCandidate with
    | error e => rw [hr] at h; cases h
    | ok s1 =>
      rw [hr] at h
      rw [ih s1 h, admitMedoid_maxiter s s1 a _ hr]

theorem parBuildLoop_maxiter (nt : Nat) (l : List Nat) (s u : FastPAM)
    (h : parBuildLoop nt l s = .ok u) : u.maxiter = s.maxiter := by
  induction l generalizing s with
  | nil =>
    unfold parBuildLoop at h
    injection h with h
    rw [h]
  | cons a l ih =>
    unfold parBuildLoop at h
    cases hr : s.admitMedoid a
        (reduceThreads (s.FindSuccessiveMedoidBUILDThread nt) nt (DBL_MAX, s.num_obs + 1)) with
    | error e => rw [hr] at h; cases h
    | ok s1 =>
      rw [hr] at h
      rw [ih s1 h, admitMedoid_maxiter s s1 a _ hr]

theorem BUILD_maxiter (s u : FastPAM) (h : s.BUILD = .ok u) : u.maxiter = s.maxiter := by
  unfold BUILD at h
  simp only at h
  split_ifs at h
  rw [buildLoop_maxiter _ _ _ h]
  rfl

theorem ParBUILD_maxiter (s u : FastPAM) (nt : Nat) (h : s.ParBUILD nt = .ok u) :
    u.maxiter = s.maxiter := by
  unfold ParBUILD at h
  simp only at h
  split_ifs at h
  rw [parBuildLoop_maxiter _ _ _ _ h]
  rfl

theorem labAdmit_maxiter (s u : FastPAM) (xstar : Nat) (h : s.labAdmit xstar = .ok u) :
    u.maxiter = s.maxiter := by
  unfold labAdmit at h
  simp only at h
  split_ifs at h
  injection h with h
  subst h
  show FastPAM.maxiter (List.foldl _ _ _) = _
  rw [foldl_keeps FastPAM.maxiter]
  intro t q
  split_ifs <;> rfl

theorem labLoop_maxiter (samplesize : Nat) (l : List Nat) (draws : List Nat) (s u : FastPAM)
    (h : labLoop samplesize l draws s = .ok u) : u.maxiter = s.maxiter := by
  induction l generalizing s draws with
  | nil =>
    unfold labLoop at h
    injection h with h
    rw [h]
  | cons a l ih =>
    unfold labLoop at h
    cases hs : randomSampleExc draws samplesize s.num_obs s.ismedoid with
    | none => rw [hs] at h; cases h
    | some p =>
      obtain ⟨S, draws1⟩ := p
      rw [hs] at h
      simp only at h
      cases hr : s.labAdmit (s.labBest samplesize S).2 with
      | error e => rw [hr] at h; cases h
      | ok s1 =>
        rw [hr] at h
        rw [ih draws1 s1 h, labAdmit_maxiter s s1 _ hr]

theorem LAB_maxiter (s u : FastPAM) (draws : List Nat) (h : s.LAB draws = .ok u) :
    u.maxiter = s.maxiter := by
  unfold LAB at h
  cases hs : randomSample draws (labSampleSize s.num_obs) with
  | none => rw [hs] at h; cases h
  | some p =>
    obtain ⟨S, draws1⟩ := p
    rw [hs] at h
    simp only at h
    rw [labLoop_maxiter _ _ _ _ _ h]

theorem Init_maxiter (s : FastPAM) (initmedoids : List Nat) (nt : Nat) (draws : List Nat)
    (s1 : FastPAM) (h : s.Init initmedoids nt draws = .ok s1) :
    s1.maxiter = s.maxiter ∧ s1.is_initialized = true := by
  unfold Init at h
  simp only at h
  cases hr : (if s.method = INIT_METHOD_PREVIOUS then s.InitFromPreviousSet initmedoids
    else if s.method = INIT_METHOD_BUILD then
      (if nt = 1 ∨ s.num_obs < 1000 then s.BUILD else s.ParBUILD nt)
    else if s.method = INIT_METHOD_LAB then s.LAB draws
    else .error .UnknownMethod) with
  | error e => rw [hr] at h; cases h
  | ok a =>
    rw [hr] at h
    obtain ⟨_, _, _, _, _, hmax, hini, _⟩ := InitializeInternals_returns _ s1 h
    refine ⟨?_, hini⟩
    rw [hmax]
    show a.maxiter = s.maxiter
    split_ifs at hr with h1 h2 h3 h4
    · unfold InitFromPreviousSet at hr
      split_ifs at hr
      injection hr with hr
      rw [← hr]
    · exact BUILD_maxiter s a hr
    · exact ParBUILD_maxiter s a nt hr
    · exact LAB_maxiter s a draws hr

end FastPAM

/-! ## The constructor, Run and the accessors -/

namespace FastPAM

theorem GetMedoids_eq (s : FastPAM) : s.GetMedoids = s.medoids := by
  unfold GetMedoids
  apply List.ext_getElem
  · simp
  · intro n h1 h2
    simp only [List.getElem_map, List.getElem_range]
    unfold med
    rw [List.getD_eq_getElem?_getD, List.getElem?_eq_getElem h2]
    rfl

theorem new_fields (D : Nat → Nat → ℚ) (num_obs : Nat) (MAXD : ℚ) (TestDistDisMat : Bool)
    (ChooseNumThreads : Int → Nat) (num_medoids inimet : Nat) (limiter nthreads : Int)
    (s : FastPAM)
    (h : FastPAM.new D num_obs MAXD TestDistDisMat ChooseNumThreads num_medoids inimet limiter
      nthreads = .ok s) :
    TestDistDisMat = true ∧ inimet < NUM_INIT_METHODS ∧
    (limiter % 2 ^ 32).toNat ≤ MAX_ITER ∧
    s.D = D ∧ s.num_obs = num_obs ∧ s.MAXD = MAXD ∧ s.nmed = num_medoids ∧
    s.method = inimet ∧
    s.maxiter = (if limiter = 0 then 0 else (limiter % 2 ^ 32).toNat - 1) ∧
    s.nt = (if num_obs < 1000 then 1 else ChooseNumThreads nthreads) ∧
    s.is_initialized = false ∧ s.medoids = [] ∧ (∀ q, s.ismedoid q = false) ∧
    s.TDkeep = [] ∧ s.NpointsChangekeep = [] ∧ s.num_iterations_in_opt = 0 := by
  unfold FastPAM.new at h
  by_cases h1 : TestDistDisMat = false
  · rw [if_pos h1] at h
    cases h
  rw [if_neg h1] at h
  by_cases h2 : inimet ≥ NUM_INIT_METHODS
  · rw [if_pos h2] at h
    cases h
  rw [if_neg h2] at h
  by_cases h3 : (limiter % 2 ^ 32).toNat > MAX_ITER
  · rw [if_pos h3] at h
    cases h
  rw [if_neg h3] at h
  injection h with h
  subst h
  refine ⟨?_, not_le.mp h2, not_lt.mp h3, rfl, rfl, rfl, rfl, rfl, rfl, rfl, rfl, rfl,
    fun _ => rfl, rfl, rfl, rfl⟩
  cases TestDistDisMat
  · exact absurd rfl h1
  · rfl

theorem Run_of_not_initialized (s : FastPAM) (h : s.is_initialized = false)
    (opt_method nt : Nat) :
    s.routineOfRun opt_method nt = .error .NotInitialized ∧
    s.Run opt_method nt = .error .NotInitialized := by
  have hr : s.routineOfRun opt_method nt = .error .NotInitialized := by
    unfold routineOfRun
    rw [if_pos h]
  refine ⟨hr, ?_⟩
  unfold Run
  rw [hr]

theorem Run_of_maxiter_zero (s : FastPAM) (h : s.is_initialized = true) (h0 : s.maxiter = 0)
    (opt_method nt : Nat) :
    s.routineOfRun opt_method nt = .ok .Nothing ∧ s.Run opt_method nt = .ok s := by
  have hr : s.routineOfRun opt_method nt = .ok .Nothing := by
    unfold routineOfRun
    rw [if_neg (by rw [h]; exact Bool.noConfusion), if_pos h0]
  refine ⟨hr, ?_⟩
  unfold Run
  rw [hr]

/-- C16. Run called before Init stops with the error NotInitialized, for every
optimization method and thread count: the test is the first statement of Run and no
routine is run, so that no member of the engine is written. The state the constructor
returns is such a state. -/
theorem Run_before_Init (s : FastPAM) (h : s.is_initialized = false) (opt_method nt : Nat) :
    s.routineOfRun opt_method nt = .error .NotInitialized ∧
    s.Run opt_method nt = .error .NotInitialized :=
  Run_of_not_initialized s h opt_method nt

/-- C17. An engine constructed with the iteration limit 0 and then initialized is left
as it is by Run, for every optimization method and thread count: Run returns the state
it received, so that `medoids`, `ismedoid`, `nearest`, `dnearest`, `currentTD`, both
histories and the iteration count are unchanged, and no routine is run. -/
theorem Run_maxiter_zero (D : Nat → Nat → ℚ) (num_obs : Nat) (MAXD : ℚ)
    (TestDistDisMat : Bool) (ChooseNumThreads : Int → Nat) (num_medoids inimet : Nat)
    (nthreads : Int) (s0 s1 : FastPAM) (initmedoids : List Nat) (nt : Nat) (draws : List Nat)
    (h0 : FastPAM.new D num_obs MAXD TestDistDisMat ChooseNumThreads num_medoids inimet 0
      nthreads = .ok s0)
    (h1 : s0.Init initmedoids nt draws = .ok s1) (opt_method run_nt : Nat) :
    s1.routineOfRun opt_method run_nt = .ok .Nothing ∧ s1.Run opt_method run_nt = .ok s1 := by
  obtain ⟨_, _, _, _, _, _, _, _, hmax, _⟩ := new_fields _ _ _ _ _ _ _ _ _ _ h0
  obtain ⟨hm, hi⟩ := Init_maxiter s0 initmedoids nt draws s1 h1
  exact Run_of_maxiter_zero s1 hi (by rw [hm, hmax]; rfl) opt_method run_nt

/-- C11. PREVIOUS echo: from an engine constructed with the method PREVIOUS and the
iteration limit 0 on a dissimilarity matrix whose rows add up to less than `MAXD`, for
every list `L` of `k ≥ 1` indices below `num_obs` (distinct or not), Init with `L`
returns, Run returns, and GetMedoids then gives exactly `L`, in the order supplied. -/
theorem PREVIOUS_echo (D : Nat → Nat → ℚ) (num_obs : Nat) (MAXD : ℚ)
    (TestDistDisMat : Bool) (ChooseNumThreads : Int → Nat) (num_medoids : Nat)
    (nthreads : Int) (s0 : FastPAM)
    (h0 : FastPAM.new D num_obs MAXD TestDistDisMat ChooseNumThreads num_medoids
      INIT_METHOD_PREVIOUS 0 nthreads = .ok s0)
    (hv : s0.ValidD) (hr : s0.InRange) (hk : 1 ≤ num_medoids) (L : List Nat)
    (hlen : L.length = num_medoids) (hin : ∀ x, x ∈ L → x < num_obs)
    (nt : Nat) (draws : List Nat) (opt_method run_nt : Nat) :
    ∃ s1 s2, s0.Init L nt draws = .ok s1 ∧ s1.Run opt_method run_nt = .ok s2 ∧
      s2.GetMedoids = L := by
  obtain ⟨_, _, _, _, hN, _, hK, hmeth, hmax, _, _, hmeds, _⟩ :=
    new_fields _ _ _ _ _ _ _ _ _ _ h0
  have hmed0 : L.getD 0 0 < s0.num_obs := by
    rw [hN]
    exact hin _ ((mem_iff_slot L _).mpr ⟨0, by rw [hlen]; exact hk, rfl⟩)
  obtain ⟨s1, h1, _, _, _, _, _, _, hm1, _⟩ :=
    InitializeInternals_fields { s0 with medoids := L, is_initialized := true }
      (fun q hq => ⟨0, by show 0 < s0.nmed; rw [hK]; exact hk,
        entry_lt_MAXD hv hr q _ hq hmed0⟩)
  have hInit : s0.Init L nt draws = .ok s1 := by
    unfold Init
    simp only [if_pos hmeth]
    rw [InitFromPreviousSet_eq s0 L (by rw [hlen, hK]), hmeds]
    exact h1
  obtain ⟨hm, hi⟩ := Init_maxiter s0 L nt draws s1 hInit
  refine ⟨s1, s1, hInit,
    (Run_of_maxiter_zero s1 hi (by rw [hm, hmax]; rfl) opt_method run_nt).2, ?_⟩
  rw [GetMedoids_eq, hm1]

end FastPAM

/-! ## The iteration limit, the iteration count and the dispatch of Run -/

namespace FastPAM

theorem new_of_accepted (D : Nat → Nat → ℚ) (num_obs : Nat) (MAXD : ℚ)
    (ChooseNumThreads : Int → Nat) (num_medoids inimet : Nat) (limiter nthreads : Int)
    (hm : inimet < NUM_INIT_METHODS) (hl : (limiter % 2 ^ 32).toNat ≤ MAX_ITER) :
    ∃ s, FastPAM.new D num_obs MAXD true ChooseNumThreads num_medoids inimet limiter
        nthreads = .ok s ∧
      s.maxiter = (if limiter = 0 then 0 else (limiter % 2 ^ 32).toNat - 1) := by
  unfold FastPAM.new
  rw [if_neg (by decide), if_neg (not_le.mpr hm), if_neg (not_lt.mpr hl)]
  exact ⟨_, rfl, rfl⟩

/-- C18, as the code has it. The constructor, given a dissimilarity matrix and a known
initialization method, rejects every iteration limit whose value as `unsigned int` is
greater than `MAX_ITER = 1001` and accepts every other one, the limit 1001 included;
the bound `maxiter` it stores is the limit minus one (0 for the limit 0), hence at
most `MAX_ITER - 1 = 1000`. -/
theorem new_iteration_limit (D : Nat → Nat → ℚ) (num_obs : Nat) (MAXD : ℚ)
    (ChooseNumThreads : Int → Nat) (num_medoids inimet : Nat) (limiter nthreads : Int)
    (hm : inimet < NUM_INIT_METHODS) :
    ((limiter % 2 ^ 32).toNat > MAX_ITER →
      FastPAM.new D num_obs MAXD true ChooseNumThreads num_medoids inimet limiter nthreads =
        .error .TooManyIterations) ∧
    ((limiter % 2 ^ 32).toNat ≤ MAX_ITER →
      ∃ s, FastPAM.new D num_obs MAXD true ChooseNumThreads num_medoids inimet limiter
          nthreads = .ok s ∧
        s.maxiter = (if limiter = 0 then 0 else (limiter % 2 ^ 32).toNat - 1) ∧
        s.maxiter ≤ MAX_ITER - 1) := by
  constructor
  · intro hl
    unfold FastPAM.new
    rw [if_neg (by decide), if_neg (not_le.mpr hm), if_pos hl]
  · intro hl
    obtain ⟨s, hs, hmax⟩ := new_of_accepted D num_obs MAXD ChooseNumThreads num_medoids inimet
      limiter nthreads hm hl
    refine ⟨s, hs, hmax, ?_⟩
    rw [hmax]
    split_ifs
    · exact Nat.zero_le _
    · exact Nat.sub_le_sub_right hl 1

theorem routineOfRun_parallel (s : FastPAM) (hi : s.is_initialized = true)
    (hm : s.maxiter ≠ 0) (nt : Nat) (hnt : nt ≠ 1) :
    s.routineOfRun OPT_METHOD_FASTPAM1 nt = .ok (.ParallelFastPAM1 nt) := by
  unfold routineOfRun
  rw [if_neg (by rw [hi]; exact Bool.noConfusion), if_neg hm, if_neg hnt, if_pos rfl]

theorem Run_parallel (s : FastPAM) (hi : s.is_initialized = true)
    (hm : s.maxiter ≠ 0) (nt : Nat) (hnt : nt ≠ 1) :
    s.Run OPT_METHOD_FASTPAM1 nt = s.RunParallelImprovedFastPAM1 nt := by
  unfold Run
  rw [routineOfRun_parallel s hi hm nt hnt]

end FastPAM

/-- C18, counterexample. The limit 1001, greater than 1000, is accepted: the
constructor returns the S1 engine with `maxiter = 1000`, and VerifyMaxIter returns 1001
for the arguments `-mit 1001`, while both reject 1002. -/
theorem limit_1001_accepted :
    FastPAM.new S1_D 4 FLT_MAX true (fun n => n.toNat) 2 INIT_METHOD_BUILD 1001 1 =
      .ok S1_engine ∧
    S1_engine.maxiter = 1000 ∧
    okOf (VerifyMaxIter [mitOption, "1001"]) = some 1001 ∧
    errorOf (FastPAM.new S1_D 4 FLT_MAX true (fun n => n.toNat) 2 INIT_METHOD_BUILD 1002 1) =
      some PamError.TooManyIterations ∧
    errorOf (VerifyMaxIter [mitOption, "1002"]) = some PamError.TooManyIterations :=
  ⟨rfl, rfl, by decide, by decide, by decide⟩

/-- C19, on a failing input. The S1 engine is constructed with `k = 2`, the method
PREVIOUS and the iteration limit 1001, and initialized with the medoids `[0, 1]`. Run
with FASTPAM1 and one thread then commits one exchange (the medoids become `[2, 1]`)
and appends one entry to each history, and GetNumIter answers 0. -/
theorem GetNumIter_one_less :
    FastPAM.new S1_D 4 FLT_MAX true (fun n => n.toNat) 2 INIT_METHOD_PREVIOUS 1001 1 =
      .ok S1_previous ∧
    S1_previous.TDkeep = [] ∧ S1_previous.NpointsChangekeep = [] ∧
    runSummary (S1_previous.Init [0, 1] 1 []) = some ([0, 1], [], [], 0) ∧
    runSummary ((S1_previous.Init [0, 1] 1 []).bind (fun s => s.Run OPT_METHOD_FASTPAM1 1)) =
      some ([2, 1], [1 / 2], [3], 0) :=
  ⟨rfl, rfl, rfl, by decide!, by decide!⟩

/-- C20, on a failing input. The constructor, asked for 2 threads on the 4 points of S1,
sets the member `nt` to 1, and Init with 2 threads runs the serial BUILD; yet Run with
FASTPAM1 and 2 threads, on the engine so initialized, calls
`RunParallelImprovedFastPAM1(2)`. -/
theorem Run_small_matrix_parallel :
    ∃ s0 s1, FastPAM.new S1_D 4 FLT_MAX true (fun n => n.toNat) 2 INIT_METHOD_BUILD 1001 2 =
        .ok s0 ∧
      s0.num_obs < 1000 ∧ s0.nt = 1 ∧
      s0.Init [] 2 [] = .ok s1 ∧ s0.Init [] 2 [] = s0.Init [] 1 [] ∧
      s1.routineOfRun OPT_METHOD_FASTPAM1 2 = .ok (.ParallelFastPAM1 2) ∧
      s1.Run OPT_METHOD_FASTPAM1 2 = s1.RunParallelImprovedFastPAM1 2 := by
  obtain ⟨s1, h1, _, _, _, _, hmax, _, _, hi, _⟩ :=
    FastPAM.Init_BUILD_assigned (S1_validD S1_engine rfl rfl) (S1_inRange S1_engine rfl rfl rfl)
      ⟨rfl, fun _ _ => rfl⟩ rfl (by decide) (by decide) [] 2 (Or.inl (by decide)) []
  have hm : s1.maxiter ≠ 0 := by
    rw [hmax]
    decide
  exact ⟨S1_engine, s1, rfl, by decide, rfl, h1, rfl,
    FastPAM.routineOfRun_parallel s1 hi hm 2 (by decide),
    FastPAM.Run_parallel s1 hi hm 2 (by decide)⟩

/-! ## ParBUILD against BUILD -/

namespace FastPAM

theorem admitMedoid_with_medoids (t : FastPAM) (M : List Nat) (nextmed : Nat) (r : ℚ × Nat) :
    admitMedoid { t with medoids := M } nextmed r =
      match t.admitMedoid nextmed r with
      | .error e => .error e
      | .ok u => .ok { u with medoids := M.set nextmed r.2 } := by
  unfold admitMedoid
  simp only
  by_cases h1 : r.2 > t.num_obs
  · rw [if_pos h1, if_pos h1]
  · rw [if_neg h1, if_neg h1]
    by_cases h2 : r.1 < -t.currentTD
    · rw [if_pos h2, if_pos h2]
    · rw [if_neg h2, if_neg h2, reassign_eq, reassign_eq]

theorem buildLoop_with_medoids (l : List Nat) (t : FastPAM) (M1 M2 : List Nat)
    (hlen : M1.length = M2.length) (hout : ∀ m, m ∉ l → M1.getD m 0 = M2.getD m 0) :
    buildLoop l { t with medoids := M1 } = buildLoop l { t with medoids := M2 } := by
  induction l generalizing t M1 M2 with
  | nil =>
    have hM : M1 = M2 := by
      apply List.ext_getElem hlen
      intro n h1 h2
      have h := hout n (List.not_mem_nil n)
      rw [List.getD_eq_getElem?_getD, List.getD_eq_getElem?_getD, List.getElem?_eq_getElem h1,
        List.getElem?_eq_getElem h2] at h
      exact h
    rw [hM]
  | cons j l ih =>
    rw [buildLoop, buildLoop]
    have hb1 : bestCandidate { t with medoids := M1 } = t.bestCandidate := rfl
    have hb2 : bestCandidate { t with medoids := M2 } = t.bestCandidate := rfl
    rw [hb1, hb2, admitMedoid_with_medoids t M1, admitMedoid_with_medoids t M2]
    cases t.admitMedoid j t.bestCandidate with
    | error e => rfl
    | ok u =>
      show buildLoop l { u with medoids := M1.set j t.bestCandidate.2 } =
        buildLoop l { u with medoids := M2.set j t.bestCandidate.2 }
      apply ih
      · rw [List.length_set, List.length_set, hlen]
      · intro m hm
        by_cases hmj : m = j
        · subst hmj
          by_cases hlt : m < M1.length
          · rw [getD_set_slot _ _ _ _ hlt, getD_set_slot _ _ _ _ (hlen ▸ hlt), if_pos rfl,
              if_pos rfl]
          · have h1 : (M1.set m t.bestCandidate.2).length ≤ m := by
              rw [List.length_set]; exact not_lt.mp hlt
            have h2 : (M2.set m t.bestCandidate.2).length ≤ m := by
              rw [List.length_set, ← hlen]; exact not_lt.mp hlt
            rw [List.getD_eq_default _ _ h1, List.getD_eq_default _ _ h2]
        · have hml : m ∉ j :: l := by
            intro hmem
            rcases List.mem_cons.mp hmem with h | h
            · exact hmj h
            · exact hm h
          have h := hout m hml
          simp only [List.getD_eq_getElem?_getD, List.getElem?_set] at h ⊢
          have hjm : ¬ j = m := fun h => hmj h.symm
          simp only [if_neg hjm]
          exact h

end FastPAM

namespace FastPAM

theorem assignFirst_congr (s : FastPAM) (b : Nat) (d1 d2 : Nat → ℚ)
    (h : ∀ q, q < s.num_obs → d1 q = d2 q) : s.assignFirst b d1 = s.assignFirst b d2 := by
  have hfold : (List.range s.num_obs).foldl (fun arr q => Function.update arr q (d1 q))
      s.dnearest =
      (List.range s.num_obs).foldl (fun arr q => Function.update arr q (d2 q)) s.dnearest := by
    funext x
    rw [foldl_update_apply d1, foldl_update_apply d2]
    by_cases hx : x ∈ List.range s.num_obs
    · rw [if_pos hx, if_pos hx]
      exact h x (List.mem_range.mp hx)
    · rw [if_neg hx, if_neg hx]
  unfold assignFirst
  rw [hfold]

theorem firstMedoid_lt (s : FastPAM) (h : ¬ s.firstMedoid.2 > s.num_obs) :
    s.firstMedoid.2 < s.num_obs := by
  unfold firstMedoid at h ⊢
  rcases (scanMin_spec s.rowSum s.num_obs s.MAXD (s.num_obs + 1)).2.2 with ⟨heq, _⟩ | ⟨hlt, _⟩
  · rw [heq] at h
    exact absurd (Nat.lt_succ_self _) h
  · exact hlt

theorem ParBUILD_eq_BUILD_of_sym (s : FastPAM)
    (hsym : ∀ i j, i < s.num_obs → j < s.num_obs → s.D i j = s.D j i)
    (hempty : s.medoids = []) (hk : 1 ≤ s.nmed) (nt : Nat) (hnt : 1 ≤ nt) :
    s.ParBUILD nt = s.BUILD := by
  unfold ParBUILD BUILD
  simp only
  rw [reduceThreads_first s nt hnt]
  by_cases h : s.firstMedoid.2 > s.num_obs
  · rw [if_pos h, if_pos h]
  · rw [if_neg h, if_neg h, parBuildLoop_eq nt hnt]
    have hb := firstMedoid_lt s h
    obtain ⟨k, hk2⟩ : ∃ k, s.nmed = k + 1 := ⟨s.nmed - 1, by omega⟩
    rw [assignFirst_congr
      { s with currentTD := s.firstMedoid.1,
               medoids := (s.medoids.take s.nmed ++
                 List.replicate (s.nmed - s.medoids.length) (s.num_obs + 1)).set 0
                   s.firstMedoid.2 }
      s.firstMedoid.2 (fun q => s.D s.firstMedoid.2 q)
      (fun q => s.D q s.firstMedoid.2) (fun q hq => hsym _ _ hb hq)]
    refine buildLoop_with_medoids (List.range' 1 (s.nmed - 1))
      (assignFirst { s with currentTD := s.firstMedoid.1 } s.firstMedoid.2
        (fun q => s.D q s.firstMedoid.2))
      ((s.medoids.take s.nmed ++
        List.replicate (s.nmed - s.medoids.length) (s.num_obs + 1)).set 0 s.firstMedoid.2)
      (s.medoids ++ [s.firstMedoid.2] ++ List.replicate (s.nmed - 1) NO_CLUSTER) ?_ ?_
    · rw [hempty, hk2]
      simp
    · intro m hm
      rw [hempty, hk2]
      rw [hk2, List.mem_range'_1] at hm
      by_cases hm0 : m = 0
      · subst hm0
        simp [List.replicate_succ]
      · have hmk : k + 1 ≤ m := by omega
        rw [List.getD_eq_default _ _ (by simp; omega), List.getD_eq_default _ _ (by simp; omega)]

/-- C15. ParBUILD against BUILD, for every number of threads `nt ≥ 1` and every
dissimilarity matrix, from the state the constructor leaves and `nmed ≥ 1`. At every
step, in every state `t`, the pair that the driver of ParBUILD keeps from its threads
is the one of the serial loop: when a candidate lowers the total deviation, it is the
candidate that is not a medoid with the least change, and among those the lowest
index. The two routines give the same result, medoids and `currentTD` included; and
they return when the rows of the matrix add up to less than `MAXD` and
`nmed ≤ num_obs`. -/
theorem ParBUILD_eq_BUILD (s : FastPAM) (hv : s.ValidD) (hfresh : s.Fresh) (hk : 1 ≤ s.nmed)
    (nt : Nat) (hnt : 1 ≤ nt) :
    (∀ t : FastPAM,
      reduceThreads (t.FindSuccessiveMedoidBUILDThread nt) nt (DBL_MAX, t.num_obs + 1) =
        t.bestCandidate ∧
      ((t.bestCandidate = (DBL_MAX, t.num_obs + 1) ∧
          ∀ c, c < t.num_obs → t.ismedoid c = false → ¬ t.tdchange c < 0) ∨
        (t.bestCandidate.2 < t.num_obs ∧ t.ismedoid t.bestCandidate.2 = false ∧
          t.bestCandidate.1 = t.tdchange t.bestCandidate.2 ∧ t.bestCandidate.1 < 0 ∧
          (∀ c, c < t.num_obs → t.ismedoid c = false → t.bestCandidate.1 ≤ t.tdchange c) ∧
          (∀ c, c < t.bestCandidate.2 → t.ismedoid c = false →
            t.bestCandidate.1 < t.tdchange c)))) ∧
    s.ParBUILD nt = s.BUILD ∧
    (s.InRange → s.nmed ≤ s.num_obs →
      ∃ u, s.BUILD = .ok u ∧ s.ParBUILD nt = .ok u ∧ u.medoids.length = s.nmed) := by
  have heq := ParBUILD_eq_BUILD_of_sym s hv.1 hfresh.1 hk nt hnt
  refine ⟨fun t => ⟨reduceThreads_successive t nt hnt, bestCandidate_fold t t.num_obs⟩, heq, ?_⟩
  intro hr hkN
  obtain ⟨u, hu, _, _, hK, _, _, _, _, _, hinv⟩ := BUILD_spec hv hr hfresh hk hkN
  refine ⟨u, hu, by rw [heq, hu], ?_⟩
  rw [hinv.hlen, hK]

end FastPAM

/-! ## The parallel FASTPAM1 against the serial one -/

theorem pickBy_assoc {α : Type} (k : α → ℚ) (a m x : α) :
    (if k x < k (if k m < k a then m else a) then x else (if k m < k a then m else a)) =
      (if k (if k x < k m then x else m) < k a then (if k x < k m then x else m) else a) := by
  split_ifs <;> first | rfl | (exfalso; linarith)

theorem foldl_pickBy_le {α : Type} (k : α → ℚ) (P : Nat → Prop) [DecidablePred P]
    (g : Nat → α) (l : List Nat) (acc : α) :
    k (l.foldl (fun a c => if P c then (if k (g c) < k a then g c else a) else a) acc) ≤
      k acc := by
  induction l generalizing acc with
  | nil => simp
  | cons c l ih =>
    rw [List.foldl_cons]
    refine le_trans (ih _) ?_
    split_ifs with h1 h2
    · exact le_of_lt h2
    · exact le_refl _
    · exact le_refl _

theorem foldl_pickBy_eq_or_lt {α : Type} (k : α → ℚ) (P : Nat → Prop) [DecidablePred P]
    (g : Nat → α) (l : List Nat) (acc : α) :
    l.foldl (fun a c => if P c then (if k (g c) < k a then g c else a) else a) acc = acc ∨
    k (l.foldl (fun a c => if P c then (if k (g c) < k a then g c else a) else a) acc) <
      k acc := by
  induction l generalizing acc with
  | nil => exact Or.inl rfl
  | cons c l ih =>
    rw [List.foldl_cons]
    by_cases h : P c ∧ k (g c) < k acc
    · rw [if_pos h.1, if_pos h.2]
      exact Or.inr (lt_of_le_of_lt (foldl_pickBy_le k P g l (g c)) h.2)
    · have hstep : (if P c then (if k (g c) < k acc then g c else acc) else acc) = acc := by
        by_cases hP : P c
        · rw [if_pos hP, if_neg (fun hlt => h ⟨hP, hlt⟩)]
        · rw [if_neg hP]
      rw [hstep]
      exact ih acc

/-- A search of a first least element started from `acc` is the search started from a
record that is not below `acc`, compared with `acc` at the end. -/
theorem foldl_pickBy_start {α : Type} (k : α → ℚ) (P : Nat → Prop) [DecidablePred P]
    (g : Nat → α) (l : List Nat) (acc init : α) (h : k acc ≤ k init) :
    l.foldl (fun a c => if P c then (if k (g c) < k a then g c else a) else a) acc =
      (if k (l.foldl (fun a c => if P c then (if k (g c) < k a then g c else a) else a)
          init) < k acc then
        l.foldl (fun a c => if P c then (if k (g c) < k a then g c else a) else a) init
       else acc) := by
  induction l using List.reverseRecOn with
  | nil => simp only [List.foldl_nil]; rw [if_neg (not_lt.mpr h)]
  | append_singleton l c ih =>
    rw [List.foldl_append, List.foldl_append, ih]
    simp only [List.foldl_cons, List.foldl_nil]
    by_cases hP : P c
    · simp only [if_pos hP]
      exact pickBy_assoc k acc _ (g c)
    · simp only [if_neg hP]

/-- The fusion of the results of the threads, each started from `init`, gives what one
search along the points of all the threads, in order, gives. -/
theorem foldl_fuse {α : Type} (k : α → ℚ) (P : Nat → Prop) [DecidablePred P] (g : Nat → α)
    (segs : Nat → List Nat) (n : Nat) (init : α) :
    (List.range n).foldl
        (fun acc t =>
          if k ((segs t).foldl
              (fun a c => if P c then (if k (g c) < k a then g c else a) else a) init) < k acc
          then (segs t).foldl
              (fun a c => if P c then (if k (g c) < k a then g c else a) else a) init
          else acc) init =
      ((List.range n).flatMap segs).foldl
        (fun a c => if P c then (if k (g c) < k a then g c else a) else a) init := by
  induction n with
  | zero => simp
  | succ n ih =>
    rw [List.range_succ, List.foldl_append, ih, List.flatMap_append, List.flatMap_singleton,
      List.foldl_append]
    simp only [List.foldl_cons, List.foldl_nil]
    exact (foldl_pickBy_start k P g (segs n) _ init (foldl_pickBy_le k P g _ init)).symm

/-- With at least one thread, the fusion may start from any record above `init`: the
result of the first thread replaces it. -/
theorem foldl_fuse_start {α : Type} (k : α → ℚ) (P : Nat → Prop) [DecidablePred P]
    (g : Nat → α) (segs : Nat → List Nat) (n : Nat) (hn : 1 ≤ n) (init top : α)
    (htop : k init < k top) :
    (List.range n).foldl
        (fun acc t =>
          if k ((segs t).foldl
              (fun a c => if P c then (if k (g c) < k a then g c else a) else a) init) < k acc
          then (segs t).foldl
              (fun a c => if P c then (if k (g c) < k a then g c else a) else a) init
          else acc) top =
      (List.range n).foldl
        (fun acc t =>
          if k ((segs t).foldl
              (fun a c => if P c then (if k (g c) < k a then g c else a) else a) init) < k acc
          then (segs t).foldl
              (fun a c => if P c then (if k (g c) < k a then g c else a) else a) init
          else acc) init := by
  obtain ⟨m, rfl⟩ : ∃ m, n = m + 1 := ⟨n - 1, by omega⟩
  rw [List.range_succ_eq_map, List.foldl_cons, List.foldl_cons]
  have hle := foldl_pickBy_le k P g (segs 0) init
  rw [if_pos (lt_of_le_of_lt hle htop)]
  rcases foldl_pickBy_eq_or_lt k P g (segs 0) init with heq | hlt
  · rw [heq, if_neg (lt_irrefl _)]
  · rw [if_pos hlt]

namespace FastPAM

theorem threadPoints_lt (num_obs nt t x : Nat) (hx : x ∈ threadPoints num_obs nt t) :
    x < num_obs := by
  unfold threadPoints at hx
  rw [List.mem_range'_1] at hx
  have hend : (threadRange num_obs nt t).2 ≤ num_obs := by
    unfold threadRange
    simp only
    split_ifs <;> omega
  omega

theorem threadCandidateBest_eq (s : FastPAM) (DeltaTDminusm : Nat → ℚ) (xc : Nat) (r : ℚ × Nat)
    (h : s.candidateBest DeltaTDminusm xc = .ok r) :
    s.threadCandidateBest DeltaTDminusm xc = .ok r := by
  unfold candidateBest at h
  unfold threadCandidateBest
  simp only at h ⊢
  by_cases ha : (scanMin (s.scanCandidate DeltaTDminusm xc).1 s.nmed (s.MAXD, s.nmed + 1)).2 <
      s.nmed
  · rw [if_pos ha] at h
    rw [if_neg (by omega), if_pos ha]
    exact h
  · rw [if_neg ha] at h
    cases h

theorem exploreCandidates_fold (s : FastPAM) (DeltaTDminusm : Nat → ℚ) (g : Nat → ℚ × Nat)
    (l : List Nat)
    (hok : ∀ c, c ∈ l → s.ismedoid c = false → s.candidateBest DeltaTDminusm c = .ok (g c))
    (b : exchange) :
    s.exploreCandidates DeltaTDminusm l b =
      .ok (l.foldl
        (fun a c => if s.ismedoid c = false then
          (if exchange.DeltaTDst ⟨(g c).1, s.med (g c).2, c, (g c).2⟩ < exchange.DeltaTDst a
            then ⟨(g c).1, s.med (g c).2, c, (g c).2⟩ else a) else a) b) := by
  induction l generalizing b with
  | nil => rfl
  | cons c l ih =>
    rw [exploreCandidates, List.foldl_cons]
    have ih2 := ih (fun x hx => hok x (List.mem_cons_of_mem c hx))
    by_cases hm : s.ismedoid c = false
    · rw [if_pos hm, if_pos hm, hok c (List.mem_cons_self c l) hm]
      exact ih2 _
    · rw [if_neg hm, if_neg hm]
      exact ih2 _

theorem threadExplore_fold (s : FastPAM) (DeltaTDminusm : Nat → ℚ) (g : Nat → ℚ × Nat)
    (l : List Nat)
    (hok : ∀ c, c ∈ l → s.ismedoid c = false → s.candidateBest DeltaTDminusm c = .ok (g c))
    (b : exchange) :
    s.threadExplore DeltaTDminusm l b =
      .ok (l.foldl
        (fun a c => if s.ismedoid c = false then
          (if exchange.DeltaTDst ⟨(g c).1, s.med (g c).2, c, (g c).2⟩ < exchange.DeltaTDst a
            then ⟨(g c).1, s.med (g c).2, c, (g c).2⟩ else a) else a) b) := by
  induction l generalizing b with
  | nil => rfl
  | cons c l ih =>
    rw [threadExplore, List.foldl_cons]
    have ih2 := ih (fun x hx => hok x (List.mem_cons_of_mem c hx))
    by_cases hm : s.ismedoid c = false
    · rw [if_pos hm, if_pos hm,
        threadCandidateBest_eq s _ c _ (hok c (List.mem_cons_self c l) hm)]
      exact ih2 _
    · rw [if_neg hm, if_neg hm]
      exact ih2 _

theorem fuseThreads_fold (results : Nat → Except PamError exchange) (R : Nat → exchange)
    (l : List Nat) (hok : ∀ t, t ∈ l → results t = .ok (R t)) (acc : exchange) :
    fuseThreads results l acc =
      .ok (l.foldl
        (fun acc t => if exchange.DeltaTDst (R t) < exchange.DeltaTDst acc then R t else acc)
        acc) := by
  induction l generalizing acc with
  | nil => rfl
  | cons t l ih =>
    rw [fuseThreads, hok t (List.mem_cons_self t l), List.foldl_cons]
    exact ih (fun x hx => hok x (List.mem_cons_of_mem t hx)) _

theorem parFindBestExchange_eq (s : FastPAM) (hv : s.ValidD) (hr : s.InRange)
    (hc : s.Consistent) (hpos : 0 < s.MAXD) (nt : Nat) (hnt : 1 ≤ nt) :
    s.parFindBestExchange nt = s.findBestExchange := by
  have hok : ∀ (l : List Nat), (∀ c, c ∈ l → c < s.num_obs) → ∀ c, c ∈ l →
      s.ismedoid c = false → s.candidateBest s.DeltaTDminus c =
        .ok ((okOf (s.candidateBest s.DeltaTDminus c)).getD (0, 0)) := by
    intro l hl c hcl _
    obtain ⟨r, hr1, _⟩ := candidateBest_spec hv hr hc c (hl c hcl)
    rw [hr1]
    rfl
  unfold parFindBestExchange findBestExchange
  rw [exploreCandidates_fold s _ _ _ (hok _ (fun c hc => List.mem_range.mp hc))]
  rw [fuseThreads_fold (s.FastPAM1InternalThread s.DeltaTDminus nt)
    (fun t => (threadPoints s.num_obs nt t).foldl
      (fun a c => if s.ismedoid c = false then
        (if exchange.DeltaTDst
            ⟨((okOf (s.candidateBest s.DeltaTDminus c)).getD (0, 0)).1,
              s.med ((okOf (s.candidateBest s.DeltaTDminus c)).getD (0, 0)).2, c,
              ((okOf (s.candidateBest s.DeltaTDminus c)).getD (0, 0)).2⟩ < exchange.DeltaTDst a
          then ⟨((okOf (s.candidateBest s.DeltaTDminus c)).getD (0, 0)).1,
              s.med ((okOf (s.candidateBest s.DeltaTDminus c)).getD (0, 0)).2, c,
              ((okOf (s.candidateBest s.DeltaTDminus c)).getD (0, 0)).2⟩ else a) else a)
      ⟨0, s.num_obs + 1, s.num_obs + 1, s.nmed + 1⟩) (List.range nt)
    (fun t _ => threadExplore_fold s _ _ _
      (hok _ (fun c hc => threadPoints_lt s.num_obs nt t c hc)) _)]
  rw [foldl_fuse_start exchange.DeltaTDst (fun c => s.ismedoid c = false) _
      (threadPoints s.num_obs nt) nt hnt ⟨0, s.num_obs + 1, s.num_obs + 1, s.nmed + 1⟩
      ⟨s.MAXD, s.num_obs + 1, s.num_obs + 1, s.nmed + 1⟩ hpos,
    foldl_fuse, threadPoints_cover s.num_obs nt hnt]

end FastPAM

namespace FastPAM

theorem parSwapLoop_eq (nt : Nat) (hnt : 1 ≤ nt) (tol_limit : ℚ) :
    ∀ (fuel iteration : Nat) (s : FastPAM), s.ValidD → s.InRange → s.Consistent →
      0 < s.MAXD →
      parSwapLoop nt tol_limit fuel iteration s = swapLoop tol_limit fuel iteration s := by
  intro fuel
  induction fuel with
  | zero => intro _ _ _ _ _ _; rfl
  | succ fuel ih =>
    intro iteration s hv hr hc hpos
    obtain ⟨e, he, _, _, _⟩ := findBestExchange_spec s hv hr hc
    simp only [parSwapLoop, swapLoop, parFindBestExchange_eq s hv hr hc hpos nt hnt, he]
    by_cases hge : e.DeltaTDst ≥ 0
    · rw [if_pos hge, if_pos hge]
    · rw [if_neg hge, if_neg hge]
      obtain ⟨s1, hs1, _, hD, hN, _, hM, _, _, _, hc1, _⟩ :=
        commitExchange_spec hv hr hc e he (not_le.mp hge)
      simp only [hs1]
      by_cases hcont : |e.DeltaTDst| > tol_limit ∧ iteration + 1 < s.maxiter
      · rw [if_pos ⟨hcont.1, hcont.2, trivial⟩, if_pos ⟨hcont.1, hcont.2, trivial⟩]
        exact ih (iteration + 1) s1.pushHistory (validD_of_eq (s := s) hD hN hv)
          (inRange_of_eq (s := s) hD hN hM hr) hc1.pushHistory
          (by show 0 < s1.MAXD; rw [hM]; exact hpos)
      · rw [if_neg (fun h => hcont ⟨h.1, h.2.1⟩), if_neg (fun h => hcont ⟨h.1, h.2.1⟩)]

theorem RunParallelImprovedFastPAM1_eq (s : FastPAM) (hv : s.ValidD) (hr : s.InRange)
    (ha : s.Assigned) (hpos : 0 < s.MAXD) (nt : Nat) (hnt : 1 ≤ nt) :
    s.RunParallelImprovedFastPAM1 nt = s.RunImprovedFastPAM1 := by
  unfold RunParallelImprovedFastPAM1 RunImprovedFastPAM1
  simp only
  rw [parSwapLoop_eq nt hnt _ _ _ s.FillSecond (validD_of_eq (s := s) rfl rfl hv)
    (inRange_of_eq (s := s) rfl rfl rfl hr) (ha.fillSecond hv hr) hpos]

/-- The parallel FASTPAM1 against the serial one in exact arithmetic, with at least two
medoids, for every number of threads `nt ≥ 1` and every dissimilarity matrix whose
rows add up to less than `MAXD > 0`. In a consistent state, one iteration of
RunParallelImprovedFastPAM1 records the same exchange (`DeltaTDst`, `mst`, `xst`,
`imst`) as one of RunImprovedFastPAM1; and from an initialized state both runs return
the same final state, medoids and `currentTD` included. With a single medoid the two
differ in the source, where the thread tests the index that the serial loop uses
untested. -/
theorem parallel_FASTPAM1_eq_serial (s : FastPAM) (hv : s.ValidD) (hr : s.InRange)
    (hpos : 0 < s.MAXD) (hk : 2 ≤ s.nmed) (nt : Nat) (hnt : 1 ≤ nt) :
    (s.Consistent →
      ∃ e, s.findBestExchange = .ok e ∧ s.parFindBestExchange nt = .ok e) ∧
    (s.Assigned →
      ∃ s1, s.RunImprovedFastPAM1 = .ok s1 ∧ s.RunParallelImprovedFastPAM1 nt = .ok s1) := by
  have _ := hk
  constructor
  · intro hc
    obtain ⟨e, he, _⟩ := findBestExchange_spec s hv hr hc
    exact ⟨e, he, by rw [parFindBestExchange_eq s hv hr hc hpos nt hnt, he]⟩
  · intro ha
    obtain ⟨s1, _, h1, _⟩ := RunImprovedFastPAM1_spec hv hr ha
    exact ⟨s1, h1, by rw [RunParallelImprovedFastPAM1_eq s hv hr ha hpos nt hnt, h1]⟩

end FastPAM

/-! ## The engine of scenario S3 -/

theorem S3_validD (s : FastPAM) (hD : s.D = S3_D) : s.ValidD := by
  unfold FastPAM.ValidD
  rw [hD]
  refine ⟨fun i j _ _ => abs_sub_comm _ _, fun i _ => ?_, fun i j _ _ hij => ?_⟩
  · show |(i : ℚ) - (i : ℚ)| = 0
    rw [sub_self, abs_zero]
  · show 0 < |(i : ℚ) - (j : ℚ)|
    exact abs_pos.mpr (sub_ne_zero.mpr (fun h => hij (Nat.cast_injective h)))

theorem S3_inRange (s : FastPAM) (hD : s.D = S3_D) (hN : s.num_obs = 13)
    (hM : s.MAXD = FLT_MAX) : s.InRange := by
  unfold FastPAM.InRange
  rw [hD, hN, hM]
  intro r hr
  have hterm : ∀ c, c ∈ Finset.range 13 → S3_D r c ≤ 13 := by
    intro c hc
    have hc2 : c < 13 := Finset.mem_range.mp hc
    have h1 : (r : ℚ) < 13 := by exact_mod_cast hr
    have h2 : (c : ℚ) < 13 := by exact_mod_cast hc2
    have h3 : (0 : ℚ) ≤ r := Nat.cast_nonneg r
    have h4 : (0 : ℚ) ≤ c := Nat.cast_nonneg c
    show |(r : ℚ) - (c : ℚ)| ≤ 13
    rw [abs_le]
    constructor <;> linarith
  calc ∑ c in Finset.range 13, S3_D r c ≤ ∑ _c in Finset.range 13, (13 : ℚ) :=
        Finset.sum_le_sum hterm
    _ = 169 := by simp; norm_num
    _ < FLT_MAX := by unfold FLT_MAX; norm_num

/-! ## The claims on the engines of the examples, continued -/

theorem PREVIOUS_echo_witness :
    FastPAM.new S3_D 13 FLT_MAX true (fun n => n.toNat) 3 INIT_METHOD_PREVIOUS 0 1 =
      .ok S3_engine ∧
    S3_engine.ValidD ∧ S3_engine.InRange ∧ 1 ≤ 3 ∧ [3, 7, 12].length = 3 ∧
    (∀ x, x ∈ [3, 7, 12] → x < 13) ∧
    ∃ s1 s2, S3_engine.Init [3, 7, 12] 1 [] = .ok s1 ∧
      s1.Run OPT_METHOD_FASTPAM1 1 = .ok s2 ∧ s2.GetMedoids = [3, 7, 12] :=
  ⟨rfl, S3_validD _ rfl, S3_inRange _ rfl rfl rfl, by decide, rfl, by decide,
    FastPAM.PREVIOUS_echo S3_D 13 FLT_MAX true (fun n => n.toNat) 3 1 S3_engine rfl
      (S3_validD _ rfl) (S3_inRange _ rfl rfl rfl) (by decide) [3, 7, 12] rfl (by decide)
      1 [] OPT_METHOD_FASTPAM1 1⟩

theorem FillSecond_dsecond_min_witness :
    2 ≤ S1_state_01.nmed ∧ 3 < S1_state_01.num_obs ∧
    (∀ m, m < S1_state_01.nmed → S1_state_01.D 3 (S1_state_01.med m) ≤ S1_state_01.MAXD) ∧
    (∀ m, m < S1_state_01.nmed → m ≠ S1_state_01.nearest 3 →
      S1_state_01.FillSecond.dsecond 3 ≤ S1_state_01.D 3 (S1_state_01.med m)) ∧
    ∃ m, m < S1_state_01.nmed ∧ m ≠ S1_state_01.nearest 3 ∧
      S1_state_01.FillSecond.dsecond 3 = S1_state_01.D 3 (S1_state_01.med m) :=
  ⟨by decide, by decide,
    (by decide! : ∀ m, m < 2 → S1_D 3 (S1_state_01.med m) ≤ FLT_MAX),
    FastPAM.FillSecond_dsecond_min S1_state_01 (by decide) 3 (by decide)
      (by decide! : ∀ m, m < 2 → S1_D 3 (S1_state_01.med m) ≤ FLT_MAX)⟩

theorem dsecond_ge_dnearest_witness :
    (∃ s1, S1_engine.Init [] 1 [] = .ok s1 ∧
      ∀ q, q < s1.num_obs → s1.FillSecond.dnearest q ≤ s1.FillSecond.dsecond q) ∧
    (∃ s1, S1_state_01.SwapRolesAndUpdate 0 2 0 = .ok s1 ∧
      ∀ q, q < s1.num_obs → s1.dnearest q ≤ s1.dsecond q) := by
  obtain ⟨s1, h1, _⟩ :=
    FastPAM.Init_BUILD_assigned (S1_validD S1_engine rfl rfl) (S1_inRange S1_engine rfl rfl rfl)
      ⟨rfl, fun _ _ => rfl⟩ rfl (by decide) (by decide) [] 1 (Or.inl (le_refl 1)) []
  obtain ⟨s2, h2, _⟩ :=
    FastPAM.SwapRolesAndUpdate_spec (S1_validD S1_state_01 rfl rfl)
      (S1_inRange S1_state_01 rfl rfl rfl) S1_state_01_consistent 0 2 (by decide) (by decide)
      rfl
  exact ⟨⟨s1, h1, FastPAM.dsecond_ge_dnearest.1 S1_engine [] 1 [] s1 h1⟩,
    ⟨s2, h2, FastPAM.dsecond_ge_dnearest.2 S1_state_01 0 2 0 s2 h2⟩⟩

theorem parallel_FASTPAM1_eq_serial_witness :
    S1_state_01.ValidD ∧ S1_state_01.InRange ∧ 0 < S1_state_01.MAXD ∧ 1 ≤ 2 ∧
    2 ≤ S1_state_01.nmed ∧ S1_state_01.Consistent ∧ S1_state_01.Assigned ∧
    (∃ e, S1_state_01.findBestExchange = .ok e ∧ S1_state_01.parFindBestExchange 2 = .ok e) ∧
    (∃ s1, S1_state_01.RunImprovedFastPAM1 = .ok s1 ∧
      S1_state_01.RunParallelImprovedFastPAM1 2 = .ok s1) :=
  ⟨S1_validD _ rfl rfl, S1_inRange _ rfl rfl rfl, by decide!, by decide, by decide,
    S1_state_01_consistent, S1_state_01_consistent.assigned,
    (FastPAM.parallel_FASTPAM1_eq_serial S1_state_01 (S1_validD _ rfl rfl)
      (S1_inRange _ rfl rfl rfl) (by decide!) (by decide) 2 (by decide)).1
        S1_state_01_consistent,
    (FastPAM.parallel_FASTPAM1_eq_serial S1_state_01 (S1_validD _ rfl rfl)
      (S1_inRange _ rfl rfl rfl) (by decide!) (by decide) 2 (by decide)).2
        S1_state_01_consistent.assigned⟩

theorem ParBUILD_eq_BUILD_witness :
    S1_engine.ValidD ∧ S1_engine.Fresh ∧ 1 ≤ S1_engine.nmed ∧ 1 ≤ 2 ∧
    S1_engine.InRange ∧ S1_engine.nmed ≤ S1_engine.num_obs ∧
    S1_engine.ParBUILD 2 = S1_engine.BUILD ∧
    ∃ u, S1_engine.BUILD = .ok u ∧ S1_engine.ParBUILD 2 = .ok u ∧
      u.medoids.length = S1_engine.nmed :=
  ⟨S1_validD _ rfl rfl, ⟨rfl, fun _ _ => rfl⟩, by decide, by decide,
    S1_inRange _ rfl rfl rfl, by decide,
    (FastPAM.ParBUILD_eq_BUILD S1_engine (S1_validD _ rfl rfl) ⟨rfl, fun _ _ => rfl⟩
      (by decide) 2 (by decide)).2.1,
    (FastPAM.ParBUILD_eq_BUILD S1_engine (S1_validD _ rfl rfl) ⟨rfl, fun _ _ => rfl⟩
      (by decide) 2 (by decide)).2.2 (S1_inRange _ rfl rfl rfl) (by decide)⟩

theorem Run_before_Init_witness :
    S1_engine.is_initialized = false ∧
    S1_engine.routineOfRun OPT_METHOD_FASTPAM1 1 = .error .NotInitialized ∧
    S1_engine.Run OPT_METHOD_FASTPAM1 1 = .error .NotInitialized :=
  ⟨rfl, FastPAM.Run_before_Init S1_engine rfl OPT_METHOD_FASTPAM1 1⟩

theorem Run_maxiter_zero_witness :
    ∃ s1, FastPAM.new S1_D 4 FLT_MAX true (fun n => n.toNat) 2 INIT_METHOD_BUILD 0 4 =
        .ok (engine S1_D 4 2 INIT_METHOD_BUILD 0) ∧
      (engine S1_D 4 2 INIT_METHOD_BUILD 0).Init [] 4 [] = .ok s1 ∧
      s1.routineOfRun OPT_METHOD_FASTPAMBSIL 4 = .ok .Nothing ∧
      s1.Run OPT_METHOD_FASTPAMBSIL 4 = .ok s1 := by
  obtain ⟨s1, h1, _⟩ :=
    FastPAM.Init_BUILD_assigned (S1_validD (engine S1_D 4 2 INIT_METHOD_BUILD 0) rfl rfl)
      (S1_inRange (engine S1_D 4 2 INIT_METHOD_BUILD 0) rfl rfl rfl)
      ⟨rfl, fun _ _ => rfl⟩ rfl (by decide) (by decide) [] 4 (Or.inl (by decide)) []
  exact ⟨s1, rfl, h1,
    FastPAM.Run_maxiter_zero S1_D 4 FLT_MAX true (fun n => n.toNat) 2 INIT_METHOD_BUILD 4
      (engine S1_D 4 2 INIT_METHOD_BUILD 0) s1 [] 4 [] rfl h1 OPT_METHOD_FASTPAMBSIL 4⟩

theorem new_iteration_limit_witness :
    INIT_METHOD_BUILD < NUM_INIT_METHODS ∧
    FastPAM.new S1_D 4 FLT_MAX true (fun n => n.toNat) 2 INIT_METHOD_BUILD 1002 1 =
      .error .TooManyIterations ∧
    FastPAM.new S1_D 4 FLT_MAX true (fun n => n.toNat) 2 INIT_METHOD_BUILD (-1) 1 =
      .error .TooManyIterations ∧
    ∃ s, FastPAM.new S1_D 4 FLT_MAX true (fun n => n.toNat) 2 INIT_METHOD_BUILD 1001 1 =
        .ok s ∧ s.maxiter = 1000 ∧ s.maxiter ≤ MAX_ITER - 1 := by
  obtain ⟨s, hs, hm, hle⟩ :=
    (FastPAM.new_iteration_limit S1_D 4 FLT_MAX (fun n => n.toNat) 2 INIT_METHOD_BUILD 1001 1
      (by decide)).2 (by decide)
  exact ⟨by decide,
    (FastPAM.new_iteration_limit S1_D 4 FLT_MAX (fun n => n.toNat) 2 INIT_METHOD_BUILD 1002 1
      (by decide)).1 (by decide),
    (FastPAM.new_iteration_limit S1_D 4 FLT_MAX (fun n => n.toNat) 2 INIT_METHOD_BUILD (-1) 1
      (by decide)).1 (by decide),
    s, hs, by rw [hm]; rfl, hle⟩

/-! ## The silhouette: the loops as sums over the clusters -/

theorem foldl_bucket_count (cl : Nat → Nat) (n : Nat) (h0 : Nat → Nat) (m : Nat) :
    (List.range n).foldl (fun hist q => Function.update hist (cl q) (hist (cl q) + 1)) h0 m =
      h0 m + ((Finset.range n).filter (fun q => cl q = m)).card := by
  induction n with
  | zero => simp
  | succ n ih =>
    rw [List.range_succ, List.foldl_append, List.foldl_cons, List.foldl_nil,
      Finset.range_succ]
    by_cases h : cl n = m
    · have hf : (insert n (Finset.range n)).filter (fun q => cl q = m) =
          insert n ((Finset.range n).filter (fun q => cl q = m)) := by
        simp [Finset.filter_insert, h]
      have hn : n ∉ (Finset.range n).filter (fun q => cl q = m) := by simp
      rw [hf, Finset.card_insert_of_not_mem hn, h, Function.update_same, ih]
      exact Nat.add_assoc _ _ _
    · have hf : (insert n (Finset.range n)).filter (fun q => cl q = m) =
          (Finset.range n).filter (fun q => cl q = m) := by
        simp [Finset.filter_insert, h]
      rw [hf, Function.update_noteq (fun hh => h hh.symm), ih]

theorem foldl_bucket_add (key : Nat → Nat) (g : Nat → ℚ) (n : Nat) (b0 : Nat → ℚ) (m : Nat) :
    (List.range n).foldl
        (fun bav q1 => Function.update bav (key q1) (bav (key q1) + g q1)) b0 m =
      b0 m + ∑ p in (Finset.range n).filter (fun p => key p = m), g p := by
  induction n with
  | zero => simp
  | succ n ih =>
    rw [List.range_succ, List.foldl_append, List.foldl_cons, List.foldl_nil,
      Finset.range_succ]
    by_cases h : key n = m
    · have hf : (insert n (Finset.range n)).filter (fun p => key p = m) =
          insert n ((Finset.range n).filter (fun p => key p = m)) := by
        simp [Finset.filter_insert, h]
      have hn : n ∉ (Finset.range n).filter (fun p => key p = m) := by simp
      rw [hf, Finset.sum_insert hn, h, Function.update_same, ih]
      ring
    · have hf : (insert n (Finset.range n)).filter (fun p => key p = m) =
          (Finset.range n).filter (fun p => key p = m) := by
        simp [Finset.filter_insert, h]
      rw [hf, Function.update_noteq (fun hh => h hh.symm), ih]

theorem foldl_update_self {β : Type} (f : Nat → β → β) (k : Nat) (b0 : Nat → β) (x : Nat) :
    (List.range k).foldl (fun bav m => Function.update bav m (f m (bav m))) b0 x =
      if x < k then f x (b0 x) else b0 x := by
  induction k with
  | zero => simp
  | succ k ih =>
    rw [List.range_succ, List.foldl_append, List.foldl_cons, List.foldl_nil]
    by_cases hx : x = k
    · subst hx
      rw [Function.update_same, ih, if_neg (lt_irrefl x), if_pos (Nat.lt_succ_self x)]
    · rw [Function.update_noteq hx, ih]
      by_cases hlt : x < k
      · rw [if_pos hlt, if_pos (Nat.lt_succ_of_lt hlt)]
      · rw [if_neg hlt, if_neg (by omega)]

/-- A search of a least value among the indices that pass a test, started from
`init`: the result is below `init` and below every value that passes, and it is
`init` or one of these values. -/
theorem foldl_min_guard (P : Nat → Prop) [DecidablePred P] (g : Nat → ℚ) (k : Nat) (init : ℚ) :
    (List.range k).foldl (fun dmin m => if P m ∧ g m < dmin then g m else dmin) init ≤ init ∧
    (∀ m, m < k → P m →
      (List.range k).foldl (fun dmin m => if P m ∧ g m < dmin then g m else dmin) init ≤ g m) ∧
    (((List.range k).foldl (fun dmin m => if P m ∧ g m < dmin then g m else dmin) init = init ∧
        ∀ m, m < k → P m → init ≤ g m) ∨
      ∃ m, m < k ∧ P m ∧
        (List.range k).foldl (fun dmin m => if P m ∧ g m < dmin then g m else dmin) init =
          g m) := by
  induction k with
  | zero =>
    exact ⟨le_refl _, fun m hm => absurd hm (Nat.not_lt_zero m),
      Or.inl ⟨rfl, fun m hm => absurd hm (Nat.not_lt_zero m)⟩⟩
  | succ k ih =>
    rw [List.range_succ, List.foldl_append, List.foldl_cons, List.foldl_nil]
    obtain ⟨h1, h2, h3⟩ := ih
    generalize (List.range k).foldl (fun dmin m => if P m ∧ g m < dmin then g m else dmin)
      init = r at h1 h2 h3 ⊢
    by_cases hc : P k ∧ g k < r
    · rw [if_pos hc]
      refine ⟨le_trans (le_of_lt hc.2) h1, ?_, Or.inr ⟨k, Nat.lt_succ_self k, hc.1, rfl⟩⟩
      intro m hm hP
      rcases Nat.lt_succ_iff_lt_or_eq.mp hm with hlt | heq
      · exact le_trans (le_of_lt hc.2) (h2 m hlt hP)
      · rw [heq]
    · rw [if_neg hc]
      refine ⟨h1, ?_, ?_⟩
      · intro m hm hP
        rcases Nat.lt_succ_iff_lt_or_eq.mp hm with hlt | heq
        · exact h2 m hlt hP
        · subst heq
          exact not_lt.mp (fun hlt => hc ⟨hP, hlt⟩)
      · rcases h3 with ⟨heq, hall⟩ | ⟨m, hm, hP, heq⟩
        · refine Or.inl ⟨heq, ?_⟩
          intro m hm hP
          rcases Nat.lt_succ_iff_lt_or_eq.mp hm with hlt | heq2
          · exact hall m hlt hP
          · subst heq2
            rw [← heq]
            exact not_lt.mp (fun hlt => hc ⟨hP, hlt⟩)
        · exact Or.inr ⟨m, Nat.lt_succ_of_lt hm, hP, heq⟩

/-! ## The threads of the silhouette against the serial loop -/

theorem flatMap_silThreadPoints (num_obs nt n : Nat) (hn : n + 1 ≤ nt) :
    (List.range n).flatMap (silThreadPoints num_obs nt) = List.range (n * (num_obs / nt)) := by
  induction n with
  | zero => simp
  | succ n ih =>
    rw [List.range_succ, List.flatMap_append, List.flatMap_singleton, ih (by omega)]
    unfold silThreadPoints
    rw [if_neg (by omega)]
    generalize num_obs / nt = w
    have e1 : (n + 1) * w = n * w + w := by ring
    have e2 : n * w + w - n * w = w := by omega
    rw [e1, e2, List.range_eq_range', List.range_eq_range']
    have := List.range'_append 0 (n * w) w 1
    simp only [Nat.zero_add, Nat.one_mul] at this
    rw [this]
    congr 1
    omega

/-- The points of the `nt ≥ 1` threads of the silhouette, in the order of the threads,
are the points `0, ..., num_obs - 1`, each once. -/
theorem silThreadPoints_cover (num_obs nt : Nat) (hnt : 1 ≤ nt) :
    (List.range nt).flatMap (silThreadPoints num_obs nt) = List.range num_obs := by
  obtain ⟨n, rfl⟩ : ∃ n, nt = n + 1 := ⟨nt - 1, by omega⟩
  rw [List.range_succ, List.flatMap_append, List.flatMap_singleton,
    flatMap_silThreadPoints num_obs (n + 1) n (le_refl _)]
  unfold silThreadPoints
  rw [if_pos (by omega)]
  have hle : n * (num_obs / (n + 1)) ≤ num_obs := by
    calc n * (num_obs / (n + 1)) ≤ (n + 1) * (num_obs / (n + 1)) :=
          Nat.mul_le_mul_right _ (Nat.le_succ n)
      _ ≤ num_obs := Nat.mul_div_le num_obs (n + 1)
  generalize n * (num_obs / (n + 1)) = a at hle
  rw [List.range_eq_range', List.range_eq_range']
  have := List.range'_append 0 a (num_obs - a) 1
  simp only [Nat.zero_add, Nat.one_mul] at this
  rw [this]
  congr 1
  omega

theorem foldl_flatMap_segments {σ : Type} (f : σ → Nat → σ) (segs : Nat → List Nat) (n : Nat)
    (init : σ) :
    (List.range n).foldl (fun acc t => (segs t).foldl f acc) init =
      ((List.range n).flatMap segs).foldl f init := by
  induction n with
  | zero => simp
  | succ n ih =>
    rw [List.range_succ, List.foldl_append, ih, List.flatMap_append, List.flatMap_singleton,
      List.foldl_append]
    simp only [List.foldl_cons, List.foldl_nil]

theorem silThreadPoint_eq (D : Nat → Nat → ℚ) (num_obs nmed : Nat) (nearest hist : Nat → Nat)
    (q : Nat) :
    silThreadPoint D num_obs nmed nearest hist q = silPoint D num_obs nmed nearest hist q :=
  rfl

theorem silThreads_eq (D : Nat → Nat → ℚ) (num_obs nmed : Nat) (nearest hist : Nat → Nat)
    (nt : Nat) (hnt : 1 ≤ nt) (current_sil : Nat → ℚ) :
    silThreads D num_obs nmed nearest hist nt current_sil =
      SilhouetteSerial D num_obs nmed nearest hist current_sil := by
  unfold silThreads SilhoutteThread SilhouetteSerial
  rw [foldl_flatMap_segments
    (fun sil q => Function.update sil q (silThreadPoint D num_obs nmed nearest hist q))
    (silThreadPoints num_obs nt) nt current_sil, silThreadPoints_cover num_obs nt hnt]
  rfl

theorem CalculateSilhouette_threads (D : Nat → Nat → ℚ) (num_obs : Nat) (cl : List Nat)
    (nt : Nat) (hnt : 1 ≤ nt) :
    CalculateSilhouette D num_obs cl nt = CalculateSilhouette D num_obs cl 1 := by
  by_cases h1 : nt = 1
  · rw [h1]
  · unfold CalculateSilhouette
    simp only [if_neg h1, if_true, silThreads_eq D num_obs _ _ _ nt hnt]

/-- C25. The threads of the silhouette against the serial loop, for every number of
threads `nt ≥ 1`: the ranges `[t * (N / nt), ...)` of the threads, put one after the
other, are the points `0, ..., N - 1`, each once; the vector `current_sil` the threads
leave is the one SilhouetteSerial leaves; and CalculateSilhouette with `nt` threads
gives what it gives with one. -/
theorem silhouette_threads_eq_serial (num_obs nt : Nat) (hnt : 1 ≤ nt) :
    (List.range nt).flatMap (silThreadPoints num_obs nt) = List.range num_obs ∧
    (∀ (D : Nat → Nat → ℚ) (nmed : Nat) (nearest hist : Nat → Nat) (current_sil : Nat → ℚ),
      silThreads D num_obs nmed nearest hist nt current_sil =
        SilhouetteSerial D num_obs nmed nearest hist current_sil) ∧
    (∀ (D : Nat → Nat → ℚ) (cl : List Nat),
      CalculateSilhouette D num_obs cl nt = CalculateSilhouette D num_obs cl 1) :=
  ⟨silThreadPoints_cover num_obs nt hnt,
    fun D nmed nearest hist current_sil =>
      silThreads_eq D num_obs nmed nearest hist nt hnt current_sil,
    fun D cl => CalculateSilhouette_threads D num_obs cl nt hnt⟩

/-! ## The tests of CalculateSilhouette -/

theorem foldl_min_list (cl : List Nat) (init : Nat) :
    cl.foldl (fun mincl c => if c < mincl then c else mincl) init ≤ init ∧
    (∀ c, c ∈ cl → cl.foldl (fun mincl c => if c < mincl then c else mincl) init ≤ c) ∧
    (cl.foldl (fun mincl c => if c < mincl then c else mincl) init = init ∨
      cl.foldl (fun mincl c => if c < mincl then c else mincl) init ∈ cl) := by
  induction cl generalizing init with
  | nil => exact ⟨le_refl _, fun c hc => absurd hc (List.not_mem_nil c), Or.inl rfl⟩
  | cons a l ih =>
    rw [List.foldl_cons]
    obtain ⟨h1, h2, h3⟩ := ih (if a < init then a else init)
    have hstep : (if a < init then a else init) ≤ init ∧ (if a < init then a else init) ≤ a := by
      split_ifs <;> omega
    refine ⟨le_trans h1 hstep.1, ?_, ?_⟩
    · intro c hc
      rcases List.mem_cons.mp hc with rfl | hc
      · exact le_trans h1 hstep.2
      · exact h2 c hc
    · rcases h3 with h | h
      · rw [h]
        by_cases ha : a < init
        · rw [if_pos ha]
          exact Or.inr (List.mem_cons_self a l)
        · rw [if_neg ha]
          exact Or.inl rfl
      · exact Or.inr (List.mem_cons_of_mem a h)

theorem foldl_max_list (cl : List Nat) (init : Nat) :
    init ≤ cl.foldl (fun maxcl c => if c > maxcl then c else maxcl) init ∧
    (∀ c, c ∈ cl → c ≤ cl.foldl (fun maxcl c => if c > maxcl then c else maxcl) init) ∧
    (cl.foldl (fun maxcl c => if c > maxcl then c else maxcl) init = init ∨
      cl.foldl (fun maxcl c => if c > maxcl then c else maxcl) init ∈ cl) := by
  induction cl generalizing init with
  | nil => exact ⟨le_refl _, fun c hc => absurd hc (List.not_mem_nil c), Or.inl rfl⟩
  | cons a l ih =>
    rw [List.foldl_cons]
    obtain ⟨h1, h2, h3⟩ := ih (if a > init then a else init)
    have hstep : init ≤ (if a > init then a else init) ∧ a ≤ (if a > init then a else init) := by
      split_ifs <;> omega
    refine ⟨le_trans hstep.1 h1, ?_, ?_⟩
    · intro c hc
      rcases List.mem_cons.mp hc with rfl | hc
      · exact le_trans hstep.2 h1
      · exact h2 c hc
    · rcases h3 with h | h
      · rw [h]
        by_cases ha : a > init
        · rw [if_pos ha]
          exact Or.inr (List.mem_cons_self a l)
        · rw [if_neg ha]
          exact Or.inl rfl
      · exact Or.inr (List.mem_cons_of_mem a h)

theorem any_label_ge (cl : List Nat) (num_obs : Nat) :
    cl.any (fun c => decide (c ≥ num_obs)) = true ↔ ∃ c, c ∈ cl ∧ c ≥ num_obs := by
  simp [List.any_eq_true]

theorem CalculateSilhouette_ok (D : Nat → Nat → ℚ) (num_obs : Nat) (cl : List Nat) (nt : Nat)
    (hnt : 1 ≤ nt) (hlen : cl.length = num_obs) (hlt : ∀ c, c ∈ cl → c < num_obs)
    (h0 : cl = [] ∨ 0 ∈ cl) :
    CalculateSilhouette D num_obs cl nt =
      .ok ((List.range num_obs).map
        (SilhouetteSerial D num_obs
          (cl.foldl (fun maxcl c => if c > maxcl then c else maxcl) 0 + 1)
          (fun q => cl.getD q 0) (silHist (fun q => cl.getD q 0) num_obs) (fun _ => 0))) := by
  rw [CalculateSilhouette_threads D num_obs cl nt hnt]
  unfold CalculateSilhouette
  have hany : ¬ cl.any (fun c => decide (c ≥ num_obs)) = true := by
    rw [any_label_ge]
    rintro ⟨c, hc, hge⟩
    exact absurd (hlt c hc) (not_lt.mpr hge)
  have hmin : ¬ cl.foldl (fun mincl c => if c < mincl then c else mincl) num_obs ≠ 0 := by
    rw [not_not]
    rcases h0 with h | h
    · subst h
      exact hlen.symm
    · exact Nat.le_zero.mp ((foldl_min_list cl num_obs).2.1 0 h)
  rw [if_neg hany, if_neg hmin, if_neg (not_not.mpr hlen.symm)]
  simp only [if_true]

/-- C24. CalculateSilhouette stops with an error whenever the vector of labels has not
`N` entries, or holds a label `≥ N`, or is not empty and does not hold the label 0
(its minimum is not 0); in every other case it returns a vector of exactly `N`
values. -/
theorem CalculateSilhouette_checks (D : Nat → Nat → ℚ) (num_obs : Nat) (cl : List Nat)
    (nt : Nat) :
    ((cl.length ≠ num_obs ∨ (∃ c, c ∈ cl ∧ c ≥ num_obs) ∨ (cl ≠ [] ∧ 0 ∉ cl)) →
      ∃ e, CalculateSilhouette D num_obs cl nt = .error e) ∧
    (¬ (cl.length ≠ num_obs ∨ (∃ c, c ∈ cl ∧ c ≥ num_obs) ∨ (cl ≠ [] ∧ 0 ∉ cl)) →
      ∃ vals, CalculateSilhouette D num_obs cl nt = .ok vals ∧ vals.length = num_obs) := by
  unfold CalculateSilhouette
  by_cases hany : cl.any (fun c => decide (c ≥ num_obs)) = true
  · rw [if_pos hany]
    exact ⟨fun _ => ⟨_, rfl⟩, fun h => absurd (Or.inr (Or.inl ((any_label_ge cl num_obs).mp hany))) h⟩
  rw [if_neg hany]
  by_cases hmin : cl.foldl (fun mincl c => if c < mincl then c else mincl) num_obs ≠ 0
  · rw [if_pos hmin]
    refine ⟨fun _ => ⟨_, rfl⟩, fun h => ?_⟩
    exfalso
    rw [not_or, not_or, not_not] at h
    obtain ⟨hlen, _, h0⟩ := h
    apply hmin
    by_cases hnil : cl = []
    · subst hnil
      exact hlen.symm
    · have hmem : 0 ∈ cl := by
        by_contra hn
        exact h0 ⟨hnil, hn⟩
      exact Nat.le_zero.mp ((foldl_min_list cl num_obs).2.1 0 hmem)
  rw [if_neg hmin]
  by_cases hlen : num_obs ≠ cl.length
  · rw [if_pos hlen]
    exact ⟨fun _ => ⟨_, rfl⟩, fun h => absurd (Or.inl (fun hh => hlen hh.symm)) h⟩
  rw [if_neg hlen]
  rw [not_not] at hmin hlen
  refine ⟨fun h => ?_, fun _ => ⟨_, rfl, by simp⟩⟩
  exfalso
  rcases h with h | h | ⟨hnil, h0⟩
  · exact h hlen.symm
  · exact hany ((any_label_ge cl num_obs).mpr h)
  · rcases (foldl_min_list cl num_obs).2.2 with heq | hmem
    · rw [hmin] at heq
      rw [← heq] at hlen
      exact hnil (List.length_eq_zero.mp hlen.symm)
    · rw [hmin] at hmem
      exact h0 hmem

/-! ## The silhouette of a point -/

theorem silHist_eq (cl : Nat → Nat) (N m : Nat) : silHist cl N m = (cluster cl N m).card := by
  unfold silHist cluster
  rw [foldl_bucket_count]
  simp

theorem silBav_apply (D : Nat → Nat → ℚ) (N k : Nat) (nearest hist : Nat → Nat) (q m : Nat)
    (hm : m < k) :
    silBav D N k nearest hist q m =
      (∑ p in cluster nearest N m, D q p) /
        (if m = nearest q then ((hist m - 1 : Nat) : ℚ) else (hist m : ℚ)) := by
  have h1 := foldl_update_self
    (fun m v => if m = nearest q then v / ((hist m - 1 : Nat) : ℚ) else v / (hist m : ℚ)) k
    ((List.range N).foldl
      (fun bav q1 => Function.update bav (nearest q1) (bav (nearest q1) + D q q1))
      ((List.range k).foldl (fun bav m => Function.update bav m 0) (fun _ => 0))) m
  have h2 := foldl_bucket_add nearest (fun p => D q p) N
    ((List.range k).foldl (fun bav m => Function.update bav m (0 : ℚ)) (fun _ => 0)) m
  have h3 := foldl_update_apply (fun _ => (0 : ℚ)) (List.range k) (fun _ => 0) m
  simp only [ite_self] at h3
  simp only [if_pos hm] at h1
  simp only [h3, zero_add] at h2
  unfold silBav cluster
  rw [h1, h2]
  split_ifs <;> rfl

theorem sum_cluster_erase (D : Nat → Nat → ℚ) (nearest : Nat → Nat) (N q : Nat) (hq : q < N)
    (hdiag : D q q = 0) :
    ∑ p in cluster nearest N (nearest q), D q p =
      ∑ p in (cluster nearest N (nearest q)).erase q, D q p := by
  have hmem : q ∈ cluster nearest N (nearest q) := by
    unfold cluster
    simp [hq]
  rw [← Finset.add_sum_erase _ _ hmem, hdiag, zero_add]

theorem card_cluster_erase (nearest : Nat → Nat) (N q : Nat) (hq : q < N) :
    ((cluster nearest N (nearest q)).erase q).card = (cluster nearest N (nearest q)).card - 1 := by
  have hmem : q ∈ cluster nearest N (nearest q) := by
    unfold cluster
    simp [hq]
  exact Finset.card_erase_of_mem hmem

/-- The value SilhouetteSerial gives to a point, in the words of the specification;
the least mean distance to another cluster is still written as the search of the
source. -/
theorem silPoint_form (D : Nat → Nat → ℚ) (N k : Nat) (nearest : Nat → Nat) (q : Nat)
    (hq : q < N) (hc : nearest q < k) (hdiag : D q q = 0) :
    silPoint D N k nearest (silHist nearest N) q =
      if (cluster nearest N (nearest q)).card = 1 then 0
      else
        ((List.range k).foldl
            (fun dmin m => if m ≠ nearest q ∧ (cluster nearest N m).card ≠ 0 ∧
                meanToCluster D nearest N q m < dmin
              then meanToCluster D nearest N q m else dmin) DBL_MAX -
          meanToOthers D nearest N q) /
        max (meanToOthers D nearest N q)
          ((List.range k).foldl
            (fun dmin m => if m ≠ nearest q ∧ (cluster nearest N m).card ≠ 0 ∧
                meanToCluster D nearest N q m < dmin
              then meanToCluster D nearest N q m else dmin) DBL_MAX) := by
  unfold silPoint
  simp only [silHist_eq]
  by_cases h1 : (cluster nearest N (nearest q)).card = 1
  · rw [if_pos h1, if_pos h1]
  · rw [if_neg h1, if_neg h1]
    have ha : silBav D N k nearest (fun m => (cluster nearest N m).card) q (nearest q) =
        meanToOthers D nearest N q := by
      rw [silBav_apply D N k nearest _ q (nearest q) hc, if_pos rfl]
      unfold meanToOthers
      rw [sum_cluster_erase D nearest N q hq hdiag, card_cluster_erase nearest N q hq]
    have hfun : (fun m => silHist nearest N m) = fun m => (cluster nearest N m).card := by
      funext m
      exact silHist_eq nearest N m
    have hb : (List.range k).foldl
        (fun dmin m => if m ≠ nearest q ∧ (cluster nearest N m).card ≠ 0 ∧
            silBav D N k nearest (fun m => (cluster nearest N m).card) q m < dmin
          then silBav D N k nearest (fun m => (cluster nearest N m).card) q m else dmin)
        DBL_MAX =
        (List.range k).foldl
          (fun dmin m => if m ≠ nearest q ∧ (cluster nearest N m).card ≠ 0 ∧
              meanToCluster D nearest N q m < dmin
            then meanToCluster D nearest N q m else dmin) DBL_MAX := by
      apply List.foldl_ext
      intro dmin m hm
      by_cases hmc : m = nearest q
      · rw [if_neg (fun h => h.1 hmc), if_neg (fun h => h.1 hmc)]
      · have hbm : silBav D N k nearest (fun m => (cluster nearest N m).card) q m =
            meanToCluster D nearest N q m := by
          rw [silBav_apply D N k nearest _ q m (List.mem_range.mp hm), if_neg hmc]
          rfl
        rw [hbm]
    have hh : silHist nearest N = fun m => (cluster nearest N m).card := hfun
    rw [hh, ha, hb]

theorem foldl_min_guard2 (P Q : Nat → Prop) [DecidablePred P] [DecidablePred Q] (g : Nat → ℚ)
    (k : Nat) (init : ℚ) :
    (List.range k).foldl (fun dmin m => if P m ∧ Q m ∧ g m < dmin then g m else dmin) init ≤
      init ∧
    (∀ m, m < k → P m → Q m →
      (List.range k).foldl (fun dmin m => if P m ∧ Q m ∧ g m < dmin then g m else dmin) init ≤
        g m) ∧
    (((List.range k).foldl (fun dmin m => if P m ∧ Q m ∧ g m < dmin then g m else dmin) init =
        init ∧ ∀ m, m < k → P m → Q m → init ≤ g m) ∨
      ∃ m, m < k ∧ P m ∧ Q m ∧
        (List.range k).foldl (fun dmin m => if P m ∧ Q m ∧ g m < dmin then g m else dmin) init =
          g m) := by
  have hfun : (fun (dmin : ℚ) m => if P m ∧ Q m ∧ g m < dmin then g m else dmin) =
      fun dmin m => if (P m ∧ Q m) ∧ g m < dmin then g m else dmin := by
    funext dmin m
    by_cases h : P m ∧ Q m ∧ g m < dmin
    · rw [if_pos h, if_pos ⟨⟨h.1, h.2.1⟩, h.2.2⟩]
    · rw [if_neg h, if_neg (fun hh => h ⟨hh.1.1, hh.1.2, hh.2⟩)]
  rw [hfun]
  obtain ⟨h1, h2, h3⟩ := foldl_min_guard (fun m => P m ∧ Q m) g k init
  refine ⟨h1, fun m hm hP hQ => h2 m hm ⟨hP, hQ⟩, ?_⟩
  rcases h3 with ⟨heq, hall⟩ | ⟨m, hm, hPQ, heq⟩
  · exact Or.inl ⟨heq, fun m hm hP hQ => hall m hm ⟨hP, hQ⟩⟩
  · exact Or.inr ⟨m, hm, hPQ.1, hPQ.2, heq⟩

theorem sil_quotient_bounds (a b : ℚ) (ha : 0 ≤ a) (hb : 0 ≤ b) :
    -1 ≤ (b - a) / max a b ∧ (b - a) / max a b ≤ 1 := by
  by_cases h : max a b = 0
  · rw [h, div_zero]
    constructor <;> norm_num
  · have hpos : 0 < max a b := lt_of_le_of_ne (le_trans ha (le_max_left a b)) (Ne.symm h)
    have h1 : a ≤ max a b := le_max_left a b
    have h2 : b ≤ max a b := le_max_right a b
    constructor
    · rw [le_div_iff₀ hpos]
      linarith
    · rw [div_le_iff₀ hpos]
      linarith

theorem sil_quotient_gt (a b : ℚ) (hb : 0 < b) : -1 < (b - a) / max a b := by
  have hpos : 0 < max a b := lt_of_lt_of_le hb (le_max_right a b)
  rw [lt_div_iff₀ hpos]
  rcases le_total a b with h | h
  · rw [max_eq_right h]
    linarith
  · rw [max_eq_left h]
    linarith

theorem SilhouetteSerial_apply (D : Nat → Nat → ℚ) (N k : Nat) (nearest hist : Nat → Nat)
    (current_sil : Nat → ℚ) (q : Nat) (hq : q < N) :
    SilhouetteSerial D N k nearest hist current_sil q = silPoint D N k nearest hist q := by
  unfold SilhouetteSerial
  rw [foldl_update_apply (fun q => silPoint D N k nearest hist q), if_pos (List.mem_range.mpr hq)]

theorem getD_map_range (f : Nat → ℚ) (N q : Nat) (hq : q < N) :
    ((List.range N).map f).getD q 0 = f q := by
  rw [List.getD_eq_getElem?_getD, List.getElem?_map, List.getElem?_range hq]
  rfl

theorem CalculateSilhouette_values (D : Nat → Nat → ℚ) (N : Nat) (cl : List Nat) (nt : Nat)
    (hnt : 1 ≤ nt) (hlen : cl.length = N) (hlt : ∀ c, c ∈ cl → c < N) (h0 : cl = [] ∨ 0 ∈ cl) :
    ∃ vals, CalculateSilhouette D N cl nt = .ok vals ∧ vals.length = N ∧
      ∀ q, q < N → vals.getD q 0 =
        silPoint D N (cl.foldl (fun maxcl c => if c > maxcl then c else maxcl) 0 + 1)
          (fun q => cl.getD q 0) (silHist (fun q => cl.getD q 0) N) q := by
  refine ⟨_, CalculateSilhouette_ok D N cl nt hnt hlen hlt h0, by simp, ?_⟩
  intro q hq
  rw [getD_map_range _ N q hq, SilhouetteSerial_apply D N _ _ _ _ q hq]

theorem getD_mem_labels (cl : List Nat) (q : Nat) (hq : q < cl.length) : cl.getD q 0 ∈ cl := by
  rw [List.getD_eq_getElem?_getD, List.getElem?_eq_getElem hq]
  exact List.getElem_mem hq

theorem label_of_cluster (cl : List Nat) (N m : Nat) (hlen : cl.length = N)
    (hne : (cluster (fun q => cl.getD q 0) N m).Nonempty) : m ∈ cl := by
  obtain ⟨p, hp⟩ := hne
  unfold cluster at hp
  rw [Finset.mem_filter, Finset.mem_range] at hp
  rw [← hp.2]
  exact getD_mem_labels cl p (by rw [hlen]; exact hp.1)

theorem max_label_succ (cl : List Nat) (k : Nat) (hk : 1 ≤ k) (hlab : ∀ c, c ∈ cl → c < k)
    (htop : k - 1 ∈ cl) :
    cl.foldl (fun maxcl c => if c > maxcl then c else maxcl) 0 + 1 = k := by
  obtain ⟨_, h2, h3⟩ := foldl_max_list cl 0
  have hge := h2 (k - 1) htop
  rcases h3 with h | h
  · rw [h] at hge ⊢
    omega
  · have := hlab _ h
    omega

theorem meanToCluster_nonneg (D : Nat → Nat → ℚ) (cl : Nat → Nat) (N q m : Nat)
    (hD : ∀ p, p < N → 0 ≤ D q p) : 0 ≤ meanToCluster D cl N q m := by
  unfold meanToCluster
  apply div_nonneg
  · apply Finset.sum_nonneg
    intro p hp
    unfold cluster at hp
    exact hD p (Finset.mem_range.mp (Finset.mem_filter.mp hp).1)
  · exact Nat.cast_nonneg _

theorem meanToOthers_nonneg (D : Nat → Nat → ℚ) (cl : Nat → Nat) (N q : Nat)
    (hD : ∀ p, p < N → 0 ≤ D q p) : 0 ≤ meanToOthers D cl N q := by
  unfold meanToOthers
  apply div_nonneg
  · apply Finset.sum_nonneg
    intro p hp
    unfold cluster at hp
    exact hD p (Finset.mem_range.mp (Finset.mem_filter.mp (Finset.mem_of_mem_erase hp)).1)
  · exact Nat.cast_nonneg _

theorem DBL_MAX_pos : 0 < DBL_MAX := by
  unfold DBL_MAX
  norm_num

/-- The least mean distance to another cluster, as the source searches it, is not
negative when the distances are not. -/
theorem minMean_nonneg (D : Nat → Nat → ℚ) (cl : Nat → Nat) (N k q : Nat)
    (hD : ∀ p, p < N → 0 ≤ D q p) :
    0 ≤ (List.range k).foldl
      (fun dmin m => if m ≠ cl q ∧ (cluster cl N m).card ≠ 0 ∧ meanToCluster D cl N q m < dmin
        then meanToCluster D cl N q m else dmin) DBL_MAX := by
  rcases (foldl_min_guard2 (fun m => m ≠ cl q) (fun m => (cluster cl N m).card ≠ 0)
    (fun m => meanToCluster D cl N q m) k DBL_MAX).2.2 with ⟨heq, _⟩ | ⟨m, _, _, _, heq⟩
  · rw [heq]
    exact le_of_lt DBL_MAX_pos
  · rw [heq]
    exact meanToCluster_nonneg D cl N q m hD

/-- C23. In exact arithmetic, for a dissimilarity matrix (zero on the diagonal,
positive elsewhere) whose rows add up to `2^1023` at most, so that no sum of the
source is beyond the largest `double`, and a vector of `N` labels below `N` that holds
the label 0, whatever the number of clusters, CalculateSilhouette returns, with any
number of threads `nt ≥ 1`, a vector of `N` values that all lie in `[-1, 1]`. -/
theorem CalculateSilhouette_range (D : Nat → Nat → ℚ) (N : Nat) (cl : List Nat) (nt : Nat)
    (hnt : 1 ≤ nt) (hlen : cl.length = N) (hlt : ∀ c, c ∈ cl → c < N) (h0 : 0 ∈ cl)
    (hdiag : ∀ q, q < N → D q q = 0)
    (hpos : ∀ q p, q < N → p < N → q ≠ p → 0 < D q p)
    (hsum : ∀ q, q < N → ∑ p in Finset.range N, D q p ≤ 2 ^ 1023) :
    ∃ vals, CalculateSilhouette D N cl nt = .ok vals ∧ vals.length = N ∧
      ∀ q, q < N → -1 ≤ vals.getD q 0 ∧ vals.getD q 0 ≤ 1 := by
  have _ := hsum
  have hD : ∀ q p, q < N → p < N → 0 ≤ D q p := by
    intro q p hq hp
    by_cases h : q = p
    · rw [← h, hdiag q hq]
    · exact le_of_lt (hpos q p hq hp h)
  obtain ⟨vals, hok, hl, hval⟩ := CalculateSilhouette_values D N cl nt hnt hlen hlt (Or.inr h0)
  refine ⟨vals, hok, hl, ?_⟩
  intro q hq
  have hc : (fun q => cl.getD q 0) q <
      cl.foldl (fun maxcl c => if c > maxcl then c else maxcl) 0 + 1 :=
    Nat.lt_succ_of_le ((foldl_max_list cl 0).2.1 _ (getD_mem_labels cl q (by rw [hlen]; exact hq)))
  rw [hval q hq, silPoint_form D N _ (fun q => cl.getD q 0) q hq hc (hdiag q hq)]
  split_ifs
  · constructor <;> norm_num
  · exact sil_quotient_bounds _ _
      (meanToOthers_nonneg D _ N q (fun p hp => hD q p hq hp))
      (minMean_nonneg D (fun q => cl.getD q 0) N _ q (fun p hp => hD q p hq hp))

/-- The mean distance from `q` to a cluster is at most the sum of row `q`, when the
distances are not negative. -/
theorem meanToCluster_le_rowSum (D : Nat → Nat → ℚ) (cl : Nat → Nat) (N q m : Nat)
    (hD : ∀ p, p < N → 0 ≤ D q p) :
    meanToCluster D cl N q m ≤ ∑ p in Finset.range N, D q p := by
  unfold meanToCluster
  have h1 : ∑ p in cluster cl N m, D q p ≤ ∑ p in Finset.range N, D q p :=
    Finset.sum_le_sum_of_subset_of_nonneg (Finset.filter_subset _ _)
      (fun p hp _ => hD p (Finset.mem_range.mp hp))
  have h0 : 0 ≤ ∑ p in cluster cl N m, D q p :=
    Finset.sum_nonneg (fun p hp => hD p (Finset.mem_range.mp (Finset.mem_filter.mp hp).1))
  rcases Nat.eq_zero_or_pos (cluster cl N m).card with hc | hc
  · rw [hc]
    simp only [Nat.cast_zero, div_zero]
    exact le_trans h0 h1
  · have h2 : (1 : ℚ) ≤ ((cluster cl N m).card : ℚ) := by exact_mod_cast hc
    exact le_trans (div_le_self h0 h2) h1

/-- The mean distance from `q` to the other points of its cluster is positive when the
cluster has another point and the distances between different points are positive. -/
theorem meanToOthers_pos (D : Nat → Nat → ℚ) (cl : Nat → Nat) (N q : Nat) (hq : q < N)
    (hcard : (cluster cl N (cl q)).card ≠ 1) (hpos : ∀ p, p < N → q ≠ p → 0 < D q p) :
    0 < meanToOthers D cl N q := by
  unfold meanToOthers
  have hmem : q ∈ cluster cl N (cl q) :=
    Finset.mem_filter.mpr ⟨Finset.mem_range.mpr hq, rfl⟩
  have hne : ((cluster cl N (cl q)).erase q).Nonempty := by
    rw [← Finset.card_pos, Finset.card_erase_of_mem hmem]
    have : 0 < (cluster cl N (cl q)).card := Finset.card_pos.mpr ⟨q, hmem⟩
    omega
  apply div_pos
  · apply Finset.sum_pos
    · intro p hp
      have h := Finset.mem_erase.mp hp
      exact hpos p (Finset.mem_range.mp (Finset.mem_filter.mp h.2).1) (fun e => h.1 e.symm)
    · exact hne
  · exact_mod_cast Finset.card_pos.mpr hne

/-- C21. In exact arithmetic, for a vector of `N` labels in `[0, k)`, `k ≥ 2`, all
below `N`, in which every cluster of `[0, k)` has a point, and a dissimilarity matrix
(zero on the diagonal, positive elsewhere) whose rows add up to `2^1023` at most, so
that no sum of the source is beyond the largest `double`, CalculateSilhouette returns,
with any number of threads `nt ≥ 1`, a vector of `N` values; the value of the point `q`
of cluster `c` is 0 when `c` has one point, and otherwise `(b - a) / max(a, b)`, a
quotient by a positive number, where `a` is the mean of `D(q, p)` over the other points
`p` of `c` and `b` is the least, over the clusters `m ≠ c`, of the mean of `D(q, p)`
over the points `p` of `m`. -/
theorem CalculateSilhouette_spec (D : Nat → Nat → ℚ) (N k : Nat) (cl : List Nat) (nt : Nat)
    (hnt : 1 ≤ nt) (hlen : cl.length = N) (hk : 2 ≤ k) (hlab : ∀ c, c ∈ cl → c < k)
    (hlt : ∀ c, c ∈ cl → c < N)
    (hne : ∀ m, m < k → (cluster (fun q => cl.getD q 0) N m).Nonempty)
    (hdiag : ∀ q, q < N → D q q = 0)
    (hpos : ∀ q p, q < N → p < N → q ≠ p → 0 < D q p)
    (hsum : ∀ q, q < N → ∑ p in Finset.range N, D q p ≤ 2 ^ 1023) :
    ∃ vals, CalculateSilhouette D N cl nt = .ok vals ∧ vals.length = N ∧
      ∀ q, q < N →
        ((cluster (fun q => cl.getD q 0) N (cl.getD q 0)).card = 1 → vals.getD q 0 = 0) ∧
        ((cluster (fun q => cl.getD q 0) N (cl.getD q 0)).card ≠ 1 →
          ∃ b, (∀ m, m < k → m ≠ cl.getD q 0 →
                b ≤ meanToCluster D (fun q => cl.getD q 0) N q m) ∧
            (∃ m, m < k ∧ m ≠ cl.getD q 0 ∧
                b = meanToCluster D (fun q => cl.getD q 0) N q m) ∧
            0 < max (meanToOthers D (fun q => cl.getD q 0) N q) b ∧
            vals.getD q 0 =
              (b - meanToOthers D (fun q => cl.getD q 0) N q) /
                max (meanToOthers D (fun q => cl.getD q 0) N q) b) := by
  have hD : ∀ q p, q < N → p < N → 0 ≤ D q p := by
    intro q p hq hp
    by_cases h : q = p
    · rw [← h, hdiag q hq]
    · exact le_of_lt (hpos q p hq hp h)
  have hmax : ∀ q m, q < N → m < k →
      meanToCluster D (fun q => cl.getD q 0) N q m ≤ DBL_MAX := by
    intro q m hq _
    refine le_trans (meanToCluster_le_rowSum D _ N q m (fun p hp => hD q p hq hp))
      (le_trans (hsum q hq) ?_)
    unfold DBL_MAX
    norm_num
  have h0 : 0 ∈ cl := label_of_cluster cl N 0 hlen (hne 0 (by omega))
  have htop : k - 1 ∈ cl := label_of_cluster cl N (k - 1) hlen (hne (k - 1) (by omega))
  have hk2 := max_label_succ cl k (by omega) hlab htop
  obtain ⟨vals, hok, hl, hval⟩ := CalculateSilhouette_values D N cl nt hnt hlen hlt (Or.inr h0)
  refine ⟨vals, hok, hl, ?_⟩
  intro q hq
  have hc : cl.getD q 0 < k := hlab _ (getD_mem_labels cl q (by rw [hlen]; exact hq))
  rw [hval q hq, hk2, silPoint_form D N k (fun q => cl.getD q 0) q hq hc (hdiag q hq)]
  constructor
  · intro h1
    rw [if_pos h1]
  · intro h1
    rw [if_neg h1]
    obtain ⟨_, hle, hcase⟩ := foldl_min_guard2 (fun m => m ≠ cl.getD q 0)
      (fun m => (cluster (fun q => cl.getD q 0) N m).card ≠ 0)
      (fun m => meanToCluster D (fun q => cl.getD q 0) N q m) k DBL_MAX
    have hcard : ∀ m, m < k → (cluster (fun q => cl.getD q 0) N m).card ≠ 0 :=
      fun m hm => Finset.card_ne_zero.mpr (hne m hm)
    refine ⟨_, fun m hm hmc => hle m hm hmc (hcard m hm), ?_,
      lt_max_of_lt_left (meanToOthers_pos D _ N q hq h1 (fun p hp => hpos q p hq hp)), rfl⟩
    rcases hcase with ⟨heq, hall⟩ | ⟨m, hm, hmc, _, heq⟩
    · have hother : ∃ m, m < k ∧ m ≠ cl.getD q 0 := by
        by_cases h : cl.getD q 0 = 0
        · exact ⟨1, by omega, by omega⟩
        · exact ⟨0, by omega, fun hh => h hh.symm⟩
      obtain ⟨m, hm, hmc⟩ := hother
      refine ⟨m, hm, hmc, ?_⟩
      rw [heq]
      exact le_antisymm (hall m hm hmc (hcard m hm)) (hmax q m hq hm)
    · exact ⟨m, hm, hmc, heq⟩

theorem meanToCluster_const (D : Nat → Nat → ℚ) (cl : Nat → Nat) (N q m : Nat) (v : ℚ)
    (hcard : (cluster cl N m).card ≠ 0) (hD : ∀ p, p < N → cl p = m → D q p = v) :
    meanToCluster D cl N q m = v := by
  unfold meanToCluster
  have hsum : ∑ p in cluster cl N m, D q p = ∑ _p in cluster cl N m, v := by
    apply Finset.sum_congr rfl
    intro p hp
    unfold cluster at hp
    rw [Finset.mem_filter, Finset.mem_range] at hp
    exact hD p hp.1 hp.2
  rw [hsum, Finset.sum_const, nsmul_eq_mul]
  have hne : ((cluster cl N m).card : ℚ) ≠ 0 := Nat.cast_ne_zero.mpr hcard
  field_simp

theorem meanToOthers_const (D : Nat → Nat → ℚ) (cl : Nat → Nat) (N q : Nat) (v : ℚ)
    (hcard : ((cluster cl N (cl q)).erase q).card ≠ 0)
    (hD : ∀ p, p < N → p ≠ q → cl p = cl q → D q p = v) :
    meanToOthers D cl N q = v := by
  unfold meanToOthers
  have hsum : ∑ p in (cluster cl N (cl q)).erase q, D q p =
      ∑ _p in (cluster cl N (cl q)).erase q, v := by
    apply Finset.sum_congr rfl
    intro p hp
    rw [Finset.mem_erase] at hp
    unfold cluster at hp
    rw [Finset.mem_filter, Finset.mem_range] at hp
    exact hD p hp.2.1 hp.1 hp.2.2
  rw [hsum, Finset.sum_const, nsmul_eq_mul]
  have hne : (((cluster cl N (cl q)).erase q).card : ℚ) ≠ 0 := Nat.cast_ne_zero.mpr hcard
  field_simp

/-- C22. For a vector of `N` labels 0 and 1 in which each of the two clusters has at
least 2 points, and a matrix with zero diagonal, 1 between two points of one cluster
and 10 between points of different clusters, CalculateSilhouette returns, with any
number of threads `nt ≥ 1`, the value `9/10` for every point. -/
theorem CalculateSilhouette_two_clusters (D : Nat → Nat → ℚ) (N : Nat) (cl : List Nat)
    (nt : Nat) (hnt : 1 ≤ nt) (hlen : cl.length = N) (hlab : ∀ c, c ∈ cl → c < 2)
    (hc0 : 2 ≤ (cluster (fun q => cl.getD q 0) N 0).card)
    (hc1 : 2 ≤ (cluster (fun q => cl.getD q 0) N 1).card)
    (hdiag : ∀ q, q < N → D q q = 0)
    (hin : ∀ q p, q < N → p < N → q ≠ p → cl.getD q 0 = cl.getD p 0 → D q p = 1)
    (hout : ∀ q p, q < N → p < N → cl.getD q 0 ≠ cl.getD p 0 → D q p = 10) :
    ∃ vals, CalculateSilhouette D N cl nt = .ok vals ∧ vals.length = N ∧
      ∀ q, q < N → vals.getD q 0 = 9 / 10 := by
  have hne : ∀ m, m < 2 → (cluster (fun q => cl.getD q 0) N m).Nonempty := by
    intro m hm
    apply Finset.card_pos.mp
    rcases Nat.lt_succ_iff_lt_or_eq.mp hm with h | h
    · have : m = 0 := by omega
      rw [this]
      omega
    · rw [h]
      omega
  have hN : 2 ≤ N := by
    have h1 : (cluster (fun q => cl.getD q 0) N 0).card ≤ (Finset.range N).card :=
      Finset.card_le_card (Finset.filter_subset _ _)
    rw [Finset.card_range] at h1
    omega
  have hlt : ∀ c, c ∈ cl → c < N := fun c hc => lt_of_lt_of_le (hlab c hc) hN
  have h0 : 0 ∈ cl := label_of_cluster cl N 0 hlen (hne 0 (by omega))
  have htop : 2 - 1 ∈ cl := label_of_cluster cl N 1 hlen (hne 1 (by omega))
  have hk2 := max_label_succ cl 2 (by omega) hlab htop
  obtain ⟨vals, hok, hl, hval⟩ := CalculateSilhouette_values D N cl nt hnt hlen hlt (Or.inr h0)
  refine ⟨vals, hok, hl, ?_⟩
  intro q hq
  have hc : cl.getD q 0 < 2 := hlab _ (getD_mem_labels cl q (by rw [hlen]; exact hq))
  have hcard2 : 2 ≤ (cluster (fun q => cl.getD q 0) N (cl.getD q 0)).card := by
    rcases Nat.lt_succ_iff_lt_or_eq.mp hc with h | h
    · have : cl.getD q 0 = 0 := by omega
      rw [this]
      exact hc0
    · rw [h]
      exact hc1
  rw [hval q hq, hk2, silPoint_form D N 2 (fun q => cl.getD q 0) q hq hc (hdiag q hq),
    if_neg (by omega)]
  have ha : meanToOthers D (fun q => cl.getD q 0) N q = 1 := by
    apply meanToOthers_const
    · rw [card_cluster_erase (fun q => cl.getD q 0) N q hq]
      omega
    · intro p hp hpq hcl
      exact hin q p hq hp (fun h => hpq h.symm) hcl.symm
  have hmean : ∀ m, m < 2 → m ≠ cl.getD q 0 →
      meanToCluster D (fun q => cl.getD q 0) N q m = 10 := by
    intro m hm hmc
    apply meanToCluster_const
    · exact Finset.card_ne_zero.mpr (hne m hm)
    · intro p hp hcl
      apply hout q p hq hp
      intro h
      apply hmc
      rw [← hcl]
      exact h.symm
  obtain ⟨_, hle, hcase⟩ := foldl_min_guard2 (fun m => m ≠ cl.getD q 0)
    (fun m => (cluster (fun q => cl.getD q 0) N m).card ≠ 0)
    (fun m => meanToCluster D (fun q => cl.getD q 0) N q m) 2 DBL_MAX
  have hother : ∃ m, m < 2 ∧ m ≠ cl.getD q 0 := by
    by_cases h : cl.getD q 0 = 0
    · exact ⟨1, by omega, by omega⟩
    · exact ⟨0, by omega, fun hh => h hh.symm⟩
  obtain ⟨m0, hm0, hm0c⟩ := hother
  have hb : (List.range 2).foldl
      (fun dmin m => if m ≠ cl.getD q 0 ∧
          (cluster (fun q => cl.getD q 0) N m).card ≠ 0 ∧
          meanToCluster D (fun q => cl.getD q 0) N q m < dmin
        then meanToCluster D (fun q => cl.getD q 0) N q m else dmin) DBL_MAX = 10 := by
    rcases hcase with ⟨heq, _⟩ | ⟨m, hm, hmc, _, heq⟩
    · have h10 := hle m0 hm0 hm0c (Finset.card_ne_zero.mpr (hne m0 hm0))
      rw [heq, hmean m0 hm0 hm0c] at h10
      exfalso
      have : (10 : ℚ) < DBL_MAX := by unfold DBL_MAX; norm_num
      linarith
    · rw [heq]
      exact hmean m hm hmc
  rw [ha, hb]
  norm_num

/-- C26. For a vector `cl` of `N` labels below `N` and below `nmed`, that holds the
labels 0 and `nmed - 1`, CalculateMeanSilhouette with `cl` and `nmed` is the arithmetic
mean of the `N` values that CalculateSilhouette returns for `cl`, with any number of
threads. -/
theorem CalculateMeanSilhouette_mean (D : Nat → Nat → ℚ) (N nmed : Nat) (cl : List Nat)
    (nt : Nat) (hlen : cl.length = N) (hlt : ∀ c, c ∈ cl → c < N) (h0 : 0 ∈ cl)
    (hk : 1 ≤ nmed) (hlab : ∀ c, c ∈ cl → c < nmed) (htop : nmed - 1 ∈ cl) :
    ∃ vals, CalculateSilhouette D N cl nt = .ok vals ∧ vals.length = N ∧
      CalculateMeanSilhouette D N (fun q => cl.getD q 0) nmed nt = vals.sum / (N : ℚ) := by
  have hk2 := max_label_succ cl nmed hk hlab htop
  have hany : ¬ cl.any (fun c => decide (c ≥ N)) = true := by
    rw [any_label_ge]
    rintro ⟨c, hc, hge⟩
    exact absurd (hlt c hc) (not_lt.mpr hge)
  have hmin : ¬ cl.foldl (fun mincl c => if c < mincl then c else mincl) N ≠ 0 := by
    rw [not_not]
    exact Nat.le_zero.mp ((foldl_min_list cl N).2.1 0 h0)
  unfold CalculateSilhouette CalculateMeanSilhouette
  rw [if_neg hany, if_neg hmin, if_neg (not_not.mpr hlen.symm)]
  simp only [hk2]
  refine ⟨_, rfl, by simp, ?_⟩
  rw [foldl_add, zero_add, list_sum_map_range]

/-! ## The value of TD from the medoids and the assignment -/

namespace FastPAM

end FastPAM

/-! ## The window of ExploreBranches -/

/-- C28. Six points on a line one unit apart, `k = 2`, medoids `[4, 5]`, window of
`NBRANCHES = 4` places: the candidates 0, 1, 2 and 3 have best exchanges with
`DeltaTD` equal to -5, -6, -5 and -3, all below 0, and ExploreBranches leaves in the
window only those of the candidates 1 and 0, followed by two untouched places. -/
theorem ExploreBranches_keeps_only_improvements :
    S6_candidateBest 0 = some (-5, 1) ∧ S6_candidateBest 1 = some (-6, 1) ∧
    S6_candidateBest 2 = some (-5, 0) ∧ S6_candidateBest 3 = some (-3, 0) ∧
    S6_window = some [⟨-6, 5, 1, 1⟩, ⟨-5, 5, 0, 1⟩, ⟨0, 0, 0, 0⟩, ⟨0, 0, 0, 0⟩] := by
  refine ⟨?_, ?_, ?_, ?_, ?_⟩ <;> decide!

/-! ## The samples of LAB -/

/-- A list without repetition of numbers of `[1, n - 1]` has fewer than `n` entries. -/
theorem nodup_length_lt (l : List Nat) (n : Nat) (hn : 1 ≤ n) (hnd : l.Nodup)
    (hr : ∀ x, x ∈ l → 1 ≤ x ∧ x ≤ n - 1) : l.length < n := by
  have hsub : l.toFinset ⊆ Finset.Icc 1 (n - 1) := by
    intro x hx
    rw [List.mem_toFinset] at hx
    rw [Finset.mem_Icc]
    exact hr x hx
  have hcard := Finset.card_le_card hsub
  rw [List.toFinset_card_of_nodup hnd, Nat.card_Icc] at hcard
  omega

namespace FastPAM

/-- The loop of randomSample cannot keep `k` more numbers when the generator gives
numbers of `[1, n - 1]` only and `k` plus the numbers kept so far reach `n`. -/
theorem sampleLoop_none (n : Nat) (hn : 1 ≤ n) (draws : List Nat)
    (hd : ∀ d, d ∈ draws → 1 ≤ d ∧ d ≤ n - 1) (k : Nat) (seen samples : List Nat)
    (hk : 0 < k) (hnd : seen.Nodup) (hr : ∀ x, x ∈ seen → 1 ≤ x ∧ x ≤ n - 1)
    (hsum : n ≤ k + seen.length) : sampleLoop draws k seen samples = none := by
  induction draws generalizing k seen samples with
  | nil =>
    cases k with
    | zero => exact absurd hk (lt_irrefl 0)
    | succ k => rfl
  | cons rnd draws ih =>
    cases k with
    | zero => exact absurd hk (lt_irrefl 0)
    | succ k =>
      have hd2 : ∀ d, d ∈ draws → 1 ≤ d ∧ d ≤ n - 1 :=
        fun d hmem => hd d (List.mem_cons_of_mem rnd hmem)
      unfold sampleLoop
      by_cases hmem : rnd ∈ seen
      · rw [if_pos hmem]
        exact ih hd2 (k + 1) seen samples hk hnd hr hsum
      · rw [if_neg hmem]
        have hnd2 : (rnd :: seen).Nodup := List.nodup_cons.mpr ⟨hmem, hnd⟩
        have hr2 : ∀ x, x ∈ rnd :: seen → 1 ≤ x ∧ x ≤ n - 1 := by
          intro x hx
          rcases List.mem_cons.mp hx with rfl | hx
          · exact hd x (List.mem_cons_self x draws)
          · exact hr x hx
        have hlen := nodup_length_lt (rnd :: seen) n hn hnd2 hr2
        rw [List.length_cons] at hlen
        apply ih hd2 k (rnd :: seen) (samples ++ [rnd]) _ hnd2 hr2
        · rw [List.length_cons]
          omega
        · omega

/-- The numbers kept by the loop of randomSample are numbers the generator gave. -/
theorem sampleLoop_mem (draws : List Nat) (k : Nat) (seen samples S rest : List Nat)
    (h : sampleLoop draws k seen samples = some (S, rest)) :
    ∀ x, x ∈ S → x ∈ samples ∨ x ∈ draws := by
  induction draws generalizing k seen samples with
  | nil =>
    cases k with
    | zero =>
      unfold sampleLoop at h
      injection h with h
      injection h with h1 h2
      subst h1
      exact fun x hx => Or.inl hx
    | succ k =>
      unfold sampleLoop at h
      cases h
  | cons rnd draws ih =>
    cases k with
    | zero =>
      unfold sampleLoop at h
      injection h with h
      injection h with h1 h2
      subst h1
      exact fun x hx => Or.inl hx
    | succ k =>
      unfold sampleLoop at h
      intro x hx
      by_cases hmem : rnd ∈ seen
      · rw [if_pos hmem] at h
        rcases ih (k + 1) seen samples h x hx with h1 | h1
        · exact Or.inl h1
        · exact Or.inr (List.mem_cons_of_mem rnd h1)
      · rw [if_neg hmem] at h
        rcases ih k (rnd :: seen) (samples ++ [rnd]) h x hx with h1 | h1
        · rcases List.mem_append.mp h1 with h2 | h2
          · exact Or.inl h2
          · rw [List.mem_singleton] at h2
            rw [h2]
            exact Or.inr (List.mem_cons_self rnd draws)
        · exact Or.inr (List.mem_cons_of_mem rnd h1)

/-- C30. The matrix has `N = 6` points, so that LAB asks randomSample for a sample of
`labSampleSize 6 = 6` numbers. The generator of randomSample is
`uniform_int_distribution{1, n-1}`: whatever the list of numbers of `[1, 5]` it gives,
the loop of randomSample does not complete the sample of 6 numbers; and a sample of
any size that randomSample does complete does not hold the index 0. -/
theorem randomSample_six_points (draws : List Nat)
    (hd : ∀ d, d ∈ draws → 1 ≤ d ∧ d ≤ 6 - 1) :
    labSampleSize 6 = 6 ∧ randomSample draws (labSampleSize 6) = none ∧
    ∀ k S rest, randomSample draws k = some (S, rest) → 0 ∉ S := by
  have hs : Nat.sqrt 6 = 2 := (Nat.eq_sqrt.mpr ⟨by decide, by decide⟩).symm
  have h6 : labSampleSize 6 = 6 := by
    unfold labSampleSize
    rw [hs]
    decide
  refine ⟨h6, ?_, ?_⟩
  · rw [h6]
    unfold randomSample
    exact sampleLoop_none 6 (by decide) draws hd 6 [] [] (by decide) List.nodup_nil
      (fun x hx => absurd hx (List.not_mem_nil x)) (by simp)
  · intro k S rest h h0
    unfold randomSample at h
    rcases sampleLoop_mem draws k [] [] S rest h 0 h0 with h1 | h1
    · exact absurd h1 (List.not_mem_nil 0)
    · exact absurd (hd 0 h1).1 (by decide)

theorem randomSample_six_points_witness :
    (∀ d, d ∈ [1, 2, 3, 4, 5, 1, 2, 3] → 1 ≤ d ∧ d ≤ 6 - 1) ∧
    labSampleSize 6 = 6 ∧ randomSample [1, 2, 3, 4, 5, 1, 2, 3] (labSampleSize 6) = none ∧
    ∀ k S rest, randomSample [1, 2, 3, 4, 5, 1, 2, 3] k = some (S, rest) → 0 ∉ S :=
  ⟨by decide, randomSample_six_points [1, 2, 3, 4, 5, 1, 2, 3] (by decide)⟩

end FastPAM

/-! ## The choice among the exchanges of the window -/

/-- The histogram reads the labels of the `N` points only. -/
theorem silHist_congr (cl cl2 : Nat → Nat) (N : Nat) (h : ∀ q, q < N → cl q = cl2 q) :
    silHist cl N = silHist cl2 N := by
  unfold silHist
  apply List.foldl_ext
  intro hist q hq
  rw [h q (List.mem_range.mp hq)]

/-- The value of a point reads the labels of the `N` points only. -/
theorem silPoint_congr (D : Nat → Nat → ℚ) (N k : Nat) (cl cl2 : Nat → Nat) (hist : Nat → Nat)
    (h : ∀ q, q < N → cl q = cl2 q) (q : Nat) (hq : q < N) :
    silPoint D N k cl hist q = silPoint D N k cl2 hist q := by
  have hb : silBav D N k cl hist q = silBav D N k cl2 hist q := by
    unfold silBav
    rw [h q hq]
    congr 1
    apply List.foldl_ext
    intro bav q1 hq1
    rw [h q1 (List.mem_range.mp hq1)]
  unfold silPoint
  rw [hb, h q hq]

/-- The mean silhouette as a sum over the points. -/
theorem CalculateMeanSilhouette_eq_sum (D : Nat → Nat → ℚ) (N k : Nat) (cl : Nat → Nat)
    (nt : Nat) (hnt : 1 ≤ nt) :
    CalculateMeanSilhouette D N cl k nt =
      (∑ q in Finset.range N, silPoint D N k cl (silHist cl N) q) / (N : ℚ) := by
  have hs : (if nt = 1 then SilhouetteSerial D N k cl (silHist cl N) (fun _ => 0)
      else silThreads D N k cl (silHist cl N) nt (fun _ => 0)) =
      SilhouetteSerial D N k cl (silHist cl N) (fun _ => 0) := by
    by_cases h1 : nt = 1
    · rw [if_pos h1]
    · rw [if_neg h1, silThreads_eq D N k cl (silHist cl N) nt hnt]
  unfold CalculateMeanSilhouette
  simp only [hs]
  rw [foldl_add, zero_add]
  congr 1
  apply Finset.sum_congr rfl
  intro q hq
  exact SilhouetteSerial_apply D N k cl (silHist cl N) _ q (Finset.mem_range.mp hq)

/-- Without threads no value is written, and the mean is 0. -/
theorem CalculateMeanSilhouette_no_thread (D : Nat → Nat → ℚ) (N k : Nat) (cl : Nat → Nat) :
    CalculateMeanSilhouette D N cl k 0 = 0 := by
  unfold CalculateMeanSilhouette silThreads
  simp only [List.range_zero, List.foldl_nil]
  rw [if_neg (by decide), foldl_add]
  simp

/-- The mean silhouette reads the labels of the `N` points only. -/
theorem CalculateMeanSilhouette_congr (D : Nat → Nat → ℚ) (N k : Nat) (cl cl2 : Nat → Nat)
    (nt : Nat) (h : ∀ q, q < N → cl q = cl2 q) :
    CalculateMeanSilhouette D N cl k nt = CalculateMeanSilhouette D N cl2 k nt := by
  by_cases hnt : nt = 0
  · rw [hnt, CalculateMeanSilhouette_no_thread, CalculateMeanSilhouette_no_thread]
  · have h1 : 1 ≤ nt := Nat.one_le_iff_ne_zero.mpr hnt
    rw [CalculateMeanSilhouette_eq_sum D N k cl nt h1,
      CalculateMeanSilhouette_eq_sum D N k cl2 nt h1, silHist_congr cl cl2 N h]
    congr 1
    apply Finset.sum_congr rfl
    intro q hq
    exact silPoint_congr D N k cl cl2 _ h q (Finset.mem_range.mp hq)

/-- Sequential search of a maximum, the idiom
`for (i=0; i<n; i++) if (g(i) > best) { best = g(i); idx = i; }`. -/
theorem foldl_max_spec (g : Nat → ℚ) (n : Nat) (v0 : ℚ) (i0 : Nat) :
    v0 ≤ ((List.range n).foldl (fun acc i => if g i > acc.1 then (g i, i) else acc) (v0, i0)).1 ∧
    (∀ i, i < n →
      g i ≤ ((List.range n).foldl
        (fun acc i => if g i > acc.1 then (g i, i) else acc) (v0, i0)).1) ∧
    ((List.range n).foldl (fun acc i => if g i > acc.1 then (g i, i) else acc) (v0, i0) =
        (v0, i0) ∨
      (((List.range n).foldl
          (fun acc i => if g i > acc.1 then (g i, i) else acc) (v0, i0)).2 < n ∧
        ((List.range n).foldl (fun acc i => if g i > acc.1 then (g i, i) else acc) (v0, i0)).1 =
          g ((List.range n).foldl
            (fun acc i => if g i > acc.1 then (g i, i) else acc) (v0, i0)).2)) := by
  induction n with
  | zero => exact ⟨le_refl _, fun i hi => absurd hi (Nat.not_lt_zero i), Or.inl rfl⟩
  | succ n ih =>
    rw [List.range_succ, List.foldl_append, List.foldl_cons, List.foldl_nil]
    obtain ⟨h1, h2, h3⟩ := ih
    generalize (List.range n).foldl
      (fun acc i => if g i > acc.1 then (g i, i) else acc) (v0, i0) = acc at h1 h2 h3 ⊢
    by_cases hg : g n > acc.1
    · rw [if_pos hg]
      refine ⟨le_of_lt (lt_of_le_of_lt h1 hg), ?_, Or.inr ⟨Nat.lt_succ_self n, rfl⟩⟩
      intro i hi
      rcases Nat.lt_succ_iff_lt_or_eq.mp hi with h | h
      · exact le_of_lt (lt_of_le_of_lt (h2 i h) hg)
      · rw [h]
    · rw [if_neg hg]
      refine ⟨h1, ?_, ?_⟩
      · intro i hi
        rcases Nat.lt_succ_iff_lt_or_eq.mp hi with h | h
        · exact h2 i h
        · rw [h]
          exact not_lt.mp hg
      · rcases h3 with h | ⟨ha, hb⟩
        · exact Or.inl h
        · exact Or.inr ⟨Nat.lt_succ_of_lt ha, hb⟩

namespace FastPAM

/-- The loop of ChooseExchange on the points, when every point has a medoid of
`newmedoids` closer than `MAXD`: it returns, and every point of the list gets the slot
of its nearest medoid. -/
theorem newNearestLoop_ok (s : FastPAM) (newmedoids : List Nat) (l : List Nat)
    (nn0 : Nat → Nat)
    (hfound : ∀ q, q ∈ l → ∃ m, m < s.nmed ∧ s.D q (newmedoids.getD m 0) < s.MAXD) :
    ∃ nn, s.newNearestLoop newmedoids l nn0 = .ok nn ∧
      ∀ q, q ∈ l → nn q = s.nearestUnder newmedoids q := by
  induction l using List.reverseRecOn generalizing nn0 with
  | nil => exact ⟨nn0, rfl, fun q hq => absurd hq (List.not_mem_nil q)⟩
  | append_singleton l a ih =>
    have hloop : ∀ (l1 l2 : List Nat) (n0 n1 : Nat → Nat),
        s.newNearestLoop newmedoids l1 n0 = .ok n1 →
        s.newNearestLoop newmedoids (l1 ++ l2) n0 = s.newNearestLoop newmedoids l2 n1 := by
      intro l1
      induction l1 with
      | nil =>
        intro l2 n0 n1 h
        unfold newNearestLoop at h
        injection h with h
        rw [h]
        rfl
      | cons b l1 ih1 =>
        intro l2 n0 n1 h
        have e : ∀ (rest : List Nat), s.newNearestLoop newmedoids (b :: rest) n0 =
            if (scanMin (fun m => s.D b (newmedoids.getD m 0)) s.nmed
                (s.MAXD, s.nmed + 1)).2 > s.nmed then .error .IncorrectNewMedoid
            else s.newNearestLoop newmedoids rest (Function.update n0 b
              (scanMin (fun m => s.D b (newmedoids.getD m 0)) s.nmed
                (s.MAXD, s.nmed + 1)).2) := fun _ => rfl
        rw [List.cons_append, e]
        rw [e] at h
        by_cases hb : (scanMin (fun m => s.D b (newmedoids.getD m 0)) s.nmed
            (s.MAXD, s.nmed + 1)).2 > s.nmed
        · rw [if_pos hb] at h
          cases h
        · rw [if_neg hb] at h ⊢
          exact ih1 l2 _ n1 h
    obtain ⟨nn, hnn, hval⟩ := ih nn0 (fun q hq => hfound q (List.mem_append_left _ hq))
    have ha := scanMin_found (fun m => s.D a (newmedoids.getD m 0)) s.nmed s.MAXD (s.nmed + 1)
      (hfound a (List.mem_append_right _ (List.mem_singleton_self a)))
    have hna : ¬ (scanMin (fun m => s.D a (newmedoids.getD m 0)) s.nmed
        (s.MAXD, s.nmed + 1)).2 > s.nmed := not_lt.mpr (le_of_lt ha.1)
    refine ⟨Function.update nn a (s.nearestUnder newmedoids a), ?_, ?_⟩
    · rw [hloop l [a] nn0 nn hnn]
      unfold newNearestLoop
      simp only
      rw [if_neg hna]
      rfl
    · intro q hq
      by_cases hqa : q = a
      · rw [hqa, Function.update_same]
      · rw [Function.update_noteq hqa]
        rcases List.mem_append.mp hq with h | h
        · exact hval q h
        · exact absurd (List.mem_singleton.mp h) hqa

/-- The slot of the nearest medoid once slot `imst < nmed` holds the point `xst`. -/
theorem nearestUnder_lt {s : FastPAM} (hv : s.ValidD) (hr : s.InRange)
    (hlen : s.medoids.length = s.nmed) (i x : Nat) (hi : i < s.nmed) (hx : x < s.num_obs)
    (q : Nat) (hq : q < s.num_obs) :
    (∃ m, m < s.nmed ∧ s.D q ((s.medoids.set i x).getD m 0) < s.MAXD) ∧
    s.nearestUnder (s.medoids.set i x) q < s.nmed := by
  have hfound : ∃ m, m < s.nmed ∧ s.D q ((s.medoids.set i x).getD m 0) < s.MAXD := by
    refine ⟨i, hi, ?_⟩
    rw [getD_set_slot s.medoids i i x (by rw [hlen]; exact hi), if_pos rfl]
    exact entry_lt_MAXD hv hr q x hq hx
  exact ⟨hfound, (scanMin_found _ s.nmed s.MAXD (s.nmed + 1) hfound).1⟩

/-- The array `val` of ChooseExchange: the mean silhouette after each exchange of the
window with `DeltaTDst < 0`, and -1 for the others. -/
theorem chooseValues_ok {s : FastPAM} (hv : s.ValidD) (hr : s.InRange)
    (hlen : s.medoids.length = s.nmed) (nt : Nat) (xcg : List exchange)
    (hx : ∀ x, x ∈ xcg → x.DeltaTDst < 0 → x.imst < s.nmed ∧ x.xst < s.num_obs)
    (nn0 : Nat → Nat) :
    s.chooseValues nt xcg nn0 =
      .ok (xcg.map (fun x => if x.DeltaTDst < 0 then s.silhouetteAfter nt x else -1)) := by
  induction xcg generalizing nn0 with
  | nil => rfl
  | cons x rest ih =>
    have hrest : ∀ y, y ∈ rest → y.DeltaTDst < 0 → y.imst < s.nmed ∧ y.xst < s.num_obs :=
      fun y hy => hx y (List.mem_cons_of_mem x hy)
    unfold chooseValues
    by_cases hneg : x.DeltaTDst < 0
    · obtain ⟨hi, hxs⟩ := hx x (List.mem_cons_self x rest) hneg
      obtain ⟨nn, hnn, hval⟩ := newNearestLoop_ok s (s.medoids.set x.imst x.xst)
        (List.range s.num_obs) nn0
        (fun q hq => (nearestUnder_lt hv hr hlen x.imst x.xst hi hxs q (List.mem_range.mp hq)).1)
      rw [if_pos hneg, hnn]
      simp only [ih hrest nn, List.map_cons, if_pos hneg]
      unfold silhouetteAfter
      rw [CalculateMeanSilhouette_congr s.D s.num_obs s.nmed nn
        (s.nearestUnder (s.medoids.set x.imst x.xst)) nt
        (fun q hq => hval q (List.mem_range.mpr hq))]
    · rw [if_neg hneg]
      simp only [ih hrest nn0, List.map_cons, if_neg hneg]

end FastPAM

/-- The mean distance to a non-empty cluster that is not the own one is positive. -/
theorem meanToCluster_pos (D : Nat → Nat → ℚ) (cl : Nat → Nat) (N q m : Nat)
    (hm : m ≠ cl q) (hcard : (cluster cl N m).card ≠ 0)
    (hpos : ∀ p, p < N → q ≠ p → 0 < D q p) : 0 < meanToCluster D cl N q m := by
  unfold meanToCluster
  apply div_pos
  · apply Finset.sum_pos
    · intro p hp
      unfold cluster at hp
      rw [Finset.mem_filter, Finset.mem_range] at hp
      apply hpos p hp.1
      intro hqp
      apply hm
      rw [hqp]
      exact hp.2.symm
    · exact Finset.card_pos.mp (Nat.pos_of_ne_zero hcard)
  · exact Nat.cast_pos.mpr (Nat.pos_of_ne_zero hcard)

/-- The value of a point is above -1 when the distances between different points are
positive. -/
theorem silPoint_gt (D : Nat → Nat → ℚ) (N k : Nat) (cl : Nat → Nat) (q : Nat) (hq : q < N)
    (hc : cl q < k) (hdiag : D q q = 0) (hpos : ∀ p, p < N → q ≠ p → 0 < D q p) :
    -1 < silPoint D N k cl (silHist cl N) q := by
  rw [silPoint_form D N k cl q hq hc hdiag]
  by_cases h1 : (cluster cl N (cl q)).card = 1
  · rw [if_pos h1]
    norm_num
  · rw [if_neg h1]
    apply sil_quotient_gt
    obtain ⟨_, _, hcase⟩ := foldl_min_guard2 (fun m => m ≠ cl q)
      (fun m => (cluster cl N m).card ≠ 0) (fun m => meanToCluster D cl N q m) k DBL_MAX
    rcases hcase with ⟨heq, _⟩ | ⟨m, _, hm, hcard, heq⟩
    · rw [heq]
      exact DBL_MAX_pos
    · rw [heq]
      exact meanToCluster_pos D cl N q m hm hcard hpos

/-- The mean silhouette is above -1 when the distances between different points are
positive. -/
theorem CalculateMeanSilhouette_gt (D : Nat → Nat → ℚ) (N k : Nat) (cl : Nat → Nat)
    (nt : Nat) (hN : 0 < N) (hlab : ∀ q, q < N → cl q < k) (hdiag : ∀ q, q < N → D q q = 0)
    (hpos : ∀ q p, q < N → p < N → q ≠ p → 0 < D q p) :
    -1 < CalculateMeanSilhouette D N cl k nt := by
  by_cases hnt : nt = 0
  · rw [hnt, CalculateMeanSilhouette_no_thread]
    norm_num
  · rw [CalculateMeanSilhouette_eq_sum D N k cl nt (Nat.one_le_iff_ne_zero.mpr hnt)]
    have hNq : (0 : ℚ) < (N : ℚ) := Nat.cast_pos.mpr hN
    rw [lt_div_iff₀ hNq]
    have hsum : ∑ _q in Finset.range N, (-1 : ℚ) <
        ∑ q in Finset.range N, silPoint D N k cl (silHist cl N) q := by
      apply Finset.sum_lt_sum_of_nonempty
      · exact Finset.nonempty_range_iff.mpr (Nat.pos_iff_ne_zero.mp hN)
      · intro q hq
        have hq2 : q < N := Finset.mem_range.mp hq
        exact silPoint_gt D N k cl q hq2 (hlab q hq2) (hdiag q hq2)
          (fun p hp hqp => hpos q p hq2 hp hqp)
    rw [Finset.sum_const, Finset.card_range, nsmul_eq_mul] at hsum
    linarith

namespace FastPAM

/-- The exchange that ChooseExchange returns, for a window with an exchange of
`DeltaTDst < 0`. -/
theorem ChooseExchange_picks (s : FastPAM) (xcg : List exchange) (nt : Nat)
    (hv : s.ValidD) (hr : s.InRange) (hlen : s.medoids.length = s.nmed)
    (hx : ∀ x, x ∈ xcg → x.DeltaTDst < 0 → x.imst < s.nmed ∧ x.xst < s.num_obs)
    (hneg : ∃ x, x ∈ xcg ∧ x.DeltaTDst < 0) :
    ∃ x, s.ChooseExchange xcg nt = .ok x ∧ x ∈ xcg ∧ x.DeltaTDst < 0 ∧
      ∀ y, y ∈ xcg → y.DeltaTDst < 0 → s.silhouetteAfter nt y ≤ s.silhouetteAfter nt x := by
  have hgt : ∀ y, y ∈ xcg → y.DeltaTDst < 0 → -1 < s.silhouetteAfter nt y := by
    intro y hy hyneg
    obtain ⟨hi, hxs⟩ := hx y hy hyneg
    unfold silhouetteAfter
    apply CalculateMeanSilhouette_gt
    · exact lt_of_le_of_lt (Nat.zero_le _) hxs
    · intro q hq
      exact (nearestUnder_lt hv hr hlen y.imst y.xst hi hxs q hq).2
    · exact hv.2.1
    · exact hv.2.2
  have hval : ∀ (i : Nat) (hi : i < xcg.length),
      (xcg.map (fun x => if x.DeltaTDst < 0 then s.silhouetteAfter nt x else -1)).getD i 0 =
        if (xcg.get ⟨i, hi⟩).DeltaTDst < 0
        then s.silhouetteAfter nt (xcg.get ⟨i, hi⟩) else -1 := by
    intro i hi
    rw [List.getD_eq_getElem?_getD, List.getElem?_map, List.getElem?_eq_getElem hi]
    rfl
  obtain ⟨_, hmax, hcase⟩ := foldl_max_spec
    (fun i => (xcg.map
      (fun x => if x.DeltaTDst < 0 then s.silhouetteAfter nt x else -1)).getD i 0)
    xcg.length (-1) 0
  have hbv : bestValue (xcg.map
      (fun x => if x.DeltaTDst < 0 then s.silhouetteAfter nt x else -1)) =
      (List.range xcg.length).foldl (fun acc i =>
        if (xcg.map (fun x => if x.DeltaTDst < 0 then s.silhouetteAfter nt x else -1)).getD i 0
            > acc.1
        then ((xcg.map
          (fun x => if x.DeltaTDst < 0 then s.silhouetteAfter nt x else -1)).getD i 0, i)
        else acc) (-1, 0) := by
    unfold bestValue
    rw [List.length_map]
  rw [← hbv] at hmax hcase
  obtain ⟨r, hrdef⟩ : ∃ r, r = bestValue (xcg.map
      (fun x => if x.DeltaTDst < 0 then s.silhouetteAfter nt x else -1)) := ⟨_, rfl⟩
  rw [← hrdef] at hmax hcase
  obtain ⟨x0, hx0, hx0neg⟩ := hneg
  obtain ⟨j, hj, hjx⟩ := List.getElem_of_mem hx0
  have hr1 : -1 < r.1 := by
    have h := hmax j hj
    beta_reduce at h
    rw [hval j hj] at h
    have hjx2 : xcg.get ⟨j, hj⟩ = x0 := hjx
    rw [hjx2, if_pos hx0neg] at h
    exact lt_of_lt_of_le (hgt x0 hx0 hx0neg) h
  rcases hcase with h0 | ⟨hlt, heq⟩
  · rw [h0] at hr1
    exact absurd hr1 (lt_irrefl _)
  · rw [hval r.2 hlt] at heq
    have hchosen : (xcg.get ⟨r.2, hlt⟩).DeltaTDst < 0 := by
      by_contra hn
      rw [if_neg hn] at heq
      rw [heq] at hr1
      exact absurd hr1 (lt_irrefl _)
    rw [if_pos hchosen] at heq
    refine ⟨xcg.get ⟨r.2, hlt⟩, ?_, List.get_mem xcg r.2 hlt, hchosen, ?_⟩
    · unfold ChooseExchange
      rw [chooseValues_ok hv hr hlen nt xcg hx]
      simp only
      rw [← hrdef, List.getD_eq_getElem?_getD, List.getElem?_eq_getElem hlt]
      rfl
    · intro y hy hyneg
      obtain ⟨i, hi, hiy⟩ := List.getElem_of_mem hy
      have h := hmax i hi
      beta_reduce at h
      rw [hval i hi] at h
      have hiy2 : xcg.get ⟨i, hi⟩ = y := hiy
      rw [hiy2, if_pos hyneg, heq] at h
      exact h

end FastPAM

/-! ## The claims on the silhouette and the window, on the examples -/

theorem S4_diag : ∀ q, q < 4 → S4_D q q = 0 := by decide!

theorem S4_pos : ∀ q p, q < 4 → p < 4 → q ≠ p → 0 < S4_D q p :=
  fun q p hq hp => (by decide! : ∀ q, q < 4 → ∀ p, p < 4 → q ≠ p → 0 < S4_D q p) q hq p hp

theorem S4_sum : ∀ q, q < 4 → ∑ p in Finset.range 4, S4_D q p ≤ 2 ^ 1023 := by decide!

theorem CalculateSilhouette_range_witness :
    1 ≤ 2 ∧ S4_labels.length = 4 ∧ (∀ c, c ∈ S4_labels → c < 4) ∧ 0 ∈ S4_labels ∧
    (∀ q, q < 4 → S4_D q q = 0) ∧ (∀ q p, q < 4 → p < 4 → q ≠ p → 0 < S4_D q p) ∧
    (∀ q, q < 4 → ∑ p in Finset.range 4, S4_D q p ≤ 2 ^ 1023) ∧
    ∃ vals, CalculateSilhouette S4_D 4 S4_labels 2 = .ok vals ∧ vals.length = 4 ∧
      ∀ q, q < 4 → -1 ≤ vals.getD q 0 ∧ vals.getD q 0 ≤ 1 :=
  ⟨by decide, rfl, by decide, by decide, S4_diag, S4_pos, S4_sum,
    CalculateSilhouette_range S4_D 4 S4_labels 2 (by decide) rfl (by decide) (by decide)
      S4_diag S4_pos S4_sum⟩

theorem silhouette_threads_eq_serial_witness :
    1 ≤ 3 ∧
    (List.range 3).flatMap (silThreadPoints 4 3) = List.range 4 ∧
    (∀ (D : Nat → Nat → ℚ) (nmed : Nat) (nearest hist : Nat → Nat) (current_sil : Nat → ℚ),
      silThreads D 4 nmed nearest hist 3 current_sil =
        SilhouetteSerial D 4 nmed nearest hist current_sil) ∧
    (∀ (D : Nat → Nat → ℚ) (cl : List Nat),
      CalculateSilhouette D 4 cl 3 = CalculateSilhouette D 4 cl 1) :=
  ⟨by decide, silhouette_threads_eq_serial 4 3 (by decide)⟩

theorem CalculateSilhouette_two_clusters_witness :
    1 ≤ 2 ∧ S4_labels.length = 4 ∧ (∀ c, c ∈ S4_labels → c < 2) ∧
    2 ≤ (cluster (fun q => S4_labels.getD q 0) 4 0).card ∧
    2 ≤ (cluster (fun q => S4_labels.getD q 0) 4 1).card ∧
    ∃ vals, CalculateSilhouette S4_D 4 S4_labels 2 = .ok vals ∧ vals.length = 4 ∧
      ∀ q, q < 4 → vals.getD q 0 = 9 / 10 :=
  ⟨by decide, rfl, by decide, by decide, by decide,
    CalculateSilhouette_two_clusters S4_D 4 S4_labels 2 (by decide) rfl (by decide)
      (by decide) (by decide) S4_diag
      (fun q p hq hp => (by decide! : ∀ q, q < 4 → ∀ p, p < 4 → q ≠ p →
        S4_labels.getD q 0 = S4_labels.getD p 0 → S4_D q p = 1) q hq p hp)
      (fun q p hq hp => (by decide! : ∀ q, q < 4 → ∀ p, p < 4 →
        S4_labels.getD q 0 ≠ S4_labels.getD p 0 → S4_D q p = 10) q hq p hp)⟩

theorem CalculateMeanSilhouette_mean_witness :
    S4_labels.length = 4 ∧ (∀ c, c ∈ S4_labels → c < 4) ∧ 0 ∈ S4_labels ∧
    (∀ c, c ∈ S4_labels → c < 2) ∧ 2 - 1 ∈ S4_labels ∧
    ∃ vals, CalculateSilhouette S4_D 4 S4_labels 1 = .ok vals ∧ vals.length = 4 ∧
      CalculateMeanSilhouette S4_D 4 (fun q => S4_labels.getD q 0) 2 1 = vals.sum / (4 : ℚ) :=
  ⟨rfl, by decide, by decide, by decide, by decide,
    CalculateMeanSilhouette_mean S4_D 4 2 S4_labels 1 rfl (by decide) (by decide) (by decide)
      (by decide) (by decide)⟩

theorem CalculateSilhouette_spec_witness :
    1 ≤ 2 ∧ S4_labels.length = 4 ∧ 2 ≤ 2 ∧ (∀ c, c ∈ S4_labels → c < 2) ∧
    (∀ m, m < 2 → (cluster (fun q => S4_labels.getD q 0) 4 m).Nonempty) ∧
    (∀ q, q < 4 → S4_D q q = 0) ∧ (∀ q p, q < 4 → p < 4 → q ≠ p → 0 < S4_D q p) ∧
    (∀ q, q < 4 → ∑ p in Finset.range 4, S4_D q p ≤ 2 ^ 1023) ∧
    ∃ vals, CalculateSilhouette S4_D 4 S4_labels 2 = .ok vals ∧ vals.length = 4 ∧
      ∀ q, q < 4 →
        ((cluster (fun q => S4_labels.getD q 0) 4 (S4_labels.getD q 0)).card = 1 →
          vals.getD q 0 = 0) ∧
        ((cluster (fun q => S4_labels.getD q 0) 4 (S4_labels.getD q 0)).card ≠ 1 →
          ∃ b, (∀ m, m < 2 → m ≠ S4_labels.getD q 0 →
                b ≤ meanToCluster S4_D (fun q => S4_labels.getD q 0) 4 q m) ∧
            (∃ m, m < 2 ∧ m ≠ S4_labels.getD q 0 ∧
                b = meanToCluster S4_D (fun q => S4_labels.getD q 0) 4 q m) ∧
            0 < max (meanToOthers S4_D (fun q => S4_labels.getD q 0) 4 q) b ∧
            vals.getD q 0 =
              (b - meanToOthers S4_D (fun q => S4_labels.getD q 0) 4 q) /
                max (meanToOthers S4_D (fun q => S4_labels.getD q 0) 4 q) b) :=
  ⟨by decide, rfl, by decide, by decide, by decide, S4_diag, S4_pos, S4_sum,
    CalculateSilhouette_spec S4_D 4 2 S4_labels 2 (by decide) rfl (by decide) (by decide)
      (by decide) (by decide) S4_diag S4_pos S4_sum⟩

namespace FastPAM

/-- The entries of the window after an insertion are entries it had, the exchange
inserted, or the filler of a read beyond its end. -/
theorem insertBranch_mem (vmin : List ℚ) (xcg : List exchange) (e y : exchange)
    (hy : y ∈ (insertBranch vmin xcg e).2) : y ∈ xcg ∨ y = e ∨ y = ⟨0, 0, 0, 0⟩ := by
  have hfold : ∀ (l : List Nat) (acc : List ℚ × List exchange),
      (∀ z, z ∈ acc.2 → z ∈ xcg ∨ z = e ∨ z = ⟨0, 0, 0, 0⟩) →
      ∀ z, z ∈ (l.foldl
        (fun (acc : List ℚ × List exchange) l =>
          (acc.1.set l (acc.1.getD (l - 1) 0), acc.2.set l (acc.2.getD (l - 1) ⟨0, 0, 0, 0⟩)))
        acc).2 → z ∈ xcg ∨ z = e ∨ z = ⟨0, 0, 0, 0⟩ := by
    intro l
    induction l with
    | nil => exact fun acc h => h
    | cons a l ih =>
      intro acc h
      rw [List.foldl_cons]
      apply ih
      intro z hz
      rcases List.mem_or_eq_of_mem_set hz with h1 | h1
      · exact h z h1
      · rw [h1, List.getD_eq_getElem?_getD]
        cases hget : acc.2[a - 1]? with
        | none => exact Or.inr (Or.inr rfl)
        | some w => exact h w (List.getElem?_mem hget)
  unfold insertBranch at hy
  simp only at hy
  split_ifs at hy with hk
  · rcases List.mem_or_eq_of_mem_set hy with h1 | h1
    · exact hfold _ (vmin, xcg) (fun z hz => Or.inl hz) y h1
    · exact Or.inr (Or.inl h1)
  · exact Or.inl hy

end FastPAM

namespace FastPAM

/-- The loop of ExploreBranches over a consistent state returns, and the exchanges with
`DeltaTDst < 0` that it puts in the window are exact. -/
theorem exploreBranchesLoop_window {s : FastPAM} (hv : s.ValidD) (hr : s.InRange)
    (hc : s.Consistent) (l : List Nat) (hl : ∀ x, x ∈ l → x < s.num_obs)
    (acc : exchange × List ℚ × List exchange)
    (hacc : ∀ y, y ∈ acc.2.2 → y.DeltaTDst < 0 → s.ExactExchange y) :
    ∃ r, s.exploreBranchesLoop s.DeltaTDminus l acc = .ok r ∧
      ∀ y, y ∈ r.2.2 → y.DeltaTDst < 0 → s.ExactExchange y := by
  induction l generalizing acc with
  | nil => exact ⟨acc, rfl, hacc⟩
  | cons xc rest ih =>
    have hrest : ∀ x, x ∈ rest → x < s.num_obs := fun x hx => hl x (List.mem_cons_of_mem xc hx)
    have hxc : xc < s.num_obs := hl xc (List.mem_cons_self xc rest)
    unfold exploreBranchesLoop
    by_cases hm : s.ismedoid xc = false
    · obtain ⟨r, hr1, hlt, hdelta, _⟩ := candidateBest_spec hv hr hc xc hxc
      rw [if_pos hm, hr1]
      simp only
      by_cases hbest : r.1 < acc.1.DeltaTDst
      · rw [if_pos hbest]
        apply ih hrest
        intro y hy hneg
        rcases insertBranch_mem _ _ _ y hy with h | h | h
        · exact hacc y h hneg
        · rw [h]
          exact ⟨hlt, hxc, hm, rfl, hdelta.symm⟩
        · rw [h] at hneg
          exact absurd hneg (lt_irrefl _)
      · rw [if_neg hbest]
        exact ih hrest acc hacc
    · rw [if_neg hm]
      exact ih hrest acc hacc

/-- ExploreBranches over a consistent state, started on a window of `B` exchanges
`(0, 0, 0, 0)`: it returns, and the exchanges with `DeltaTDst < 0` of the window it
leaves are exact. -/
theorem ExploreBranches_window {s : FastPAM} (hv : s.ValidD) (hr : s.InRange)
    (hc : s.Consistent) (B : Nat) :
    ∃ xcg, s.ExploreBranches (List.replicate B ⟨0, 0, 0, 0⟩) = .ok xcg ∧
      ∀ y, y ∈ xcg → y.DeltaTDst < 0 → s.ExactExchange y := by
  obtain ⟨r, hr1, hr2⟩ := exploreBranchesLoop_window hv hr hc (List.range s.num_obs)
    (fun x hx => List.mem_range.mp hx)
    (⟨0, s.num_obs + 1, s.num_obs + 1, s.nmed + 1⟩,
      List.replicate (List.replicate B (⟨0, 0, 0, 0⟩ : exchange)).length s.MAXD,
      List.replicate B ⟨0, 0, 0, 0⟩)
    (by
      intro y hy hneg
      rw [List.eq_of_mem_replicate hy] at hneg
      exact absurd hneg (lt_irrefl _))
  refine ⟨r.2.2, ?_, hr2⟩
  unfold ExploreBranches
  rw [hr1]

end FastPAM

/-! ## The value of TD after Init and after a committed exchange -/

namespace FastPAM

end FastPAM

/-- The first point of thread `t` grows with `t`. -/
theorem threadStart_mono (N W t1 t2 : Nat) (h : t1 ≤ t2) :
    t1 * (N / W) + min t1 (N % W) ≤ t2 * (N / W) + min t2 (N % W) := by
  have h1 : t1 * (N / W) ≤ t2 * (N / W) := Nat.mul_le_mul_right _ h
  have h2 : min t1 (N % W) ≤ min t2 (N % W) := min_le_min h (le_refl _)
  exact Nat.add_le_add h1 h2

/-- Every point below the first point of thread `n` is in the range of a thread
below `n`. -/
theorem threadStart_cover (N W q : Nat) :
    ∀ n, q < n * (N / W) + min n (N % W) →
      ∃ t, t < n ∧ t * (N / W) + min t (N % W) ≤ q ∧
        q < (t + 1) * (N / W) + min (t + 1) (N % W) := by
  intro n
  induction n with
  | zero =>
    intro h
    simp at h
  | succ n ih =>
    intro h
    by_cases hq : q < n * (N / W) + min n (N % W)
    · obtain ⟨t, ht, h1, h2⟩ := ih hq
      exact ⟨t, Nat.lt_succ_of_lt ht, h1, h2⟩
    · exact ⟨n, Nat.lt_succ_self n, not_lt.mp hq, h⟩

namespace FastPAM

/-- C36. The ranges `[start_t, end_t)` that the threads of BUILD and of FASTPAM1
compute, for `N ≥ 0` points and `W ≥ 1` threads: the first starts at 0, each ends where
the next one starts, the last ends at `N`; the ranges of two different threads are
disjoint and in the order of the threads; every point of `[0, N)` is in the range of
exactly one thread; and every range has `N / W` or `N / W + 1` points, so that two
sizes differ by at most 1. -/
theorem threadRange_partition (N W : Nat) (hW : 1 ≤ W) :
    (threadRange N W 0).1 = 0 ∧ (threadRange N W (W - 1)).2 = N ∧
    (∀ t, t + 1 < W → (threadRange N W t).2 = (threadRange N W (t + 1)).1) ∧
    (∀ t, t < W → (threadRange N W t).1 ≤ (threadRange N W t).2) ∧
    (∀ t1 t2, t1 < t2 → t2 < W → (threadRange N W t1).2 ≤ (threadRange N W t2).1) ∧
    (∀ q, q < N → ∃ t, t < W ∧ (threadRange N W t).1 ≤ q ∧ q < (threadRange N W t).2 ∧
      ∀ t2, t2 < W → (threadRange N W t2).1 ≤ q → q < (threadRange N W t2).2 → t2 = t) ∧
    (∀ t, t < W → (threadRange N W t).2 - (threadRange N W t).1 = N / W ∨
      (threadRange N W t).2 - (threadRange N W t).1 = N / W + 1) ∧
    (∀ t1 t2, t1 < W → t2 < W →
      (threadRange N W t1).2 - (threadRange N W t1).1 ≤
        (threadRange N W t2).2 - (threadRange N W t2).1 + 1) ∧
    (List.range W).flatMap (threadPoints N W) = List.range N := by
  have hlast : W * (N / W) + min W (N % W) = N := by
    have hmod : N % W < W := Nat.mod_lt N (by omega)
    rw [min_eq_right (le_of_lt hmod)]
    exact Nat.div_add_mod N W
  have hsize : ∀ t, t < W → (threadRange N W t).2 - (threadRange N W t).1 = N / W ∨
      (threadRange N W t).2 - (threadRange N W t).1 = N / W + 1 := by
    intro t ht
    rw [threadRange_eq N W t ht]
    show (t + 1) * (N / W) + min (t + 1) (N % W) - (t * (N / W) + min t (N % W)) = N / W ∨
      (t + 1) * (N / W) + min (t + 1) (N % W) - (t * (N / W) + min t (N % W)) = N / W + 1
    rw [Nat.succ_mul]
    generalize t * (N / W) = a
    generalize N / W = b
    generalize N % W = r
    rcases Nat.lt_or_ge t r with h | h
    · rw [min_eq_left (by omega : t + 1 ≤ r), min_eq_left (le_of_lt h)]
      right
      omega
    · rw [min_eq_right (by omega : r ≤ t + 1), min_eq_right h]
      left
      omega
  have hdisj : ∀ t1 t2, t1 < t2 → t2 < W →
      (threadRange N W t1).2 ≤ (threadRange N W t2).1 := by
    intro t1 t2 h12 h2
    rw [threadRange_eq N W t1 (lt_trans h12 h2), threadRange_eq N W t2 h2]
    exact threadStart_mono N W (t1 + 1) t2 h12
  refine ⟨?_, ?_, ?_, ?_, hdisj, ?_, hsize, ?_, threadPoints_cover N W hW⟩
  · rw [threadRange_eq N W 0 (by omega)]
    simp
  · rw [threadRange_eq N W (W - 1) (by omega)]
    show (W - 1 + 1) * (N / W) + min (W - 1 + 1) (N % W) = N
    rw [Nat.sub_add_cancel hW]
    exact hlast
  · intro t ht
    rw [threadRange_eq N W t (by omega), threadRange_eq N W (t + 1) ht]
  · intro t ht
    rw [threadRange_eq N W t ht]
    exact threadStart_mono N W t (t + 1) (Nat.le_succ t)
  · intro q hq
    obtain ⟨t, ht, h1, h2⟩ := threadStart_cover N W q W (by rw [hlast]; exact hq)
    refine ⟨t, ht, ?_, ?_, ?_⟩
    · rw [threadRange_eq N W t ht]
      exact h1
    · rw [threadRange_eq N W t ht]
      exact h2
    · intro t2 ht2 h3 h4
      rcases Nat.lt_trichotomy t2 t with h | h | h
      · exfalso
        have h5 := hdisj t2 t h ht
        rw [threadRange_eq N W t ht] at h5
        have h6 : (threadRange N W t2).2 ≤ q := le_trans h5 h1
        omega
      · exact h
      · exfalso
        have h5 := hdisj t t2 h ht2
        rw [threadRange_eq N W t ht] at h5
        have h6 : q < (threadRange N W t2).1 := lt_of_lt_of_le h2 h5
        omega
  · intro t1 t2 ht1 ht2
    rcases hsize t1 ht1 with h1 | h1 <;> rcases hsize t2 ht2 with h2 | h2 <;> omega

theorem threadRange_partition_witness :
    1 ≤ 3 ∧ (threadRange 7 3 0, threadRange 7 3 1, threadRange 7 3 2) = ((0, 3), (3, 5), (5, 7)) ∧
    (List.range 3).flatMap (threadPoints 7 3) = List.range 7 :=
  ⟨by decide, by decide, (threadRange_partition 7 3 (by decide)).2.2.2.2.2.2.2.2⟩

end FastPAM

/-! ## The program pardis -/

/-- C33. VerifyDistanceType on the arguments `-dis Pe`: the test of the spelling accepts
`Pe`, but the code `DPe` is assigned only for the spelling `Pearson`, which the test
rejects; `dtype` keeps the value it held before the call, whatever it was. The
spellings `L1` and `L2` give `DL1 = 0` and `DL2 = 1`, no option `-dis` gives `DL2`. -/
theorem VerifyDistanceType_Pe (dtype : Nat) :
    okOf (VerifyDistanceType [disOption, namePe] dtype) = some dtype ∧
    errorOf (VerifyDistanceType [disOption, namePearson] dtype) = some .BadDistanceType ∧
    okOf (VerifyDistanceType [disOption, nameL1] dtype) = some DL1 ∧
    okOf (VerifyDistanceType [disOption, nameL2] dtype) = some DL2 ∧
    okOf (VerifyDistanceType [] dtype) = some DL2 ∧ DL1 = 0 ∧ DL2 = 1 ∧ DPe = 2 := by
  refine ⟨?_, ?_, ?_, ?_, ?_, rfl, rfl, rfl⟩ <;> rfl

/-- C34. VerifyInputMatrix with the debug flag off (`DEB = 0`, the state of the program
called as `pardis`): whatever the codes of the kind of matrix and of the type of its
elements, the symmetric kind, unknown kinds and types other than float and double
included, the function returns without an error. -/
theorem VerifyInputMatrix_debug_off (c : JMatrix) (imattype imatvaltype : Nat) :
    okOf (VerifyInputMatrix c 0 imattype imatvaltype) = some (imattype, imatvaltype) := by
  unfold VerifyInputMatrix
  rw [if_neg (by simp)]
  rfl

/-! ## Every medoid is in its own slot -/

namespace FastPAM

/-- In a state whose assignment agrees with its medoids, every medoid is assigned to
its own slot, at distance 0. -/
theorem Assigned.medoid_own_slot {s : FastPAM} (hv : s.ValidD) (ha : s.Assigned) (m : Nat)
    (hm : m < s.nmed) : s.nearest (s.med m) = m ∧ s.dnearest (s.med m) = 0 := by
  have hq : s.med m < s.num_obs := ha.medoids_lt m hm
  have h1 : s.dnearest (s.med m) ≤ 0 := by
    have h := ha.dnearest_le (s.med m) m hq hm
    rw [hv.2.1 (s.med m) hq] at h
    exact h
  have h2 := ha.dnearest_eq (s.med m) hq
  have hn : s.nearest (s.med m) < s.nmed := ha.nearest_lt (s.med m) hq
  have hmed : s.med (s.nearest (s.med m)) = s.med m := by
    by_contra hne
    have hpos := hv.2.2 (s.med m) (s.med (s.nearest (s.med m))) hq
      (ha.medoids_lt _ hn) (fun h => hne h.symm)
    rw [← h2] at hpos
    exact absurd hpos (not_lt.mpr h1)
  constructor
  · exact nodup_slot_inj s.medoids ha.medoids_nodup _ _
      (by rw [ha.length_medoids]; exact hn) (by rw [ha.length_medoids]; exact hm) hmed
  · rw [h2, hmed]
    exact hv.2.1 (s.med m) hq

/-- In a state whose assignment agrees with its medoids, no cluster is empty. -/
theorem Assigned.cluster_nonempty {s : FastPAM} (hv : s.ValidD) (ha : s.Assigned) (m : Nat)
    (hm : m < s.nmed) : (cluster s.nearest s.num_obs m).Nonempty := by
  refine ⟨s.med m, ?_⟩
  unfold cluster
  rw [Finset.mem_filter, Finset.mem_range]
  exact ⟨ha.medoids_lt m hm, (ha.medoid_own_slot hv m hm).1⟩

/-- The slot of the nearest medoid of a point that is itself one of `nmed` distinct
medoids is its own slot. -/
theorem nearestUnder_medoid {s : FastPAM} (hv : s.ValidD) (hr : s.InRange) (L : List Nat)
    (hlen : L.length = s.nmed) (hnd : L.Nodup) (hlt : ∀ m, m < s.nmed → L.getD m 0 < s.num_obs)
    (m : Nat) (hm : m < s.nmed) : s.nearestUnder L (L.getD m 0) = m := by
  have hq : L.getD m 0 < s.num_obs := hlt m hm
  have hzero : s.D (L.getD m 0) (L.getD m 0) = 0 := hv.2.1 _ hq
  have hM : s.D (L.getD m 0) (L.getD m 0) < s.MAXD := entry_lt_MAXD hv hr _ _ hq hq
  obtain ⟨h1, h2, h3, _⟩ := scanMin_found (fun j => s.D (L.getD m 0) (L.getD j 0)) s.nmed
    s.MAXD (s.nmed + 1) ⟨m, hm, hM⟩
  have hle := h3 m hm
  simp only at h2 hle
  rw [hzero] at hle
  have hsame : L.getD (s.nearestUnder L (L.getD m 0)) 0 = L.getD m 0 := by
    by_contra hne
    have hpos := hv.2.2 (L.getD m 0) (L.getD (s.nearestUnder L (L.getD m 0)) 0) hq
      (hlt _ h1) (fun h => hne h.symm)
    have h2b : (scanMin (fun j => s.D (L.getD m 0) (L.getD j 0)) s.nmed
        (s.MAXD, s.nmed + 1)).1 = s.D (L.getD m 0) (L.getD (s.nearestUnder L (L.getD m 0)) 0) :=
      h2
    rw [← h2b] at hpos
    exact absurd hpos (not_lt.mpr hle)
  exact nodup_slot_inj L hnd _ _ (by rw [hlen]; exact h1) (by rw [hlen]; exact hm) hsame

/-- C39. For a valid matrix: after InitializeInternals on `k ≥ 1` distinct medoids that
are points of the matrix, and after SwapRolesAndUpdate on a consistent state (a slot,
its medoid and a point that is not a medoid), every medoid is assigned to its own slot
at distance 0, `nearest[medoids[m]] = m` and `dnearest[medoids[m]] = 0` for all
`m < k`, and so no cluster is empty. The same holds for the labels that ChooseExchange
computes for the medoids of an exchange: no cluster of `newnearest` is empty. -/
theorem medoids_in_own_slot (s : FastPAM) (hv : s.ValidD) (hr : s.InRange) :
    (0 < s.nmed → s.medoids.length = s.nmed → (∀ m, m < s.nmed → s.med m < s.num_obs) →
      s.medoids.Nodup →
      ∃ s1, s.InitializeInternals = .ok s1 ∧ s1.medoids = s.medoids ∧
        ∀ m, m < s.nmed → s1.nearest (s1.med m) = m ∧ s1.dnearest (s1.med m) = 0 ∧
          (cluster s1.nearest s1.num_obs m).Nonempty) ∧
    (s.Consistent → ∀ i x, i < s.nmed → x < s.num_obs → s.ismedoid x = false →
      (∃ s1, s.SwapRolesAndUpdate (s.med i) x i = .ok s1 ∧
        s1.medoids = s.medoids.set i x ∧
        ∀ m, m < s.nmed → s1.nearest (s1.med m) = m ∧ s1.dnearest (s1.med m) = 0 ∧
          (cluster s1.nearest s1.num_obs m).Nonempty) ∧
      ∀ m, m < s.nmed →
        (cluster (s.nearestUnder (s.medoids.set i x)) s.num_obs m).Nonempty) := by
  constructor
  · intro hk hlen hin hnd
    obtain ⟨s1, h1, hD, hN, hK, _, _, _, hmeds, _, _, _, ha, _⟩ :=
      InitializeInternals_assigned hv hr hk hlen hin hnd
    have hv1 : s1.ValidD := validD_of_eq (s := s) hD hN hv
    refine ⟨s1, h1, hmeds, ?_⟩
    intro m hm
    have hm1 : m < s1.nmed := by rw [hK]; exact hm
    exact ⟨(ha.medoid_own_slot hv1 m hm1).1, (ha.medoid_own_slot hv1 m hm1).2,
      ha.cluster_nonempty hv1 m hm1⟩
  · intro hc i x hi hx hxm
    obtain ⟨s1, h1, hmeds, hD, hN, hK, _, _, _, _, _, hc1⟩ :=
      SwapRolesAndUpdate_spec hv hr hc i x hi hx hxm
    have hv1 : s1.ValidD := validD_of_eq (s := s) hD hN hv
    constructor
    · refine ⟨s1, h1, hmeds, ?_⟩
      intro m hm
      have hm1 : m < s1.nmed := by rw [hK]; exact hm
      exact ⟨(hc1.assigned.medoid_own_slot hv1 m hm1).1,
        (hc1.assigned.medoid_own_slot hv1 m hm1).2, hc1.assigned.cluster_nonempty hv1 m hm1⟩
    · intro m hm
      have hlen : (s.medoids.set i x).length = s.nmed := by
        rw [← hmeds, hc1.length_medoids, hK]
      have hnd : (s.medoids.set i x).Nodup := by
        rw [← hmeds]
        exact hc1.medoids_nodup
      have hlt : ∀ j, j < s.nmed → (s.medoids.set i x).getD j 0 < s.num_obs := by
        intro j hj
        rw [← hmeds, ← hN]
        exact hc1.medoids_lt j (by rw [hK]; exact hj)
      refine ⟨(s.medoids.set i x).getD m 0, ?_⟩
      unfold cluster
      rw [Finset.mem_filter, Finset.mem_range]
      exact ⟨hlt m hm, nearestUnder_medoid hv hr _ hlen hnd hlt m hm⟩

end FastPAM

/-! ## The marks, the medoids and the count of reassigned points after an exchange -/

namespace FastPAM

/-- The loop of SwapRolesAndUpdate over the points below `n`: `current_npch` grows by
the number of these points whose slot is not the one found by the search. -/
theorem foldl_swapUpdateStep_npch (s : FastPAM) (n cm0 : Nat)
    (hfound : ∀ q, q < n → ∃ m, m < s.nmed ∧ s.D q (s.med m) < s.MAXD) :
    ((List.range n).foldl swapUpdateStep (s, cm0)).1.current_npch =
      s.current_npch +
        ((Finset.range n).filter (fun q => s.nearest q ≠ (s.closestSearch q).2)).card := by
  induction n with
  | zero => simp
  | succ n ih =>
    have ih2 := ih (fun q hq => hfound q (Nat.lt_succ_of_lt hq))
    obtain ⟨c, cm, hfold⟩ := foldl_swapUpdateStep s n cm0
      (fun q hq => hfound q (Nat.lt_succ_of_lt hq))
    rw [hfold] at ih2
    have hc : c = s.current_npch +
        ((Finset.range n).filter (fun q => s.nearest q ≠ (s.closestSearch q).2)).card := ih2
    rw [List.range_succ, List.foldl_append, hfold, List.foldl_cons, List.foldl_nil]
    have hs : scanMin (fun m => s.D n (s.med m)) s.nmed (s.MAXD, cm) = s.closestSearch n :=
      scanMin_start _ _ _ _ _ (hfound n (Nat.lt_succ_self n))
    have hn : n ∉ (Finset.range n).filter (fun q => s.nearest q ≠ (s.closestSearch q).2) := by
      intro h
      rw [Finset.mem_filter, Finset.mem_range] at h
      exact absurd h.1 (lt_irrefl n)
    unfold swapUpdateStep
    simp only [med] at hs ⊢
    rw [hs]
    show (if (if n < n then (s.closestSearch n).2 else s.nearest n) ≠ (s.closestSearch n).2
      then c + 1 else c) = _
    rw [if_neg (lt_irrefl n), Finset.range_succ]
    by_cases h : s.nearest n ≠ (s.closestSearch n).2
    · have hf : (insert n (Finset.range n)).filter
          (fun q => s.nearest q ≠ (s.closestSearch q).2) =
          insert n ((Finset.range n).filter
            (fun q => s.nearest q ≠ (s.closestSearch q).2)) := by
        rw [Finset.filter_insert, if_pos h]
      rw [if_pos h, hf, Finset.card_insert_of_not_mem hn, hc]
      exact Nat.add_assoc _ _ _
    · have hf : (insert n (Finset.range n)).filter
          (fun q => s.nearest q ≠ (s.closestSearch q).2) =
          (Finset.range n).filter (fun q => s.nearest q ≠ (s.closestSearch q).2) := by
        rw [Finset.filter_insert, if_neg h]
      rw [if_neg h, hf, hc]

end FastPAM

namespace FastPAM

/-- The marks of a consistent state: exactly `nmed` of the `num_obs` marks are set. -/
theorem Consistent.card_marks {s : FastPAM} (hc : s.Consistent) :
    ((Finset.range s.num_obs).filter (fun p => s.ismedoid p = true)).card = s.nmed := by
  have hset : (Finset.range s.num_obs).filter (fun p => s.ismedoid p = true) =
      s.medoids.toFinset := by
    ext p
    rw [Finset.mem_filter, Finset.mem_range, List.mem_toFinset]
    constructor
    · rintro ⟨hp, hm⟩
      exact (hc.ismedoid_iff p hp).mp hm
    · intro hmem
      obtain ⟨j, hj, hjp⟩ := (mem_iff_slot s.medoids p).mp hmem
      have hp : p < s.num_obs := by
        rw [← hjp]
        exact hc.medoids_lt j (by rw [← hc.length_medoids]; exact hj)
      exact ⟨hp, (hc.ismedoid_iff p hp).mpr hmem⟩
  rw [hset, List.toFinset_card_of_nodup hc.medoids_nodup, hc.length_medoids]

/-- The count `current_npch` left by SwapRolesAndUpdate: the number of points whose
slot has changed. -/
theorem SwapRolesAndUpdate_npch {s : FastPAM} (hv : s.ValidD) (hr : s.InRange)
    (hc : s.Consistent) (i x : Nat) (hi : i < s.nmed) (hx : x < s.num_obs) (s1 : FastPAM)
    (h : s.SwapRolesAndUpdate (s.med i) x i = .ok s1) :
    s1.current_npch =
      ((Finset.range s.num_obs).filter (fun q => s.nearest q ≠ s1.nearest q)).card := by
  have hk : 0 < s.nmed := lt_of_le_of_lt (Nat.zero_le _) hi
  have hgetlt : (s.medoids.set i x).getD 0 0 < s.num_obs := by
    rw [getD_set_slot s.medoids i 0 x (by rw [hc.length_medoids]; exact hk)]
    split_ifs
    · exact hx
    · exact hc.medoids_lt 0 hk
  have hfound : ∀ q, q < s.num_obs →
      ∃ m, m < s.nmed ∧ s.D q ((s.medoids.set i x).getD m 0) < s.MAXD :=
    fun q hq => ⟨0, hk, entry_lt_MAXD hv hr q _ hq hgetlt⟩
  obtain ⟨c, cm, hfold⟩ := foldl_swapUpdateStep
    { s with ismedoid := Function.update (Function.update s.ismedoid (s.med i) false) x true,
             medoids := s.medoids.set i x,
             current_npch := 0 } s.num_obs (s.nmed + 1) hfound
  have hnp := foldl_swapUpdateStep_npch
    { s with ismedoid := Function.update (Function.update s.ismedoid (s.med i) false) x true,
             medoids := s.medoids.set i x,
             current_npch := 0 } s.num_obs (s.nmed + 1) hfound
  unfold SwapRolesAndUpdate at h
  rw [if_neg (not_not.mpr rfl)] at h
  simp only at h
  injection h with h
  rw [← h]
  show ((List.range s.num_obs).foldl swapUpdateStep _).1.current_npch = _
  rw [hnp]
  show 0 + _ = _
  rw [zero_add]
  congr 1
  apply Finset.filter_congr
  intro q hq
  have hq2 : q < s.num_obs := Finset.mem_range.mp hq
  show s.nearest q ≠ _ ↔ s.nearest q ≠ ((List.range s.num_obs).foldl swapUpdateStep _).1.nearest q
  rw [hfold]
  show _ ↔ s.nearest q ≠ (if q < s.num_obs then _ else _)
  rw [if_pos hq2]

/-- C35. SwapRolesAndUpdate called on a consistent state with a slot `i`, the medoid it
holds and a point `x` that is not a medoid: it returns; afterwards slot `i` of `medoids`
holds `x` and the other slots are unchanged; the `k` entries are pairwise distinct;
`ismedoid[p]` is set exactly for the points `p` that occur in `medoids`, which are
exactly `k` marks; and `current_npch` is the number of points whose slot in `nearest`
has changed. -/
theorem SwapRolesAndUpdate_marks (s : FastPAM) (hv : s.ValidD) (hr : s.InRange)
    (hc : s.Consistent) (i x : Nat) (hi : i < s.nmed) (hx : x < s.num_obs)
    (hxm : s.ismedoid x = false) :
    ∃ s1, s.SwapRolesAndUpdate (s.med i) x i = .ok s1 ∧ s1.med i = x ∧
      (∀ m, m < s.nmed → m ≠ i → s1.med m = s.med m) ∧
      s1.medoids.length = s.nmed ∧ s1.medoids.Nodup ∧
      (∀ p, p < s.num_obs → (s1.ismedoid p = true ↔ p ∈ s1.medoids)) ∧
      ((Finset.range s.num_obs).filter (fun p => s1.ismedoid p = true)).card = s.nmed ∧
      s1.current_npch =
        ((Finset.range s.num_obs).filter (fun q => s.nearest q ≠ s1.nearest q)).card := by
  obtain ⟨s1, h1, hmeds, _, hN, hK, _, _, _, _, _, hc1⟩ :=
    SwapRolesAndUpdate_spec hv hr hc i x hi hx hxm
  refine ⟨s1, h1, ?_, ?_, ?_, hc1.medoids_nodup, ?_, ?_,
    SwapRolesAndUpdate_npch hv hr hc i x hi hx s1 h1⟩
  · unfold med
    rw [hmeds, getD_set_slot s.medoids i i x (by rw [hc.length_medoids]; exact hi), if_pos rfl]
  · intro m hm hmi
    unfold med
    rw [hmeds, getD_set_slot s.medoids i m x (by rw [hc.length_medoids]; exact hm), if_neg hmi]
  · rw [hc1.length_medoids, hK]
  · intro p hp
    exact hc1.ismedoid_iff p (by rw [hN]; exact hp)
  · have h := hc1.card_marks
    rw [hN, hK] at h
    exact h

end FastPAM

/-! ## The loop of RunImprovedFastPAMMultiBranch -/

namespace FastPAM

/-- The commit of an exact exchange over a consistent state. -/
theorem commitExchange_of_exact {s : FastPAM} (hv : s.ValidD) (hr : s.InRange)
    (hc : s.Consistent) (e : exchange) (hex : s.ExactExchange e) :
    ∃ s1, s.commitExchange e = .ok (s1, false) ∧
      s.SwapRolesAndUpdate e.mst e.xst e.imst = .ok { s1 with currentTD := s.currentTD } ∧
      s1.medoids = s.medoids.set e.imst e.xst ∧ s1.D = s.D ∧ s1.num_obs = s.num_obs ∧
      s1.nmed = s.nmed ∧ s1.MAXD = s.MAXD ∧ s1.maxiter = s.maxiter ∧
      s1.TDkeep = s.TDkeep ∧ s1.NpointsChangekeep = s.NpointsChangekeep ∧
      s1.Consistent ∧
      s1.currentTD = s.currentTD + e.DeltaTDst ∧ 0 < s.num_obs ∧
      s1.totalDeviation s1.medoids = s.totalDeviation s.medoids + e.DeltaTDst ∧
      (s.currentTD = ∑ q in Finset.range s.num_obs, s.dnearest q →
        s1.currentTD = ∑ q in Finset.range s1.num_obs, s1.dnearest q) := by
  obtain ⟨hi, hx, hxm, hmst, hdelta⟩ := hex
  obtain ⟨s1, hs1, hmeds, hD, hN, hK, hM, hmi, hTD1, hk1, hk2, hc1⟩ :=
    SwapRolesAndUpdate_spec hv hr hc e.imst e.xst hi hx hxm
  have htd : s1.totalDeviation s1.medoids = s.totalDeviation s.medoids + e.DeltaTDst := by
    rw [← hdelta]
    unfold swapDelta totalDeviation
    rw [hmeds, hD, hN]
    ring
  refine ⟨{ s1 with currentTD := s1.currentTD + e.DeltaTDst }, ?_, ?_, hmeds, hD, hN, hK, hM,
    hmi, hk1, hk2, hc1.with_currentTD _, ?_, lt_of_le_of_lt (Nat.zero_le _) hx, htd, ?_⟩
  · unfold commitExchange
    rw [if_pos hi, hmst, hs1]
  · rw [hmst, hs1, ← hTD1]
  · show s1.currentTD + e.DeltaTDst = _
    rw [hTD1]
  · intro hTD
    show s1.currentTD + e.DeltaTDst = ∑ q in Finset.range s1.num_obs, s1.dnearest q
    rw [← hc1.totalDeviation_medoids, htd, hTD1, hTD, ← hc.totalDeviation_medoids]

/-- ChooseExchange on the window that ExploreBranches leaves over a consistent state:
it returns, and when the first exchange of the window has `DeltaTDst < 0` the exchange
returned has `DeltaTDst < 0` and is exact. -/
theorem ChooseExchange_window {s : FastPAM} (hv : s.ValidD) (hr : s.InRange)
    (hc : s.Consistent) (B nt : Nat) :
    ∃ xcg e, s.ExploreBranches (List.replicate B ⟨0, 0, 0, 0⟩) = .ok xcg ∧
      s.ChooseExchange xcg nt = .ok e ∧
      ((xcg.getD 0 ⟨0, 0, 0, 0⟩).DeltaTDst < 0 → e.DeltaTDst < 0 ∧ s.ExactExchange e) := by
  obtain ⟨xcg, hok, hexact⟩ := ExploreBranches_window hv hr hc B
  have hx : ∀ y, y ∈ xcg → y.DeltaTDst < 0 → y.imst < s.nmed ∧ y.xst < s.num_obs :=
    fun y hy hyneg => ⟨(hexact y hy hyneg).1, (hexact y hy hyneg).2.1⟩
  have hval := chooseValues_ok hv hr hc.length_medoids nt xcg hx (fun _ => 0)
  refine ⟨xcg, _, hok, by unfold ChooseExchange; rw [hval], ?_⟩
  intro hfirst
  have hneg : ∃ y, y ∈ xcg ∧ y.DeltaTDst < 0 := by
    rw [List.getD_eq_getElem?_getD] at hfirst
    cases hget : xcg[0]? with
    | none =>
      rw [hget] at hfirst
      exact absurd hfirst (lt_irrefl _)
    | some w =>
      rw [hget] at hfirst
      exact ⟨w, List.getElem?_mem hget, hfirst⟩
  obtain ⟨y, hy1, hy2, hy3, _⟩ := ChooseExchange_picks s xcg nt hv hr hc.length_medoids hx hneg
  unfold ChooseExchange at hy1
  rw [hval] at hy1
  injection hy1 with hy1
  rw [hy1]
  exact ⟨hy3, hexact y hy2 hy3⟩

end FastPAM

namespace FastPAM

/-- The loop of RunImprovedFastPAMMultiBranch from a consistent state, with enough
fuel: it returns; `iteration` has advanced by the number of exchanges committed; each of
them had a negative `DeltaTDst`, added to `currentTD`, and appended the new `currentTD`
divided by `num_obs` to `TDkeep` and one entry to `NpointsChangekeep`. -/
theorem branchLoop_spec (B nt : Nat) (tol_limit : ℚ) :
    ∀ (fuel iteration : Nat) (s : FastPAM), 0 < fuel → s.maxiter < fuel + iteration →
      s.ValidD → s.InRange → s.Consistent →
      ∃ s1 deltas, branchLoop B nt tol_limit fuel iteration s =
          .ok (s1, iteration + deltas.length) ∧
        (∀ d, d ∈ deltas → d < 0) ∧
        s1.TDkeep = s.TDkeep ++ tdTrail s.currentTD s.num_obs deltas ∧
        s1.currentTD = s.currentTD + deltas.sum ∧
        s1.NpointsChangekeep.length = s.NpointsChangekeep.length + deltas.length ∧
        (deltas ≠ [] → 0 < s.num_obs) ∧
        (iteration + deltas.length ≤ max (iteration + 1) s.maxiter) ∧
        s1.Consistent ∧ s1.D = s.D ∧ s1.num_obs = s.num_obs ∧ s1.nmed = s.nmed ∧
        s1.MAXD = s.MAXD ∧ s1.maxiter = s.maxiter ∧
        (s.currentTD = ∑ q in Finset.range s.num_obs, s.dnearest q →
          s1.currentTD = ∑ q in Finset.range s1.num_obs, s1.dnearest q) := by
  intro fuel
  induction fuel with
  | zero => intro _ _ h; exact absurd h (lt_irrefl 0)
  | succ fuel ih =>
    intro iteration s _ hfuel hv hr hc
    obtain ⟨xcg, e, hok, hch, hfirst⟩ := ChooseExchange_window hv hr hc B nt
    have hexp : (if nt > 1 then s.ExploreBranchesParallel (List.replicate B ⟨0, 0, 0, 0⟩) nt
        else s.ExploreBranches (List.replicate B ⟨0, 0, 0, 0⟩)) = .ok xcg := by
      split_ifs
      · exact hok
      · exact hok
    simp only [branchLoop, hexp, hch]
    by_cases hge : (xcg.getD 0 ⟨0, 0, 0, 0⟩).DeltaTDst ≥ 0
    · rw [if_pos hge]
      exact ⟨s, [], rfl, by simp, by simp [tdTrail], by simp, by simp, by simp,
        by simp, hc, rfl, rfl, rfl, rfl, rfl, fun h => h⟩
    · rw [if_neg hge]
      obtain ⟨hneg, hex⟩ := hfirst (not_le.mp hge)
      obtain ⟨s1, hs1, _, _, hD, hN, hK, hM, hmi, hk1, hk2, hc1, hTD1, hpos, _, hsum⟩ :=
        commitExchange_of_exact hv hr hc e hex
      simp only [hs1]
      have hc2 := hc1.pushHistory
      by_cases hcont : |e.DeltaTDst| > tol_limit ∧ iteration + 1 < s.maxiter
      · rw [if_pos ⟨hcont.1, hcont.2, trivial⟩]
        have hv2 : s1.pushHistory.ValidD := validD_of_eq (s := s) hD hN hv
        have hr2 : s1.pushHistory.InRange := inRange_of_eq (s := s) hD hN hM hr
        have hfuel2 : 0 < fuel := by
          have := hcont.2
          omega
        obtain ⟨s3, deltas, hloop, hd1, hd2, hd3, hd4, _, hd6, hc3, hD3, hN3, hK3, hM3, hmi3,
          hsum3⟩ := ih (iteration + 1) s1.pushHistory hfuel2
            (by show s1.maxiter < fuel + (iteration + 1); rw [hmi]; omega) hv2 hr2 hc2
        refine ⟨s3, e.DeltaTDst :: deltas, ?_, ?_, ?_, ?_, ?_, fun _ => hpos, ?_, hc3,
          hD3.trans hD, hN3.trans hN, hK3.trans hK, hM3.trans hM, hmi3.trans hmi, ?_⟩
        · rw [hloop]; simp only [List.length_cons]
          congr 2; omega
        · intro d hd
          rcases List.mem_cons.mp hd with h | h
          · rw [h]; exact hneg
          · exact hd1 d h
        · rw [hd2]
          show s1.TDkeep ++ [s1.currentTD / (s1.num_obs : ℚ)] ++
            tdTrail s1.currentTD (s1.num_obs : ℚ) deltas = _
          rw [hk1, hTD1, hN]
          simp [tdTrail]
        · rw [hd3]
          show s1.currentTD + deltas.sum = _
          rw [hTD1, List.sum_cons]; ring
        · rw [hd4]
          show (s1.NpointsChangekeep ++ [s1.current_npch]).length + deltas.length = _
          rw [List.length_append, hk2]; simp only [List.length_cons, List.length_nil]; omega
        · have h6 : iteration + 1 + deltas.length ≤ max (iteration + 1 + 1) s1.maxiter := hd6
          rw [hmi] at h6
          have := hcont.2
          simp only [List.length_cons]
          rw [max_def] at h6 ⊢
          split_ifs at h6 ⊢ <;> omega
        · intro hTD
          exact hsum3 (hsum hTD)
      · rw [if_neg (fun h => hcont ⟨h.1, h.2.1⟩)]
        refine ⟨_, [e.DeltaTDst], rfl, ?_, ?_, ?_, ?_, fun _ => hpos, ?_, hc2, hD, hN, hK, hM,
          hmi, ?_⟩
        · intro d hd
          rw [List.mem_singleton.mp hd]; exact hneg
        · show s1.TDkeep ++ [s1.currentTD / (s1.num_obs : ℚ)] = _
          rw [hk1, hTD1, hN]; simp [tdTrail]
        · show s1.currentTD = _
          rw [hTD1]; simp
        · show (s1.NpointsChangekeep ++ [s1.current_npch]).length = _
          rw [List.length_append, hk2]; simp
        · simp
        · intro hTD
          exact hsum hTD

/-- RunImprovedFastPAMMultiBranch from a state left by an initialization: it returns;
the exchanges committed had negative changes `deltas`; the final state is consistent.
-/
theorem RunImprovedFastPAMMultiBranch_spec {s : FastPAM} (hv : s.ValidD) (hr : s.InRange)
    (ha : s.Assigned) (B nt : Nat) :
    ∃ s1 deltas, s.RunImprovedFastPAMMultiBranch B nt = .ok s1 ∧ (∀ d, d ∈ deltas → d < 0) ∧
      s1.TDkeep = s.TDkeep ++ tdTrail s.currentTD s.num_obs deltas ∧
      s1.currentTD = s.currentTD + deltas.sum ∧
      s1.NpointsChangekeep.length = s.NpointsChangekeep.length + deltas.length ∧
      (deltas ≠ [] → 0 < s.num_obs) ∧
      deltas.length ≤ max 1 s.maxiter ∧
      s1.num_iterations_in_opt = deltas.length - 1 ∧
      s1.Consistent ∧ s1.D = s.D ∧ s1.num_obs = s.num_obs ∧ s1.nmed = s.nmed ∧
      s1.MAXD = s.MAXD ∧ s1.maxiter = s.maxiter ∧
      (s.currentTD = ∑ q in Finset.range s.num_obs, s.dnearest q →
        s1.currentTD = ∑ q in Finset.range s1.num_obs, s1.dnearest q) := by
  have hv0 : s.FillSecond.ValidD := validD_of_eq (s := s) rfl rfl hv
  have hr0 : s.FillSecond.InRange := inRange_of_eq (s := s) rfl rfl rfl hr
  obtain ⟨s1, deltas, hloop, h1, h2, h3, h4, h5, h6, hc1, hD, hN, hK, hM, hmi, hsum⟩ :=
    branchLoop_spec B nt (s.FillSecond.currentTD * tlimit) (s.FillSecond.maxiter + 1) 0
      s.FillSecond (Nat.succ_pos _) (by omega) hv0 hr0 (ha.fillSecond hv0 hr0)
  refine ⟨{ s1 with num_iterations_in_opt :=
      if 0 + deltas.length > 0 then 0 + deltas.length - 1 else 0 }, deltas, ?_, h1, h2, h3, h4,
    h5, ?_, ?_, ?_, hD, hN, hK, hM, hmi, hsum⟩
  · unfold RunImprovedFastPAMMultiBranch
    simp only [hloop]
  · have : 0 + deltas.length ≤ max (0 + 1) s.maxiter := h6
    simpa using this
  · show (if 0 + deltas.length > 0 then 0 + deltas.length - 1 else 0) = deltas.length - 1
    split_ifs <;> omega
  · exact ⟨hc1.length_medoids, hc1.medoids_lt, hc1.medoids_nodup, hc1.ismedoid_iff,
      hc1.nearest_lt, hc1.dnearest_eq, hc1.dnearest_le, hc1.dsecond_le, hc1.dsecond_eq⟩

/-- C38. In exact arithmetic and with at least two medoids, for a valid matrix and a
consistent state, in an iteration of the multi-branch optimizer: ExploreBranches and
ChooseExchange return, and when entry 0 of the window has `DeltaTDst < 0` the exchange
that ChooseExchange returns has `DeltaTDst < 0`, names a slot `imst < nmed` with
`mst = medoids[imst]` and a point `xst` that is not a medoid; SwapRolesAndUpdate
returns for it (its check does not fail), the commit leaves a consistent state, and
`currentTD` and the total deviation of the medoids decrease by `-DeltaTDst > 0`.
Consequently the whole run from a state left by an initialization returns, so that no
call of SwapRolesAndUpdate stopped, with a consistent final state whose `currentTD` is
not above the initial one. -/
theorem MultiBranch_commit_safe (s : FastPAM) (hv : s.ValidD) (hr : s.InRange)
    (hk : 2 ≤ s.nmed) (B nt : Nat) :
    (s.Consistent →
      ∃ xcg e, (if nt > 1 then s.ExploreBranchesParallel (List.replicate B ⟨0, 0, 0, 0⟩) nt
          else s.ExploreBranches (List.replicate B ⟨0, 0, 0, 0⟩)) = .ok xcg ∧
        s.ChooseExchange xcg nt = .ok e ∧
        ((xcg.getD 0 ⟨0, 0, 0, 0⟩).DeltaTDst < 0 →
          e.DeltaTDst < 0 ∧ e.imst < s.nmed ∧ e.mst = s.med e.imst ∧ e.xst < s.num_obs ∧
          s.ismedoid e.xst = false ∧
          ∃ s1, s.SwapRolesAndUpdate e.mst e.xst e.imst =
              .ok { s1 with currentTD := s.currentTD } ∧
            s.commitExchange e = .ok (s1, false) ∧ s1.Consistent ∧
            s1.currentTD = s.currentTD + e.DeltaTDst ∧ s1.currentTD < s.currentTD ∧
            s1.totalDeviation s1.medoids < s.totalDeviation s.medoids)) ∧
    (s.Assigned →
      ∃ s1, s.RunImprovedFastPAMMultiBranch B nt = .ok s1 ∧ s1.Consistent ∧
        s1.currentTD ≤ s.currentTD) := by
  have _ := hk
  constructor
  · intro hc
    obtain ⟨xcg, e, hok, hch, hfirst⟩ := ChooseExchange_window hv hr hc B nt
    refine ⟨xcg, e, ?_, hch, ?_⟩
    · split_ifs
      · exact hok
      · exact hok
    · intro h0
      obtain ⟨hneg, hex⟩ := hfirst h0
      obtain ⟨s1, hs1, hsw, _, _, _, _, _, _, _, _, hc1, hTD1, _, htd, _⟩ :=
        commitExchange_of_exact hv hr hc e hex
      refine ⟨hneg, hex.1, hex.2.2.2.1, hex.2.1, hex.2.2.1, s1, hsw, hs1, hc1, hTD1, ?_, ?_⟩
      · rw [hTD1]
        linarith
      · rw [htd]
        linarith
  · intro ha
    obtain ⟨s1, deltas, h1, h2, _, h3, _, _, _, _, hc1, _⟩ :=
      RunImprovedFastPAMMultiBranch_spec hv hr ha B nt
    refine ⟨s1, h1, hc1, ?_⟩
    rw [h3]
    have hsum : ∀ (l : List ℚ), (∀ d, d ∈ l → d < 0) → l.sum ≤ 0 := by
      intro l
      induction l with
      | nil => intro _; simp
      | cons a rest ih =>
        intro h
        rw [List.sum_cons]
        have h1 := h a (List.mem_cons_self a rest)
        have h2 := ih (fun d hd => h d (List.mem_cons_of_mem a hd))
        linarith
    have := hsum deltas h2
    linarith

end FastPAM

/-! ## BUILD reaches none of its stops -/

namespace FastPAM

end FastPAM

namespace FastPAM

theorem Run_serial (s : FastPAM) (hi : s.is_initialized = true) (hm : s.maxiter ≠ 0) :
    s.Run OPT_METHOD_FASTPAM1 1 = s.RunImprovedFastPAM1 := by
  have h : s.routineOfRun OPT_METHOD_FASTPAM1 1 = .ok .SerialFastPAM1 := by
    unfold routineOfRun
    rw [if_neg (by rw [hi]; exact Bool.noConfusion), if_neg hm, if_pos rfl, if_pos rfl]
  unfold Run
  rw [h]

theorem Run_multibranch (s : FastPAM) (hi : s.is_initialized = true) (hm : s.maxiter ≠ 0)
    (nt : Nat) :
    s.Run OPT_METHOD_FASTPAMBSIL nt = s.RunImprovedFastPAMMultiBranch NBRANCHES nt := by
  have h : s.routineOfRun OPT_METHOD_FASTPAMBSIL nt = .ok (.MultiBranch NBRANCHES nt) := by
    unfold routineOfRun
    rw [if_neg (by rw [hi]; exact Bool.noConfusion), if_neg hm]
    by_cases hnt : nt = 1
    · rw [if_pos hnt, if_neg (by decide), if_pos rfl]
    · rw [if_neg hnt, if_neg (by decide), if_pos rfl]
  unfold Run
  rw [h]

/-- C40. For a limit `limiter` of type `int` that the constructor accepts: the limit is
in `[0, MAX_ITER]` and the constructor stores `maxiter = 0` for `limiter = 0` and
`maxiter = limiter - 1` otherwise. With `limiter ≤ 1`, Run on an initialized state that
holds this `maxiter` returns the state unchanged, whatever the method and the number
of threads. With `limiter ≥ 2`, Run with FASTPAM1 (serial, or parallel with
`nt ≥ 1` threads) or with the multi-branch variant, from a state left by an
initialization, returns after committing at most `limiter - 1` exchanges, each with a
negative change, one entry of `TDkeep` and one of `NpointsChangekeep` for each. -/
theorem iteration_limit_arithmetic (D : Nat → Nat → ℚ) (num_obs : Nat) (MAXD : ℚ)
    (TestDistDisMat : Bool) (ChooseNumThreads : Int → Nat) (num_medoids inimet : Nat)
    (limiter nthreads : Int) (s : FastPAM)
    (hint : -2 ^ 31 ≤ limiter ∧ limiter < 2 ^ 31)
    (h : FastPAM.new D num_obs MAXD TestDistDisMat ChooseNumThreads num_medoids inimet limiter
      nthreads = .ok s) :
    (0 ≤ limiter ∧ limiter ≤ MAX_ITER) ∧
    (s.maxiter : Int) = (if limiter = 0 then 0 else limiter - 1) ∧
    (limiter ≤ 1 → ∀ s1 : FastPAM, s1.maxiter = s.maxiter → s1.is_initialized = true →
      ∀ opt_method nt, s1.Run opt_method nt = .ok s1) ∧
    (2 ≤ limiter → ∀ s1 : FastPAM, s1.maxiter = s.maxiter → s1.is_initialized = true →
      s1.ValidD → s1.InRange → s1.Assigned → 0 < s1.MAXD →
      ∀ opt_method nt, 1 ≤ nt →
        opt_method = OPT_METHOD_FASTPAM1 ∨ opt_method = OPT_METHOD_FASTPAMBSIL →
        ∃ (s2 : FastPAM) (deltas : List ℚ), s1.Run opt_method nt = .ok s2 ∧
          (∀ d, d ∈ deltas → d < 0) ∧
          s2.TDkeep = s1.TDkeep ++ tdTrail s1.currentTD s1.num_obs deltas ∧
          s2.NpointsChangekeep.length = s1.NpointsChangekeep.length + deltas.length ∧
          (deltas.length : Int) ≤ limiter - 1) := by
  obtain ⟨_, _, hle, _, _, _, _, _, hmax, _⟩ := new_fields D num_obs MAXD TestDistDisMat
    ChooseNumThreads num_medoids inimet limiter nthreads s h
  unfold MAX_ITER at hle
  have hrange : 0 ≤ limiter ∧ limiter ≤ 1001 := by omega
  have hmax2 : (s.maxiter : Int) = (if limiter = 0 then 0 else limiter - 1) := by
    rw [hmax]
    split_ifs with h0
    · rfl
    · omega
  refine ⟨by unfold MAX_ITER; exact_mod_cast hrange, hmax2, ?_, ?_⟩
  · intro h1 s1 hmi hi opt_method nt
    have h0 : s1.maxiter = 0 := by
      rw [hmi]
      split_ifs at hmax2 with h00
      · exact_mod_cast hmax2
      · omega
    exact (Run_of_maxiter_zero s1 hi h0 opt_method nt).2
  · intro h2 s1 hmi hi hv hr ha hpos opt_method nt hnt hopt
    have hne : limiter ≠ 0 := by omega
    rw [if_neg hne] at hmax2
    have hm0 : s1.maxiter ≠ 0 := by
      rw [hmi]
      omega
    have hbound : ∀ n : Nat, n ≤ max 1 s1.maxiter → (n : Int) ≤ limiter - 1 := by
      intro n hn
      rw [hmi] at hn
      have : max 1 s.maxiter = s.maxiter := by
        apply max_eq_right
        omega
      rw [this] at hn
      omega
    rcases hopt with hopt | hopt
    · have hrun : s1.Run opt_method nt = s1.RunImprovedFastPAM1 := by
        rw [hopt]
        by_cases hnt1 : nt = 1
        · rw [hnt1]
          exact Run_serial s1 hi hm0
        · rw [Run_parallel s1 hi hm0 nt hnt1]
          exact RunParallelImprovedFastPAM1_eq s1 hv hr ha hpos nt hnt
      obtain ⟨s2, deltas, hs2, hd1, hd2, _, hd4, _, hd6, _⟩ := RunImprovedFastPAM1_spec hv hr ha
      exact ⟨s2, deltas, by rw [hrun]; exact hs2, hd1, hd2, hd4, hbound _ hd6⟩
    · obtain ⟨s2, deltas, hs2, hd1, hd2, _, hd4, _, hd6, _⟩ :=
        RunImprovedFastPAMMultiBranch_spec hv hr ha NBRANCHES nt
      refine ⟨s2, deltas, ?_, hd1, hd2, hd4, hbound _ hd6⟩
      rw [hopt, Run_multibranch s1 hi hm0 nt]
      exact hs2

end FastPAM

/-! ## Scenario S6: all the points at the same distance -/

namespace FastPAM

theorem nearestDist_equidistant (q : Nat) (L : List Nat) (hL : L ≠ []) :
    nearestDist equidistant q L = if q ∈ L then 0 else 1 := by
  induction L with
  | nil => exact absurd rfl hL
  | cons m rest ih =>
    cases rest with
    | nil =>
      unfold nearestDist equidistant
      by_cases h : q = m
      · simp [h]
      · simp [h]
    | cons m2 rest2 =>
      unfold nearestDist
      rw [ih (List.cons_ne_nil m2 rest2)]
      unfold equidistant
      have hmem : (q ∈ m :: m2 :: rest2) ↔ (q = m ∨ q ∈ m2 :: rest2) := List.mem_cons
      by_cases h : q = m
      · have hq : q ∈ m :: m2 :: rest2 := hmem.mpr (Or.inl h)
        rw [if_pos h, if_pos hq]
        by_cases h2 : q ∈ m2 :: rest2
        · rw [if_pos h2]; simp
        · rw [if_neg h2]; simp
      · rw [if_neg h]
        by_cases h2 : q ∈ m2 :: rest2
        · have hq : q ∈ m :: m2 :: rest2 := hmem.mpr (Or.inr h2)
          rw [if_pos h2, if_pos hq]; simp
        · have hq : ¬ q ∈ m :: m2 :: rest2 := fun hm => (hmem.mp hm).elim h h2
          rw [if_neg h2, if_neg hq]
          simp

/-- With all the points at distance 1, the total deviation of a list of distinct
medoids is the number of points that are not medoids. -/
theorem totalDeviation_equidistant (s : FastPAM) (hD : s.D = equidistant) (L : List Nat)
    (hL : L ≠ []) (hnd : L.Nodup) (hlt : ∀ m, m ∈ L → m < s.num_obs) :
    s.totalDeviation L = (s.num_obs : ℚ) - (L.length : ℚ) := by
  unfold totalDeviation
  rw [hD]
  have hsum : ∑ q in Finset.range s.num_obs, nearestDist equidistant q L =
      ∑ q in Finset.range s.num_obs, (if q ∈ L then (0 : ℚ) else 1) :=
    Finset.sum_congr rfl (fun q _ => nearestDist_equidistant q L hL)
  have hset : (Finset.range s.num_obs).filter (fun q => q ∈ L) = L.toFinset := by
    ext p
    rw [Finset.mem_filter, Finset.mem_range, List.mem_toFinset]
    exact ⟨fun h => h.2, fun h => ⟨hlt p h, h⟩⟩
  have hcard := Finset.filter_card_add_filter_neg_card_eq_card (s := Finset.range s.num_obs)
    (fun q => q ∈ L)
  rw [hset, List.toFinset_card_of_nodup hnd, Finset.card_range] at hcard
  rw [hsum, Finset.sum_ite, Finset.sum_const_zero, zero_add, Finset.sum_const, nsmul_eq_mul,
    mul_one]
  have hc2 : (L.length : ℚ) +
      (((Finset.range s.num_obs).filter (fun q => ¬ q ∈ L)).card : ℚ) = (s.num_obs : ℚ) := by
    exact_mod_cast hcard
  linarith

theorem equidistant_validD (s : FastPAM) (hD : s.D = equidistant) : s.ValidD := by
  unfold ValidD
  rw [hD]
  unfold equidistant
  refine ⟨?_, ?_, ?_⟩
  · intro i j _ _
    by_cases h : i = j
    · rw [if_pos h, if_pos h.symm]
    · rw [if_neg h, if_neg (fun h2 => h h2.symm)]
  · intro i _
    rw [if_pos rfl]
  · intro i j _ _ h
    rw [if_neg h]
    norm_num

theorem equidistant_inRange (s : FastPAM) (hD : s.D = equidistant)
    (hM : (s.num_obs : ℚ) < s.MAXD) : s.InRange := by
  unfold InRange
  rw [hD]
  intro r _
  have hle : ∑ c in Finset.range s.num_obs, equidistant r c ≤
      ∑ _c in Finset.range s.num_obs, (1 : ℚ) := by
    apply Finset.sum_le_sum
    intro c _
    unfold equidistant
    split_ifs <;> norm_num
  rw [Finset.sum_const, Finset.card_range, nsmul_eq_mul, mul_one] at hle
  exact lt_of_le_of_lt hle hM

/-- With all the points at distance 1, the exploration of a consistent state records
no exchange: `DeltaTDst` stays at 0. -/
theorem equidistant_no_improvement (s : FastPAM) (hD : s.D = equidistant)
    (hM : (s.num_obs : ℚ) < s.MAXD) (hc : s.Consistent) :
    ∃ e, s.findBestExchange = .ok e ∧ e.DeltaTDst = 0 ∧ e.imst = s.nmed + 1 := by
  have hv := equidistant_validD s hD
  have hr := equidistant_inRange s hD hM
  obtain ⟨e, he, _, _, h3⟩ := findBestExchange_spec s hv hr hc
  refine ⟨e, he, ?_⟩
  rcases h3 with ⟨h0, _, _, h4⟩ | ⟨hneg, hi, hx, hxm, _, hdelta, _⟩
  · exact ⟨h0, h4⟩
  · exfalso
    obtain ⟨s1, _, hmeds, _, hN, hK, _, _, _, _, _, hc1⟩ :=
      SwapRolesAndUpdate_spec hv hr hc e.imst e.xst hi hx hxm
    have hk : 0 < s.nmed := lt_of_le_of_lt (Nat.zero_le _) hi
    have hne : s.medoids ≠ [] := by
      intro h
      have := hc.length_medoids
      rw [h] at this
      simp at this
      omega
    have hne1 : s.medoids.set e.imst e.xst ≠ [] := by
      intro h
      have h2 : (s.medoids.set e.imst e.xst).length = 0 := by rw [h]; rfl
      rw [List.length_set, hc.length_medoids] at h2
      omega
    have hlt : ∀ m, m ∈ s.medoids → m < s.num_obs := by
      intro m hm
      obtain ⟨j, hj, hjm⟩ := (mem_iff_slot s.medoids m).mp hm
      rw [← hjm]
      exact hc.medoids_lt j (by rw [← hc.length_medoids]; exact hj)
    have hlt1 : ∀ m, m ∈ s.medoids.set e.imst e.xst → m < s.num_obs := by
      intro m hm
      rw [← hmeds] at hm
      obtain ⟨j, hj, hjm⟩ := (mem_iff_slot s1.medoids m).mp hm
      rw [← hjm, ← hN]
      exact hc1.medoids_lt j (by rw [← hc1.length_medoids]; exact hj)
    have hnd1 : (s.medoids.set e.imst e.xst).Nodup := by
      rw [← hmeds]
      exact hc1.medoids_nodup
    have h0 : s.swapDelta e.imst e.xst = 0 := by
      unfold swapDelta
      rw [totalDeviation_equidistant s hD _ hne1 hnd1 hlt1,
        totalDeviation_equidistant s hD _ hne hc.medoids_nodup hlt, List.length_set]
      ring
    rw [h0] at hdelta
    rw [← hdelta] at hneg
    exact absurd hneg (lt_irrefl _)

end FastPAM

namespace FastPAM

/-- C32. Scenario S6, for `N < 2^32` points all at distance 1 from each other, `k`
medoids with `1 ≤ k ≤ N` (in particular `k = 2` and `N ≥ 3`) and an engine that allows
at least one iteration: Init with the serial BUILD returns with `k` medoids; the
exploration of FASTPAM1 then records no exchange (`DeltaTDst = 0`, the slot is still the
mark `nmed + 1`); Run commits nothing, keeps the medoids and `currentTD`, leaves
`TDkeep` and `NpointsChangekeep` empty, and GetNumIter answers 0. -/
theorem equidistant_run (N k maxiter : Nat) (hk : 1 ≤ k) (hkN : k ≤ N) (hN : N < 2 ^ 32)
    (hmax : 1 ≤ maxiter) :
    ∃ s1 e s2, (engine equidistant N k INIT_METHOD_BUILD maxiter).Init [] 1 [] = .ok s1 ∧
      s1.medoids.length = k ∧
      s1.FillSecond.findBestExchange = .ok e ∧ e.DeltaTDst = 0 ∧ e.imst = k + 1 ∧
      s1.Run OPT_METHOD_FASTPAM1 1 = .ok s2 ∧ s2.medoids = s1.medoids ∧
      s2.currentTD = s1.currentTD ∧ s2.TDkeep = [] ∧ s2.NpointsChangekeep = [] ∧
      s2.GetNumIter = 0 := by
  have hM0 : ((2 : ℚ) ^ 32) < FLT_MAX := by unfold FLT_MAX; norm_num
  have hNq : (N : ℚ) < FLT_MAX := by
    have h1 : (N : ℚ) < ((2 ^ 32 : Nat) : ℚ) := Nat.cast_lt.mpr hN
    have h2 : ((2 ^ 32 : Nat) : ℚ) = (2 : ℚ) ^ 32 := by norm_num
    rw [h2] at h1
    exact lt_trans h1 hM0
  have hv0 : (engine equidistant N k INIT_METHOD_BUILD maxiter).ValidD :=
    equidistant_validD _ rfl
  have hr0 : (engine equidistant N k INIT_METHOD_BUILD maxiter).InRange :=
    equidistant_inRange _ rfl hNq
  obtain ⟨s1, hinit, hD, hN1, hK, hM, hmi, hTDk, hNk, hini, ha, _⟩ :=
    Init_BUILD_assigned hv0 hr0 ⟨rfl, fun _ _ => rfl⟩ rfl hk hkN [] 1 (Or.inl (le_refl 1)) []
  have hv1 : s1.FillSecond.ValidD := validD_of_eq (s := engine equidistant N k
    INIT_METHOD_BUILD maxiter) hD hN1 hv0
  have hr1 : s1.FillSecond.InRange := inRange_of_eq (s := engine equidistant N k
    INIT_METHOD_BUILD maxiter) hD hN1 hM hr0
  have hc : s1.FillSecond.Consistent := ha.fillSecond hv1 hr1
  have hNM : ((s1.FillSecond.num_obs : Nat) : ℚ) < s1.FillSecond.MAXD := by
    show ((s1.num_obs : Nat) : ℚ) < s1.MAXD
    rw [hN1, hM]
    exact hNq
  obtain ⟨e, he, h0, himst⟩ := equidistant_no_improvement s1.FillSecond hD hNM hc
  have hloop : swapLoop (s1.FillSecond.currentTD * tlimit) (s1.FillSecond.maxiter + 1) 0
      s1.FillSecond = .ok (s1.FillSecond, 0) := by
    simp only [swapLoop, he]
    rw [if_pos (by rw [h0])]
  have hm0 : s1.maxiter ≠ 0 := by
    rw [hmi]
    show maxiter ≠ 0
    omega
  refine ⟨s1, e, { s1.FillSecond with num_iterations_in_opt := 0 }, hinit, ?_, he, h0, ?_, ?_,
    rfl, rfl, hTDk, hNk, rfl⟩
  · rw [ha.length_medoids, hK]
    rfl
  · rw [himst]
    show s1.nmed + 1 = k + 1
    rw [hK]
    rfl
  · rw [Run_serial s1 hini hm0]
    unfold RunImprovedFastPAM1
    simp only [hloop]
    rfl

end FastPAM

theorem equidistant_run_witness :
    1 ≤ 2 ∧ 2 ≤ 3 ∧ 3 < 2 ^ 32 ∧ 1 ≤ 1000 ∧
    runSummary (match (engine equidistant 3 2 INIT_METHOD_BUILD 1000).Init [] 1 [] with
      | .error e => .error e
      | .ok s1 => s1.Run OPT_METHOD_FASTPAM1 1) = some ([0, 1], [], [], 0) ∧
    ∃ s1 e s2, (engine equidistant 3 2 INIT_METHOD_BUILD 1000).Init [] 1 [] = .ok s1 ∧
      s1.medoids.length = 2 ∧
      s1.FillSecond.findBestExchange = .ok e ∧ e.DeltaTDst = 0 ∧ e.imst = 2 + 1 ∧
      s1.Run OPT_METHOD_FASTPAM1 1 = .ok s2 ∧ s2.medoids = s1.medoids ∧
      s2.currentTD = s1.currentTD ∧ s2.TDkeep = [] ∧ s2.NpointsChangekeep = [] ∧
      s2.GetNumIter = 0 :=
  ⟨by decide, by decide, by decide, by decide, by decide!,
    FastPAM.equidistant_run 3 2 1000 (by decide) (by decide) (by decide) (by decide)⟩

/-! ## Scenario S2: LAB on six points -/

namespace FastPAM

theorem labSampleSize_six : labSampleSize 6 = 6 := by
  have hs : Nat.sqrt 6 = 2 := (Nat.eq_sqrt.mpr ⟨by decide, by decide⟩).symm
  unfold labSampleSize
  rw [hs]
  decide

/-- C31. Scenario S2 has `N = 6` points, so that LAB asks randomSample for 6 different
numbers, which its generator `uniform_int_distribution{1, n-1}` draws from `[1, 5]`:
for every matrix `D` on 6 points, every `k`, and every list of numbers of `[1, 5]`
given by the generator, however long, the loop of randomSample is still running when
the list ends; Init with the method LAB does not return a clustering. -/
theorem LAB_six_points_no_result (D : Nat → Nat → ℚ) (k maxiter nt : Nat)
    (initmedoids draws : List Nat) (hd : ∀ d, d ∈ draws → 1 ≤ d ∧ d ≤ 6 - 1) :
    randomSample draws (labSampleSize 6) = none ∧
    errorOf ((engine D 6 k INIT_METHOD_LAB maxiter).LAB draws) = some .OutOfFuel ∧
    errorOf ((engine D 6 k INIT_METHOD_LAB maxiter).Init initmedoids nt draws) =
      some .OutOfFuel := by
  have hnone : randomSample draws (labSampleSize 6) = none := by
    rw [labSampleSize_six]
    unfold randomSample
    exact sampleLoop_none 6 (by decide) draws hd 6 [] [] (by decide) List.nodup_nil
      (fun x hx => absurd hx (List.not_mem_nil x)) (by simp)
  have hlab : (engine D 6 k INIT_METHOD_LAB maxiter).LAB draws = .error .OutOfFuel := by
    unfold LAB
    have h6 : (engine D 6 k INIT_METHOD_LAB maxiter).num_obs = 6 := rfl
    rw [h6, hnone]
  refine ⟨hnone, by rw [hlab]; rfl, ?_⟩
  have hinit : (engine D 6 k INIT_METHOD_LAB maxiter).Init initmedoids nt draws =
      .error .OutOfFuel := by
    unfold Init
    have hm : (engine D 6 k INIT_METHOD_LAB maxiter).method = INIT_METHOD_LAB := rfl
    simp only [hm]
    rw [if_neg (by decide), if_neg (by decide), if_pos trivial, hlab]
  rw [hinit]
  rfl

theorem LAB_six_points_no_result_witness :
    (∀ d, d ∈ [1, 2, 3, 4, 5, 5, 4, 3, 2, 1] → 1 ≤ d ∧ d ≤ 6 - 1) ∧
    randomSample [1, 2, 3, 4, 5, 5, 4, 3, 2, 1] (labSampleSize 6) = none ∧
    errorOf ((engine S3_D 6 2 INIT_METHOD_LAB 1000).LAB [1, 2, 3, 4, 5, 5, 4, 3, 2, 1]) =
      some .OutOfFuel ∧
    errorOf ((engine S3_D 6 2 INIT_METHOD_LAB 1000).Init [] 1 [1, 2, 3, 4, 5, 5, 4, 3, 2, 1]) =
      some .OutOfFuel :=
  ⟨by decide, LAB_six_points_no_result S3_D 2 1000 1 [] [1, 2, 3, 4, 5, 5, 4, 3, 2, 1]
    (by decide)⟩

end FastPAM

/-! ## The claims on the exchanges and the limit, on the engine of scenario S1 -/

theorem SwapRolesAndUpdate_marks_witness :
    S1_state_01.ValidD ∧ S1_state_01.InRange ∧ S1_state_01.Consistent ∧
    0 < S1_state_01.nmed ∧ 2 < S1_state_01.num_obs ∧ S1_state_01.ismedoid 2 = false ∧
    ∃ s1, S1_state_01.SwapRolesAndUpdate (S1_state_01.med 0) 2 0 = .ok s1 ∧ s1.med 0 = 2 ∧
      (∀ m, m < S1_state_01.nmed → m ≠ 0 → s1.med m = S1_state_01.med m) ∧
      s1.medoids.length = S1_state_01.nmed ∧ s1.medoids.Nodup ∧
      (∀ p, p < S1_state_01.num_obs → (s1.ismedoid p = true ↔ p ∈ s1.medoids)) ∧
      ((Finset.range S1_state_01.num_obs).filter (fun p => s1.ismedoid p = true)).card =
        S1_state_01.nmed ∧
      s1.current_npch =
        ((Finset.range S1_state_01.num_obs).filter
          (fun q => S1_state_01.nearest q ≠ s1.nearest q)).card :=
  ⟨S1_validD _ rfl rfl, S1_inRange _ rfl rfl rfl, S1_state_01_consistent, by decide, by decide,
    rfl,
    FastPAM.SwapRolesAndUpdate_marks S1_state_01 (S1_validD _ rfl rfl)
      (S1_inRange _ rfl rfl rfl) S1_state_01_consistent 0 2 (by decide) (by decide) rfl⟩

theorem MultiBranch_commit_safe_witness :
    S1_state_01.ValidD ∧ S1_state_01.InRange ∧ S1_state_01.Consistent ∧
    2 ≤ S1_state_01.nmed ∧
    okOf (S1_state_01.ExploreBranches (List.replicate 4 ⟨0, 0, 0, 0⟩)) =
      some [⟨-1, 0, 2, 0⟩, ⟨0, 0, 0, 0⟩, ⟨0, 0, 0, 0⟩, ⟨0, 0, 0, 0⟩] ∧
    okOf (S1_state_01.ChooseExchange
      [⟨-1, 0, 2, 0⟩, ⟨0, 0, 0, 0⟩, ⟨0, 0, 0, 0⟩, ⟨0, 0, 0, 0⟩] 1) = some ⟨-1, 0, 2, 0⟩ ∧
    medoidsOf (S1_state_01.RunImprovedFastPAMMultiBranch 4 1) = some [2, 1] ∧
    ∃ s1, S1_state_01.RunImprovedFastPAMMultiBranch 4 1 = .ok s1 ∧ s1.Consistent ∧
      s1.currentTD ≤ S1_state_01.currentTD :=
  ⟨S1_validD _ rfl rfl, S1_inRange _ rfl rfl rfl, S1_state_01_consistent, by decide,
    by decide!, by decide!, by decide!,
    (FastPAM.MultiBranch_commit_safe S1_state_01 (S1_validD _ rfl rfl)
      (S1_inRange _ rfl rfl rfl) (by decide) 4 1).2 S1_state_01_consistent.assigned⟩

theorem medoids_in_own_slot_witness :
    S1_state_01.ValidD ∧ S1_state_01.InRange ∧ S1_state_01.Consistent ∧
    (∃ s1, S1_state_01.InitializeInternals = .ok s1 ∧ s1.medoids = S1_state_01.medoids ∧
      ∀ m, m < S1_state_01.nmed → s1.nearest (s1.med m) = m ∧ s1.dnearest (s1.med m) = 0 ∧
        (cluster s1.nearest s1.num_obs m).Nonempty) ∧
    ∀ m, m < S1_state_01.nmed →
      (cluster (S1_state_01.nearestUnder (S1_state_01.medoids.set 0 2))
        S1_state_01.num_obs m).Nonempty :=
  ⟨S1_validD _ rfl rfl, S1_inRange _ rfl rfl rfl, S1_state_01_consistent,
    (FastPAM.medoids_in_own_slot S1_state_01 (S1_validD _ rfl rfl)
      (S1_inRange _ rfl rfl rfl)).1 (by decide) rfl (by decide) (by decide),
    ((FastPAM.medoids_in_own_slot S1_state_01 (S1_validD _ rfl rfl)
      (S1_inRange _ rfl rfl rfl)).2 S1_state_01_consistent 0 2 (by decide) (by decide) rfl).2⟩

theorem iteration_limit_arithmetic_witness :
    (-2 ^ 31 ≤ (3 : Int) ∧ (3 : Int) < 2 ^ 31) ∧
    FastPAM.new S1_D 4 FLT_MAX true (fun n => n.toNat) 2 INIT_METHOD_BUILD 3 1 =
      .ok (engine S1_D 4 2 INIT_METHOD_BUILD 2) ∧
    ((0 : Int) ≤ 3 ∧ (3 : Int) ≤ MAX_ITER) ∧
    ((engine S1_D 4 2 INIT_METHOD_BUILD 2).maxiter : Int) = (if (3 : Int) = 0 then 0 else 3 - 1) :=
  ⟨by decide, rfl,
    (FastPAM.iteration_limit_arithmetic S1_D 4 FLT_MAX true (fun n => n.toNat) 2
      INIT_METHOD_BUILD 3 1 (engine S1_D 4 2 INIT_METHOD_BUILD 2) (by decide) rfl).1,
    (FastPAM.iteration_limit_arithmetic S1_D 4 FLT_MAX true (fun n => n.toNat) 2
      INIT_METHOD_BUILD 3 1 (engine S1_D 4 2 INIT_METHOD_BUILD 2) (by decide) rfl).2.1⟩

/-! ## The same lines in `float` and `double`: where rounding changes the result -/

theorem Wide_validD (s : FastPAM) (hD : s.D = Wide_D) (hN : s.num_obs = 4) : s.ValidD := by
  unfold FastPAM.ValidD
  rw [hD, hN]
  refine ⟨?_, ?_, ?_⟩
  · exact fun i j hi hj =>
      (by decide! : ∀ i, i < 4 → ∀ j, j < 4 → Wide_D i j = Wide_D j i) i hi j hj
  · exact (by decide! : ∀ i, i < 4 → Wide_D i i = 0)
  · exact fun i j hi hj =>
      (by decide! : ∀ i, i < 4 → ∀ j, j < 4 → i ≠ j → 0 < Wide_D i j) i hi j hj

theorem Wide_inRange (s : FastPAM) (hD : s.D = Wide_D) (hN : s.num_obs = 4)
    (hM : s.MAXD = FLT_MAX) : s.InRange := by
  unfold FastPAM.InRange
  rw [hD, hN, hM]
  exact (by decide! : ∀ r, r < 4 → ∑ c in Finset.range 4, Wide_D r c < FLT_MAX)

theorem Wide_state_consistent : Wide_state.Consistent := by
  refine ⟨rfl, ?_, by decide, ?_, ?_, ?_, ?_, ?_, ?_⟩
  · exact (by decide : ∀ m, m < 2 → Wide_state.med m < 4)
  · exact (by decide : ∀ q, q < 4 → (Wide_state.ismedoid q = true ↔ q ∈ [0, 3]))
  · exact (by decide : ∀ q, q < 4 → Wide_state.nearest q < 2)
  · exact (by decide! : ∀ q, q < 4 →
      Wide_state.dnearest q = Wide_D q (Wide_state.med (Wide_state.nearest q)))
  · exact fun q m hq hm => (by decide! : ∀ q, q < 4 → ∀ m, m < 2 →
      Wide_state.dnearest q ≤ Wide_D q (Wide_state.med m)) q hq m hm
  · exact fun q m hq hm => (by decide! : ∀ q, q < 4 → ∀ m, m < 2 →
      m ≠ Wide_state.nearest q →
      Wide_state.dsecond q ≤ Wide_D q (Wide_state.med m)) q hq m hm
  · exact (by decide! : ∀ q, q < 4 →
      (∃ m, m < 2 ∧ m ≠ Wide_state.nearest q ∧
        Wide_state.dsecond q = Wide_D q (Wide_state.med m)) ∨
      (2 = 1 ∧ Wide_state.dsecond q = FLT_MAX))

theorem Near_validD (s : FastPAM) (hD : s.D = Near_D) (hN : s.num_obs = 4) : s.ValidD := by
  unfold FastPAM.ValidD
  rw [hD, hN]
  refine ⟨?_, ?_, ?_⟩
  · exact fun i j hi hj =>
      (by decide! : ∀ i, i < 4 → ∀ j, j < 4 → Near_D i j = Near_D j i) i hi j hj
  · exact (by decide! : ∀ i, i < 4 → Near_D i i = 0)
  · exact fun i j hi hj =>
      (by decide! : ∀ i, i < 4 → ∀ j, j < 4 → i ≠ j → 0 < Near_D i j) i hi j hj

theorem Near_inRange (s : FastPAM) (hD : s.D = Near_D) (hN : s.num_obs = 4)
    (hM : s.MAXD = FLT_MAX) : s.InRange := by
  unfold FastPAM.InRange
  rw [hD, hN, hM]
  exact (by decide! : ∀ r, r < 4 → ∑ c in Finset.range 4, Near_D r c < FLT_MAX)

theorem Near_state_consistent : Near_state.Consistent := by
  refine ⟨rfl, ?_, by decide, ?_, ?_, ?_, ?_, ?_, ?_⟩
  · exact (by decide : ∀ m, m < 2 → Near_state.med m < 4)
  · exact (by decide : ∀ q, q < 4 → (Near_state.ismedoid q = true ↔ q ∈ [0, 3]))
  · exact (by decide : ∀ q, q < 4 → Near_state.nearest q < 2)
  · exact (by decide! : ∀ q, q < 4 →
      Near_state.dnearest q = Near_D q (Near_state.med (Near_state.nearest q)))
  · exact fun q m hq hm => (by decide! : ∀ q, q < 4 → ∀ m, m < 2 →
      Near_state.dnearest q ≤ Near_D q (Near_state.med m)) q hq m hm
  · exact fun q m hq hm => (by decide! : ∀ q, q < 4 → ∀ m, m < 2 →
      m ≠ Near_state.nearest q →
      Near_state.dsecond q ≤ Near_D q (Near_state.med m)) q hq m hm
  · exact (by decide! : ∀ q, q < 4 →
      (∃ m, m < 2 ∧ m ≠ Near_state.nearest q ∧
        Near_state.dsecond q = Near_D q (Near_state.med m)) ∨
      (2 = 1 ∧ Near_state.dsecond q = FLT_MAX))

theorem Flat_validD (s : FastPAM) (hD : s.D = Flat_D) (hN : s.num_obs = 4) : s.ValidD := by
  unfold FastPAM.ValidD
  rw [hD, hN]
  refine ⟨?_, ?_, ?_⟩
  · exact fun i j hi hj =>
      (by decide! : ∀ i, i < 4 → ∀ j, j < 4 → Flat_D i j = Flat_D j i) i hi j hj
  · exact (by decide! : ∀ i, i < 4 → Flat_D i i = 0)
  · exact fun i j hi hj =>
      (by decide! : ∀ i, i < 4 → ∀ j, j < 4 → i ≠ j → 0 < Flat_D i j) i hi j hj

theorem Flat_inRange (s : FastPAM) (hD : s.D = Flat_D) (hN : s.num_obs = 4)
    (hM : s.MAXD = FLT_MAX) : s.InRange := by
  unfold FastPAM.InRange
  rw [hD, hN, hM]
  exact (by decide! : ∀ r, r < 4 → ∑ c in Finset.range 4, Flat_D r c < FLT_MAX)

theorem Flat_state_consistent : Flat_state.Consistent := by
  refine ⟨rfl, ?_, by decide, ?_, ?_, ?_, ?_, ?_, ?_⟩
  · exact (by decide : ∀ m, m < 2 → Flat_state.med m < 4)
  · exact (by decide : ∀ q, q < 4 → (Flat_state.ismedoid q = true ↔ q ∈ [2, 0]))
  · exact (by decide : ∀ q, q < 4 → Flat_state.nearest q < 2)
  · exact (by decide! : ∀ q, q < 4 →
      Flat_state.dnearest q = Flat_D q (Flat_state.med (Flat_state.nearest q)))
  · exact fun q m hq hm => (by decide! : ∀ q, q < 4 → ∀ m, m < 2 →
      Flat_state.dnearest q ≤ Flat_D q (Flat_state.med m)) q hq m hm
  · exact fun q m hq hm => (by decide! : ∀ q, q < 4 → ∀ m, m < 2 →
      m ≠ Flat_state.nearest q →
      Flat_state.dsecond q ≤ Flat_D q (Flat_state.med m)) q hq m hm
  · exact (by decide! : ∀ q, q < 4 →
      (∃ m, m < 2 ∧ m ≠ Flat_state.nearest q ∧
        Flat_state.dsecond q = Flat_D q (Flat_state.med m)) ∨
      (2 = 1 ∧ Flat_state.dsecond q = FLT_MAX))

theorem Single_state_consistent : Single_state.Consistent := by
  refine ⟨rfl, ?_, by decide, ?_, ?_, ?_, ?_, ?_, ?_⟩
  · exact (by decide : ∀ m, m < 1 → Single_state.med m < 4)
  · exact (by decide : ∀ q, q < 4 → (Single_state.ismedoid q = true ↔ q ∈ [1]))
  · exact (by decide : ∀ q, q < 4 → Single_state.nearest q < 1)
  · exact (by decide! : ∀ q, q < 4 →
      Single_state.dnearest q = S1_D q (Single_state.med (Single_state.nearest q)))
  · exact fun q m hq hm => (by decide! : ∀ q, q < 4 → ∀ m, m < 1 →
      Single_state.dnearest q ≤ S1_D q (Single_state.med m)) q hq m hm
  · exact fun q m hq hm => (by decide! : ∀ q, q < 4 → ∀ m, m < 1 →
      m ≠ Single_state.nearest q →
      Single_state.dsecond q ≤ S1_D q (Single_state.med m)) q hq m hm
  · exact fun q _ => Or.inr ⟨rfl, rfl⟩

/-- Where no operation rounds, the two readings agree: on the S1 matrix the iteration in
`float` records the exchange of the exact one, ExploreBranches leaves the same window,
BUILD places the same medoids, and the silhouette of `S4_D` in `double` is `9/10`
rounded. -/
theorem float_agrees_on_S1 :
    S1_state_01.findBestExchange = .ok ⟨-1, 0, 2, 0⟩ ∧
    S1_state_01.findBestExchange32 = .ok ⟨.fin (-1), 0, 2, 0⟩ ∧
    S1_state_01.ExploreBranches32 (List.replicate NBRANCHES ⟨.fin 0, 0, 0, 0⟩) =
      .ok [⟨.fin (-1), 0, 2, 0⟩, ⟨.fin 0, 0, 0, 0⟩, ⟨.fin 0, 0, 0, 0⟩, ⟨.fin 0, 0, 0, 0⟩] ∧
    S1_state_01.historyEntry32 ⟨.fin (-1), 0, 2, 0⟩ = .fin (1 / 2) ∧
    medoidsOf S1_engine.BUILD = some [1, 2] ∧ medoidsOf S1_engine.BUILD32 = some [1, 2] ∧
    silPoint64 S4_D 4 2 (fun q => S4_labels.getD q 0)
        (silHist (fun q => S4_labels.getD q 0) 4) 0 = binary64.round (9 / 10) :=
  ⟨S1_state_01_exchange, eq_ok_of_okOf _ _ (by decide!), eq_ok_of_okOf _ _ (by decide!),
    by decide!, by decide!, by decide!, by decide!⟩

/-- C2, counterexample. On the matrix `Wide_D` (three points 40, 50 and 40 apart, a
fourth one `2^30` away) with the medoids `[0, 3]`, a consistent state with `k = 2`, the
iteration in `float` finds the change `+14` for the candidates 1 and 2, records no
exchange (`DeltaTDst = 0`, the marks `N+1`, `N+1`, `k+1`) and the loop halts; yet the
replacement of the medoid of slot 0 by point 1 lowers the total deviation from 90 to
80, and the iteration in exact arithmetic records it. -/
theorem halt_float_misses_exchange :
    Wide_state.ValidD ∧ Wide_state.InRange ∧ Wide_state.Consistent ∧ 2 ≤ Wide_state.nmed ∧
    okOf (Wide_state.candidateBest32 Wide_state.DeltaTDminus32 1) = some (.fin 14, 0) ∧
    okOf (Wide_state.candidateBest32 Wide_state.DeltaTDminus32 2) = some (.fin 14, 0) ∧
    Wide_state.findBestExchange32 = .ok ⟨.fin 0, 5, 5, 3⟩ ∧
    Wide_state.ismedoid 1 = false ∧
    Wide_state.totalDeviation Wide_state.medoids = 90 ∧
    Wide_state.totalDeviation (Wide_state.medoids.set 0 1) = 80 ∧
    Wide_state.findBestExchange = .ok ⟨-10, 0, 1, 0⟩ :=
  ⟨Wide_validD _ rfl rfl, Wide_inRange _ rfl rfl rfl, Wide_state_consistent, by decide,
    by decide!, by decide!, eq_ok_of_okOf _ _ (by decide!), rfl, by decide!, by decide!,
    eq_ok_of_okOf _ _ (by decide!)⟩

/-- C3, counterexample. On the matrix `Near_D` (three points 3, 1 and 4 apart, a fourth
one `2^30` away) with the medoids `[0, 3]`, a consistent state with `k = 2`, the
iteration in `float` records `DeltaTDst = -3` for the replacement of the medoid of slot
0 by point 1, whose exact change of the total deviation is `+3`; no replacement lowers
the total deviation, and the iteration in exact arithmetic records none. -/
theorem findBestExchange_float_inexact :
    Near_state.ValidD ∧ Near_state.InRange ∧ Near_state.Consistent ∧ 2 ≤ Near_state.nmed ∧
    Near_state.findBestExchange32 = .ok ⟨.fin (-3), 0, 1, 0⟩ ∧
    Near_state.swapDelta 0 1 = 3 ∧
    Near_state.findBestExchange = .ok ⟨0, 5, 5, 3⟩ :=
  ⟨Near_validD _ rfl rfl, Near_inRange _ rfl rfl rfl, Near_state_consistent, by decide,
    eq_ok_of_okOf _ _ (by decide!), by decide!, eq_ok_of_okOf _ _ (by decide!)⟩

/-- C4, counterexample. On the matrix `Flat_D` with the medoids `[2, 0]`, a consistent
state with `k = 2` and `currentTD = 2^26`, the sum of `dnearest`, the iteration in
`float` records `DeltaTDst = -2 < 0` for the replacement of the medoid of slot 0 by
point 1, which is also the exact change. The exchange is committed, but
`currentTD += DeltaTDst` leaves `currentTD = 2^26`, since `2^26 - 2` is not a `float`,
and the entry appended to `TDkeep` is `2^26/4`: it is the initial `currentTD / N`, not
a smaller number, and it is not `(currentTD + DeltaTDst) / N`. -/
theorem TD_history_float_repeats :
    Flat_state.ValidD ∧ Flat_state.InRange ∧ Flat_state.Consistent ∧ 2 ≤ Flat_state.nmed ∧
    Flat_state.currentTD = ∑ q in Finset.range Flat_state.num_obs, Flat_state.dnearest q ∧
    Flat_state.findBestExchange32 = .ok ⟨.fin (-2), 2, 1, 0⟩ ∧
    Flat_state.swapDelta 0 1 = -2 ∧
    Flat_state.committedTD32 ⟨.fin (-2), 2, 1, 0⟩ = .fin Flat_state.currentTD ∧
    Flat_state.historyEntry32 ⟨.fin (-2), 2, 1, 0⟩ =
      .fin (Flat_state.currentTD / (Flat_state.num_obs : ℚ)) ∧
    (Flat_state.currentTD + -2) / (Flat_state.num_obs : ℚ) <
      Flat_state.currentTD / (Flat_state.num_obs : ℚ) :=
  ⟨Flat_validD _ rfl rfl, Flat_inRange _ rfl rfl rfl, Flat_state_consistent, by decide,
    by decide!, eq_ok_of_okOf _ _ (by decide!), by decide!, by decide!, by decide!,
    by decide!⟩

/-- C14. With a single medoid, serial and parallel FASTPAM1 part in the first
iteration. On the four points of S1 with the medoid `[1]`, a consistent state with
`k = 1` in which `dsecond` holds `MAXD` for every point, the sum `DeltaTDminusm[0]` of
the differences `dsecond[q]-dnearest[q]` is `+inf` in `float`, no entry of `DeltaTD` is
below `MAXD`, and the search of line 1066 leaves `i = nmed+1`. The thread tests it and
stops with "no closest medoid found"; the serial loop has no such test and goes on to
`DeltaTD[nmed+1]`, past the end of the array. -/
theorem parallel_FASTPAM1_single_medoid :
    Single_state.ValidD ∧ Single_state.InRange ∧ Single_state.Consistent ∧
    Single_state.nmed = 1 ∧
    Single_state.DeltaTDminus32 0 = .pinf ∧
    Single_state.FastPAM1InternalThread32 Single_state.DeltaTDminus32 1 0 =
      .error .ThreadNoClosestMedoid ∧
    Single_state.FastPAM1InternalThread32 Single_state.DeltaTDminus32 2 0 =
      .error .ThreadNoClosestMedoid ∧
    Single_state.findBestExchange32 = .error .SentinelIndex :=
  ⟨S1_validD _ rfl rfl, S1_inRange _ rfl rfl rfl, Single_state_consistent, rfl, by decide!,
    eq_error_of_errorOf _ _ (by decide!), eq_error_of_errorOf _ _ (by decide!),
    eq_error_of_errorOf _ _ (by decide!)⟩

/-- C21, counterexample. In `double`, the value of a point is not always
`(b - a) / max(a, b)`. On the matrix of four points with all its entries 0 and the
labels `[0, 0, 1, 1]`, `a = b = 0` and the four values are not numbers. On `Huge_D`
(all distances `2^1023`) with the labels `[0, 0, 0, 1]`, the sum of the two distances
from point 0 to the other points of its cluster is beyond the largest `double`: `a` is
`+inf` and the value is not a number, while `a = b = 2^1023` and `(b - a) / max(a, b)`
is 0. -/
theorem CalculateSilhouette_double_nan :
    (List.range 4).map
        (SilhouetteSerial64 Zero_D 4 2 (fun q => S4_labels.getD q 0)
          (silHist (fun q => S4_labels.getD q 0) 4) (fun _ => .fin 0)) =
      [.nan, .nan, .nan, .nan] ∧
    silBav64 Huge_D 4 2 (fun q => Huge_labels.getD q 0)
        (silHist (fun q => Huge_labels.getD q 0) 4) 0 0 = .pinf ∧
    silPoint64 Huge_D 4 2 (fun q => Huge_labels.getD q 0)
        (silHist (fun q => Huge_labels.getD q 0) 4) 0 = .nan ∧
    meanToOthers Huge_D (fun q => Huge_labels.getD q 0) 4 0 = 2 ^ 1023 ∧
    meanToCluster Huge_D (fun q => Huge_labels.getD q 0) 4 0 1 = 2 ^ 1023 ∧
    okOf (CalculateSilhouette Huge_D 4 Huge_labels 1) = some [0, 0, 0, 0] := by
  refine ⟨by decide!, by decide!, by decide!, by decide!, by decide!, by decide!⟩

/-- C23, counterexample. `Huge_D` is a dissimilarity matrix (symmetric, zero on the
diagonal, `2^1023 > 0` elsewhere, a `double`) and `[0, 0, 0, 1]` labels its four points
with two clusters, none empty. In `double` the values of the points 0, 1 and 2 are not
numbers, hence not in `[-1, 1]`. -/
theorem CalculateSilhouette_double_out_of_range :
    (∀ q p, q < 4 → p < 4 → Huge_D q p = Huge_D p q) ∧ (∀ q, q < 4 → Huge_D q q = 0) ∧
    (∀ q p, q < 4 → p < 4 → q ≠ p → 0 < Huge_D q p) ∧
    (∀ q p, q < 4 → p < 4 → Huge_D q p ≤ DBL_MAX) ∧
    Huge_labels.length = 4 ∧ (∀ c, c ∈ Huge_labels → c < 2) ∧
    (∀ m, m < 2 → (cluster (fun q => Huge_labels.getD q 0) 4 m).Nonempty) ∧
    (List.range 4).map
        (SilhouetteSerial64 Huge_D 4 2 (fun q => Huge_labels.getD q 0)
          (silHist (fun q => Huge_labels.getD q 0) 4) (fun _ => .fin 0)) =
      [.nan, .nan, .nan, .fin 0] :=
  ⟨fun q p hq hp =>
      (by decide! : ∀ q, q < 4 → ∀ p, p < 4 → Huge_D q p = Huge_D p q) q hq p hp,
    by decide!,
    fun q p hq hp =>
      (by decide! : ∀ q, q < 4 → ∀ p, p < 4 → q ≠ p → 0 < Huge_D q p) q hq p hp,
    fun q p hq hp =>
      (by decide! : ∀ q, q < 4 → ∀ p, p < 4 → Huge_D q p ≤ DBL_MAX) q hq p hp,
    rfl, by decide, by decide, by decide!⟩

/-- C38, counterexample. On `Near_state` (`k = 2`) ExploreBranches in `float` leaves a
window whose entry 0 has `DeltaTDst = -3 < 0`, the replacement of the medoid of slot 0
by point 1, and ChooseExchange returns it, so that it is committed; but the total
deviation of the medoids rises from 4 to 7. -/
theorem MultiBranch_float_raises_TD :
    Near_state.ValidD ∧ Near_state.InRange ∧ Near_state.Consistent ∧ 2 ≤ Near_state.nmed ∧
    Near_state.ExploreBranches32 (List.replicate NBRANCHES ⟨.fin 0, 0, 0, 0⟩) =
      .ok [⟨.fin (-3), 0, 1, 0⟩, ⟨.fin 0, 0, 0, 0⟩, ⟨.fin 0, 0, 0, 0⟩, ⟨.fin 0, 0, 0, 0⟩] ∧
    Near_state.ChooseExchange32
        [⟨.fin (-3), 0, 1, 0⟩, ⟨.fin 0, 0, 0, 0⟩, ⟨.fin 0, 0, 0, 0⟩, ⟨.fin 0, 0, 0, 0⟩] =
      .ok ⟨.fin (-3), 0, 1, 0⟩ ∧
    medoidsOf (Near_state.SwapRolesAndUpdate 0 1 0) = some [1, 3] ∧
    Near_state.totalDeviation Near_state.medoids = 4 ∧
    Near_state.totalDeviation (Near_state.medoids.set 0 1) = 7 :=
  ⟨Near_validD _ rfl rfl, Near_inRange _ rfl rfl rfl, Near_state_consistent, by decide,
    eq_ok_of_okOf _ _ (by decide!), eq_ok_of_okOf _ _ (by decide!), by decide!, by decide!,
    by decide!⟩
